import Mathlib

/-!
# VT parser: ground scanner, parameter accumulator, string processing,
input adapter and output engine

A shallow embedding of `src/terminal/vtparser` (`shared.cpp`, `defs.hpp`,
`v1/Parser_v1.cpp`, `DataSource.h`, the actions of `v2/OutputEngine.h`, the
enumeration `Action` of `dispatch.h`) and of `src/terminal/parser/stateMachine.cpp`.

Conventions.
* A `wchar_t` is a 16-bit unsigned code unit, embedded as a `Nat` below `65536`.
* A `VTInt` is a 32-bit signed integer, embedded as an `Int`; the arithmetic of
  `_AccumulateTo` is wrapped explicitly by `wrapInt32`.
* A `BYTE` is embedded as a `Nat` reduced modulo `256` where the source narrows;
  a byte of the input adapter is a `Nat` below `256`.
* Strings and vectors are lists, pointers into the current string are indices.
-/

namespace VtParser

/-! ## Ground scanner (`shared.cpp`) -/

/-- The scalar predicate of `shared.cpp`:
`(wch <= 0x1f) | (static_cast<wchar_t>(wch - 0x7f) <= 0x20)`, the subtraction
being reduced modulo `2^16` by the cast. -/
def isActionableFromGround (wch : Nat) : Bool :=
  decide (wch ≤ 0x1f) || decide ((wch + 65536 - 0x7f) % 65536 ≤ 0x20)

/-- The loop `for (; it < end && !isActionableFromGround(*it); ++it)` over the
characters still ahead of `it`; the result is the final value of `it`. -/
def plainLoop : List Nat → Nat → Nat
  | [], it => it
  | wch :: rest, it => if isActionableFromGround wch then it else plainLoop rest (it + 1)

/-- `findActionableFromGroundPlain(beg, end, it)` with `beg = data`,
`end = data + data.length`; returns `it - beg`. -/
def findActionableFromGroundPlain (data : List Nat) (it : Nat) : Nat :=
  plainLoop (data.drop it) it

/-- `_mm_loadu_si128(it)`: the eight 16-bit lanes starting at `it`. -/
def _mm_loadu_si128 (data : List Nat) (it : Nat) : List Nat :=
  (data.drop it).take 8

/-- `_mm_set1_epi16(v)`. -/
def _mm_set1_epi16 (v : Nat) : List Nat := List.replicate 8 v

/-- `_mm_setzero_si128()`. -/
def _mm_setzero_si128 : List Nat := List.replicate 8 0

/-- `_mm_subs_epu16`: lane-wise unsigned subtraction saturating at zero. -/
def _mm_subs_epu16 (a b : List Nat) : List Nat := List.zipWith (fun x y => x - y) a b

/-- `_mm_add_epi16`: lane-wise addition wrapping modulo `2^16`. -/
def _mm_add_epi16 (a b : List Nat) : List Nat :=
  List.zipWith (fun x y => (x + y) % 65536) a b

/-- `_mm_cmpeq_epi16`: a lane is `0xFFFF` where the operands agree, else `0`. -/
def _mm_cmpeq_epi16 (a b : List Nat) : List Nat :=
  List.zipWith (fun x y => if x = y then 0xFFFF else 0) a b

/-- `_mm_or_si128`: lane-wise bitwise or. -/
def _mm_or_si128 (a b : List Nat) : List Nat := List.zipWith (fun x y => x ||| y) a b

/-- `_mm_movemask_epi8`: one bit per byte, its most significant bit; lane `i`
contributes bit `2*i` (bit 7 of the lane) and bit `2*i+1` (bit 15 of the lane). -/
def _mm_movemask_epi8 : List Nat → Nat
  | [] => 0
  | c :: cs => c / 128 % 2 + 2 * (c / 32768 % 2) + 4 * _mm_movemask_epi8 cs

/-- Index of the lowest set bit among the low `width` bits of `mask`. -/
def bitScanForwardAux : Nat → Nat → Nat
  | 0, _ => 0
  | width + 1, mask => if mask % 2 = 1 then 0 else 1 + bitScanForwardAux width (mask / 2)

/-- `_BitScanForward(&offset, mask)` on a 32-bit mask; yields `offset`. -/
def _BitScanForward (mask : Nat) : Nat := bitScanForwardAux 32 mask

/-- The lane mask computed in the body of the vectorised loop of
`findActionableFromGround` (the `TIL_SSE_INTRINSICS` branch). -/
def sseMask (wch : List Nat) : Nat :=
  let z := _mm_setzero_si128
  let a := _mm_subs_epu16 wch (_mm_set1_epi16 0x1f)
  let b := _mm_subs_epu16 (_mm_add_epi16 wch (_mm_set1_epi16 0xff81)) (_mm_set1_epi16 0x20)
  let a := _mm_cmpeq_epi16 a z
  let b := _mm_cmpeq_epi16 b z
  let c := _mm_or_si128 a b
  _mm_movemask_epi8 c

/-- The vectorised loop `for (end = data + (count & ~7); it < end; it += 8)`.
The first argument bounds the number of iterations; when it is exhausted the
dummy value `0` is returned. -/
def sseLoop : Nat → List Nat → Nat → Nat
  | 0, _, _ => 0
  | fuel + 1, data, it =>
    if it < data.length / 8 * 8 then
      let mask := sseMask (_mm_loadu_si128 data it)
      if mask ≠ 0 then
        it + _BitScanForward mask / 2
      else
        sseLoop fuel data (it + 8)
    else
      findActionableFromGroundPlain data it

/-- `findActionableFromGround(data, count)`, `TIL_SSE_INTRINSICS` branch, with
`count = data.length`. The loop runs at most `count / 8` times. -/
def findActionableFromGround (data : List Nat) : Nat :=
  sseLoop (data.length / 8 + 1) data 0

/-- The predicate of the specification: a C0 control, DEL or an 8-bit C1 control. -/
def ActionableSpec (c : Nat) : Prop := c ≤ 0x1F ∨ (0x7F ≤ c ∧ c ≤ 0x9F)

instance : DecidablePred ActionableSpec := fun c => by unfold ActionableSpec; infer_instance

/-- The value of one lane after the two comparisons and the or. -/
def laneFlag (w : Nat) : Nat := if isActionableFromGround w then 0xFFFF else 0

/-! ## Limits (`defs.hpp`) -/

/-- `defs::MAX_PARAMETER_VALUE`. -/
def MAX_PARAMETER_VALUE : Int := 65535

/-- `defs::MAX_PARAMETER_COUNT`. -/
def MAX_PARAMETER_COUNT : Nat := 32

/-- `defs::MAX_SUBPARAMETER_COUNT`. -/
def MAX_SUBPARAMETER_COUNT : Nat := 6

/-! ## Parameter accumulation (`Parser_v1.cpp`) -/

/-- Two's-complement reduction of an integer to the range of a 32-bit `int`. -/
def wrapInt32 (x : Int) : Int := (x + 2147483648) % 4294967296 - 2147483648

/-- `_AccumulateTo(wch, value)`: returns the new content of `value`. The
arithmetic `value * 10 + digit` is carried out in 32-bit `int`. -/
def _AccumulateTo (wch : Nat) (value : Int) : Int :=
  let digit : Int := (wch : Int) - 0x30
  let value := wrapInt32 (value * 10 + digit)
  if value > MAX_PARAMETER_VALUE then MAX_PARAMETER_VALUE else value

/-- `_isParameterDelimiter`. -/
def _isParameterDelimiter (wch : Nat) : Bool := wch == 0x3B

/-- `_isSubParameterDelimiter`. -/
def _isSubParameterDelimiter (wch : Nat) : Bool := wch == 0x3A

/-- The value of a decimal numeral given by its characters. -/
def decimalValue (ds : List Nat) : Nat := ds.foldl (fun n c => 10 * n + (c - 0x30)) 0

/-- A character is a decimal digit `'0'..'9'`. -/
def IsDigit (c : Nat) : Prop := 0x30 ≤ c ∧ c ≤ 0x39

instance : DecidablePred IsDigit := fun c => by unfold IsDigit; infer_instance

/-! ## Parser state (`Parser_v1.h`) -/

/-- Modelled from the spec: the parse states listed in section 4.3; the
enumeration itself is declared in the generated header, which is not part of
the sources at hand. -/
inductive VTStates
  | Ground | Escape | EscapeIntermediate | CsiEntry | CsiIntermediate | CsiIgnore
  | CsiParam | CsiSubParam | OscParam | OscString | OscTermination | Ss3Entry
  | Ss3Param | Vt52Param | DcsEntry | DcsIntermediate | DcsIgnore | DcsParam
  | DcsPassThrough | SosPmApcString
  deriving DecidableEq, Repr

/-- A `VTParameter`: an optional `VTInt`, `none` being the empty parameter. -/
abbrev VTParameter := Option Int

/-- The calls the parser makes on its `IStateMachineEngine`, with their
arguments; `DcsStringHandler` is a call of the handler returned by
`ActionDcsDispatch`. -/
inductive EngineCall
  | ActionExecute (wch : Nat)
  | ActionExecuteFromEscape (wch : Nat)
  | ActionPrint (wch : Nat)
  | ActionPrintString (string : List Nat)
  | ActionEscDispatch (id : Nat)
  | ActionVt52EscDispatch (id : Nat) (parameters : List VTParameter)
  | ActionCsiDispatch (id : Nat) (parameters : List VTParameter)
      (subParameters : List VTParameter) (subParameterRanges : List (Nat × Nat))
  | ActionOscDispatch (parameter : Int) (string : List Nat)
  | ActionSs3Dispatch (wch : Nat) (parameters : List VTParameter)
  | ActionDcsDispatch (id : Nat) (parameters : List VTParameter)
  | ActionClear
  | DcsStringHandler (wch : Nat)
  deriving DecidableEq, Repr

/-- A call on the dispatch target (`ITermDispatch`): the two printing methods,
and every other method as a method code with its arguments. -/
inductive TermCall
  | Print (wch : Nat)
  | PrintString (string : List Nat)
  | Method (code : Nat) (args : List Int) (text : List Nat)
  deriving DecidableEq, Repr

/-- What one engine call does: the next engine state, the dispatch-target calls
it made in order, whether it invoked the flush callback handed to
`SetTerminalConnection`, whether it raised (the parser runs it under
`_SafeExecute`), and its result (for `ActionDcsDispatch`: the returned handler
is not null). -/
structure Reaction (E : Type) where
  engine : E
  calls : List TermCall
  flush : Bool
  fault : Bool
  result : Bool

/-- The engine behind the `IStateMachineEngine` interface, over its own state.
`passThrough` is the result of `ActionPassThroughString`. -/
structure Engine (E : Type) where
  react : E → EngineCall → Reaction E
  passThrough : E → List Nat → Bool

/-- The public member functions of `Parser` (`Parser_v1.h`) that the generated
base class `ParserGenerated<Parser>` may call on a transition, together with
the generated state change `Enter`. -/
inductive Op
  | Enter (st : VTStates)
  | ActionExecute | ActionPrint | ActionClear | ActionVt52EscDispatch
  | ActionExecuteFromEscape | ActionEscDispatch | ActionIgnore | ActionCollect
  | ActionParam | ActionCsiDispatch | ActionSubParam | ActionOscParam
  | ActionOscPut | ActionOscDispatch | ActionSs3Dispatch | ActionDcsDispatch
  | ExecuteCsiCompleteCallback | HandleVt52Param | ExitDcsPassThrough
  | HandleDcsPassThrough | EraseCachedSequence
  deriving DecidableEq, Repr

/-- Modelled from the spec: the parts of the program that live in the generated
header `ParserGenerated.g.h` and in `IStateMachineEngine.hpp`, neither of which
is among the sources at hand. `Proceed isC1 state isInput isAnsi wch` is the
list of member calls the transition table (section 4.3, section 9) performs for
a character in a state; `eraseOnEnter st` tells whether entering `st` also
erases the cached sequence; the last three fields are `VTIDBuilder::Clear`,
`AddIntermediate` and `Finalize` on the packed identifier. -/
structure Generated where
  Proceed : Bool → VTStates → Bool → Bool → Nat → List Op
  eraseOnEnter : VTStates → Bool
  idClear : Nat
  idAddIntermediate : Nat → Nat → Nat
  idFinalize : Nat → Nat → Nat

/-- The parameter members of `v1::Parser`: `_parameters`,
`_parameterLimitOverflowed`, `_subParameters`, `_subParameterRanges`,
`_subParameterLimitOverflowed`, `_subParameterCounter`. -/
structure ParamState where
  _parameters : List VTParameter
  _parameterLimitOverflowed : Bool
  _subParameters : List VTParameter
  _subParameterRanges : List (Nat × Nat)
  _subParameterLimitOverflowed : Bool
  _subParameterCounter : Nat
  deriving DecidableEq, Repr

/-- The members of `v1::Parser` that locate it in the string being processed.
`_curPos` is an index into `_currentString`. -/
structure Cursor where
  _currentString : List Nat
  _runOffset : Nat
  _runSize : Nat
  _curPos : Nat
  _processingLastCharacter : Bool
  deriving DecidableEq, Repr

/-- The members of `v1::Parser` (and `_state`, `_wch` of its generated base)
that describe the sequence being parsed, and the engine. `_dcsStringHandler`
records whether the handler is non-null, the handler itself living in the engine
state. -/
structure Sequence (E : Type) where
  _engine : E
  _state : VTStates
  _wch : Nat
  _identifier : Nat
  params : ParamState
  _oscString : List Nat
  _oscParameter : Int
  _dcsStringHandler : Bool

/-- The data members of `v1::Parser`, grouped: the mode (`_isEngineForInput` and
the three bits of `_parserMode`), the sequence members, the cursor members and
`_cachedSequence`. `dispatchLog` and `passThroughLog` are observation traces:
the dispatch-target calls made so far, and the strings handed to
`ActionPassThroughString` so far. -/
structure Parser (E : Type) where
  _isEngineForInput : Bool
  acceptC1 : Bool
  alwaysAcceptC1 : Bool
  ansi : Bool
  seq : Sequence E
  cur : Cursor
  _cachedSequence : Option (List Nat)
  dispatchLog : List TermCall
  passThroughLog : List (List Nat)

variable {E : Type}

/-- `_CurrentRun()`: `_currentString.substr(_runOffset, _runSize)`. -/
def _CurrentRun (p : Parser E) : List Nat :=
  (p.cur._currentString.drop p.cur._runOffset).take p.cur._runSize

/-- `v.back() = x` on a vector; the source never does this on an empty vector,
which is left unchanged here. -/
def setBack {α : Type} (v : List α) (x : α) : List α :=
  match v with
  | [] => []
  | _ :: _ => v.dropLast ++ [x]

/-- `v.back().second++` on the vector of `BYTE` ranges. -/
def bumpBackEnd (v : List (Nat × Nat)) : List (Nat × Nat) :=
  match v.getLast? with
  | none => v
  | some r => v.dropLast ++ [(r.1, (r.2 + 1) % 256)]

/-- The scan `for (; p != end; p++)` of `_ActionParam` over the characters that
follow the cursor: the number of digits consumed and the accumulated value. -/
def greedyDigits : List Nat → Int → Nat × Int
  | [], value => (0, value)
  | c :: rest, value =>
    if 0x30 ≤ c ∧ c ≤ 0x39 then
      let r := greedyDigits rest (_AccumulateTo c value)
      (r.1 + 1, r.2)
    else
      (0, value)

/-- The body of `Parser::_ActionParam(wch)` on the members it reads and writes:
the parameter members, and the characters `rest` of the current string after the
cursor. Yields the new parameter members and the distance `p - 1 - _curPos` by
which the scan moves the cursor and extends the run. -/
def paramBody (ps : ParamState) (wch : Nat) (rest : List Nat) : ParamState × Nat :=
  if !ps._parameterLimitOverflowed then
    let ps :=
      if ps._parameters.isEmpty then
        let rangeStart := ps._subParameters.length % 256
        { ps with _parameters := ps._parameters ++ [none],
                  _subParameterRanges := ps._subParameterRanges ++ [(rangeStart, rangeStart)] }
      else ps
    if _isParameterDelimiter wch then
      if ps._parameters.length ≥ MAX_PARAMETER_COUNT then
        ({ ps with _parameterLimitOverflowed := true }, 0)
      else
        let rangeStart := ps._subParameters.length % 256
        ({ ps with _parameters := ps._parameters ++ [none],
                   _subParameterCounter := 0,
                   _subParameterLimitOverflowed := false,
                   _subParameterRanges := ps._subParameterRanges ++ [(rangeStart, rangeStart)] }, 0)
    else
      let currentParameter := (ps._parameters.getLast?.getD none).getD 0
      let currentParameter := _AccumulateTo wch currentParameter
      let scan := greedyDigits rest currentParameter
      ({ ps with _parameters := setBack ps._parameters (some scan.2) }, scan.1)
  else (ps, 0)

/-- `Parser::_ActionParam(wch)`. The scan reads the characters after the cursor
up to the end of the current string. -/
def _ActionParam (p : Parser E) (wch : Nat) : Parser E :=
  let r := paramBody p.seq.params wch (p.cur._currentString.drop (p.cur._curPos + 1))
  { p with seq := { p.seq with params := r.1 },
           cur := { p.cur with _runSize := p.cur._runSize + r.2,
                               _curPos := p.cur._curPos + r.2 } }

/-- The body of `Parser::_ActionSubParam(wch)` on the parameter members. -/
def subParamBody (ps : ParamState) (wch : Nat) : ParamState :=
  if !ps._subParameterLimitOverflowed then
    let ps :=
      if ps._parameters.isEmpty then
        let rangeStart := ps._subParameters.length % 256
        { ps with _parameters := ps._parameters ++ [none],
                  _subParameterRanges := ps._subParameterRanges ++ [(rangeStart, rangeStart)] }
      else ps
    if _isSubParameterDelimiter wch then
      if ps._subParameterCounter ≥ MAX_SUBPARAMETER_COUNT then
        { ps with _subParameterLimitOverflowed := true }
      else
        { ps with _subParameters := ps._subParameters ++ [none],
                  _subParameterRanges := bumpBackEnd ps._subParameterRanges,
                  _subParameterCounter := (ps._subParameterCounter + 1) % 256 }
    else
      let currentSubParameter := (ps._subParameters.getLast?.getD none).getD 0
      let currentSubParameter := _AccumulateTo wch currentSubParameter
      { ps with _subParameters := setBack ps._subParameters (some currentSubParameter) }
  else ps

/-- `Parser::_ActionSubParam(wch)`. -/
def _ActionSubParam (p : Parser E) (wch : Nat) : Parser E :=
  { p with seq := { p.seq with params := subParamBody p.seq.params wch } }

/-- The parameter members after `_ActionClear`. -/
def ParamState.cleared : ParamState :=
  { _parameters := [], _parameterLimitOverflowed := false,
    _subParameters := [], _subParameterRanges := [],
    _subParameterLimitOverflowed := false, _subParameterCounter := 0 }

/-- A parser in `Ground` with every vector empty and every flag clear, the
parser mode at its default (`Ansi` only); `mode` is `_isEngineForInput`. -/
def Parser.init (engine : E) (mode : Bool) : Parser E :=
  { _isEngineForInput := mode, acceptC1 := false, alwaysAcceptC1 := false, ansi := true,
    seq := { _engine := engine, _state := VTStates.Ground, _wch := 0, _identifier := 0,
             params := ParamState.cleared,
             _oscString := [], _oscParameter := 0, _dcsStringHandler := false },
    cur := { _currentString := [], _runOffset := 0, _runSize := 0, _curPos := 0,
             _processingLastCharacter := false },
    _cachedSequence := none, dispatchLog := [], passThroughLog := [] }

/-! ## Engine calls and flushing (`stateMachine.cpp`, `Parser_v1.cpp`) -/

/-- `StateMachine::FlushToTerminal()`: the new parser state and the returned
`success`. Each `ActionPassThroughString` call is recorded in `passThroughLog`. -/
def FlushToTerminal (eng : Engine E) (p : Parser E) : Parser E × Bool :=
  let success := true
  let r : Parser E × Bool :=
    match success, p._cachedSequence with
    | true, some cached =>
      let success := eng.passThrough p.seq._engine cached
      ({ p with passThroughLog := p.passThroughLog ++ [cached], _cachedSequence := none }, success)
    | _, _ => (p, success)
  let p := r.1
  let success := r.2
  if success then
    let success := eng.passThrough p.seq._engine (_CurrentRun p)
    ({ p with passThroughLog := p.passThroughLog ++ [_CurrentRun p] }, success)
  else
    (p, success)

/-- One call `_SafeExecute([=]() { return _engine->Action...; })`: the engine
reacts, its dispatch-target calls are appended to the trace, and when the engine
invoked the flush callback `FlushToTerminal` runs. The second component is the
value `_SafeExecute` returns. -/
def callEngine (eng : Engine E) (p : Parser E) (c : EngineCall) : Parser E × Bool :=
  let r := eng.react p.seq._engine c
  let p := { p with seq := { p.seq with _engine := r.engine },
                    dispatchLog := p.dispatchLog ++ r.calls }
  let p := if r.flush then (FlushToTerminal eng p).1 else p
  (p, !r.fault && r.result)

/-- The generated `EnterGround()`, `EnterDcsIgnore()`, ...: sets `_state`. -/
def Enter (g : Generated) (p : Parser E) (st : VTStates) : Parser E :=
  { p with seq := { p.seq with _state := st },
           _cachedSequence := if g.eraseOnEnter st then none else p._cachedSequence }

/-- `Parser::_ActionExecute`. -/
def _ActionExecute (eng : Engine E) (p : Parser E) (wch : Nat) : Parser E :=
  (callEngine eng p (EngineCall.ActionExecute wch)).1

/-- `Parser::_ActionExecuteFromEscape`. -/
def _ActionExecuteFromEscape (eng : Engine E) (p : Parser E) (wch : Nat) : Parser E :=
  (callEngine eng p (EngineCall.ActionExecuteFromEscape wch)).1

/-- `Parser::_ActionPrint`. -/
def _ActionPrint (eng : Engine E) (p : Parser E) (wch : Nat) : Parser E :=
  (callEngine eng p (EngineCall.ActionPrint wch)).1

/-- `Parser::_ActionPrintString`. -/
def _ActionPrintString (eng : Engine E) (p : Parser E) (string : List Nat) : Parser E :=
  (callEngine eng p (EngineCall.ActionPrintString string)).1

/-- `Parser::_ActionEscDispatch`. -/
def _ActionEscDispatch (g : Generated) (eng : Engine E) (p : Parser E) (wch : Nat) : Parser E :=
  (callEngine eng p (EngineCall.ActionEscDispatch (g.idFinalize p.seq._identifier wch))).1

/-- `Parser::_ActionVt52EscDispatch`. -/
def _ActionVt52EscDispatch (g : Generated) (eng : Engine E) (p : Parser E) (wch : Nat) :
    Parser E :=
  (callEngine eng p
    (EngineCall.ActionVt52EscDispatch (g.idFinalize p.seq._identifier wch)
      p.seq.params._parameters)).1

/-- `Parser::_ActionCsiDispatch`. -/
def _ActionCsiDispatch (g : Generated) (eng : Engine E) (p : Parser E) (wch : Nat) : Parser E :=
  (callEngine eng p
    (EngineCall.ActionCsiDispatch (g.idFinalize p.seq._identifier wch) p.seq.params._parameters
      p.seq.params._subParameters p.seq.params._subParameterRanges)).1

/-- `Parser::_ActionCollect`. -/
def _ActionCollect (g : Generated) (p : Parser E) (wch : Nat) : Parser E :=
  { p with seq := { p.seq with _identifier := g.idAddIntermediate p.seq._identifier wch } }

/-- `Parser::_ActionClear`. -/
def _ActionClear (g : Generated) (eng : Engine E) (p : Parser E) : Parser E :=
  let p := { p with seq := { p.seq with _identifier := g.idClear,
                                        params := ParamState.cleared,
                                        _oscString := [], _oscParameter := 0,
                                        _dcsStringHandler := false } }
  (callEngine eng p EngineCall.ActionClear).1

/-- `Parser::_ActionOscParam`. -/
def _ActionOscParam (p : Parser E) (wch : Nat) : Parser E :=
  { p with seq := { p.seq with _oscParameter := _AccumulateTo wch p.seq._oscParameter } }

/-- `Parser::_ActionOscPut`. -/
def _ActionOscPut (p : Parser E) (wch : Nat) : Parser E :=
  { p with seq := { p.seq with _oscString := p.seq._oscString ++ [wch] } }

/-- `Parser::_ActionOscDispatch`. -/
def _ActionOscDispatch (eng : Engine E) (p : Parser E) (_wch : Nat) : Parser E :=
  (callEngine eng p (EngineCall.ActionOscDispatch p.seq._oscParameter p.seq._oscString)).1

/-- `Parser::_ActionSs3Dispatch`. -/
def _ActionSs3Dispatch (eng : Engine E) (p : Parser E) (wch : Nat) : Parser E :=
  (callEngine eng p (EngineCall.ActionSs3Dispatch wch p.seq.params._parameters)).1

/-- `Parser::_ActionDcsDispatch`: the handler is assigned unless the engine call
raised; a null handler or a fault leads to `DcsIgnore`. -/
def _ActionDcsDispatch (g : Generated) (eng : Engine E) (p : Parser E) (wch : Nat) : Parser E :=
  let call := EngineCall.ActionDcsDispatch (g.idFinalize p.seq._identifier wch)
    p.seq.params._parameters
  let r := eng.react p.seq._engine call
  let c := callEngine eng p call
  let p := if r.fault then c.1
    else { c.1 with seq := { c.1.seq with _dcsStringHandler := r.result } }
  if c.2 then Enter g p VTStates.DcsPassThrough else Enter g p VTStates.DcsIgnore

/-- `Parser::HandleVt52Param`. -/
def HandleVt52Param (g : Generated) (eng : Engine E) (p : Parser E) : Parser E :=
  let p := { p with seq := { p.seq with params := { p.seq.params with
    _parameters := p.seq.params._parameters ++ [some (p.seq._wch : Int)] } } }
  if p.seq.params._parameters.length = 2 then
    Enter g (_ActionVt52EscDispatch g eng p 0x59) VTStates.Ground
  else p

/-- `Parser::ExitDcsPassThrough`. -/
def ExitDcsPassThrough (eng : Engine E) (p : Parser E) : Parser E :=
  let p := (callEngine eng p (EngineCall.DcsStringHandler 0x1b)).1
  { p with seq := { p.seq with _dcsStringHandler := false } }

/-- `Parser::HandleDcsPassThrough`. -/
def HandleDcsPassThrough (g : Generated) (eng : Engine E) (p : Parser E) : Parser E :=
  let r := eng.react p.seq._engine (EngineCall.DcsStringHandler p.seq._wch)
  let p := (callEngine eng p (EngineCall.DcsStringHandler p.seq._wch)).1
  if !r.result then Enter g p VTStates.DcsIgnore else p

/-- `Parser::ResetState`. -/
def ResetState (g : Generated) (p : Parser E) : Parser E := Enter g p VTStates.Ground

/-- `Parser::EraseCachedSequence`. -/
def EraseCachedSequence (p : Parser E) : Parser E := { p with _cachedSequence := none }

/-- One member call made by the generated `Proceed`. The callback slot
`_onCsiCompleteCallback` is empty throughout (no dispatch target registers one
here), so `ExecuteCsiCompleteCallback` has nothing to run. -/
def runOp (g : Generated) (eng : Engine E) (p : Parser E) : Op → Parser E
  | Op.Enter st => Enter g p st
  | Op.ActionExecute => _ActionExecute eng p p.seq._wch
  | Op.ActionPrint => _ActionPrint eng p p.seq._wch
  | Op.ActionClear => _ActionClear g eng p
  | Op.ActionVt52EscDispatch => _ActionVt52EscDispatch g eng p p.seq._wch
  | Op.ActionExecuteFromEscape => _ActionExecuteFromEscape eng p p.seq._wch
  | Op.ActionEscDispatch => _ActionEscDispatch g eng p p.seq._wch
  | Op.ActionIgnore => p
  | Op.ActionCollect => _ActionCollect g p p.seq._wch
  | Op.ActionParam => _ActionParam p p.seq._wch
  | Op.ActionCsiDispatch => _ActionCsiDispatch g eng p p.seq._wch
  | Op.ActionSubParam => _ActionSubParam p p.seq._wch
  | Op.ActionOscParam => _ActionOscParam p p.seq._wch
  | Op.ActionOscPut => _ActionOscPut p p.seq._wch
  | Op.ActionOscDispatch => _ActionOscDispatch eng p p.seq._wch
  | Op.ActionSs3Dispatch => _ActionSs3Dispatch eng p p.seq._wch
  | Op.ActionDcsDispatch => _ActionDcsDispatch g eng p p.seq._wch
  | Op.ExecuteCsiCompleteCallback => p
  | Op.HandleVt52Param => HandleVt52Param g eng p
  | Op.ExitDcsPassThrough => ExitDcsPassThrough eng p
  | Op.HandleDcsPassThrough => HandleDcsPassThrough g eng p
  | Op.EraseCachedSequence => EraseCachedSequence p

/-- The generated `Proceed<isC1>(wch)`: stores the character in `_wch` and makes
the member calls the table lists for the current state. -/
def Proceed (g : Generated) (eng : Engine E) (isC1 : Bool) (p : Parser E) (wch : Nat) :
    Parser E :=
  let p := { p with seq := { p.seq with _wch := wch } }
  (g.Proceed isC1 p.seq._state p._isEngineForInput p.ansi wch).foldl (runOp g eng) p

/-- `Parser::ProcessCharacter(wch)`. -/
def ProcessCharacter (g : Generated) (eng : Engine E) (p : Parser E) (wch : Nat) : Parser E :=
  if 0x80 ≤ wch ∧ wch ≤ 0x9F then
    if p.acceptC1 || p.alwaysAcceptC1 then
      let p := Proceed g eng true p 0x1B
      Proceed g eng true p (wch - 0x40)
    else p
  else
    Proceed g eng false p wch

/-! ## `Parser::ProcessString` -/

/-- The three places of the scan of `ProcessString` at which control can stand:
the head of `while (i < string.size())`, the label `processStringLoopVtStart`,
and the head of the body of the `do ... while`. -/
inductive Loc
  | whileHead | vtStart | doBody
  deriving DecidableEq, Repr

/-- The printable run at the head of the `while` body (lines 33 to 45): the new
parser state and the new value of `i`. -/
def groundStep (eng : Engine E) (p : Parser E) (i : Nat) : Parser E × Nat :=
  let p := { p with cur := { p.cur with
    _runOffset := i,
    _runSize := findActionableFromGround (p.cur._currentString.drop i) } }
  if p.cur._runSize ≠ 0 then
    let p := _ActionPrintString eng p (_CurrentRun p)
    let i := i + p.cur._runSize
    ({ p with cur := { p.cur with _runOffset := i, _runSize := 0 } }, i)
  else
    (p, i)

/-- The state in which `ProcessCharacter(*_curPos)` is called in the body of the
`do ... while` (lines 57 and 58). -/
def beforeCharacter (p : Parser E) : Parser E :=
  { p with cur := { p.cur with
    _runSize := p.cur._runSize + 1,
    _processingLastCharacter := decide (p.cur._curPos + 1 ≥ p.cur._currentString.length) } }

/-- One pass through the body of the `do ... while` (lines 57 to 61). -/
def doBodyStep (g : Generated) (eng : Engine E) (p : Parser E) : Parser E :=
  let p := beforeCharacter p
  let p := ProcessCharacter g eng p (p.cur._currentString.getD p.cur._curPos 0)
  { p with cur := { p.cur with _curPos := p.cur._curPos + 1 } }

/-- The scan of `ProcessString` (lines 30 to 64), one control step per unit of
the first argument; `i` is the local variable of that name. -/
def scan (g : Generated) (eng : Engine E) : Nat → Loc → Nat → Parser E → Parser E
  | 0, _, _, p => p
  | fuel + 1, Loc.whileHead, i, p =>
    if i < p.cur._currentString.length then
      scan g eng fuel Loc.vtStart (groundStep eng p i).2 (groundStep eng p i).1
    else p
  | fuel + 1, Loc.vtStart, i, p =>
    if i ≥ p.cur._currentString.length then p
    else scan g eng fuel Loc.doBody i { p with cur := { p.cur with _curPos := i } }
  | fuel + 1, Loc.doBody, i, p =>
    if (doBodyStep g eng p).cur._curPos < (doBodyStep g eng p).cur._currentString.length
        ∧ (doBodyStep g eng p).seq._state ≠ VTStates.Ground then
      scan g eng fuel Loc.doBody i (doBodyStep g eng p)
    else
      scan g eng fuel Loc.whileHead (doBodyStep g eng p).cur._curPos (doBodyStep g eng p)

/-- The forced dispatch of the last character in input mode (the `switch` of
lines 103 to 128). -/
def forceDispatch (g : Generated) (eng : Engine E) (p : Parser E) (wch : Nat) : Parser E :=
  match p.seq._state with
  | VTStates.Ground => _ActionExecute eng p wch
  | VTStates.Escape | VTStates.EscapeIntermediate => _ActionEscDispatch g eng p wch
  | VTStates.CsiEntry | VTStates.CsiIntermediate | VTStates.CsiIgnore
  | VTStates.CsiParam | VTStates.CsiSubParam => _ActionCsiDispatch g eng p wch
  | VTStates.OscParam | VTStates.OscString | VTStates.OscTermination =>
    _ActionOscDispatch eng p wch
  | VTStates.Ss3Entry | VTStates.Ss3Param => _ActionSs3Dispatch eng p wch
  | _ => p

/-- The states in which the end of `ProcessString` caches the run in output
mode: every state but `Ground`, `SosPmApcString`, `DcsPassThrough`, `DcsIgnore`. -/
def cacheable (st : VTStates) : Bool :=
  decide (st ≠ VTStates.Ground) && decide (st ≠ VTStates.SosPmApcString)
    && decide (st ≠ VTStates.DcsPassThrough) && decide (st ≠ VTStates.DcsIgnore)

/-- The block of `ProcessString` after the scan (lines 66 to 148). In input mode
the last character of the run is read at `run.cend() - 1`; for an empty run the
model reads the character at the run offset. -/
def endOfString (g : Generated) (eng : Engine E) (p : Parser E) : Parser E :=
  if p.seq._state ≠ VTStates.Ground then
    let run := _CurrentRun p
    if p._isEngineForInput then
      let p := ResetState g p
      let p := { p with cur := { p.cur with _processingLastCharacter := false } }
      let p := run.dropLast.foldl (ProcessCharacter g eng) p
      let p := { p with cur := { p.cur with _processingLastCharacter := true } }
      let p := forceDispatch g eng p
        (run.getLast?.getD (p.cur._currentString.getD p.cur._runOffset 0))
      Enter g p VTStates.Ground
    else if p.seq._state ≠ VTStates.SosPmApcString ∧ p.seq._state ≠ VTStates.DcsPassThrough
        ∧ p.seq._state ≠ VTStates.DcsIgnore then
      { p with _cachedSequence := some (p._cachedSequence.getD [] ++ run) }
    else p
  else p

/-- The initialisation of `ProcessString(string)` (lines 16 to 19). -/
def startString (p : Parser E) (string : List Nat) : Parser E :=
  { p with cur := { p.cur with _currentString := string, _runOffset := 0, _runSize := 0 } }

/-- The scan of `ProcessString(string)`: the initialisation of lines 16 to 28
followed by the loop. Every control step consumes a character or is followed
within two steps by one that does, so `3 * string.length + 3` steps suffice. -/
def scanString (g : Generated) (eng : Engine E) (p : Parser E) (string : List Nat) : Parser E :=
  let p := startString p string
  if p.seq._state ≠ VTStates.Ground then
    scan g eng (3 * string.length + 3) Loc.vtStart 0 p
  else
    scan g eng (3 * string.length + 3) Loc.whileHead 0 p

/-- `Parser::ProcessString(string)`. -/
def ProcessString (g : Generated) (eng : Engine E) (p : Parser E) (string : List Nat) : Parser E :=
  endOfString g eng (scanString g eng p string)

/-! ## Driving the parameter actions -/

/-- The loop `do { ...(*_curPos); ++_curPos; } while (_curPos < stringEnd)` of
`ProcessString` with the action `step` applied to the character under the
cursor; the first argument bounds the number of iterations. -/
def actLoop (step : Parser E → Nat → Parser E) : Nat → Parser E → Parser E
  | 0, p => p
  | fuel + 1, p =>
    if p.cur._curPos < p.cur._currentString.length then
      let p := step p (p.cur._currentString.getD p.cur._curPos 0)
      actLoop step fuel { p with cur := { p.cur with _curPos := p.cur._curPos + 1 } }
    else p

/-- Applying the Param action to the characters of `string` in order. -/
def applyParam (p : Parser E) (string : List Nat) : Parser E :=
  actLoop _ActionParam string.length
    { p with cur := { p.cur with _currentString := string, _curPos := 0 } }

/-- Modelled from the spec: the rows of the generated transition table for the
parameter characters of a control sequence (sections 4.3 and 6.1). In
`CsiSubParam` the delimiter `;` is a Param action that enters `CsiParam` and any
other parameter character is a SubParam action; in the other states `:` is a
SubParam action that enters `CsiSubParam` and any other parameter character is a
Param action. -/
def csiParamProceed (p : Parser E) (wch : Nat) : Parser E :=
  if p.seq._state = VTStates.CsiSubParam then
    if _isParameterDelimiter wch then
      let p := _ActionParam p wch
      { p with seq := { p.seq with _state := VTStates.CsiParam } }
    else _ActionSubParam p wch
  else
    if _isSubParameterDelimiter wch then
      let p := _ActionSubParam p wch
      { p with seq := { p.seq with _state := VTStates.CsiSubParam } }
    else _ActionParam p wch

/-- Feeding the parameter characters `string` of a control sequence to the
Param and SubParam actions. -/
def applyCsi (p : Parser E) (string : List Nat) : Parser E :=
  actLoop csiParamProceed string.length
    { p with cur := { p.cur with _currentString := string, _curPos := 0 } }

/-- The parser on entry to a control sequence: cleared, in `CsiEntry`. -/
def csiEntry (g : Generated) (eng : Engine E) (p : Parser E) : Parser E :=
  let p := _ActionClear g eng p
  { p with seq := { p.seq with _state := VTStates.CsiEntry } }

/-- The effect of `csiParamProceed` on the parameter members and on the routing
(`true` in `CsiSubParam`) when no digit follows the character in the current
string. -/
def stepFields (f : ParamState × Bool) (wch : Nat) : ParamState × Bool :=
  if f.2 then
    if _isParameterDelimiter wch then ((paramBody f.1 wch []).1, false)
    else (subParamBody f.1 wch, true)
  else
    if _isSubParameterDelimiter wch then (subParamBody f.1 wch, true)
    else ((paramBody f.1 wch []).1, false)

/-- The parameter members of a parser and its routing. -/
def fieldsOf (p : Parser E) : ParamState × Bool :=
  (p.seq.params, decide (p.seq._state = VTStates.CsiSubParam))

/-- The fields of a parameter string: the pieces between the `;` delimiters. -/
def splitOnSemi : List Nat → List (List Nat)
  | [] => [[]]
  | c :: cs =>
    if c = 0x3B then [] :: splitOnSemi cs
    else
      match splitOnSemi cs with
      | [] => [[c]]
      | f :: fs => (c :: f) :: fs

/-- The parameter a field stands for: empty without digits, else the decimal
value of the field clamped to 65535. -/
def fieldValue (f : List Nat) : VTParameter :=
  if f = [] then none else some ((min (decimalValue f) 65535 : Nat) : Int)

/-- The characters of a list of sub-fields, each introduced by `:`. -/
def subFieldChars (fields : List (List Nat)) : List Nat :=
  (fields.map (fun f => 0x3A :: f)).flatten

/-- An engine that makes no dispatch-target call and reports failure. -/
def nullEngine : Engine Unit :=
  { react := fun e _ => { engine := e, calls := [], flush := false, fault := false, result := false },
    passThrough := fun _ _ => true }

/-- A transition table without any transition. -/
def nullGenerated : Generated :=
  { Proceed := fun _ _ _ _ _ => [], eraseOnEnter := fun _ => false,
    idClear := 0, idAddIntermediate := fun a _ => a, idFinalize := fun a _ => a }

/-- The first step of both parameter actions: `if (_parameters.empty())`, add an
empty parameter with an empty range. -/
def ensureParam (ps : ParamState) : ParamState :=
  if ps._parameters.isEmpty then
    { ps with _parameters := ps._parameters ++ [none],
              _subParameterRanges := ps._subParameterRanges
                ++ [(ps._subParameters.length % 256, ps._subParameters.length % 256)] }
  else ps

/-- The value the Param action accumulates into: that of the current parameter. -/
def currentValue (ps : ParamState) : Int := ((ensureParam ps)._parameters.getLast?.getD none).getD 0

/-- The parameter that results from accumulating the digits `f` into `last`. -/
def extendParam (last : VTParameter) (f : List Nat) : VTParameter :=
  if f = [] then last else some (f.foldl (fun a c => _AccumulateTo c a) (last.getD 0))

/-- The parameters a list of fields stands for when the first field continues
the parameter `last`. -/
def fieldParams (last : VTParameter) : List (List Nat) → List VTParameter
  | [] => [last]
  | f :: fs => extendParam last f :: fs.map fieldValue

/-- A parameter character without sub-parameters: a digit or `;`. -/
def IsParamChar (c : Nat) : Prop := IsDigit c ∨ c = 0x3B

instance : DecidablePred IsParamChar := fun c => by unfold IsParamChar; infer_instance

/-- A parameter character of a control sequence: a digit, `;` or `:`. -/
def IsCsiParamChar (c : Nat) : Prop := IsDigit c ∨ c = 0x3B ∨ c = 0x3A

instance : DecidablePred IsCsiParamChar := fun c => by unfold IsCsiParamChar; infer_instance

/-- The invariant of the parameter members. -/
def ParamInv (qs : ParamState) : Prop :=
  qs._subParameterRanges.length = qs._parameters.length ∧
  qs._parameters.length ≤ 32 ∧
  qs._subParameterCounter ≤ 6 ∧
  (qs._parameters = [] → qs._subParameters = [] ∧ qs._subParameterCounter = 0) ∧
  (qs._parameters ≠ [] →
    qs._subParameters.length + 6 ≤ 6 * qs._parameters.length + qs._subParameterCounter) ∧
  (∀ r ∈ qs._subParameterRanges, r.1 ≤ r.2 ∧ r.2 ≤ r.1 + 6 ∧ r.2 ≤ qs._subParameters.length) ∧
  (∀ r, qs._subParameterRanges.getLast? = some r →
    r.2 = qs._subParameters.length ∧ r.2 = r.1 + qs._subParameterCounter)

/-- How a step of the state machine may move the cursor members: the string,
the run offset and the last-character flag stay, the run size and the cursor
advance by the same amount, and the cursor stays inside the string. -/
def CurStep (p q : Parser E) : Prop :=
  q.cur._currentString = p.cur._currentString ∧ q.cur._runOffset = p.cur._runOffset ∧
  q.cur._processingLastCharacter = p.cur._processingLastCharacter ∧
  ∃ k, q.cur._runSize = p.cur._runSize + k ∧ q.cur._curPos = p.cur._curPos + k ∧
    (p.cur._curPos < p.cur._currentString.length →
      p.cur._curPos + k < p.cur._currentString.length)

/-- The number of control steps that `scan` needs at most from a place of the
loop, for a string of length `len` with `pos` characters consumed. -/
def need (loc : Loc) (len pos : Nat) : Nat :=
  match loc with
  | Loc.whileHead => 3 * (len - pos) + 2
  | Loc.vtStart => 3 * (len - pos) + 1
  | Loc.doBody => 3 * (len - pos)

/-- The position in the string at a place of the loop: `i`, or the cursor inside
the `do ... while`. -/
def posAt (loc : Loc) (i : Nat) (p : Parser E) : Nat :=
  match loc with
  | Loc.doBody => p.cur._curPos
  | _ => i

/-- What holds of the cursor members at each place of the loop of
`ProcessString`. -/
def ScanInv (loc : Loc) (i : Nat) (p : Parser E) : Prop :=
  match loc with
  | Loc.whileHead =>
    i ≤ p.cur._currentString.length ∧
    (p.seq._state ≠ VTStates.Ground →
      i = p.cur._currentString.length ∧
      p.cur._runOffset + p.cur._runSize = p.cur._currentString.length)
  | Loc.vtStart =>
    i ≤ p.cur._currentString.length ∧ p.cur._runOffset = i ∧ p.cur._runSize = 0
  | Loc.doBody =>
    p.cur._curPos < p.cur._currentString.length ∧
    p.cur._runOffset + p.cur._runSize = p.cur._curPos

/-- The mode of a parser: `_isEngineForInput` and the bits of `_parserMode`. -/
def modeOf (p : Parser E) : Bool × Bool × Bool × Bool :=
  (p._isEngineForInput, p.acceptC1, p.alwaysAcceptC1, p.ansi)

/-- The state in which `ProcessString(string)` enters the `do ... while` when it
is called outside `Ground`: the initialisation, the jump to
`processStringLoopVtStart` and `_curPos = string.data()`. -/
def enterSequence (p : Parser E) (string : List Nat) : Parser E :=
  { startString p string with cur := { (startString p string).cur with _curPos := 0 } }

/-- The parser states at the head of the body of the `do ... while` from `start`
on, for as long as the loop goes on, that is as long as characters remain and the
parser has not returned to `Ground`. -/
inductive InRun (g : Generated) (eng : Engine E) (start : Parser E) : Parser E → Prop
  | first : InRun g eng start start
  | next (r : Parser E) : InRun g eng start r →
      (doBodyStep g eng r).cur._curPos < (doBodyStep g eng r).cur._currentString.length →
      (doBodyStep g eng r).seq._state ≠ VTStates.Ground →
      InRun g eng start (doBodyStep g eng r)

/-- A small transition table in the manner of section 4.3, for control
sequences with parameters: `ESC` leaves `Ground`, `[` opens the control
sequence, digits and `;` are Param actions, `:` and what follows it up to the
next `;` are SubParam actions, and a final character dispatches and returns to
`Ground`, which erases the cached sequence. -/
def csiTable : Generated :=
  { Proceed := fun _ st _ _ wch =>
      match st with
      | VTStates.Ground =>
        if wch = 0x1B then [Op.Enter VTStates.Escape, Op.ActionClear] else [Op.ActionExecute]
      | VTStates.Escape =>
        if wch = 0x5B then [Op.Enter VTStates.CsiEntry, Op.ActionClear]
        else [Op.ActionEscDispatch, Op.Enter VTStates.Ground]
      | VTStates.CsiEntry =>
        if 0x30 ≤ wch ∧ wch ≤ 0x39 then [Op.ActionParam, Op.Enter VTStates.CsiParam]
        else if wch = 0x3B then [Op.ActionParam, Op.Enter VTStates.CsiParam]
        else if wch = 0x3A then [Op.ActionSubParam, Op.Enter VTStates.CsiSubParam]
        else [Op.ActionCsiDispatch, Op.Enter VTStates.Ground]
      | VTStates.CsiParam =>
        if 0x30 ≤ wch ∧ wch ≤ 0x39 then [Op.ActionParam]
        else if wch = 0x3B then [Op.ActionParam]
        else if wch = 0x3A then [Op.ActionSubParam, Op.Enter VTStates.CsiSubParam]
        else [Op.ActionCsiDispatch, Op.Enter VTStates.Ground]
      | VTStates.CsiSubParam =>
        if wch = 0x3B then [Op.ActionParam, Op.Enter VTStates.CsiParam]
        else if (0x30 ≤ wch ∧ wch ≤ 0x39) ∨ wch = 0x3A then [Op.ActionSubParam]
        else [Op.ActionCsiDispatch, Op.Enter VTStates.Ground]
      | _ => [Op.Enter VTStates.Ground],
    eraseOnEnter := fun st => decide (st = VTStates.Ground),
    idClear := 0,
    idAddIntermediate := fun a c => a * 256 + c,
    idFinalize := fun a c => a * 256 + c }

/-! ## Chunked input -/

/-- What the dispatch target is asked to show, with a printed string taken
character by character: one printed character, or a call other than
`PrintString`. -/
inductive Shown
  | printed (c : Nat)
  | call (t : TermCall)
  deriving DecidableEq, Repr

/-- The characters of a `PrintString` call, or the call itself. -/
def shown : TermCall → List Shown
  | TermCall.PrintString string => string.map Shown.printed
  | t => [Shown.call t]

/-- The dispatch-target calls of a trace with every `PrintString` call replaced
by its characters, so that adjacent `PrintString` calls count as one. -/
def shownLog (log : List TermCall) : List Shown := log.flatMap shown

/-- The characters of the current string after the one under the cursor: what
the scan of `_ActionParam` can read. -/
def look (p : Parser E) : List Nat := p.cur._currentString.drop (p.cur._curPos + 1)

/-- Two parsers agree on the mode, on the sequence members and on the
dispatch-target calls made so far. -/
def Rel (p q : Parser E) : Prop :=
  modeOf p = modeOf q ∧ p.seq = q.seq ∧ shownLog p.dispatchLog = shownLog q.dispatchLog

/-- As `Rel`, except for `_wch`, which `Proceed` overwrites before any member
call reads it. -/
def Sim (p q : Parser E) : Prop :=
  modeOf p = modeOf q ∧ { p.seq with _wch := 0 } = { q.seq with _wch := 0 } ∧
  shownLog p.dispatchLog = shownLog q.dispatchLog

/-- The effect of one character when no character follows it in the current
string: in `Ground` a character that is not actionable is printed as a run of
its own (lines 33 to 45 of `ProcessString`), any other character goes to
`ProcessCharacter`. -/
def charStep (g : Generated) (eng : Engine E) (p : Parser E) (c : Nat) : Parser E :=
  if p.seq._state = VTStates.Ground ∧ isActionableFromGround c = false then
    _ActionPrintString eng p [c]
  else
    ProcessCharacter g eng { p with cur := { p.cur with _currentString := [c], _curPos := 0 } } c

/-- A condition on the transition table under which the scan of `_ActionParam`
over the digits that follow is the same as taking them one by one: the Param
action is reached only by `;` or by a digit, and a digit row holding it is the
Param action alone or followed by the entry into a state other than `Ground`,
the state reached treating every digit by the Param action alone. -/
def ParamRows (g : Generated) : Prop :=
  ∀ (isC1 : Bool) (st : VTStates) (isInput ansi : Bool) (wch : Nat),
    Op.ActionParam ∈ g.Proceed isC1 st isInput ansi wch →
    wch = 0x3B ∨
    (IsDigit wch ∧ ∃ st', st' ≠ VTStates.Ground ∧
      (g.Proceed isC1 st isInput ansi wch = [Op.ActionParam, Op.Enter st'] ∨
        (g.Proceed isC1 st isInput ansi wch = [Op.ActionParam] ∧ st' = st)) ∧
      ∀ d, IsDigit d → g.Proceed false st' isInput ansi d = [Op.ActionParam])

/-- A condition on the engine: printing a run of characters that are not
actionable in two calls leaves the engine as printing it in one call does, and
shows the same characters. -/
def PrintSplits (eng : Engine E) : Prop :=
  ∀ (e : E) (a b : List Nat), a ≠ [] → b ≠ [] →
    (∀ c ∈ a ++ b, isActionableFromGround c = false) →
    (eng.react (eng.react e (EngineCall.ActionPrintString a)).engine
        (EngineCall.ActionPrintString b)).engine
      = (eng.react e (EngineCall.ActionPrintString (a ++ b))).engine ∧
    shownLog ((eng.react e (EngineCall.ActionPrintString a)).calls
        ++ (eng.react (eng.react e (EngineCall.ActionPrintString a)).engine
          (EngineCall.ActionPrintString b)).calls)
      = shownLog (eng.react e (EngineCall.ActionPrintString (a ++ b))).calls

/-- The two print actions of `OutputStateMachineEngine` (`OutputEngine.h`, lines
204 to 234) over the member `_lastPrintedChar`. The other actions are left out:
here they make no dispatch-target call and report failure. -/
def printEngine : Engine Nat :=
  { react := fun last call =>
      match call with
      | EngineCall.ActionPrint wch =>
        { engine := if wch ≥ 0x20 then wch else last, calls := [TermCall.Print wch],
          flush := false, fault := false, result := true }
      | EngineCall.ActionPrintString string =>
        if string.isEmpty then
          { engine := last, calls := [], flush := false, fault := false, result := true }
        else
          { engine := if string.getLast?.getD 0 ≥ 0x20 then string.getLast?.getD 0 else last,
            calls := [TermCall.PrintString string],
            flush := false, fault := false, result := true }
      | _ => { engine := last, calls := [], flush := false, fault := false, result := false },
    passThrough := fun _ _ => true }

/-- What holds at each place of the loop of `ProcessString` besides `ScanInv`:
outside `Ground` the `while` is only reached at the end of the string, and in
`Ground` the `do ... while` is only entered on an actionable character. -/
def FoldInv (loc : Loc) (i : Nat) (p : Parser E) : Prop :=
  match loc with
  | Loc.whileHead => p.seq._state ≠ VTStates.Ground → p.cur._currentString.length ≤ i
  | Loc.vtStart =>
    i < p.cur._currentString.length → p.seq._state = VTStates.Ground →
      isActionableFromGround (p.cur._currentString.getD i 0) = true
  | Loc.doBody =>
    p.cur._curPos < p.cur._currentString.length ∧
    (p.seq._state = VTStates.Ground →
      isActionableFromGround (p.cur._currentString.getD p.cur._curPos 0) = true)

/-! ## End of `ProcessString` in input mode -/

/-- Lines 92 to 102 of `ProcessString`: the state is reset, the last-character
flag is cleared, all but the last character of `run` are processed again, and
the last-character flag is set. -/
def reprocess (g : Generated) (eng : Engine E) (p : Parser E) (run : List Nat) : Parser E :=
  let p := ResetState g p
  let p := { p with cur := { p.cur with _processingLastCharacter := false } }
  let p := run.dropLast.foldl (ProcessCharacter g eng) p
  { p with cur := { p.cur with _processingLastCharacter := true } }

/-- The character `*wchIter` dispatched at the end of `ProcessString` in input
mode: the last character of `run`; for an empty run, the character at the run
offset. -/
def lastOfRun (p : Parser E) (run : List Nat) : Nat :=
  run.getLast?.getD (p.cur._currentString.getD p.cur._runOffset 0)

/-- An engine that keeps the list of the calls made on it, makes no
dispatch-target call and reports success. -/
def recordEngine : Engine (List EngineCall) :=
  { react := fun e c =>
      { engine := e ++ [c], calls := [], flush := false, fault := false, result := true },
    passThrough := fun _ _ => true }

/-- An engine whose `ActionPassThroughString` always fails; its actions make no
dispatch-target call. -/
def failingSink : Engine Unit :=
  { react := fun e _ => { engine := e, calls := [], flush := false, fault := false, result := false },
    passThrough := fun _ _ => false }

/-! ## Input adapter (`DataSource.h`)

Bytes are natural numbers below `256`; `uint8_t(input[i])` is the byte itself. -/

/-- `StringStream`: the target and the read position. -/
structure StringStream where
  _target : List Nat
  pos : Nat
  deriving DecidableEq, Repr

/-- `StringStream::Read(buf, capacity)`: the bytes copied to `buf`, whose number
is the result, and the stream afterwards. -/
def StringStream.Read (s : StringStream) (capacity : Nat) : List Nat × StringStream :=
  if s.pos ≥ s._target.length then
    ([], s)
  else
    let count := min (s._target.length - s.pos) capacity
    ((s._target.drop s.pos).take count, { s with pos := s.pos + count })

/-- `DataSource::kReadSize`. -/
def kReadSize : Nat := 4096

/-- `DataSource::kBufSize`. -/
def kBufSize : Nat := kReadSize + 32

/-- The three tests of `trim_partial_utf8` on the last three bytes (lines 106 to
109). -/
def trimTail (input : List Nat) : Nat :=
  let length := input.length
  if input.getD (length - 1) 0 ≥ 0xc0 then length - 1
  else if input.getD (length - 2) 0 ≥ 0xe0 then length - 2
  else if input.getD (length - 3) 0 ≥ 0xf0 then length - 3
  else length

/-- `DataSource::trim_partial_utf8(input, length)` with `length = input.length`.
The `switch` has the cases 2, 1 and 0; any other value would fall through to the
tests that follow it. -/
def trim_partial_utf8 (input : List Nat) : Nat :=
  let length := input.length
  if length < 3 then
    if length = 2 then
      if input.getD (length - 1) 0 ≥ 0xc0 then length - 1
      else if input.getD (length - 2) 0 ≥ 0xe0 then length - 2
      else length
    else if length = 1 then
      if input.getD (length - 1) 0 ≥ 0xc0 then length - 1
      else length
    else if length = 0 then length
    else trimTail input
  else trimTail input

/-- The member `_u8partial` of `DataSource`: the `len` bytes of `buf` in use. -/
structure DataSource where
  _u8partial : List Nat
  deriving DecidableEq, Repr

/-- The loop `while (true)` of `ReadFrom` (lines 47 to 73). `buf` is the content
of `_u8buf` below `bufPos`. The result is the window of bytes handed to
`MultiByteToWideChar` (`none` where `ReadFrom` returns 0 without decoding), the
data source and the stream afterwards. The first argument bounds the number of
iterations. -/
def readLoop : Nat → DataSource → StringStream → List Nat →
    Option (List Nat) × DataSource × StringStream
  | 0, ds, stream, _ => (none, ds, stream)
  | fuel + 1, ds, stream, buf =>
    let r := stream.Read kReadSize
    let stream := r.2
    if r.1.length = 0 then
      if ds._u8partial.length ≠ 0 then
        (some (buf.take ds._u8partial.length), { ds with _u8partial := [] }, stream)
      else
        (none, ds, stream)
    else
      let buf := buf ++ r.1
      let bytesLen := buf.length
      let u8len := trim_partial_utf8 buf
      if u8len ≠ 0 then
        if u8len = bytesLen then
          (some (buf.take u8len), { ds with _u8partial := [] }, stream)
        else
          (some (buf.take u8len), { ds with _u8partial := buf.drop u8len }, stream)
      else
        readLoop fuel ds stream buf

/-- `DataSource::ReadFrom(stream)` up to the call of `MultiByteToWideChar`: the
saved tail is copied to the front of the buffer and the loop runs. An iteration
that goes round again has read at least one byte, so the number of bytes left in
the stream, plus two, bounds the iterations. -/
def ReadFrom (ds : DataSource) (stream : StringStream) :
    Option (List Nat) × DataSource × StringStream :=
  readLoop (stream._target.length - stream.pos + 2) ds stream ds._u8partial

/-- The windows decoded by the loop `while (vtds.ReadFrom(ss))` of `main.cpp`,
in order; the first argument bounds the number of calls. -/
def windows : Nat → DataSource → StringStream → List (List Nat)
  | 0, _, _ => []
  | fuel + 1, ds, stream =>
    match ReadFrom ds stream with
    | (none, _, _) => []
    | (some w, ds, stream) => w :: windows fuel ds stream

/-- The windows decoded for a whole byte string read through a fresh
`DataSource`. Every call that decodes a window reads a byte or empties the saved
tail, so `target.length + 2` calls suffice. -/
def allWindows (target : List Nat) : List (List Nat) :=
  windows (target.length + 2) { _u8partial := [] } { _target := target, pos := 0 }

/-- A continuation byte of UTF-8: `10xxxxxx`. -/
def isCont (b : Nat) : Bool := decide (0x80 ≤ b) && decide (b ≤ 0xBF)

/-- The byte pattern of one code point in UTF-8: a single byte below `0x80`, or a
lead byte `0xC2..0xDF`, `0xE0..0xEF`, `0xF0..0xF4` followed by one, two, three
continuation bytes. The further restrictions of the standard on the first
continuation byte are not needed and left out. -/
def isCodePoint : List Nat → Bool
  | [b] => decide (b < 0x80)
  | [l, c1] => decide (0xC2 ≤ l) && decide (l ≤ 0xDF) && isCont c1
  | [l, c1, c2] => decide (0xE0 ≤ l) && decide (l ≤ 0xEF) && isCont c1 && isCont c2
  | [l, c1, c2, c3] =>
    decide (0xF0 ≤ l) && decide (l ≤ 0xF4) && isCont c1 && isCont c2 && isCont c3
  | _ => false

/-! ## Output engine (`v2/OutputEngine.h`) -/

/-- Modelled from the spec: `AsciiChars::NUL`; `ascii.hpp` is not among the
sources, the names stand for the ASCII codes. -/
def AsciiChars.NUL : Nat := 0x00

/-- Modelled from the spec: `AsciiChars::ENQ`. -/
def AsciiChars.ENQ : Nat := 0x05

/-- Modelled from the spec: `AsciiChars::BEL`. -/
def AsciiChars.BEL : Nat := 0x07

/-- Modelled from the spec: `AsciiChars::BS`. -/
def AsciiChars.BS : Nat := 0x08

/-- Modelled from the spec: `AsciiChars::TAB`. -/
def AsciiChars.TAB : Nat := 0x09

/-- Modelled from the spec: `AsciiChars::LF`. -/
def AsciiChars.LF : Nat := 0x0A

/-- Modelled from the spec: `AsciiChars::VT`. -/
def AsciiChars.VT : Nat := 0x0B

/-- Modelled from the spec: `AsciiChars::FF`. -/
def AsciiChars.FF : Nat := 0x0C

/-- Modelled from the spec: `AsciiChars::CR`. -/
def AsciiChars.CR : Nat := 0x0D

/-- Modelled from the spec: `AsciiChars::SO`. -/
def AsciiChars.SO : Nat := 0x0E

/-- Modelled from the spec: `AsciiChars::SI`. -/
def AsciiChars.SI : Nat := 0x0F

/-- Modelled from the spec: `AsciiChars::SUB`. -/
def AsciiChars.SUB : Nat := 0x1A

/-- Modelled from the spec: `AsciiChars::SPC`. -/
def AsciiChars.SPC : Nat := 0x20

/-- Modelled from the spec: `AsciiChars::DEL`. -/
def AsciiChars.DEL : Nat := 0x7F

/-- The enumeration `DispLogger::Action` of `dispatch.h`: one name per method
of the dispatch target, in the order of the source. -/
inductive Action
  | Print | PrintString | CursorUp | CursorDown | CursorForward | CursorBackward
  | CursorNextLine | CursorPrevLine | CursorHorizontalPositionAbsolute
  | VerticalLinePositionAbsolute | HorizontalPositionRelative | VerticalPositionRelative
  | CursorPosition | CursorSaveState | CursorRestoreState | InsertCharacter | DeleteCharacter
  | ScrollUp | ScrollDown | NextPage | PrecedingPage | PagePositionAbsolute
  | PagePositionRelative | PagePositionBack | RequestDisplayedExtent | InsertLine | DeleteLine
  | InsertColumn | DeleteColumn | SetKeypadMode | SetAnsiMode | SetTopBottomScrollingMargins
  | SetLeftRightScrollingMargins | WarningBell | CarriageReturn | LineFeed | ReverseLineFeed
  | BackIndex | ForwardIndex | SetWindowTitle | HorizontalTabSet | ForwardTab | BackwardsTab
  | TabClear | TabSet | SetColorTableEntry | SetDefaultForeground | SetDefaultBackground
  | AssignColor | EraseInDisplay | EraseInLine | EraseCharacters | SelectiveEraseInDisplay
  | SelectiveEraseInLine | ChangeAttributesRectangularArea | ReverseAttributesRectangularArea
  | CopyRectangularArea | FillRectangularArea | EraseRectangularArea
  | SelectiveEraseRectangularArea | SelectAttributeChangeExtent
  | RequestChecksumRectangularArea | SetGraphicsRendition | SetLineRendition
  | SetCharacterProtectionAttribute | PushGraphicsRendition | PopGraphicsRendition | SetMode
  | ResetMode | RequestMode | DeviceStatusReport | DeviceAttributes
  | SecondaryDeviceAttributes | TertiaryDeviceAttributes | Vt52DeviceAttributes
  | RequestTerminalParameters | DesignateCodingSystem | Designate94Charset
  | Designate96Charset | LockingShift | LockingShiftRight | SingleShift | AcceptC1Controls
  | AnnounceCodeStructure | SoftReset | HardReset | ScreenAlignmentPattern | SetCursorStyle
  | SetCursorColor | SetClipboard | WindowManipulation | AddHyperlink | EndHyperlink
  | DoConEmuAction | DoITerm2Action | DoFinalTermAction | DoVsCodeAction | DownloadDRCS
  | RequestUserPreferenceCharset | AssignUserPreferenceCharset | DefineMacro | InvokeMacro
  | RestoreTerminalState | RequestSetting | RequestPresentationStateReport
  | RestorePresentationState | PlaySounds
  deriving DecidableEq, Repr

/-- A call of the method `a` of the dispatch target with the integer arguments
`args`: the method code is the value of `a` in the enumeration. -/
def dispatchCall (a : Action) (args : List Int) : TermCall :=
  TermCall.Method a.toCtorIdx args []

/-- Modelled from the spec: `DispatchTypes::LineFeedType::DependsOnMode`, from a
header that is not among the sources; it is used as a name only. -/
def LineFeedType.DependsOnMode : Int := 2

/-- Modelled from the spec: the identifier `VTID("...")` of a sequence, the
characters of the string packed one per byte, the first in the lowest byte (the
class is declared in a header that is not among the sources). -/
def VTID (s : List Nat) : Nat := s.foldr (fun c acc => c + 256 * acc) 0

/-- `CsiActionCodes::CUU_CursorUp = VTID("A")`. -/
def CsiActionCodes.CUU_CursorUp : Nat := VTID [0x41]

/-- `CsiActionCodes::SGR_SetGraphicsRendition = VTID("m")`. -/
def CsiActionCodes.SGR_SetGraphicsRendition : Nat := VTID [0x6D]

/-- `CsiActionCodes::DECCARA_ChangeAttributesRectangularArea = VTID("$r")`. -/
def CsiActionCodes.DECCARA_ChangeAttributesRectangularArea : Nat := VTID [0x24, 0x72]

/-- `CsiActionCodes::DECRARA_ReverseAttributesRectangularArea = VTID("$t")`. -/
def CsiActionCodes.DECRARA_ReverseAttributesRectangularArea : Nat := VTID [0x24, 0x74]

/-- The argument `VTParameters` of the dispatch actions: the parameter vector,
the flat sub-parameter vector and the ranges, as the parser hands them over. -/
structure VTParameters where
  _params : List VTParameter
  _subParams : List VTParameter
  _subParamRanges : List (Nat × Nat)
  deriving DecidableEq, Repr

/-- Modelled from the spec: `VTParameters::hasSubParams()`, some parameter
carries sub-parameters (the class is declared in a header that is not among the
sources). -/
def VTParameters.hasSubParams (v : VTParameters) : Bool := !v._subParams.isEmpty

/-- Modelled from the spec: `VTParameters::hasSubParamsFor(index)`, the range of
the parameter at `index` is not empty. -/
def VTParameters.hasSubParamsFor (v : VTParameters) (index : Nat) : Bool :=
  match v._subParamRanges.get? index with
  | some r => decide (r.1 < r.2)
  | none => false

/-- The members of `OutputEngine` that its actions read and write:
`_lastPrintedChar`, and whether `_pfnFlushToTerminal` is not null. -/
structure OutputEngine where
  _lastPrintedChar : Nat
  _pfnFlushToTerminal : Bool
  deriving DecidableEq, Repr

/-- What the dispatch actions of `OutputEngine` depend on outside the engine.
Each `switch` over the identifier calls methods of the dispatch target, a
template parameter, and leaves their result in `success` (for DCS: whether the
handler returned is not null); it is given here by the dispatch-target calls it
makes and that result. No `switch` assigns `_lastPrintedChar`; the one of
`ActionCsiDispatch` reads it (REP), so it takes its value as last argument.
`dcsHandler` is a call of the string handler returned by `ActionDcsDispatch`,
`flushToTerminal` the result of the callback `_pfnFlushToTerminal()`. -/
structure Target where
  escSwitch : Nat → List TermCall × Bool
  vt52Switch : Nat → VTParameters → List TermCall × Bool
  csiSwitch : Nat → VTParameters → Nat → List TermCall × Bool
  oscSwitch : Nat → List Nat → List TermCall × Bool
  dcsSwitch : Nat → VTParameters → List TermCall × Bool
  dcsHandler : Nat → List TermCall × Bool
  flushToTerminal : Bool

/-- `OutputEngine::_ClearLastChar()`. -/
def OutputEngine._ClearLastChar (e : OutputEngine) : OutputEngine :=
  { e with _lastPrintedChar := AsciiChars.NUL }

/-- The `switch` of `OutputEngine::ActionExecute(wch)` (lines 50 to 105): the
dispatch-target calls, and whether the flush callback is invoked. -/
def executeSwitch (e : OutputEngine) (wch : Nat) : List TermCall × Bool :=
  if wch = AsciiChars.ENQ then ([], false)
  else if wch = AsciiChars.BEL then ([dispatchCall Action.WarningBell []], e._pfnFlushToTerminal)
  else if wch = AsciiChars.BS then ([dispatchCall Action.CursorBackward [1]], false)
  else if wch = AsciiChars.TAB then ([dispatchCall Action.ForwardTab [1]], false)
  else if wch = AsciiChars.CR then ([dispatchCall Action.CarriageReturn []], false)
  else if wch = AsciiChars.LF ∨ wch = AsciiChars.FF ∨ wch = AsciiChars.VT then
    ([dispatchCall Action.LineFeed [LineFeedType.DependsOnMode]], false)
  else if wch = AsciiChars.SI then ([dispatchCall Action.LockingShift [0]], false)
  else if wch = AsciiChars.SO then ([dispatchCall Action.LockingShift [1]], false)
  else if wch = AsciiChars.SUB then ([TermCall.Print 0x2426], false)
  else if wch = AsciiChars.DEL then ([TermCall.Print wch], false)
  else ([], false)

/-- `OutputEngine::ActionExecute(wch)`. -/
def OutputEngine.ActionExecute (e : OutputEngine) (wch : Nat) : Reaction OutputEngine :=
  let r := executeSwitch e wch
  { engine := e._ClearLastChar, calls := r.1, flush := r.2, fault := false, result := true }

/-- `OutputEngine::ActionExecuteFromEscape(wch)`. -/
def OutputEngine.ActionExecuteFromEscape (e : OutputEngine) (wch : Nat) : Reaction OutputEngine :=
  e.ActionExecute wch

/-- `OutputEngine::ActionPrint(wch)`. -/
def OutputEngine.ActionPrint (e : OutputEngine) (wch : Nat) : Reaction OutputEngine :=
  { engine := if wch ≥ AsciiChars.SPC then { e with _lastPrintedChar := wch } else e,
    calls := [TermCall.Print wch], flush := false, fault := false, result := true }

/-- `OutputEngine::ActionPrintString(string)`. -/
def OutputEngine.ActionPrintString (e : OutputEngine) (string : List Nat) :
    Reaction OutputEngine :=
  if string.isEmpty then
    { engine := e, calls := [], flush := false, fault := false, result := true }
  else
    let wch := string.getLast?.getD 0
    { engine := if wch ≥ AsciiChars.SPC then { e with _lastPrintedChar := wch } else e,
      calls := [TermCall.PrintString string], flush := false, fault := false, result := true }

/-- The end shared by `ActionEscDispatch`, `ActionCsiDispatch` and
`ActionOscDispatch`: with a flush callback attached a failure is replaced by the
result of the callback; then `_ClearLastChar()` and `return success`. -/
def OutputEngine.finish (t : Target) (e : OutputEngine) (r : List TermCall × Bool) :
    Reaction OutputEngine :=
  let flushed := e._pfnFlushToTerminal && !r.2
  let success := if flushed then t.flushToTerminal else r.2
  { engine := e._ClearLastChar, calls := r.1, flush := flushed, fault := false, result := success }

/-- `OutputEngine::ActionEscDispatch(id)`. -/
def OutputEngine.ActionEscDispatch (t : Target) (e : OutputEngine) (id : Nat) :
    Reaction OutputEngine :=
  e.finish t (t.escSwitch id)

/-- `OutputEngine::ActionVt52EscDispatch(id, parameters)`. -/
def OutputEngine.ActionVt52EscDispatch (t : Target) (e : OutputEngine) (id : Nat)
    (parameters : VTParameters) : Reaction OutputEngine :=
  let r := t.vt52Switch id parameters
  { engine := e._ClearLastChar, calls := r.1, flush := false, fault := false, result := r.2 }

/-- `OutputEngine::_CanSeqAcceptSubParam(id, parameters)`. -/
def _CanSeqAcceptSubParam (id : Nat) (parameters : VTParameters) : Bool :=
  if id = CsiActionCodes.SGR_SetGraphicsRendition then true
  else if id = CsiActionCodes.DECCARA_ChangeAttributesRectangularArea
      ∨ id = CsiActionCodes.DECRARA_ReverseAttributesRectangularArea then
    !parameters.hasSubParamsFor 0 && !parameters.hasSubParamsFor 1
      && !parameters.hasSubParamsFor 2 && !parameters.hasSubParamsFor 3
  else false

/-- `OutputEngine::ActionCsiDispatch(id, parameters)`. -/
def OutputEngine.ActionCsiDispatch (t : Target) (e : OutputEngine) (id : Nat)
    (parameters : VTParameters) : Reaction OutputEngine :=
  if parameters.hasSubParams && !_CanSeqAcceptSubParam id parameters then
    { engine := e, calls := [], flush := false, fault := false, result := false }
  else
    e.finish t (t.csiSwitch id parameters e._lastPrintedChar)

/-- `OutputEngine::ActionDcsDispatch(id, parameters)`; the result tells whether
the handler returned is not null. -/
def OutputEngine.ActionDcsDispatch (t : Target) (e : OutputEngine) (id : Nat)
    (parameters : VTParameters) : Reaction OutputEngine :=
  let r := t.dcsSwitch id parameters
  { engine := e._ClearLastChar, calls := r.1, flush := false, fault := false, result := r.2 }

/-- `OutputEngine::ActionOscDispatch(parameter, string)`. -/
def OutputEngine.ActionOscDispatch (t : Target) (e : OutputEngine) (parameter : Nat)
    (string : List Nat) : Reaction OutputEngine :=
  e.finish t (t.oscSwitch parameter string)

/-- `OutputEngine::ActionSs3Dispatch(wch, parameters)`. -/
def OutputEngine.ActionSs3Dispatch (e : OutputEngine) : Reaction OutputEngine :=
  { engine := e._ClearLastChar, calls := [], flush := false, fault := false, result := false }

/-- `OutputEngine::ActionClear()`. -/
def OutputEngine.ActionClear (e : OutputEngine) : Reaction OutputEngine :=
  { engine := e, calls := [], flush := false, fault := false, result := true }

/-- The action of `OutputEngine` behind each call of the parser on its engine.
The OSC parameter is converted to `size_t`. -/
def OutputEngine.react (t : Target) (e : OutputEngine) : EngineCall → Reaction OutputEngine
  | EngineCall.ActionExecute wch => e.ActionExecute wch
  | EngineCall.ActionExecuteFromEscape wch => e.ActionExecuteFromEscape wch
  | EngineCall.ActionPrint wch => e.ActionPrint wch
  | EngineCall.ActionPrintString string => e.ActionPrintString string
  | EngineCall.ActionEscDispatch id => e.ActionEscDispatch t id
  | EngineCall.ActionVt52EscDispatch id parameters =>
    e.ActionVt52EscDispatch t id { _params := parameters, _subParams := [], _subParamRanges := [] }
  | EngineCall.ActionCsiDispatch id parameters subParameters subParameterRanges =>
    e.ActionCsiDispatch t id
      { _params := parameters, _subParams := subParameters, _subParamRanges := subParameterRanges }
  | EngineCall.ActionOscDispatch parameter string =>
    e.ActionOscDispatch t (parameter % 18446744073709551616).toNat string
  | EngineCall.ActionSs3Dispatch _ _ => e.ActionSs3Dispatch
  | EngineCall.ActionDcsDispatch id parameters =>
    e.ActionDcsDispatch t id { _params := parameters, _subParams := [], _subParamRanges := [] }
  | EngineCall.ActionClear => e.ActionClear
  | EngineCall.DcsStringHandler wch =>
    { engine := e, calls := (t.dcsHandler wch).1, flush := false, fault := false,
      result := (t.dcsHandler wch).2 }

/-- A dispatch target none of whose methods is reached: every `switch` makes no
call and leaves `success` false. -/
def nullTarget : Target :=
  { escSwitch := fun _ => ([], false), vt52Switch := fun _ _ => ([], false),
    csiSwitch := fun _ _ _ => ([], false), oscSwitch := fun _ _ => ([], false),
    dcsSwitch := fun _ _ => ([], false), dcsHandler := fun _ => ([], false),
    flushToTerminal := false }

/-! ## The cases of the dispatch switches (`v2/OutputEngine.h`) -/

/-- What the cases modelled below use from headers that are not among the
sources: `Utils::SplitString(string, delimiter)`, `Utils::StringToUint`
(`none` when it returns false), `Utils::ColorFromXTermColor` (`none` for
`std::nullopt`), `Base64::Decode` (`none` when it fails), the constant
`INVALID_COLOR`, and `firstParameter`, the `size_t` to which `parameters.at(0)`
converts. -/
structure Utils where
  SplitString : List Nat → Nat → List (List Nat)
  StringToUint : List Nat → Option Nat
  ColorFromXTermColor : List Nat → Option Nat
  Decode : List Nat → Option (List Nat)
  INVALID_COLOR : Nat
  firstParameter : VTParameters → Nat

/-- The results of the methods of the dispatch target, a template parameter of
`OutputEngine`: the `bool` each call returns. -/
abbrev Dispatch := TermCall → Bool

/-- A call of the method `a` of the dispatch target with string arguments: the
strings are recorded one after the other as `LogData` does, and their lengths
as integer arguments, which tells them apart. -/
def dispatchText (a : Action) (strings : List (List Nat)) : TermCall :=
  TermCall.Method a.toCtorIdx (strings.map (fun s => (s.length : Int))) strings.flatten

/-- `CsiActionCodes::REP_RepeatCharacter = VTID("b")`. -/
def CsiActionCodes.REP_RepeatCharacter : Nat := VTID [0x62]

/-- `OutputEngine::Csi_REP_RepeatCharacter(parameters)`, which is also the case
`REP_RepeatCharacter` of the switch of `ActionCsiDispatch` (lines 634 to 647):
the call made and `success`. The result of `PrintString` is not read. -/
def Csi_REP_RepeatCharacter (u : Utils) (parameters : VTParameters) (lastPrintedChar : Nat) :
    List TermCall × Bool :=
  if lastPrintedChar ≠ AsciiChars.NUL then
    let repeatCount := u.firstParameter parameters
    let wstr := List.replicate repeatCount lastPrintedChar
    ([TermCall.PrintString wstr], true)
  else ([], true)

/-- `OutputEngine::MAX_URL_LENGTH`. -/
def MAX_URL_LENGTH : Nat := 2 * 1048576

/-- `OutputEngine::hyperlinkIDParameter`, the string `id=`. -/
def hyperlinkIDParameter : List Nat := [0x69, 0x64, 0x3D]

/-- `s.starts_with(pat)`. -/
def startsWith : List Nat → List Nat → Bool
  | _, [] => true
  | [], _ :: _ => false
  | c :: s, x :: pat => c == x && startsWith s pat

/-- `std::wstring_view::find(pat)`: the first position at which `pat` occurs
in `s`, `none` for `npos`. -/
def findString : List Nat → List Nat → Option Nat
  | [], pat => if pat.isEmpty then some 0 else none
  | c :: s, pat =>
    if startsWith (c :: s) pat then some 0 else (findString s pat).map (fun i => i + 1)

/-- `std::wstring_view::find(wch)`: the first position of the character `wch`
in `s`, `none` for `npos`. -/
def findChar : List Nat → Nat → Option Nat
  | [], _ => none
  | c :: s, wch => if c = wch then some 0 else (findChar s wch).map (fun i => i + 1)

/-- `OutputEngine::_ParseHyperlink(string, params, uri)`: the result, and the
values left in `params` and `uri`. -/
def _ParseHyperlink (u : Utils) (string : List Nat) : Bool × List Nat × List Nat :=
  if string = [0x3B] then (true, [], [])
  else
    match findChar string 0x3B with
    | some midPos =>
      let uri := (string.drop (midPos + 1)).take MAX_URL_LENGTH
      let paramStr := string.take midPos
      let paramParts := u.SplitString paramStr 0x3A
      let params := paramParts.foldl (fun params part =>
        match findString part hyperlinkIDParameter with
        | some idPos => part.drop (idPos + hyperlinkIDParameter.length)
        | none => params) []
      (true, params, uri)
    | none => (false, [], [])

/-- `OutputEngine::_GetOscSetColor(string, rgbs)`: the result and the colours
left in `rgbs`. -/
def _GetOscSetColor (u : Utils) (string : List Nat) : Bool × List Nat :=
  let parts := u.SplitString string 0x3B
  if parts.length < 1 then (false, [])
  else
    let newRgbs := parts.map (fun part =>
      match u.ColorFromXTermColor part with
      | some color => color
      | none => u.INVALID_COLOR)
    (decide (newRgbs.length > 0), newRgbs)

/-- The loop of `_GetOscSetColorTable` over the parts taken two at a time: the
pairs of a table index and a colour that both parse. -/
def colorTablePairs (u : Utils) : List (List Nat) → List (Nat × Nat)
  | index :: color :: rest =>
    match u.StringToUint index, u.ColorFromXTermColor color with
    | some tableIndex, some rgb => (tableIndex, rgb) :: colorTablePairs u rest
    | _, _ => colorTablePairs u rest
  | _ => []

/-- `OutputEngine::_GetOscSetColorTable(string, tableIndexes, rgbs)`: the
result, and the table indexes with their colours. -/
def _GetOscSetColorTable (u : Utils) (string : List Nat) : Bool × List (Nat × Nat) :=
  let parts := u.SplitString string 0x3B
  if parts.length < 2 then (false, [])
  else
    let pairs := colorTablePairs u parts
    (decide (pairs.length > 0), pairs)

/-- `OutputEngine::_GetOscSetClipboard(string, content, queryClipboard)`: the
result, the content and `queryClipboard`. -/
def _GetOscSetClipboard (u : Utils) (string : List Nat) : Bool × List Nat × Bool :=
  match findChar string 0x3B with
  | none => (false, [], false)
  | some pos =>
    let substr := string.drop (pos + 1)
    if substr = [0x3F] then (true, [], true)
    else
      match u.Decode substr with
      | some content => (true, content, false)
      | none => (false, [], false)

/-- The statement `success = success && _dispatch.method(...)` on the calls
made so far and `success`: the call is made only when `success` holds. -/
def andCall (d : Dispatch) (r : List TermCall × Bool) (c : TermCall) : List TermCall × Bool :=
  if r.2 then (r.1 ++ [c], d c) else r

/-- One of the three `if` statements of the colour cases of `ActionOscDispatch`
(lines 835 to 867), for the command `code` and the method `a`, on the calls made
so far, `success`, `commandIndex` and `colorIndex`. -/
def colorStep (u : Utils) (d : Dispatch) (code : Nat) (a : Action) (colors : List Nat)
    (st : (List TermCall × Bool) × Nat × Nat) : (List TermCall × Bool) × Nat × Nat :=
  let commandIndex := st.2.1
  let colorIndex := st.2.2
  if commandIndex = code ∧ colors.length > colorIndex then
    let color := colors.getD colorIndex 0
    let r := if color ≠ u.INVALID_COLOR then andCall d st.1 (dispatchCall a [(color : Int)])
             else st.1
    (r, commandIndex + 1, colorIndex + 1)
  else st

/-- `OscActionCodes::SetIconAndWindowTitle`. -/
def OscActionCodes.SetIconAndWindowTitle : Nat := 0

/-- `OscActionCodes::SetWindowIcon`. -/
def OscActionCodes.SetWindowIcon : Nat := 1

/-- `OscActionCodes::SetWindowTitle`. -/
def OscActionCodes.SetWindowTitle : Nat := 2

/-- `OscActionCodes::SetColor`. -/
def OscActionCodes.SetColor : Nat := 4

/-- `OscActionCodes::Hyperlink`. -/
def OscActionCodes.Hyperlink : Nat := 8

/-- `OscActionCodes::ConEmuAction`. -/
def OscActionCodes.ConEmuAction : Nat := 9

/-- `OscActionCodes::SetForegroundColor`. -/
def OscActionCodes.SetForegroundColor : Nat := 10

/-- `OscActionCodes::SetBackgroundColor`. -/
def OscActionCodes.SetBackgroundColor : Nat := 11

/-- `OscActionCodes::SetCursorColor`. -/
def OscActionCodes.SetCursorColor : Nat := 12

/-- `OscActionCodes::DECSWT_SetWindowTitle`. -/
def OscActionCodes.DECSWT_SetWindowTitle : Nat := 21

/-- `OscActionCodes::SetClipboard`. -/
def OscActionCodes.SetClipboard : Nat := 52

/-- `OscActionCodes::ResetCursorColor`. -/
def OscActionCodes.ResetCursorColor : Nat := 112

/-- `OscActionCodes::FinalTermAction`. -/
def OscActionCodes.FinalTermAction : Nat := 133

/-- `OscActionCodes::VsCodeAction`. -/
def OscActionCodes.VsCodeAction : Nat := 633

/-- `OscActionCodes::ITerm2Action`. -/
def OscActionCodes.ITerm2Action : Nat := 1337

/-- The case `SetColor` of the switch of `ActionOscDispatch`. -/
def oscSetColor (u : Utils) (d : Dispatch) (string : List Nat) : List TermCall × Bool :=
  let r := _GetOscSetColorTable u string
  r.2.foldl (fun acc entry =>
    andCall d acc (dispatchCall Action.SetColorTableEntry [(entry.1 : Int), (entry.2 : Int)]))
    ([], r.1)

/-- The cases `SetForegroundColor`, `SetBackgroundColor` and `SetCursorColor`
of the switch of `ActionOscDispatch`. -/
def oscSetDefaultColors (u : Utils) (d : Dispatch) (parameter : Nat) (string : List Nat) :
    List TermCall × Bool :=
  let r := _GetOscSetColor u string
  let success := r.1
  let colors := r.2
  if success then
    let st : (List TermCall × Bool) × Nat × Nat := (([], success), parameter, 0)
    let st := colorStep u d OscActionCodes.SetForegroundColor Action.SetDefaultForeground colors st
    let st := colorStep u d OscActionCodes.SetBackgroundColor Action.SetDefaultBackground colors st
    let st := colorStep u d OscActionCodes.SetCursorColor Action.SetCursorColor colors st
    st.1
  else ([], success)

/-- The case `SetClipboard` of the switch of `ActionOscDispatch`. -/
def oscSetClipboard (u : Utils) (d : Dispatch) (string : List Nat) : List TermCall × Bool :=
  let r := _GetOscSetClipboard u string
  let success := r.1
  let setClipboardContent := r.2.1
  let queryClipboard := r.2.2
  if success && !queryClipboard then
    ([dispatchText Action.SetClipboard [setClipboardContent]],
      d (dispatchText Action.SetClipboard [setClipboardContent]))
  else ([], success)

/-- The case `Hyperlink` of the switch of `ActionOscDispatch`. -/
def oscHyperlink (u : Utils) (d : Dispatch) (string : List Nat) : List TermCall × Bool :=
  let r := _ParseHyperlink u string
  let success := r.1
  let params := r.2.1
  let uri := r.2.2
  if uri.isEmpty then andCall d ([], success) (dispatchCall Action.EndHyperlink [])
  else andCall d ([], success) (dispatchText Action.AddHyperlink [uri, params])

/-- A case `success = _dispatch.method(string)` of the switch of
`ActionOscDispatch`. -/
def oscText (d : Dispatch) (a : Action) (string : List Nat) : List TermCall × Bool :=
  ([dispatchText a [string]], d (dispatchText a [string]))

/-- The `switch (parameter)` of `OutputEngine::ActionOscDispatch` (lines 803 to
926) over a dispatch target with the results `d`: the calls made and
`success`. -/
def oscSwitch (u : Utils) (d : Dispatch) (parameter : Nat) (string : List Nat) :
    List TermCall × Bool :=
  if parameter = OscActionCodes.SetIconAndWindowTitle ∨ parameter = OscActionCodes.SetWindowIcon
      ∨ parameter = OscActionCodes.SetWindowTitle
      ∨ parameter = OscActionCodes.DECSWT_SetWindowTitle then
    oscText d Action.SetWindowTitle string
  else if parameter = OscActionCodes.SetColor then oscSetColor u d string
  else if parameter = OscActionCodes.SetForegroundColor
      ∨ parameter = OscActionCodes.SetBackgroundColor
      ∨ parameter = OscActionCodes.SetCursorColor then
    oscSetDefaultColors u d parameter string
  else if parameter = OscActionCodes.SetClipboard then oscSetClipboard u d string
  else if parameter = OscActionCodes.ResetCursorColor then
    ([dispatchCall Action.SetCursorColor [(u.INVALID_COLOR : Int)]],
      d (dispatchCall Action.SetCursorColor [(u.INVALID_COLOR : Int)]))
  else if parameter = OscActionCodes.Hyperlink then oscHyperlink u d string
  else if parameter = OscActionCodes.ConEmuAction then oscText d Action.DoConEmuAction string
  else if parameter = OscActionCodes.ITerm2Action then oscText d Action.DoITerm2Action string
  else if parameter = OscActionCodes.FinalTermAction then
    oscText d Action.DoFinalTermAction string
  else if parameter = OscActionCodes.VsCodeAction then oscText d Action.DoVsCodeAction string
  else ([], false)

/-- The dispatch target seen through the switches of the source: the switch of
`ActionOscDispatch` is `oscSwitch` over the target with the results `d`, the
switch of `ActionCsiDispatch` has the case `REP_RepeatCharacter` of the source,
and the remaining cases and switches are those of `t`. -/
def Target.over (u : Utils) (d : Dispatch) (t : Target) : Target :=
  { t with
    csiSwitch := fun id parameters lastPrintedChar =>
      if id = CsiActionCodes.REP_RepeatCharacter then
        Csi_REP_RepeatCharacter u parameters lastPrintedChar
      else t.csiSwitch id parameters lastPrintedChar,
    oscSwitch := VtParser.oscSwitch u d }

/-- The pieces of a string between the occurrences of a delimiter, one way
`Utils::SplitString` may cut: no piece for the empty string, and no empty last
piece after a final delimiter. -/
def splitPieces (delimiter : Nat) : List Nat → List Nat → List (List Nat)
  | [], acc => if acc.isEmpty then [] else [acc]
  | c :: s, acc =>
    if c = delimiter then acc :: splitPieces delimiter s []
    else splitPieces delimiter s (acc ++ [c])

/-- Helpers for examples: strings are cut by `splitPieces`, a colour
specification parses when it is one character of the basic plane, to the code of
that character, a table index when it is one character; `Base64::Decode` yields
its argument, `INVALID_COLOR` is `0xFFFFFFFF` and `parameters.at(0)` converts to
the first parameter, 1 when it is absent, empty or zero. -/
def sampleUtils : Utils :=
  { SplitString := fun s delimiter => splitPieces delimiter s [],
    StringToUint := fun s => match s with
      | [c] => some c
      | _ => none,
    ColorFromXTermColor := fun s => match s with
      | [c] => if c < 65536 then some c else none
      | _ => none,
    Decode := fun s => some s,
    INVALID_COLOR := 0xFFFFFFFF,
    firstParameter := fun parameters =>
      match parameters._params.head? with
      | some (some v) => if v ≤ 0 then 1 else v.toNat
      | _ => 1 }

/-! ## The guard and the CSI callback (`Parser_v1.cpp`, `stateMachine.cpp`) -/

/-- What a lambda run under a guard may throw: `StateMachine::ShutdownException`
(`stateMachine.hpp`), or any other exception. -/
inductive Thrown
  | ShutdownException
  | other
  deriving DecidableEq, Repr

/-- The static `_SafeExecute(lambda)` of `Parser_v1.cpp` (lines 200 to 209),
under which the actions of the parser call the engine, on the outcome of the
lambda: `try { return lambda(); } catch (...) { return false; }`. An
`Except.error` is an exception that leaves the guard. -/
def _SafeExecute (lambda : Except Thrown Bool) : Except Thrown Bool :=
  match lambda with
  | Except.ok r => Except.ok r
  | Except.error _ => Except.ok false

/-- `StateMachine::_SafeExecute(lambda)` (`stateMachine.cpp`, lines 111 to 125),
under which `FlushToTerminal` calls `ActionPassThroughString`: a
`ShutdownException` is thrown again, any other exception gives false. -/
def StateMachine._SafeExecute (lambda : Except Thrown Bool) : Except Thrown Bool :=
  match lambda with
  | Except.ok r => Except.ok r
  | Except.error Thrown.ShutdownException => Except.error Thrown.ShutdownException
  | Except.error Thrown.other => Except.ok false

/-- `Parser::_ExecuteCsiCompleteCallback()` (lines 629 to 648) on the parser
and the member `_onCsiCompleteCallback`, a callback acting on the parser or
`none` when it is empty: the parser and the member afterwards. -/
def _ExecuteCsiCompleteCallback (_onCsiCompleteCallback : Option (Parser E → Parser E))
    (p : Parser E) : Parser E × Option (Parser E → Parser E) :=
  match _onCsiCompleteCallback with
  | some callback =>
    let savedCurrentString := p.cur._currentString
    let savedRunOffset := p.cur._runOffset
    let savedRunSize := p.cur._runSize
    let p := callback p
    ({ p with cur := { p.cur with _currentString := savedCurrentString,
                                  _runOffset := savedRunOffset,
                                  _runSize := savedRunSize } }, none)
  | none => (p, none)

/-- The identifier of a hyperlink in the words of the specification: the text
after `id=` in the last of the parts that contain `id=`, the empty string when
no part does. -/
def hyperlinkIdOf (paramParts : List (List Nat)) : List Nat :=
  match (paramParts.filter (fun part => (findString part hyperlinkIDParameter).isSome)).getLast? with
  | some part => part.drop ((findString part hyperlinkIDParameter).getD 0 + 3)
  | none => []

/-- The methods of the dispatch target behind `OSC 10`, `OSC 11` and `OSC 12`,
in that order. -/
def colorTargets : List Action :=
  [Action.SetDefaultForeground, Action.SetDefaultBackground, Action.SetCursorColor]

/-- The calls the specification describes for the command `n` (10, 11 or 12)
and the colour specifications `specs`: the specification at position `i` goes to
the target of the command `n + i` as long as `n + i` is at most 12, and a
specification that does not parse makes no call. -/
def colorCalls (u : Utils) (n : Nat) (specs : List (List Nat)) : List TermCall :=
  ((colorTargets.drop (n - 10)).zip specs).filterMap (fun x =>
    (u.ColorFromXTermColor x.2).map (fun color => dispatchCall x.1 [(color : Int)]))

/-- The calls of a list that are made when no call follows one that reports
failure. -/
def untilFailure (d : Dispatch) : List TermCall → List TermCall
  | [] => []
  | c :: cs => if d c then c :: untilFailure d cs else [c]

/-- The maximal run of digits of the current string that starts at the
cursor. -/
def digitRun (p : Parser E) : List Nat :=
  (p.cur._currentString.drop p.cur._curPos).takeWhile (fun c => decide (IsDigit c))
/-! ## Sequences of parameter actions, the interrupt (`Parser_v1.cpp`) -/

/-- A call of one of the two parameter actions: `_ActionParam(wch)`, with the
characters `rest` that follow the cursor in the current string, or
`_ActionSubParam(wch)`. -/
inductive ParamCall
  | Param (wch : Nat) (rest : List Nat)
  | SubParam (wch : Nat)
  deriving DecidableEq, Repr

/-- The parameter members after a call of a parameter action. -/
def runParamCall (ps : ParamState) : ParamCall → ParamState
  | ParamCall.Param wch rest => (paramBody ps wch rest).1
  | ParamCall.SubParam wch => subParamBody ps wch

/-- `Parser::_ActionInterrupt()`. -/
def _ActionInterrupt (eng : Engine E) (p : Parser E) : Parser E :=
  if p.seq._state = VTStates.DcsPassThrough then
    let p := (callEngine eng p (EngineCall.DcsStringHandler 0x1B)).1
    { p with seq := { p.seq with _dcsStringHandler := false } }
  else p

/-! ## The specialised actions of the v2 engine and parser
(`v2/OutputEngine.h`, `v2/Parser_v2.h`) -/

/-- `OutputEngine::ActionExecute_ENQ()`. -/
def OutputEngine.ActionExecute_ENQ (e : OutputEngine) : Reaction OutputEngine :=
  { engine := e, calls := [], flush := false, fault := false, result := true }

/-- `OutputEngine::ActionExecute_BEL()`. -/
def OutputEngine.ActionExecute_BEL (e : OutputEngine) : Reaction OutputEngine :=
  { engine := e, calls := [dispatchCall Action.WarningBell []], flush := e._pfnFlushToTerminal,
    fault := false, result := true }

/-- `OutputEngine::ActionExecute_BS()`. -/
def OutputEngine.ActionExecute_BS (e : OutputEngine) : Reaction OutputEngine :=
  { engine := e, calls := [dispatchCall Action.CursorBackward [1]], flush := false,
    fault := false, result := true }

/-- `OutputEngine::ActionExecute_TAB()`. -/
def OutputEngine.ActionExecute_TAB (e : OutputEngine) : Reaction OutputEngine :=
  { engine := e, calls := [dispatchCall Action.ForwardTab [1]], flush := false,
    fault := false, result := true }

/-- `OutputEngine::ActionExecute_CR()`. -/
def OutputEngine.ActionExecute_CR (e : OutputEngine) : Reaction OutputEngine :=
  { engine := e, calls := [dispatchCall Action.CarriageReturn []], flush := false,
    fault := false, result := true }

/-- `OutputEngine::ActionExecute_LF_FF_VT()`. -/
def OutputEngine.ActionExecute_LF_FF_VT (e : OutputEngine) : Reaction OutputEngine :=
  { engine := e, calls := [dispatchCall Action.LineFeed [LineFeedType.DependsOnMode]],
    flush := false, fault := false, result := true }

/-- `OutputEngine::ActionExecute_SI()`. -/
def OutputEngine.ActionExecute_SI (e : OutputEngine) : Reaction OutputEngine :=
  { engine := e, calls := [dispatchCall Action.LockingShift [0]], flush := false,
    fault := false, result := true }

/-- `OutputEngine::ActionExecute_SO()`. -/
def OutputEngine.ActionExecute_SO (e : OutputEngine) : Reaction OutputEngine :=
  { engine := e, calls := [dispatchCall Action.LockingShift [1]], flush := false,
    fault := false, result := true }

/-- `OutputEngine::ActionExecute_SUB()`. -/
def OutputEngine.ActionExecute_SUB (e : OutputEngine) : Reaction OutputEngine :=
  { engine := e, calls := [TermCall.Print 0x2426], flush := false, fault := false,
    result := true }

/-- `OutputEngine::ActionExecute_DEL()`. -/
def OutputEngine.ActionExecute_DEL (e : OutputEngine) : Reaction OutputEngine :=
  { engine := e, calls := [TermCall.Print AsciiChars.DEL], flush := false, fault := false,
    result := true }

/-- `OutputEngine::ActionUnmatchedExecute()`. -/
def OutputEngine.ActionUnmatchedExecute (e : OutputEngine) : Reaction OutputEngine :=
  { engine := e._ClearLastChar, calls := [], flush := false, fault := false, result := true }

/-- The specialised execute action of `OutputEngine` for a control character,
by the name of the method: `ActionUnmatchedExecute` for the characters without
a method of their own. -/
def OutputEngine.specialisedExecute (e : OutputEngine) (wch : Nat) : Reaction OutputEngine :=
  if wch = AsciiChars.ENQ then e.ActionExecute_ENQ
  else if wch = AsciiChars.BEL then e.ActionExecute_BEL
  else if wch = AsciiChars.BS then e.ActionExecute_BS
  else if wch = AsciiChars.TAB then e.ActionExecute_TAB
  else if wch = AsciiChars.CR then e.ActionExecute_CR
  else if wch = AsciiChars.LF ∨ wch = AsciiChars.FF ∨ wch = AsciiChars.VT then
    e.ActionExecute_LF_FF_VT
  else if wch = AsciiChars.SI then e.ActionExecute_SI
  else if wch = AsciiChars.SO then e.ActionExecute_SO
  else if wch = AsciiChars.SUB then e.ActionExecute_SUB
  else if wch = AsciiChars.DEL then e.ActionExecute_DEL
  else e.ActionUnmatchedExecute

/-- The method `Csi_*(parameters)` of `OutputEngine` generated for the case `id`
of the switch of `ActionCsiDispatch` (lines 956 to 1530): the calls it makes and
the `success` it returns. Each of the seventy methods has the statements of its
case word for word, `return success` standing for `break`, so it is given by
the switch on that identifier. -/
def OutputEngine.Csi (t : Target) (e : OutputEngine) (id : Nat) (parameters : VTParameters) :
    List TermCall × Bool :=
  t.csiSwitch id parameters e._lastPrintedChar

/-- `OutputEngine::_PostCsiDispatch(success)` (lines 456 to 468), after a
specialised method that made the calls `r.1` and returned `r.2`. -/
def OutputEngine._PostCsiDispatch (t : Target) (e : OutputEngine) (r : List TermCall × Bool) :
    Reaction OutputEngine :=
  let flushed := e._pfnFlushToTerminal && !r.2
  let success := if flushed then t.flushToTerminal else r.2
  { engine := e._ClearLastChar, calls := r.1, flush := flushed, fault := false,
    result := success }

/-- `v2::Parser::ActionUnmatchedCsiDispatch()` (`Parser_v2.h`, lines 284 to 289):
the two statements trace a failed dispatch; the engine is not called. -/
def ActionUnmatchedCsiDispatch (p : Parser E) : Parser E := p

/-- `v2::Parser::ActionIllegalCsiDispatch()` (`Parser_v2.h`, lines 277 to 282):
as `ActionUnmatchedCsiDispatch`, a trace only. -/
def ActionIllegalCsiDispatch (p : Parser E) : Parser E := p

/-- The output engine over the target `t` behind the interface the parser
calls; `sink` is the result of `ActionPassThroughString`. -/
def OutputEngine.asEngine (t : Target) (sink : List Nat → Bool) : Engine OutputEngine :=
  { react := OutputEngine.react t, passThrough := fun _ string => sink string }

/-- The ranges lie one after the other from 0: the first starts at 0, and each
later one starts where the one before it ends. -/
def RangesChained (ranges : List (Nat × Nat)) : Prop :=
  List.Chain' (fun a b : Nat × Nat => b.1 = a.2) ranges ∧ ∀ r, ranges.head? = some r → r.1 = 0

/-! ## Recording the engine calls -/

/-- An engine that reacts as `eng` does and keeps, next to the state of `eng`,
the list of the calls made on it. -/
def recording (eng : Engine E) : Engine (E × List EngineCall) :=
  { react := fun e c =>
      { engine := ((eng.react e.1 c).engine, e.2 ++ [c]), calls := (eng.react e.1 c).calls,
        flush := (eng.react e.1 c).flush, fault := (eng.react e.1 c).fault,
        result := (eng.react e.1 c).result },
    passThrough := fun e string => eng.passThrough e.1 string }

/-- Between the parser states `p` and `q` over a recording engine, calls were
added to the record, and every string handed to `ActionPrintString` among them
satisfies `P`. -/
def Logged (P : List Nat → Prop) (p q : Parser (E × List EngineCall)) : Prop :=
  ∃ calls, q.seq._engine.2 = p.seq._engine.2 ++ calls ∧
    ∀ str, EngineCall.ActionPrintString str ∈ calls → P str

/-- A printable run: a string that is not empty and holds no character that is
actionable from `Ground`. -/
def PrintableRun (str : List Nat) : Prop :=
  str ≠ [] ∧ ∀ c ∈ str, isActionableFromGround c = false

/-! ## `ReadFrom` over any stream, with its calls of `Read` recorded (`DataSource.h`)

`ReadFrom(auto& stream)` is a template over the stream; here the stream is a
state of type `S` and its member function `Read(buf, capacity)` a function that
gives the bytes written to `buf` and the state afterwards. -/

/-- What one call of `ReadFrom` did: the window of bytes handed to
`MultiByteToWideChar` (`none` where `ReadFrom` returns 0 without decoding), the
data source and the stream afterwards, and for every call of `stream.Read`, in
order, the offset `bufPos` into `_u8buf` that it was handed and the number of
bytes that it returned. -/
structure ReadOutcome (S : Type) where
  window : Option (List Nat)
  ds : DataSource
  stream : S
  reads : List (Nat × Nat)

/-- The loop `while (true)` of `ReadFrom` (lines 47 to 73) over any stream.
`buf` is the content of `_u8buf` below `bufPos`, `reads` the calls of `Read`
made so far. The first argument bounds the number of iterations; the result is
`none` when the bound is used up. -/
def readLoopOn {S : Type} (Read : S → Nat → List Nat × S) :
    Nat → DataSource → S → List Nat → List (Nat × Nat) → Option (ReadOutcome S)
  | 0, _, _, _, _ => none
  | fuel + 1, ds, stream, buf, reads =>
    let bufPos := buf.length
    let r := Read stream kReadSize
    let stream := r.2
    let reads := reads ++ [(bufPos, r.1.length)]
    if r.1.length = 0 then
      if ds._u8partial.length ≠ 0 then
        some { window := some (buf.take ds._u8partial.length),
               ds := { ds with _u8partial := [] }, stream := stream, reads := reads }
      else
        some { window := none, ds := ds, stream := stream, reads := reads }
    else
      let buf := buf ++ r.1
      let bytesLen := buf.length
      let u8len := trim_partial_utf8 buf
      if u8len ≠ 0 then
        if u8len = bytesLen then
          some { window := some (buf.take u8len), ds := { ds with _u8partial := [] },
                 stream := stream, reads := reads }
        else
          some { window := some (buf.take u8len), ds := { ds with _u8partial := buf.drop u8len },
                 stream := stream, reads := reads }
      else
        readLoopOn Read fuel ds stream buf reads

/-- `DataSource::ReadFrom(stream)` up to the call of `MultiByteToWideChar`, over
any stream. An iteration that goes round again has read at least one byte and
leaves at most three bytes in the buffer, so four iterations suffice. -/
def ReadFromOn {S : Type} (Read : S → Nat → List Nat × S) (ds : DataSource) (stream : S) :
    Option (ReadOutcome S) :=
  readLoopOn Read 4 ds stream ds._u8partial []

/-- The outcomes of `n` successive calls of `ReadFrom` on one data source and
one stream, in order. -/
def readFromSeq {S : Type} (Read : S → Nat → List Nat × S) :
    Nat → DataSource → S → List (ReadOutcome S)
  | 0, _, _ => []
  | n + 1, ds, stream =>
    match ReadFromOn Read ds stream with
    | none => []
    | some r => r :: readFromSeq Read n r.ds r.stream

/-! ## The characters read by the scan of `_ActionParam` (`Parser_v1.cpp`)

The scan compares pointers, `p != end`, and reads `*p`. Here pointers are
indices relative to `_currentString.data()`, and `memory` gives the character
stored at every index, inside the current string or not. -/

/-- The indices at which the loop `for (auto end = ...; p != end; p++)` of
`_ActionParam` (lines 402 to 412) evaluates `*p`, in order, from the start value
`p`, with `stop` the index of `end`: the loop goes on while `p != end` and the
character read is a digit. The first argument bounds the number of iterations. -/
def scanReads (memory : Nat → Nat) : Nat → Nat → Nat → List Nat
  | 0, _, _ => []
  | fuel + 1, p, stop =>
    if p ≠ stop then
      if 0x30 ≤ memory p ∧ memory p ≤ 0x39 then p :: scanReads memory fuel (p + 1) stop
      else [p]
    else []

/-- The indices read by `_ActionParam(wch)` called in the state `p`: the scan
runs when the parameter limit has not overflowed and `wch` is not the delimiter;
it starts at `_curPos + 1`, and `end` is the end of `_currentString`. -/
def paramReads (memory : Nat → Nat) (fuel : Nat) (p : Parser E) (wch : Nat) : List Nat :=
  if !p.seq.params._parameterLimitOverflowed then
    if _isParameterDelimiter wch then []
    else scanReads memory fuel (p.cur._curPos + 1) p.cur._currentString.length
  else []

/-- The indices read by the Param actions among the member calls `ops`, made in
order from the state `p`. -/
def opsReads (g : Generated) (eng : Engine E) (memory : Nat → Nat) (fuel : Nat) :
    List Op → Parser E → List Nat
  | [], _ => []
  | op :: ops, p =>
    (if op = Op.ActionParam then paramReads memory fuel p p.seq._wch else [])
      ++ opsReads g eng memory fuel ops (runOp g eng p op)

/-- The indices read by the Param actions of `Proceed<isC1>(wch)`. -/
def proceedReads (g : Generated) (eng : Engine E) (memory : Nat → Nat) (fuel : Nat)
    (isC1 : Bool) (p : Parser E) (wch : Nat) : List Nat :=
  let p := { p with seq := { p.seq with _wch := wch } }
  opsReads g eng memory fuel (g.Proceed isC1 p.seq._state p._isEngineForInput p.ansi wch) p

/-- The indices read by the Param actions of `ProcessCharacter(wch)`. -/
def characterReads (g : Generated) (eng : Engine E) (memory : Nat → Nat) (fuel : Nat)
    (p : Parser E) (wch : Nat) : List Nat :=
  if 0x80 ≤ wch ∧ wch ≤ 0x9F then
    if p.acceptC1 || p.alwaysAcceptC1 then
      proceedReads g eng memory fuel true p 0x1B
        ++ proceedReads g eng memory fuel true (Proceed g eng true p 0x1B) (wch - 0x40)
    else []
  else
    proceedReads g eng memory fuel false p wch

/-- The state in which the re-processing loop of `ProcessString` in input mode
(lines 92 to 100) calls `ProcessCharacter` for the character of index `k` of the
run, `p` being the state at the end of the scan. The loop sets neither `_curPos`
nor `_currentString`. -/
def reprocessAt (g : Generated) (eng : Engine E) (p : Parser E) (k : Nat) : Parser E :=
  let run := _CurrentRun p
  let p := ResetState g p
  let p := { p with cur := { p.cur with _processingLastCharacter := false } }
  (run.dropLast.take k).foldl (ProcessCharacter g eng) p

/-! ## The cached sequence during a call of `ProcessString` -/

/-- How a step of the parser other than the end of `ProcessString` may change
`_cachedSequence`: it leaves it as it is, or it resets it. -/
def CacheStep (p q : Parser E) : Prop :=
  q._cachedSequence = p._cachedSequence ∨ q._cachedSequence = none

/-- The table `csiTable` with two more rows in the manner of section 4.3: inside
a control sequence a C0 control other than `ESC` is executed and the state kept,
and `ESC P` opens a device control string, whose next character dispatches it;
`DcsPassThrough` hands every character to the handler and `DcsIgnore` ignores
it. -/
def dcsTable : Generated :=
  { csiTable with
    Proceed := fun isC1 st isInput isAnsi wch =>
      match st with
      | VTStates.Escape =>
        if wch = 0x50 then [Op.Enter VTStates.DcsEntry, Op.ActionClear]
        else csiTable.Proceed isC1 st isInput isAnsi wch
      | VTStates.CsiEntry | VTStates.CsiParam | VTStates.CsiSubParam =>
        if wch ≤ 0x1F ∧ wch ≠ 0x1B then [Op.ActionExecute]
        else csiTable.Proceed isC1 st isInput isAnsi wch
      | VTStates.DcsEntry => [Op.ActionDcsDispatch]
      | VTStates.DcsPassThrough => [Op.HandleDcsPassThrough]
      | VTStates.DcsIgnore => [Op.ActionIgnore]
      | _ => csiTable.Proceed isC1 st isInput isAnsi wch }
/-! # Theorems -/

/-! ## Ground scanner -/

theorem isActionableFromGround_iff (c : Nat) (hc : c < 65536) :
    isActionableFromGround c = true ↔ ActionableSpec c := by
  unfold isActionableFromGround ActionableSpec
  simp only [Bool.or_eq_true, decide_eq_true_eq]
  omega

theorem plainLoop_eq (rest : List Nat) (it : Nat) :
    plainLoop rest it = it + rest.findIdx isActionableFromGround := by
  induction rest generalizing it with
  | nil => simp [plainLoop]
  | cons w ws ih =>
    rw [plainLoop, List.findIdx_cons]
    cases h : isActionableFromGround w
    · simp [ih]; omega
    · simp

theorem findIdx_drop_add (p : Nat → Bool) (data : List Nat) (it : Nat)
    (hit : it ≤ (data.findIdx p)) :
    data.findIdx p = it + (data.drop it).findIdx p := by
  induction data generalizing it with
  | nil => simp at hit; simp [hit]
  | cons w ws ih =>
    cases it with
    | zero => simp
    | succ k =>
      rw [List.findIdx_cons] at hit ⊢
      cases h : p w
      · simp [h] at hit
        simp only [cond_false, List.drop_succ_cons]
        rw [ih k hit]; omega
      · simp [h] at hit

theorem length_eight (l : List Nat) (h : l.length = 8) :
    ∃ a b c d e f g k, l = [a, b, c, d, e, f, g, k] := by
  rcases l with _ | ⟨a, _ | ⟨b, _ | ⟨c, _ | ⟨d, _ | ⟨e, _ | ⟨f, _ | ⟨g, _ | ⟨k, _ | ⟨m, t⟩⟩⟩⟩⟩⟩⟩⟩⟩ <;>
    simp at h
  exact ⟨a, b, c, d, e, f, g, k, rfl⟩

theorem lane_eq (w : Nat) :
    ((if w - 0x1f = 0 then 0xFFFF else 0) ||| (if (w + 0xff81) % 65536 - 0x20 = 0 then 0xFFFF else 0))
      = laneFlag w := by
  have hk : (w + 65536 - 0x7f) = w + 0xff81 := by omega
  unfold laneFlag isActionableFromGround
  rw [hk]
  by_cases h1 : w ≤ 0x1f <;> by_cases h2 : (w + 0xff81) % 65536 ≤ 0x20
  · have e1 : w - 0x1f = 0 := by omega
    have e2 : (w + 0xff81) % 65536 - 0x20 = 0 := by omega
    simp [h1, h2, e1, e2]
  · have e1 : w - 0x1f = 0 := by omega
    have e2 : ¬ ((w + 0xff81) % 65536 - 0x20 = 0) := by omega
    simp [h1, h2, e1, e2]
  · have e1 : ¬ (w - 0x1f = 0) := by omega
    have e2 : (w + 0xff81) % 65536 - 0x20 = 0 := by omega
    simp [h1, h2, e1, e2]
  · have e1 : ¬ (w - 0x1f = 0) := by omega
    have e2 : ¬ ((w + 0xff81) % 65536 - 0x20 = 0) := by omega
    simp [h1, h2, e1, e2]

theorem sseMask_eq (wch : List Nat) (h : wch.length = 8) :
    sseMask wch = _mm_movemask_epi8 (wch.map laneFlag) := by
  obtain ⟨a, b, c, d, e, f, g, k, rfl⟩ := length_eight wch h
  simp only [sseMask, _mm_setzero_si128, _mm_subs_epu16, _mm_set1_epi16, _mm_add_epi16,
    _mm_cmpeq_epi16, _mm_or_si128, List.replicate, List.zipWith, List.map, lane_eq]

theorem movemask_laneFlag (l : List Nat) :
    (_mm_movemask_epi8 (l.map laneFlag) = 0 ↔ ∀ w ∈ l, isActionableFromGround w = false) ∧
    (_mm_movemask_epi8 (l.map laneFlag) ≠ 0 → ∀ width, 2 * l.length ≤ width →
      bitScanForwardAux width (_mm_movemask_epi8 (l.map laneFlag)) / 2
        = l.findIdx isActionableFromGround) := by
  induction l with
  | nil => simp [_mm_movemask_epi8]
  | cons w ws ih =>
    obtain ⟨ih1, ih2⟩ := ih
    cases h : isActionableFromGround w
    · have hf : laneFlag w = 0 := by simp [laneFlag, h]
      have hm : _mm_movemask_epi8 ((w :: ws).map laneFlag)
          = 4 * _mm_movemask_epi8 (ws.map laneFlag) := by
        simp [_mm_movemask_epi8, hf]
      rw [hm]
      refine ⟨?_, ?_⟩
      · simp [h, ← ih1]
      · intro hne width hw
        have hne2 : _mm_movemask_epi8 (ws.map laneFlag) ≠ 0 := by omega
        obtain ⟨v, rfl⟩ : ∃ v, width = v + 2 := ⟨width - 2, by simp at hw; omega⟩
        have hv : 2 * ws.length ≤ v := by simp at hw; omega
        have := ih2 hne2 v hv
        rw [List.findIdx_cons, h, ← this]
        simp only [bitScanForwardAux, cond_false]
        have e1 : ¬ (4 * _mm_movemask_epi8 (ws.map laneFlag) % 2 = 1) := by omega
        have e2 : ¬ (4 * _mm_movemask_epi8 (ws.map laneFlag) / 2 % 2 = 1) := by omega
        have e3 : 4 * _mm_movemask_epi8 (ws.map laneFlag) / 2 / 2
            = _mm_movemask_epi8 (ws.map laneFlag) := by omega
        simp only [e1, e2, e3, if_false]
        omega
    · have hf : laneFlag w = 0xFFFF := by simp [laneFlag, h]
      have hm : _mm_movemask_epi8 ((w :: ws).map laneFlag)
          = 3 + 4 * _mm_movemask_epi8 (ws.map laneFlag) := by
        simp [_mm_movemask_epi8, hf]
      rw [hm]
      refine ⟨?_, ?_⟩
      · simp [h]
      · intro _ width hw
        obtain ⟨v, rfl⟩ : ∃ v, width = v + 1 := ⟨width - 1, by simp at hw; omega⟩
        rw [List.findIdx_cons, h]
        have e1 : (3 + 4 * _mm_movemask_epi8 (ws.map laneFlag)) % 2 = 1 := by omega
        simp [bitScanForwardAux, e1]

theorem sseLoop_eq (fuel : Nat) (data : List Nat) (k : Nat)
    (hfuel : data.length / 8 < k + fuel)
    (hk : k ≤ data.length / 8)
    (hinv : 8 * k ≤ data.findIdx isActionableFromGround) :
    sseLoop fuel data (8 * k) = data.findIdx isActionableFromGround := by
  induction fuel generalizing k with
  | zero => omega
  | succ fuel ih =>
    rw [sseLoop]
    split
    · rename_i hlt
      have hk8 : 8 * k + 8 ≤ data.length := by omega
      have hlen : (_mm_loadu_si128 data (8 * k)).length = 8 := by
        simp [_mm_loadu_si128]; omega
      have hmask := sseMask_eq _ hlen
      obtain ⟨m1, m2⟩ := movemask_laneFlag (_mm_loadu_si128 data (8 * k))
      have hsplit := findIdx_drop_add isActionableFromGround data (8 * k) hinv
      have htake : (_mm_loadu_si128 data (8 * k)).findIdx isActionableFromGround
          = min 8 ((data.drop (8 * k)).findIdx isActionableFromGround) := by
        simp [_mm_loadu_si128]
      simp only [hmask]
      split
      · rename_i hne
        have hb := m2 hne 32 (by omega)
        rw [_BitScanForward, hb, htake, hsplit]
        have hex : (_mm_loadu_si128 data (8 * k)).findIdx isActionableFromGround
            < (_mm_loadu_si128 data (8 * k)).length := by
          rw [List.findIdx_lt_length]
          by_contra hcon
          apply hne
          rw [m1]
          intro w hw
          by_contra hw2
          exact hcon ⟨w, hw, by simpa using hw2⟩
        rw [htake, hlen] at hex
        omega
      · rename_i hz
        have hz : _mm_movemask_epi8 ((_mm_loadu_si128 data (8 * k)).map laneFlag) = 0 := by
          by_contra hcon; exact hz hcon
        have hall := m1.mp hz
        have hfull : (_mm_loadu_si128 data (8 * k)).findIdx isActionableFromGround = 8 := by
          have := List.findIdx_eq_length_of_false hall
          rw [this, hlen]
        have := ih (k + 1) (by omega) (by omega) (by rw [hsplit]; rw [htake] at hfull; omega)
        rw [← this]; congr 1
    · rename_i hge
      have hk' : k = data.length / 8 := by omega
      rw [findActionableFromGroundPlain, plainLoop_eq]
      exact (findIdx_drop_add isActionableFromGround data (8 * k) hinv).symm

theorem findActionableFromGround_eq_findIdx (data : List Nat) :
    findActionableFromGround data = data.findIdx isActionableFromGround := by
  have := sseLoop_eq (data.length / 8 + 1) data 0 (by omega) (by omega) (by omega)
  simpa [findActionableFromGround] using this

/-- C1: `findActionableFromGround` returns the smallest index whose character
is a C0 control, DEL or an 8-bit C1 control (`c ≤ 0x1F` or `0x7F ≤ c ≤ 0x9F`),
and the length of the slice when the slice holds no such character. -/
theorem findActionableFromGround_first (data : List Nat) (hw : ∀ c ∈ data, c < 65536) :
    findActionableFromGround data ≤ data.length ∧
    (∀ j c, j < findActionableFromGround data → data[j]? = some c → ¬ ActionableSpec c) ∧
    (∀ c, data[findActionableFromGround data]? = some c → ActionableSpec c) ∧
    ((∀ c ∈ data, ¬ ActionableSpec c) → findActionableFromGround data = data.length) := by
  rw [findActionableFromGround_eq_findIdx]
  refine ⟨List.findIdx_le_length _, ?_, ?_, ?_⟩
  · intro j c hj hc
    have hjl : j < data.length := lt_of_lt_of_le hj (List.findIdx_le_length _)
    have hcj : data[j] = c := by
      rw [List.getElem?_eq_getElem hjl] at hc; exact Option.some.inj hc
    have hmem : c ∈ data := hcj ▸ List.getElem_mem hjl
    have := List.not_of_lt_findIdx hj
    rw [hcj] at this
    rw [← isActionableFromGround_iff c (hw c hmem)]
    simp [this]
  · intro c hc
    have hmem : c ∈ data := List.getElem?_mem hc
    rw [← isActionableFromGround_iff c (hw c hmem)]
    exact List.findIdx_of_getElem?_eq_some hc
  · intro hall
    apply List.findIdx_eq_length_of_false
    intro c hc
    have := hall c hc
    rw [← isActionableFromGround_iff c (hw c hc)] at this
    simpa using this

theorem findActionableFromGround_first_witness :
    findActionableFromGround [0x41, 0x42, 0x43, 0x44, 0x45, 0x46, 0x47, 0x48, 0x49, 0x1B, 0x5B] = 9 ∧
    findActionableFromGround [0x41, 0x42, 0x43, 0x44, 0x45, 0x46, 0x47, 0x48, 0x49, 0x1B, 0x5B]
      ≤ [0x41, 0x42, 0x43, 0x44, 0x45, 0x46, 0x47, 0x48, 0x49, 0x1B, 0x5B].length ∧
    (∀ c, [0x41, 0x42, 0x43, 0x44, 0x45, 0x46, 0x47, 0x48, 0x49, 0x1B, 0x5B][
        findActionableFromGround [0x41, 0x42, 0x43, 0x44, 0x45, 0x46, 0x47, 0x48, 0x49, 0x1B, 0x5B]]?
          = some c → ActionableSpec c) :=
  ⟨by decide,
   (findActionableFromGround_first [0x41, 0x42, 0x43, 0x44, 0x45, 0x46, 0x47, 0x48, 0x49, 0x1B, 0x5B]
      (by decide)).1,
   (findActionableFromGround_first [0x41, 0x42, 0x43, 0x44, 0x45, 0x46, 0x47, 0x48, 0x49, 0x1B, 0x5B]
      (by decide)).2.2.1⟩

/-! ## Parameter accumulation -/

theorem wrapInt32_id (x : Int) (h0 : -2147483648 ≤ x) (h1 : x < 2147483648) : wrapInt32 x = x := by
  unfold wrapInt32; omega

theorem accumulate_digit (c : Nat) (v : Int) (n : Nat) (hc : IsDigit c)
    (hv : v = ((min n 65535 : Nat) : Int)) :
    _AccumulateTo c v = ((min (10 * n + (c - 0x30)) 65535 : Nat) : Int) ∧
    0 ≤ v * 10 + ((c : Int) - 0x30) ∧ v * 10 + ((c : Int) - 0x30) ≤ 655359 ∧
    wrapInt32 (v * 10 + ((c : Int) - 0x30)) = v * 10 + ((c : Int) - 0x30) := by
  unfold IsDigit at hc
  have hw : wrapInt32 (v * 10 + ((c : Int) - 0x30)) = v * 10 + ((c : Int) - 0x30) := by
    apply wrapInt32_id <;> omega
  refine ⟨?_, by omega, by omega, hw⟩
  unfold _AccumulateTo MAX_PARAMETER_VALUE
  simp only [hw]
  split <;> omega

theorem foldl_accumulate (ds : List Nat) (hd : ∀ c ∈ ds, IsDigit c) (n : Nat) (v : Int)
    (hv : v = ((min n 65535 : Nat) : Int)) :
    ds.foldl (fun a c => _AccumulateTo c a) v
      = ((min (ds.foldl (fun n c => 10 * n + (c - 0x30)) n) 65535 : Nat) : Int) := by
  induction ds generalizing n v with
  | nil => simpa using hv
  | cons c cs ih =>
    simp only [List.foldl_cons]
    apply ih (fun d hd' => hd d (List.mem_cons_of_mem _ hd'))
    exact (accumulate_digit c v n (hd c (List.mem_cons_self _ _)) hv).1

/-- C3: folding `_AccumulateTo` over the characters of a decimal numeral
(in particular a non-empty one), starting from 0, yields `min n 65535` for the value `n` of the numeral, and at
every step the 32-bit computation `value * 10 + digit` stays within
`0 .. 655359`, so that it is not changed by the reduction to 32 bits. -/
theorem accumulateTo_fold_clamps (ds : List Nat) (hd : ∀ c ∈ ds, IsDigit c) :
    ds.foldl (fun a c => _AccumulateTo c a) 0 = ((min (decimalValue ds) 65535 : Nat) : Int) ∧
    ∀ (pre : List Nat) (c : Nat) (suf : List Nat), ds = pre ++ c :: suf →
      0 ≤ pre.foldl (fun a c => _AccumulateTo c a) 0 * 10 + ((c : Int) - 0x30) ∧
      pre.foldl (fun a c => _AccumulateTo c a) 0 * 10 + ((c : Int) - 0x30) ≤ 655359 ∧
      wrapInt32 (pre.foldl (fun a c => _AccumulateTo c a) 0 * 10 + ((c : Int) - 0x30))
        = pre.foldl (fun a c => _AccumulateTo c a) 0 * 10 + ((c : Int) - 0x30) := by
  refine ⟨foldl_accumulate ds hd 0 0 (by simp), ?_⟩
  intro pre c suf hs
  have hpre : ∀ d ∈ pre, IsDigit d := fun d hd' => hd d (by rw [hs]; simp [hd'])
  have hc : IsDigit c := hd c (by rw [hs]; simp)
  have := foldl_accumulate pre hpre 0 0 (by simp)
  exact (accumulate_digit c _ _ hc this).2

theorem accumulateTo_fold_clamps_witness :
    [0x39, 0x39, 0x39, 0x39, 0x39, 0x39].foldl (fun a c => _AccumulateTo c a) 0
      = ((min (decimalValue [0x39, 0x39, 0x39, 0x39, 0x39, 0x39]) 65535 : Nat) : Int) :=
  (accumulateTo_fold_clamps [0x39, 0x39, 0x39, 0x39, 0x39, 0x39] (by decide)).1

/-! ## Parameter actions -/

theorem setBack_setBack {α : Type} (v : List α) (x y : α) :
    setBack (setBack v x) y = setBack v y := by
  cases v with
  | nil => rfl
  | cons a t =>
    simp only [setBack]
    cases h : (a :: t).dropLast ++ [x] with
    | nil => simp at h
    | cons b u => simp [← h]

theorem setBack_ne_nil {α : Type} (v : List α) (x : α) (h : v ≠ []) : setBack v x ≠ [] := by
  cases v with
  | nil => exact absurd rfl h
  | cons a t => simp [setBack]

theorem getLast?_setBack {α : Type} (v : List α) (x : α) (h : v ≠ []) :
    (setBack v x).getLast? = some x := by
  cases v with
  | nil => exact absurd rfl h
  | cons a t => simp [setBack]

theorem length_setBack {α : Type} (v : List α) (x : α) : (setBack v x).length = v.length := by
  cases v with
  | nil => rfl
  | cons a t => simp [setBack]

theorem setBack_append_singleton {α : Type} (v : List α) (x y : α) :
    setBack (v ++ [x]) y = v ++ [y] := by
  cases h : v ++ [x] with
  | nil => simp at h
  | cons a t => simp [setBack, ← h]

theorem greedyDigits_spec (look : List Nat) (v : Int) :
    ∃ k, k ≤ look.length ∧ greedyDigits look v = (k, (look.take k).foldl (fun a c => _AccumulateTo c a) v)
      ∧ ∀ d ∈ look.take k, IsDigit d := by
  induction look generalizing v with
  | nil => exact ⟨0, by simp [greedyDigits]⟩
  | cons c cs ih =>
    by_cases hc : 0x30 ≤ c ∧ c ≤ 0x39
    · obtain ⟨k, hk, he, hd⟩ := ih (_AccumulateTo c v)
      refine ⟨k + 1, by simp; omega, ?_, ?_⟩
      · simp [greedyDigits, hc, he]
      · intro d hd'
        simp only [List.take_succ_cons, List.mem_cons] at hd'
        rcases hd' with rfl | hd'
        · exact hc
        · exact hd d hd'
    · exact ⟨0, by simp, by simp [greedyDigits, hc], by simp⟩

theorem ensureParam_ne_nil (ps : ParamState) : (ensureParam ps)._parameters ≠ [] := by
  unfold ensureParam
  split
  · simp
  · rename_i h; simpa using h

theorem ensureParam_of_ne_nil (ps : ParamState) (h : ps._parameters ≠ []) : ensureParam ps = ps := by
  unfold ensureParam
  cases hp : ps._parameters with
  | nil => exact absurd hp h
  | cons a t => simp

theorem ensureParam_overflowed (ps : ParamState) :
    (ensureParam ps)._parameterLimitOverflowed = ps._parameterLimitOverflowed := by
  unfold ensureParam; split <;> rfl

theorem paramBody_overflowed (ps : ParamState) (c : Nat) (rest : List Nat)
    (h : ps._parameterLimitOverflowed = true) : paramBody ps c rest = (ps, 0) := by
  simp [paramBody, h]

theorem paramBody_delim (ps : ParamState) (rest : List Nat)
    (h : ps._parameterLimitOverflowed = false) :
    paramBody ps 0x3B rest =
      (if (ensureParam ps)._parameters.length ≥ MAX_PARAMETER_COUNT then
        { ensureParam ps with _parameterLimitOverflowed := true }
      else
        { ensureParam ps with
          _parameters := (ensureParam ps)._parameters ++ [none],
          _subParameterCounter := 0,
          _subParameterLimitOverflowed := false,
          _subParameterRanges := (ensureParam ps)._subParameterRanges
            ++ [((ensureParam ps)._subParameters.length % 256,
                 (ensureParam ps)._subParameters.length % 256)] }, 0) := by
  by_cases he : ps._parameters.isEmpty = true
  · simp only [paramBody, h, ensureParam, _isParameterDelimiter, he]
    simp only [Bool.not_false, if_true, beq_self_eq_true]
    split_ifs <;> rfl
  · simp only [paramBody, h, ensureParam, _isParameterDelimiter, he]
    simp only [Bool.not_false, if_true, beq_self_eq_true, Bool.false_eq_true, if_false]
    split_ifs <;> rfl

theorem paramBody_acc (ps : ParamState) (c : Nat) (rest : List Nat)
    (h : ps._parameterLimitOverflowed = false) (hc : c ≠ 0x3B) :
    paramBody ps c rest =
      ({ ensureParam ps with
          _parameters := setBack (ensureParam ps)._parameters
            (some (greedyDigits rest (_AccumulateTo c (currentValue ps))).2) },
       (greedyDigits rest (_AccumulateTo c (currentValue ps))).1) := by
  have : (c == 0x3B) = false := by simpa using hc
  by_cases he : ps._parameters.isEmpty = true
  · simp [paramBody, h, ensureParam, _isParameterDelimiter, currentValue, he, this]
  · simp [paramBody, h, ensureParam, _isParameterDelimiter, currentValue, he, this]

theorem subParamBody_overflowed (ps : ParamState) (c : Nat)
    (h : ps._subParameterLimitOverflowed = true) : subParamBody ps c = ps := by
  simp [subParamBody, h]

theorem subParamBody_delim (ps : ParamState) (h : ps._subParameterLimitOverflowed = false) :
    subParamBody ps 0x3A =
      if (ensureParam ps)._subParameterCounter ≥ MAX_SUBPARAMETER_COUNT then
        { ensureParam ps with _subParameterLimitOverflowed := true }
      else
        { ensureParam ps with
          _subParameters := (ensureParam ps)._subParameters ++ [none],
          _subParameterRanges := bumpBackEnd (ensureParam ps)._subParameterRanges,
          _subParameterCounter := ((ensureParam ps)._subParameterCounter + 1) % 256 } := by
  by_cases he : ps._parameters.isEmpty = true
  · simp only [subParamBody, h, ensureParam, _isSubParameterDelimiter, he]
    simp only [Bool.not_false, if_true, beq_self_eq_true]
  · simp only [subParamBody, h, ensureParam, _isSubParameterDelimiter, he]
    simp only [Bool.not_false, if_true, beq_self_eq_true, Bool.false_eq_true, if_false]

theorem subParamBody_acc (ps : ParamState) (c : Nat)
    (h : ps._subParameterLimitOverflowed = false) (hc : c ≠ 0x3A) :
    subParamBody ps c =
      { ensureParam ps with
        _subParameters := setBack (ensureParam ps)._subParameters
          (some (_AccumulateTo c (((ensureParam ps)._subParameters.getLast?.getD none).getD 0))) } := by
  have : (c == 0x3A) = false := by simpa using hc
  by_cases he : ps._parameters.isEmpty = true
  · simp [subParamBody, h, ensureParam, _isSubParameterDelimiter, he, this]
  · simp [subParamBody, h, ensureParam, _isSubParameterDelimiter, he, this]

theorem paramBody_nolook (ps : ParamState) (c : Nat) (rest : List Nat)
    (h : ps._parameterLimitOverflowed = true ∨ c = 0x3B) :
    paramBody ps c rest = ((paramBody ps c []).1, 0) := by
  cases ho : ps._parameterLimitOverflowed
  · rcases h with h | h
    · rw [ho] at h; cases h
    · subst h
      rw [paramBody_delim ps rest ho, paramBody_delim ps [] ho]
  · rw [paramBody_overflowed ps c rest ho, paramBody_overflowed ps c [] ho]

/-- The Param action without lookahead, on the parameter members. -/
theorem paramBody_digits (ds : List Nat) (hd : ∀ d ∈ ds, IsDigit d) (qs : ParamState)
    (P : List VTParameter) (v : Int) (hP : P ≠ [])
    (ho : qs._parameterLimitOverflowed = false) (hq : qs._parameters = setBack P (some v)) :
    ds.foldl (fun ps c => (paramBody ps c []).1) qs
      = { qs with _parameters := setBack P (some (ds.foldl (fun a c => _AccumulateTo c a) v)) } := by
  induction ds generalizing qs v with
  | nil => simp [← hq]
  | cons d ds ih =>
    have hdd : IsDigit d := hd d (List.mem_cons_self _ _)
    have hne : d ≠ 0x3B := by unfold IsDigit at hdd; omega
    have hnn : qs._parameters ≠ [] := by rw [hq]; exact setBack_ne_nil _ _ hP
    have hcv : currentValue qs = v := by
      simp [currentValue, ensureParam_of_ne_nil qs hnn, hq, getLast?_setBack _ _ hP]
    simp only [List.foldl_cons]
    rw [paramBody_acc qs d [] ho hne, ensureParam_of_ne_nil qs hnn, hcv]
    simp only [greedyDigits]
    rw [ih (fun x hx => hd x (List.mem_cons_of_mem _ hx))
      { qs with _parameters := setBack qs._parameters (some (_AccumulateTo d v)) }
      (_AccumulateTo d v) ho (by simp [hq, setBack_setBack])]

theorem paramBody_greedy (ps : ParamState) (c : Nat) (rest : List Nat) :
    ∃ k, k ≤ rest.length ∧ (paramBody ps c rest).2 = k ∧
      (paramBody ps c rest).1
        = (rest.take k).foldl (fun qs d => (paramBody qs d []).1) (paramBody ps c []).1 ∧
      (∀ d ∈ rest.take k, IsDigit d) ∧
      (k ≠ 0 → ps._parameterLimitOverflowed = false ∧ c ≠ 0x3B) := by
  by_cases h : ps._parameterLimitOverflowed = true ∨ c = 0x3B
  · refine ⟨0, Nat.zero_le _, ?_, ?_, by simp, by simp⟩
    · rw [paramBody_nolook ps c rest h]
    · rw [paramBody_nolook ps c rest h]; simp
  · have ho : ps._parameterLimitOverflowed = false := by
      cases hh : ps._parameterLimitOverflowed
      · rfl
      · exact absurd (Or.inl hh) h
    have hc : c ≠ 0x3B := fun hh => h (Or.inr hh)
    obtain ⟨k, hk, he, hd⟩ := greedyDigits_spec rest (_AccumulateTo c (currentValue ps))
    refine ⟨k, hk, ?_, ?_, hd, fun _ => ⟨ho, hc⟩⟩
    · rw [paramBody_acc ps c rest ho hc, he]
    · rw [paramBody_acc ps c rest ho hc, paramBody_acc ps c [] ho hc, he]
      simp only [greedyDigits]
      rw [paramBody_digits (rest.take k) hd _ (ensureParam ps)._parameters
        (_AccumulateTo c (currentValue ps)) (ensureParam_ne_nil ps)
        (by simp [ensureParam_overflowed, ho]) rfl]

theorem stepFields_param_digits (ds : List Nat) (hd : ∀ d ∈ ds, IsDigit d) (qs : ParamState) :
    ds.foldl stepFields (qs, false) = (ds.foldl (fun ps c => (paramBody ps c []).1) qs, false) := by
  induction ds generalizing qs with
  | nil => rfl
  | cons d ds ih =>
    have hdd : IsDigit d := hd d (List.mem_cons_self _ _)
    have hne : (d == 0x3A) = false := by unfold IsDigit at hdd; simp; omega
    simp only [List.foldl_cons]
    rw [← ih (fun x hx => hd x (List.mem_cons_of_mem _ hx))]
    simp [stepFields, _isSubParameterDelimiter, hne]

/-- The loop over the current string computes, on any view `proj` of the parser
that ignores the cursor, the fold of the view's own step `sf`, provided each
`step` advances the cursor over characters that `sf` accounts for. -/
theorem actLoop_fold {α : Type} (step : Parser E → Nat → Parser E) (proj : Parser E → α)
    (sf : α → Nat → α)
    (hproj : ∀ (p : Parser E) (c : Cursor), proj { p with cur := c } = proj p)
    (hstep : ∀ (p : Parser E) (c : Nat), ∃ k,
      k ≤ (p.cur._currentString.drop (p.cur._curPos + 1)).length ∧
      (step p c).cur._curPos = p.cur._curPos + k ∧
      (step p c).cur._currentString = p.cur._currentString ∧
      proj (step p c)
        = ((p.cur._currentString.drop (p.cur._curPos + 1)).take k).foldl sf (sf (proj p) c))
    (n : Nat) : ∀ (p : Parser E) (fuel : Nat),
      p.cur._currentString.length - p.cur._curPos = n → n ≤ fuel →
      proj (actLoop step fuel p) = (p.cur._currentString.drop p.cur._curPos).foldl sf (proj p) := by
  induction n using Nat.strong_induction_on with
  | _ n ih =>
    intro p fuel hn hfuel
    cases fuel with
    | zero =>
      have : p.cur._currentString.length ≤ p.cur._curPos := by omega
      simp [actLoop, List.drop_eq_nil_of_le this]
    | succ fuel =>
      rw [actLoop]
      split
      · rename_i hlt
        have hdrop : p.cur._currentString.drop p.cur._curPos
            = p.cur._currentString.getD p.cur._curPos 0
              :: p.cur._currentString.drop (p.cur._curPos + 1) := by
          rw [List.drop_eq_getElem_cons hlt]
          simp [List.getD_eq_getElem?_getD, List.getElem?_eq_getElem hlt]
        generalize p.cur._currentString.getD p.cur._curPos 0 = c at hdrop ⊢
        obtain ⟨k, hk, hpos, hstr, hpr⟩ := hstep p c
        simp only [List.length_drop] at hk
        have := ih (p.cur._currentString.length - (p.cur._curPos + k + 1)) (by omega)
          { step p c with cur := { (step p c).cur with _curPos := (step p c).cur._curPos + 1 } }
          fuel (by dsimp only; rw [hstr, hpos]) (by omega)
        dsimp only at this ⊢
        rw [this, hproj, hpr, hdrop]
        simp only [hstr, hpos, List.foldl_cons]
        rw [← List.foldl_append]
        have hd2 : List.drop (p.cur._curPos + k + 1) p.cur._currentString
            = (p.cur._currentString.drop (p.cur._curPos + 1)).drop k := by
          rw [List.drop_drop]; congr 1; omega
        rw [hd2, List.take_append_drop]
      · rename_i hge
        have : p.cur._currentString.length ≤ p.cur._curPos := by omega
        simp [List.drop_eq_nil_of_le this]

theorem applyParam_fold (p : Parser E) (s : List Nat) :
    (applyParam p s).seq.params = s.foldl (fun ps c => (paramBody ps c []).1) p.seq.params := by
  have := actLoop_fold (E := E) _ActionParam (fun p => p.seq.params)
    (fun ps c => (paramBody ps c []).1) (fun _ _ => rfl)
    (by
      intro p c
      obtain ⟨k, hk, h2, h1, _, _⟩ :=
        paramBody_greedy p.seq.params c (p.cur._currentString.drop (p.cur._curPos + 1))
      exact ⟨k, hk, by simp [_ActionParam, h2], rfl, by simp [_ActionParam, h1]⟩)
    s.length { p with cur := { p.cur with _currentString := s, _curPos := 0 } } s.length
    (by simp) (Nat.le_refl _)
  simpa [applyParam] using this

theorem csiParamProceed_spec (p : Parser E) (c : Nat) : ∃ k,
    k ≤ (p.cur._currentString.drop (p.cur._curPos + 1)).length ∧
    (csiParamProceed p c).cur._curPos = p.cur._curPos + k ∧
    (csiParamProceed p c).cur._currentString = p.cur._currentString ∧
    fieldsOf (csiParamProceed p c)
      = ((p.cur._currentString.drop (p.cur._curPos + 1)).take k).foldl stepFields
          (stepFields (fieldsOf p) c) := by
  obtain ⟨k, hk, h2, h1, hd, hk0⟩ :=
    paramBody_greedy p.seq.params c (p.cur._currentString.drop (p.cur._curPos + 1))
  by_cases hs : p.seq._state = VTStates.CsiSubParam
  · by_cases hc : c = 0x3B
    · have hk' : k = 0 := by
        by_contra hne; exact (hk0 hne).2 hc
      subst hk'
      subst hc
      refine ⟨0, Nat.zero_le _, ?_, ?_, ?_⟩
      · simp [csiParamProceed, hs, _isParameterDelimiter, _ActionParam, h2]
      · simp [csiParamProceed, hs, _isParameterDelimiter, _ActionParam]
      · simp only [List.take_zero, List.foldl_nil] at h1
        simp [csiParamProceed, hs, _isParameterDelimiter, _ActionParam, fieldsOf,
          stepFields, h1]
    · have hc' : (c == 0x3B) = false := by simpa using hc
      refine ⟨0, Nat.zero_le _, ?_, ?_, ?_⟩
      · simp [csiParamProceed, hs, _isParameterDelimiter, hc', _ActionSubParam]
      · simp [csiParamProceed, hs, _isParameterDelimiter, hc', _ActionSubParam]
      · simp [csiParamProceed, hs, _isParameterDelimiter, hc', _ActionSubParam, fieldsOf,
          stepFields]
  · by_cases hc : c = 0x3A
    · subst hc
      refine ⟨0, Nat.zero_le _, ?_, ?_, ?_⟩
      · simp [csiParamProceed, hs, _isSubParameterDelimiter, _ActionSubParam]
      · simp [csiParamProceed, hs, _isSubParameterDelimiter, _ActionSubParam]
      · simp [csiParamProceed, hs, _isSubParameterDelimiter, _ActionSubParam, fieldsOf,
          stepFields]
    · have hc' : (c == 0x3A) = false := by simpa using hc
      refine ⟨k, hk, ?_, ?_, ?_⟩
      · simp [csiParamProceed, hs, _isSubParameterDelimiter, hc', _ActionParam, h2]
      · simp [csiParamProceed, hs, _isSubParameterDelimiter, hc', _ActionParam]
      · have hsf : stepFields (fieldsOf p) c = ((paramBody p.seq.params c []).1, false) := by
          simp [stepFields, fieldsOf, hs, _isSubParameterDelimiter, hc']
        rw [hsf, stepFields_param_digits _ hd, ← h1]
        simp [csiParamProceed, hs, _isSubParameterDelimiter, hc', _ActionParam, fieldsOf]

theorem applyCsi_fold (p : Parser E) (s : List Nat) :
    fieldsOf (applyCsi p s) = s.foldl stepFields (fieldsOf p) := by
  have := actLoop_fold (E := E) csiParamProceed fieldsOf stepFields (fun _ _ => rfl)
    csiParamProceed_spec
    s.length { p with cur := { p.cur with _currentString := s, _curPos := 0 } } s.length
    (by simp) (Nat.le_refl _)
  simpa [applyCsi, fieldsOf] using this

theorem extendParam_none (f : List Nat) (hf : ∀ c ∈ f, IsDigit c) :
    extendParam none f = fieldValue f := by
  unfold extendParam fieldValue
  split
  · rfl
  · rw [show (none : VTParameter).getD 0 = 0 from rfl, foldl_accumulate f hf 0 0 (by simp)]
    rfl

theorem splitOnSemi_ne_nil (s : List Nat) : splitOnSemi s ≠ [] := by
  induction s with
  | nil => simp [splitOnSemi]
  | cons c cs ih =>
    rw [splitOnSemi]
    split
    · simp
    · split <;> simp

theorem splitOnSemi_cons_semi (cs : List Nat) : splitOnSemi (0x3B :: cs) = [] :: splitOnSemi cs := by
  simp [splitOnSemi]

theorem splitOnSemi_cons_other (c : Nat) (cs : List Nat) (hc : c ≠ 0x3B) :
    ∃ f fs, splitOnSemi cs = f :: fs ∧ splitOnSemi (c :: cs) = (c :: f) :: fs := by
  cases h : splitOnSemi cs with
  | nil => exact absurd h (splitOnSemi_ne_nil cs)
  | cons f fs => exact ⟨f, fs, rfl, by simp [splitOnSemi, hc, h]⟩

theorem splitOnSemi_digits (s : List Nat) (hs : ∀ c ∈ s, IsParamChar c) :
    ∀ f ∈ splitOnSemi s, ∀ c ∈ f, IsDigit c := by
  induction s with
  | nil => simp [splitOnSemi]
  | cons c cs ih =>
    have ih' := ih (fun x hx => hs x (List.mem_cons_of_mem _ hx))
    by_cases hc : c = 0x3B
    · subst hc
      rw [splitOnSemi_cons_semi]
      intro f hf
      rcases List.mem_cons.mp hf with rfl | hf
      · simp
      · exact ih' f hf
    · obtain ⟨f0, fs, h1, h2⟩ := splitOnSemi_cons_other c cs hc
      rw [h2]
      rw [h1] at ih'
      intro f hf
      rcases List.mem_cons.mp hf with rfl | hf
      · intro x hx
        rcases List.mem_cons.mp hx with rfl | hx
        · rcases hs x (List.mem_cons_self _ _) with h | h
          · exact h
          · exact absurd h hc
        · exact ih' f0 (List.mem_cons_self _ _) x hx
      · exact ih' f (List.mem_cons_of_mem _ hf)

theorem paramFold_overflowed (s : List Nat) (qs : ParamState)
    (h : qs._parameterLimitOverflowed = true) :
    s.foldl (fun ps c => (paramBody ps c []).1) qs = qs := by
  induction s with
  | nil => rfl
  | cons c cs ih => simp only [List.foldl_cons, paramBody_overflowed qs c [] h, ih]

theorem paramBody_ensure (qs : ParamState) (c : Nat) (rest : List Nat)
    (ho : qs._parameterLimitOverflowed = false) :
    paramBody (ensureParam qs) c rest = paramBody qs c rest := by
  have ho' : (ensureParam qs)._parameterLimitOverflowed = false := by
    rw [ensureParam_overflowed, ho]
  by_cases hc : c = 0x3B
  · subst hc
    rw [paramBody_delim _ rest ho', paramBody_delim _ rest ho,
      ensureParam_of_ne_nil _ (ensureParam_ne_nil qs)]
  · rw [paramBody_acc _ c rest ho' hc, paramBody_acc _ c rest ho hc]
    simp only [currentValue, ensureParam_of_ne_nil _ (ensureParam_ne_nil qs)]

theorem splitOnSemi_length_pos (s : List Nat) : 1 ≤ (splitOnSemi s).length := by
  cases h : splitOnSemi s with
  | nil => exact absurd h (splitOnSemi_ne_nil s)
  | cons f fs => simp

/-- The fold of the Param action over a parameter string, from a state whose
current parameter is `last`. -/
theorem paramFold_spec (s : List Nat) (hs : ∀ c ∈ s, IsParamChar c) (qs : ParamState)
    (P : List VTParameter) (last : VTParameter) (hP : P.length + 1 ≤ 32)
    (ho : qs._parameterLimitOverflowed = false) (hq : qs._parameters = P ++ [last]) :
    (s.foldl (fun ps c => (paramBody ps c []).1) qs)._parameters
        = (P ++ fieldParams last (splitOnSemi s)).take 32 ∧
    (s.foldl (fun ps c => (paramBody ps c []).1) qs)._parameterLimitOverflowed
        = decide (32 < P.length + (splitOnSemi s).length) := by
  induction s generalizing qs P last with
  | nil =>
    simp only [List.foldl_nil, splitOnSemi, fieldParams, extendParam, if_true, hq, ho]
    refine ⟨?_, by simp; omega⟩
    rw [List.take_of_length_le (by simp; omega)]
    simp
  | cons c cs ih =>
    have hcs : ∀ x ∈ cs, IsParamChar x := fun x hx => hs x (List.mem_cons_of_mem _ hx)
    have hnn : qs._parameters ≠ [] := by rw [hq]; simp
    simp only [List.foldl_cons]
    by_cases hc : c = 0x3B
    · subst hc
      rw [paramBody_delim qs [] ho, ensureParam_of_ne_nil qs hnn, splitOnSemi_cons_semi]
      simp only [fieldParams, extendParam, if_true, MAX_PARAMETER_COUNT]
      by_cases hfull : 32 ≤ qs._parameters.length
      · simp only [ge_iff_le, hfull, if_true]
        rw [paramFold_overflowed cs _ rfl]
        have hlen : (P ++ [last]).length = 32 := by
          rw [hq] at hfull; simp at hfull ⊢; omega
        refine ⟨?_, ?_⟩
        · simp only [hq]
          have : P ++ last :: List.map fieldValue (splitOnSemi cs)
              = (P ++ [last]) ++ List.map fieldValue (splitOnSemi cs) := by simp
          rw [this, List.take_left' hlen]
        · have := splitOnSemi_length_pos cs
          simp at hlen ⊢; omega
      · simp only [ge_iff_le, hfull, if_false]
        have hlt : P.length + 1 < 32 := by rw [hq] at hfull; simp at hfull; omega
        obtain ⟨f0, fs, hsp⟩ : ∃ f0 fs, splitOnSemi cs = f0 :: fs := by
          cases h : splitOnSemi cs with
          | nil => exact absurd h (splitOnSemi_ne_nil cs)
          | cons f fs => exact ⟨f, fs, rfl⟩
        have hdig := splitOnSemi_digits cs hcs f0 (by rw [hsp]; exact List.mem_cons_self _ _)
        have := ih hcs
          { qs with _parameters := qs._parameters ++ [none],
                    _subParameterCounter := 0,
                    _subParameterLimitOverflowed := false,
                    _subParameterRanges := qs._subParameterRanges
                      ++ [(qs._subParameters.length % 256, qs._subParameters.length % 256)] }
          (P ++ [last]) none (by simp; omega) ho (by simp [hq])
        rw [this.1, this.2, hsp]
        simp only [fieldParams, extendParam_none f0 hdig, List.map_cons]
        refine ⟨by simp, ?_⟩
        simp only [List.length_cons, List.length_append, List.length_nil, decide_eq_decide]
        omega
    · have hd : IsDigit c := by
        rcases hs c (List.mem_cons_self _ _) with h | h
        · exact h
        · exact absurd h hc
      obtain ⟨f0, fs, h1, h2⟩ := splitOnSemi_cons_other c cs hc
      rw [paramBody_acc qs c [] ho hc, ensureParam_of_ne_nil qs hnn, h2]
      simp only [greedyDigits]
      have hcv : currentValue qs = last.getD 0 := by
        simp [currentValue, ensureParam_of_ne_nil qs hnn, hq]
      have := ih hcs
        { qs with _parameters := setBack qs._parameters (some (_AccumulateTo c (currentValue qs))) }
        P (some (_AccumulateTo c (last.getD 0))) hP ho
        (by simp [hq, setBack_append_singleton, hcv])
      rw [this.1, this.2, h1]
      refine ⟨?_, by simp⟩
      congr 2
      simp only [fieldParams, extendParam]
      congr 1
      by_cases hf : f0 = []
      · simp [hf]
      · simp [hf]

theorem bumpBackEnd_concat (R : List (Nat × Nat)) (r : Nat × Nat) :
    bumpBackEnd (R ++ [r]) = R ++ [(r.1, (r.2 + 1) % 256)] := by
  simp [bumpBackEnd]

theorem paramInv_cleared : ParamInv ParamState.cleared := by
  simp [ParamInv, ParamState.cleared]

theorem paramInv_sub_le (qs : ParamState) (h : ParamInv qs) : qs._subParameters.length ≤ 192 := by
  obtain ⟨_, h2, h3, h4, h5, _, _⟩ := h
  by_cases he : qs._parameters = []
  · simp [(h4 he).1]
  · have := h5 he
    omega

theorem paramInv_ensure (qs : ParamState) (h : ParamInv qs) : ParamInv (ensureParam qs) := by
  by_cases he : qs._parameters = []
  · obtain ⟨h1, h2, h3, h4, h5, h6, h7⟩ := h
    have hr : qs._subParameterRanges = [] := by
      rw [he] at h1; exact List.length_eq_zero.mp h1
    obtain ⟨hs, hc⟩ := h4 he
    simp [ParamInv, ensureParam, he, hr, hs, hc]
  · rw [ensureParam_of_ne_nil qs he]; exact h

theorem paramInv_paramBody (qs : ParamState) (c : Nat) (rest : List Nat) (h : ParamInv qs) :
    ParamInv (paramBody qs c rest).1 := by
  cases ho : qs._parameterLimitOverflowed
  · have hsub := paramInv_sub_le _ (paramInv_ensure qs h)
    have hne := ensureParam_ne_nil qs
    obtain ⟨h1, h2, h3, h4, h5, h6, h7⟩ := paramInv_ensure qs h
    by_cases hc : c = 0x3B
    · subst hc
      rw [paramBody_delim qs rest ho]
      by_cases hfull : (ensureParam qs)._parameters.length ≥ MAX_PARAMETER_COUNT
      · simp only [hfull, if_true]
        exact ⟨h1, h2, h3, h4, h5, h6, h7⟩
      · simp only [hfull, if_false]
        have hmod : (ensureParam qs)._subParameters.length % 256
            = (ensureParam qs)._subParameters.length := Nat.mod_eq_of_lt (by omega)
        have h5' := h5 hne
        unfold MAX_PARAMETER_COUNT at hfull
        refine ⟨by simp [h1], by simp; omega, by simp, by simp, ?_, ?_, ?_⟩
        · intro _; simp; omega
        · intro r hr
          simp only [List.mem_append, List.mem_singleton] at hr
          rcases hr with hr | hr
          · exact h6 r hr
          · subst hr; simp [hmod]
        · intro r hr
          rw [List.getLast?_concat] at hr
          cases hr; simp [hmod]
    · rw [paramBody_acc qs c rest ho hc]
      refine ⟨by simp [h1, length_setBack], by simp [length_setBack]; exact h2, h3, ?_, ?_, h6, h7⟩
      · intro hh; exact absurd hh (setBack_ne_nil _ _ hne)
      · intro _; simp only [length_setBack]; exact h5 hne
  · rw [paramBody_overflowed qs c rest ho]; exact h

theorem paramInv_subParamBody (qs : ParamState) (c : Nat) (h : ParamInv qs) :
    ParamInv (subParamBody qs c) := by
  cases ho : qs._subParameterLimitOverflowed
  · have hsub := paramInv_sub_le _ (paramInv_ensure qs h)
    have hne := ensureParam_ne_nil qs
    obtain ⟨h1, h2, h3, h4, h5, h6, h7⟩ := paramInv_ensure qs h
    by_cases hc : c = 0x3A
    · subst hc
      rw [subParamBody_delim qs ho]
      by_cases hfull : (ensureParam qs)._subParameterCounter ≥ MAX_SUBPARAMETER_COUNT
      · simp only [hfull, if_true]
        exact ⟨h1, h2, h3, h4, h5, h6, h7⟩
      · simp only [hfull, if_false]
        unfold MAX_SUBPARAMETER_COUNT at hfull
        have hrne : (ensureParam qs)._subParameterRanges ≠ [] := by
          intro hh; rw [hh] at h1; simp at h1
          exact hne (List.length_eq_zero.mp h1.symm)
        obtain ⟨R, r, hR⟩ : ∃ R r, (ensureParam qs)._subParameterRanges = R ++ [r] :=
          ⟨_, _, (List.dropLast_append_getLast hrne).symm⟩
        have h5' := h5 hne
        have h7' := h7 r (by rw [hR]; simp)
        have h6' := h6 r (by rw [hR]; simp)
        have hm1 : (r.2 + 1) % 256 = r.2 + 1 := Nat.mod_eq_of_lt (by omega)
        have hm2 : ((ensureParam qs)._subParameterCounter + 1) % 256
            = (ensureParam qs)._subParameterCounter + 1 := Nat.mod_eq_of_lt (by omega)
        rw [hR, bumpBackEnd_concat, hm1, hm2]
        rw [hR] at h1 h6
        refine ⟨by simpa using h1, h2, by simp; omega, ?_, ?_, ?_, ?_⟩
        · intro hh; exact absurd hh hne
        · intro _; simp; omega
        · intro x hx
          simp only [List.mem_append, List.mem_singleton] at hx
          rcases hx with hx | hx
          · have := h6 x (by simp [hx])
            simp; omega
          · subst hx; simp; omega
        · intro x hx
          rw [List.getLast?_concat] at hx
          cases hx; simp; omega
    · rw [subParamBody_acc qs c ho hc]
      refine ⟨h1, h2, h3, ?_, ?_, ?_, ?_⟩
      · intro hh; exact absurd hh hne
      · intro _; simp only [length_setBack]; exact h5 hne
      · intro r hr; simp only [length_setBack]; exact h6 r hr
      · intro r hr; simp only [length_setBack]; exact h7 r hr
  · rw [subParamBody_overflowed qs c ho]; exact h

theorem paramInv_stepFields (f : ParamState × Bool) (c : Nat) (h : ParamInv f.1) :
    ParamInv (stepFields f c).1 := by
  unfold stepFields
  split
  · split
    · exact paramInv_paramBody _ _ _ h
    · exact paramInv_subParamBody _ _ h
  · split
    · exact paramInv_subParamBody _ _ h
    · exact paramInv_paramBody _ _ _ h

theorem paramInv_foldl_stepFields (s : List Nat) (f : ParamState × Bool) (h : ParamInv f.1) :
    ParamInv (s.foldl stepFields f).1 := by
  induction s generalizing f with
  | nil => exact h
  | cons c cs ih => exact ih _ (paramInv_stepFields f c h)

theorem paramInv_foldl_paramBody (s : List Nat) (qs : ParamState) (h : ParamInv qs) :
    ParamInv (s.foldl (fun ps c => (paramBody ps c []).1) qs) := by
  induction s generalizing qs with
  | nil => exact h
  | cons c cs ih => exact ih _ (paramInv_paramBody qs c [] h)

theorem FlushToTerminal_seq (eng : Engine E) (p : Parser E) :
    (FlushToTerminal eng p).1.seq = p.seq := by
  unfold FlushToTerminal
  cases p._cachedSequence with
  | none =>
    dsimp only
    split <;> rfl
  | some cached =>
    dsimp only
    split <;> rfl

theorem callEngine_seq (eng : Engine E) (p : Parser E) (c : EngineCall) :
    (callEngine eng p c).1.seq = { p.seq with _engine := (eng.react p.seq._engine c).engine } := by
  unfold callEngine
  dsimp only
  split
  · rw [FlushToTerminal_seq]
  · rfl

theorem _ActionClear_params (g : Generated) (eng : Engine E) (p : Parser E) :
    (_ActionClear g eng p).seq.params = ParamState.cleared := by
  unfold _ActionClear
  dsimp only
  rw [callEngine_seq]

theorem csiEntry_fields (g : Generated) (eng : Engine E) (p : Parser E) :
    fieldsOf (csiEntry g eng p) = (ParamState.cleared, false) := by
  simp [fieldsOf, csiEntry, _ActionClear_params]

theorem paramFold_cleared (s : List Nat) (hne : s ≠ []) :
    s.foldl (fun ps c => (paramBody ps c []).1) ParamState.cleared
      = s.foldl (fun ps c => (paramBody ps c []).1) (ensureParam ParamState.cleared) := by
  cases s with
  | nil => exact absurd rfl hne
  | cons c cs => simp only [List.foldl_cons, paramBody_ensure ParamState.cleared c [] rfl]

theorem applyParam_cleared (g : Generated) (eng : Engine E) (p0 : Parser E) (s : List Nat)
    (hne : s ≠ []) (hs : ∀ c ∈ s, IsParamChar c) :
    (applyParam (_ActionClear g eng p0) s).seq.params._parameters
        = ((splitOnSemi s).map fieldValue).take 32 ∧
    (applyParam (_ActionClear g eng p0) s).seq.params._parameterLimitOverflowed
        = decide (32 < (splitOnSemi s).length) := by
  rw [applyParam_fold, _ActionClear_params, paramFold_cleared s hne]
  have := paramFold_spec s hs (ensureParam ParamState.cleared) [] none (by simp) rfl rfl
  obtain ⟨f0, fs, hsp⟩ : ∃ f0 fs, splitOnSemi s = f0 :: fs := by
    cases h : splitOnSemi s with
    | nil => exact absurd h (splitOnSemi_ne_nil s)
    | cons f fs => exact ⟨f, fs, rfl⟩
  have hdig := splitOnSemi_digits s hs f0 (by rw [hsp]; exact List.mem_cons_self _ _)
  rw [this.1, this.2, hsp]
  simp [fieldParams, extendParam_none f0 hdig]

/-- C2: from a cleared parser, the Param action applied to the characters of a
non-empty string of digits and `;` with at most 32 `;`-separated fields leaves
exactly one parameter per field, in order: empty for a field without digits,
else the decimal value of the field clamped to 65535. -/
theorem param_one_parameter_per_field (g : Generated) (eng : Engine E) (p0 : Parser E)
    (s : List Nat) (hne : s ≠ []) (hs : ∀ c ∈ s, IsParamChar c)
    (hlen : (splitOnSemi s).length ≤ 32) :
    (applyParam (_ActionClear g eng p0) s).seq.params._parameters
      = (splitOnSemi s).map fieldValue := by
  rw [(applyParam_cleared g eng p0 s hne hs).1]
  exact List.take_of_length_le (by simpa using hlen)

theorem param_one_parameter_per_field_witness :
    (applyParam (_ActionClear nullGenerated nullEngine (Parser.init () false))
      [0x30, 0x3B, 0x3B]).seq.params._parameters = [some 0, none, none] :=
  (param_one_parameter_per_field nullGenerated nullEngine (Parser.init () false)
    [0x30, 0x3B, 0x3B] (by decide) (by decide) (by decide)).trans (by decide)

theorem _ActionParam_overflowed (p : Parser E) (c : Nat)
    (h : p.seq.params._parameterLimitOverflowed = true) : _ActionParam p c = p := by
  unfold _ActionParam
  rw [paramBody_overflowed _ _ _ h]
  rcases p with ⟨a1, a2, a3, a4, ⟨b1, b2, b3, b4, b5, b6, b7, b8⟩, ⟨c1, c2, c3, c4, c5⟩, a7, a8, a9⟩
  rfl

/-- C4: a parameter string with more than 32 `;`-separated fields leaves exactly
the first 32 fields as parameters, with the overflow flag set; the parameter
count never exceeds 32 whatever characters the Param action is applied to; and
once the overflow flag is set the Param action changes nothing at all, for a
single character as for any further string. -/
theorem param_overflow_keeps_first_32 (g : Generated) (eng : Engine E) (p0 : Parser E)
    (s : List Nat) (hs : ∀ c ∈ s, IsParamChar c) (hlen : 32 < (splitOnSemi s).length) :
    (applyParam (_ActionClear g eng p0) s).seq.params._parameters
        = ((splitOnSemi s).take 32).map fieldValue ∧
    (applyParam (_ActionClear g eng p0) s).seq.params._parameters.length = 32 ∧
    (applyParam (_ActionClear g eng p0) s).seq.params._parameterLimitOverflowed = true ∧
    (∀ t : List Nat, (applyParam (_ActionClear g eng p0) t).seq.params._parameters.length ≤ 32) ∧
    (∀ (p : Parser E) (c : Nat), p.seq.params._parameterLimitOverflowed = true →
      _ActionParam p c = p) ∧
    (∀ (p : Parser E) (t : List Nat), p.seq.params._parameterLimitOverflowed = true →
      (applyParam p t).seq.params = p.seq.params) := by
  have hne : s ≠ [] := by
    intro h; subst h; simp [splitOnSemi] at hlen
  obtain ⟨h1, h2⟩ := applyParam_cleared g eng p0 s hne hs
  refine ⟨?_, ?_, ?_, ?_, _ActionParam_overflowed, ?_⟩
  · rw [h1, List.map_take]
  · rw [h1]; simp; omega
  · rw [h2]; simpa using hlen
  · intro t
    rw [applyParam_fold, _ActionClear_params]
    exact (paramInv_foldl_paramBody t _ paramInv_cleared).2.1
  · intro p t h
    rw [applyParam_fold, paramFold_overflowed t _ h]

theorem param_overflow_keeps_first_32_witness :
    (applyParam (_ActionClear nullGenerated nullEngine (Parser.init () false))
      (List.replicate 33 0x3B ++ [0x37])).seq.params._parameters
        = ((splitOnSemi (List.replicate 33 0x3B ++ [0x37])).take 32).map fieldValue :=
  (param_overflow_keeps_first_32 nullGenerated nullEngine (Parser.init () false)
    (List.replicate 33 0x3B ++ [0x37]) (by decide) (by decide)).1

/-! ## Sub-parameters -/

theorem paramBody_digits_last (ds : List Nat) (hd : ∀ d ∈ ds, IsDigit d) (qs : ParamState)
    (P : List VTParameter) (last : VTParameter)
    (ho : qs._parameterLimitOverflowed = false) (hq : qs._parameters = P ++ [last]) :
    ds.foldl (fun ps c => (paramBody ps c []).1) qs
      = { qs with _parameters := P ++ [extendParam last ds] } := by
  cases ds with
  | nil => simp [extendParam, ← hq]
  | cons d ds =>
    have hdd : IsDigit d := hd d (List.mem_cons_self _ _)
    have hne : d ≠ 0x3B := by unfold IsDigit at hdd; omega
    have hnn : qs._parameters ≠ [] := by rw [hq]; simp
    have hcv : currentValue qs = last.getD 0 := by
      simp [currentValue, ensureParam_of_ne_nil qs hnn, hq]
    simp only [List.foldl_cons]
    rw [paramBody_acc qs d [] ho hne, ensureParam_of_ne_nil qs hnn, hcv]
    simp only [greedyDigits]
    rw [paramBody_digits ds (fun x hx => hd x (List.mem_cons_of_mem _ hx))
      { qs with _parameters := setBack qs._parameters (some (_AccumulateTo d (last.getD 0))) }
      (P ++ [last]) (_AccumulateTo d (last.getD 0)) (by simp) ho (by simp [hq])]
    simp [extendParam, setBack_append_singleton]

theorem subParamBody_digits (ds : List Nat) (hd : ∀ d ∈ ds, IsDigit d) (qs : ParamState)
    (S : List VTParameter) (x : VTParameter)
    (ho : qs._subParameterLimitOverflowed = false) (hp : qs._parameters ≠ [])
    (hq : qs._subParameters = S ++ [x]) :
    ds.foldl stepFields (qs, true) = ({ qs with _subParameters := S ++ [extendParam x ds] }, true) := by
  induction ds generalizing qs x with
  | nil => simp [extendParam, ← hq]
  | cons d ds ih =>
    have hdd : IsDigit d := hd d (List.mem_cons_self _ _)
    have hne : d ≠ 0x3A := by unfold IsDigit at hdd; omega
    have hne2 : (d == 0x3B) = false := by unfold IsDigit at hdd; simp; omega
    simp only [List.foldl_cons]
    have hstep : stepFields (qs, true) d
        = ({ qs with _subParameters := S ++ [some (_AccumulateTo d (x.getD 0))] }, true) := by
      simp only [stepFields, _isParameterDelimiter, hne2, if_true, Bool.false_eq_true, if_false]
      rw [subParamBody_acc qs d ho hne, ensureParam_of_ne_nil qs hp]
      simp [hq, setBack_append_singleton]
    rw [hstep, ih (fun y hy => hd y (List.mem_cons_of_mem _ hy))
      { qs with _subParameters := S ++ [some (_AccumulateTo d (x.getD 0))] }
      (some (_AccumulateTo d (x.getD 0))) ho hp rfl]
    simp only [extendParam]
    congr 3
    by_cases hf : ds = []
    · simp [hf]
    · simp [hf]

theorem stepFields_colon (qs : ParamState) (b : Bool) :
    stepFields (qs, b) 0x3A = (subParamBody qs 0x3A, true) := by
  cases b <;> simp [stepFields, _isParameterDelimiter, _isSubParameterDelimiter]

/-- The fold over `k` sub-fields, each introduced by `:`. -/
theorem subFields_fold (fields : List (List Nat)) (hf : ∀ f ∈ fields, ∀ c ∈ f, IsDigit c)
    (qs : ParamState) (b : Bool) (R : List (Nat × Nat)) (a e : Nat)
    (ho : qs._subParameterLimitOverflowed = false) (hp : qs._parameters ≠ [])
    (hc : qs._subParameterCounter + fields.length ≤ 6)
    (hR : qs._subParameterRanges = R ++ [(a, e)]) (he : e + fields.length < 256) :
    (subFieldChars fields).foldl stepFields (qs, b)
      = ({ qs with _subParameters := qs._subParameters ++ fields.map fieldValue,
                   _subParameterRanges := R ++ [(a, e + fields.length)],
                   _subParameterCounter := qs._subParameterCounter + fields.length },
         b || !fields.isEmpty) := by
  induction fields generalizing qs b e with
  | nil =>
    cases qs
    simp only [subFieldChars, List.map_nil, List.flatten_nil, List.foldl_nil, List.append_nil,
      List.length_nil, Nat.add_zero, List.isEmpty_nil, Bool.not_true, Bool.or_false] at hR ⊢
    rw [hR]
  | cons f fs ih =>
    have hfd : ∀ c ∈ f, IsDigit c := hf f (List.mem_cons_self _ _)
    have hfs : ∀ f' ∈ fs, ∀ c ∈ f', IsDigit c := fun f' h' => hf f' (List.mem_cons_of_mem _ h')
    simp only [List.length_cons] at hc he
    have hsplit : subFieldChars (f :: fs) = 0x3A :: (f ++ subFieldChars fs) := by
      simp [subFieldChars]
    rw [hsplit, List.foldl_cons, List.foldl_append, stepFields_colon,
      subParamBody_delim qs ho, ensureParam_of_ne_nil qs hp]
    have hlt : ¬ (qs._subParameterCounter ≥ MAX_SUBPARAMETER_COUNT) := by
      unfold MAX_SUBPARAMETER_COUNT; omega
    simp only [hlt, if_false]
    rw [hR, bumpBackEnd_concat]
    have hm1 : (e + 1) % 256 = e + 1 := Nat.mod_eq_of_lt (by omega)
    have hm2 : (qs._subParameterCounter + 1) % 256 = qs._subParameterCounter + 1 :=
      Nat.mod_eq_of_lt (by omega)
    simp only [hm1, hm2]
    rw [subParamBody_digits f hfd
        { qs with _subParameters := qs._subParameters ++ [none],
                  _subParameterRanges := R ++ [(a, e + 1)],
                  _subParameterCounter := qs._subParameterCounter + 1 }
        qs._subParameters none ho hp rfl,
      ih hfs
        { qs with _subParameters := qs._subParameters ++ [extendParam none f],
                  _subParameterRanges := R ++ [(a, e + 1)],
                  _subParameterCounter := qs._subParameterCounter + 1 }
        true (e + 1) ho hp (by simp; omega) rfl (by omega)]
    simp only [extendParam_none f hfd, List.map_cons, List.length_cons, List.isEmpty_cons,
      Bool.not_false, Bool.or_true, Bool.true_or, List.append_assoc, List.singleton_append]
    have e1 : e + 1 + fs.length = e + (fs.length + 1) := by omega
    have e2 : qs._subParameterCounter + 1 + fs.length
        = qs._subParameterCounter + (fs.length + 1) := by omega
    rw [e1, e2]

theorem stepFields_ensure (qs : ParamState) (b : Bool) (c : Nat)
    (h1 : qs._parameterLimitOverflowed = false) (h2 : qs._subParameterLimitOverflowed = false) :
    stepFields (ensureParam qs, b) c = stepFields (qs, b) c := by
  have hs : subParamBody (ensureParam qs) c = subParamBody qs c := by
    have h2' : (ensureParam qs)._subParameterLimitOverflowed = false := by
      unfold ensureParam; split <;> simp [h2]
    by_cases hc : c = 0x3A
    · subst hc
      rw [subParamBody_delim _ h2', subParamBody_delim _ h2,
        ensureParam_of_ne_nil _ (ensureParam_ne_nil qs)]
    · rw [subParamBody_acc _ c h2' hc, subParamBody_acc _ c h2 hc,
        ensureParam_of_ne_nil _ (ensureParam_ne_nil qs)]
  simp only [stepFields, paramBody_ensure qs c [] h1, hs]

theorem stepFields_semi (qs : ParamState) (b : Bool) :
    stepFields (qs, b) 0x3B = ((paramBody qs 0x3B []).1, false) := by
  cases b <;> simp [stepFields, _isParameterDelimiter, _isSubParameterDelimiter]

/-- The state in which a stored parameter begins: after a `;` that did not
overflow, or at the start of the sequence. -/
theorem param_start (pre : List Nat) (hstart : pre = [] ∨ pre.getLast? = some 0x3B)
    (hstored : (pre.foldl stepFields (ParamState.cleared, false)).1._parameterLimitOverflowed
      = false) :
    ∃ q1 : ParamState, ParamInv q1 ∧ q1._parameterLimitOverflowed = false ∧
      q1._subParameterLimitOverflowed = false ∧ q1._subParameterCounter = 0 ∧
      q1._parameters
        = (pre.foldl stepFields (ParamState.cleared, false)).1._parameters.dropLast ++ [none] ∧
      q1._subParameters = (pre.foldl stepFields (ParamState.cleared, false)).1._subParameters ∧
      q1._subParameterRanges
        = (pre.foldl stepFields (ParamState.cleared, false)).1._subParameterRanges.dropLast
          ++ [((pre.foldl stepFields (ParamState.cleared, false)).1._subParameters.length,
               (pre.foldl stepFields (ParamState.cleared, false)).1._subParameters.length)] ∧
      (∀ t : List Nat, (pre = [] → t ≠ []) →
        t.foldl stepFields (pre.foldl stepFields (ParamState.cleared, false))
          = t.foldl stepFields (q1, false)) := by
  rcases hstart with hpre | hpre
  · subst hpre
    refine ⟨ensureParam ParamState.cleared, paramInv_ensure _ paramInv_cleared, rfl, rfl, rfl, rfl,
      rfl, rfl, ?_⟩
    intro t ht
    cases t with
    | nil => exact absurd rfl (ht rfl)
    | cons c cs =>
      simp only [List.foldl_cons, List.foldl_nil]
      rw [stepFields_ensure ParamState.cleared false c rfl rfl]
  · obtain ⟨pre1, rfl⟩ : ∃ pre1, pre = pre1 ++ [0x3B] := by
      have hne : pre ≠ [] := by intro h; subst h; simp at hpre
      refine ⟨pre.dropLast, ?_⟩
      have h1 := List.dropLast_append_getLast hne
      rw [List.getLast?_eq_getLast _ hne] at hpre
      rw [← Option.some.inj hpre]
      exact h1.symm
    simp only [List.foldl_append, List.foldl_cons, List.foldl_nil] at hstored ⊢
    generalize hf1 : pre1.foldl stepFields (ParamState.cleared, false) = f1 at hstored ⊢
    have hinv1 : ParamInv f1.1 := by
      rw [← hf1]; exact paramInv_foldl_stepFields pre1 _ paramInv_cleared
    obtain ⟨qs, b⟩ := f1
    simp only at hinv1
    rw [stepFields_semi] at hstored ⊢
    have ho : qs._parameterLimitOverflowed = false := by
      cases h : qs._parameterLimitOverflowed
      · rfl
      · rw [paramBody_overflowed qs _ _ h] at hstored; simp [h] at hstored
    have hinvE := paramInv_ensure qs hinv1
    have hsub := paramInv_sub_le _ hinvE
    have hinv2 := paramInv_paramBody qs 0x3B [] hinv1
    rw [paramBody_delim qs [] ho] at hstored hinv2 ⊢
    by_cases hfull : (ensureParam qs)._parameters.length ≥ MAX_PARAMETER_COUNT
    · simp [hfull] at hstored
    · simp only [hfull, if_false] at hstored hinv2 ⊢
      have hmod : (ensureParam qs)._subParameters.length % 256
          = (ensureParam qs)._subParameters.length := Nat.mod_eq_of_lt (by omega)
      refine ⟨_, hinv2, hstored, rfl, rfl, by simp, rfl, by simp [hmod], fun t _ => rfl⟩

/-- C5: a stored parameter with digits `d` that is followed by `k ≤ 6`
sub-fields, each introduced by `:`, ends up with value `fieldValue d` and owns
exactly the `k` sub-parameters `fields.map fieldValue`, in input order, as the
range `[n, n + k)` of the flat array, `n` being the size of the array before.
The parameter is the first of the sequence (`pre = []`) or follows a `;` that
did not overflow the parameter limit. -/
theorem subparameters_stored_in_order (g : Generated) (eng : Engine E) (p0 : Parser E)
    (pre d : List Nat) (fields : List (List Nat))
    (hstart : pre = [] ∧ d ++ subFieldChars fields ≠ [] ∨ pre.getLast? = some 0x3B)
    (hstored : (applyCsi (csiEntry g eng p0) pre).seq.params._parameterLimitOverflowed = false)
    (hd : ∀ c ∈ d, IsDigit c) (hf : ∀ f ∈ fields, ∀ c ∈ f, IsDigit c)
    (hk : fields.length ≤ 6) :
    (applyCsi (csiEntry g eng p0) (pre ++ (d ++ subFieldChars fields))).seq.params._parameters
      = (applyCsi (csiEntry g eng p0) pre).seq.params._parameters.dropLast ++ [fieldValue d] ∧
    (applyCsi (csiEntry g eng p0) (pre ++ (d ++ subFieldChars fields))).seq.params._subParameters
      = (applyCsi (csiEntry g eng p0) pre).seq.params._subParameters
          ++ fields.map fieldValue ∧
    (applyCsi (csiEntry g eng p0) (pre ++ (d ++ subFieldChars fields))).seq.params._subParameterRanges
      = (applyCsi (csiEntry g eng p0) pre).seq.params._subParameterRanges.dropLast
          ++ [((applyCsi (csiEntry g eng p0) pre).seq.params._subParameters.length,
               (applyCsi (csiEntry g eng p0) pre).seq.params._subParameters.length
                 + fields.length)] := by
  have hA : ∀ s, (applyCsi (csiEntry g eng p0) s).seq.params
      = (s.foldl stepFields (ParamState.cleared, false)).1 := by
    intro s
    have := applyCsi_fold (csiEntry g eng p0) s
    rw [csiEntry_fields] at this
    rw [← this]; rfl
  rw [hA] at hstored
  simp only [hA]
  obtain ⟨q1, hinv, ho, hso, hcnt, hpar, hsub, hrng, hfold⟩ := param_start pre
    (hstart.elim (fun h => Or.inl h.1) Or.inr) hstored
  have hsl := paramInv_sub_le q1 hinv
  have h3 := subFields_fold fields hf
    { q1 with _parameters :=
        (pre.foldl stepFields (ParamState.cleared, false)).1._parameters.dropLast
          ++ [extendParam none d] }
    false _ _ _ hso (by simp) (by simp [hcnt]; exact hk) hrng (by rw [hsub] at hsl; omega)
  rw [List.foldl_append, hfold (d ++ subFieldChars fields)
    (fun hp => (hstart.elim (fun h => h.2) (fun h => by rw [hp] at h; simp at h))),
    List.foldl_append, stepFields_param_digits d hd,
    paramBody_digits_last d hd q1 _ none ho hpar, h3]
  simp [extendParam_none d hd, hsub]

theorem subparameters_stored_in_order_witness :
    (applyCsi (csiEntry nullGenerated nullEngine (Parser.init () false))
      ([] ++ ([0x33, 0x38] ++ subFieldChars
        [[0x32], [], [0x32, 0x35, 0x35], [0x31, 0x32, 0x38], [0x30]]))).seq.params._parameters
      = [some 38] ∧
    (applyCsi (csiEntry nullGenerated nullEngine (Parser.init () false))
      ([] ++ ([0x33, 0x38] ++ subFieldChars
        [[0x32], [], [0x32, 0x35, 0x35], [0x31, 0x32, 0x38], [0x30]]))).seq.params._subParameters
      = [some 2, none, some 255, some 128, some 0] ∧
    (applyCsi (csiEntry nullGenerated nullEngine (Parser.init () false))
      ([] ++ ([0x33, 0x38] ++ subFieldChars
        [[0x32], [], [0x32, 0x35, 0x35], [0x31, 0x32, 0x38], [0x30]]))).seq.params._subParameterRanges
      = [(0, 5)] :=
  have h := subparameters_stored_in_order nullGenerated nullEngine (Parser.init () false)
    [] [0x33, 0x38] [[0x32], [], [0x32, 0x35, 0x35], [0x31, 0x32, 0x38], [0x30]]
    (Or.inl ⟨rfl, by decide⟩) (by decide) (by decide) (by decide) (by decide)
  ⟨h.1.trans (by decide), h.2.1.trans (by decide), h.2.2.trans (by decide)⟩

theorem subFold_overflowed (t : List Nat) (ht : ∀ c ∈ t, IsDigit c ∨ c = 0x3A) (qs : ParamState)
    (h : qs._subParameterLimitOverflowed = true) :
    t.foldl stepFields (qs, true) = (qs, true) := by
  induction t with
  | nil => rfl
  | cons c cs ih =>
    have hc : (c == 0x3B) = false := by
      rcases ht c (List.mem_cons_self _ _) with h' | h'
      · unfold IsDigit at h'; simp; omega
      · simp [h']
    simp only [List.foldl_cons]
    have : stepFields (qs, true) c = (qs, true) := by
      simp [stepFields, _isParameterDelimiter, hc, subParamBody_overflowed qs c h]
    rw [this]
    exact ih (fun x hx => ht x (List.mem_cons_of_mem _ hx))

theorem seventh_subfield_dropped (f : ParamState × Bool) (hinv : ParamInv f.1)
    (hc : f.1._subParameterCounter = 6) (t : List Nat) (ht : ∀ c ∈ t, IsDigit c ∨ c = 0x3A) :
    ((0x3A :: t).foldl stepFields f).1._subParameters = f.1._subParameters ∧
    ((0x3A :: t).foldl stepFields f).1._subParameterRanges = f.1._subParameterRanges := by
  obtain ⟨qs, b⟩ := f
  simp only at hinv hc
  have hne : qs._parameters ≠ [] := by
    intro h
    have := (hinv.2.2.2.1 h).2
    omega
  simp only [List.foldl_cons]
  rw [stepFields_colon]
  cases ho : qs._subParameterLimitOverflowed
  · rw [subParamBody_delim qs ho, ensureParam_of_ne_nil qs hne]
    have hfull : qs._subParameterCounter ≥ MAX_SUBPARAMETER_COUNT := by
      unfold MAX_SUBPARAMETER_COUNT; omega
    simp only [hfull, if_true]
    rw [subFold_overflowed t ht _ rfl]
    exact ⟨rfl, rfl⟩
  · rw [subParamBody_overflowed qs _ ho, subFold_overflowed t ht _ ho]
    exact ⟨rfl, rfl⟩

/-- C6: in every state reached from a cleared parser by feeding parameter
characters (digits, `;`, `:`) to the Param and SubParam actions, there are as
many ranges as parameters and at most 32 of them, each range `[start, end)` has
`start ≤ end ≤ start + 6` and lies within the flat array, the flat array holds at
most 192 entries (so every range index is below 256), and once the current
parameter owns six sub-parameters a further `:` with whatever digits and `:`
follow leaves the flat array and the ranges unchanged. -/
theorem subparameter_bounds (g : Generated) (eng : Engine E) (p0 : Parser E)
    (s : List Nat) (hs : ∀ c ∈ s, IsCsiParamChar c) :
    (applyCsi (csiEntry g eng p0) s).seq.params._subParameterRanges.length
      = (applyCsi (csiEntry g eng p0) s).seq.params._parameters.length ∧
    (applyCsi (csiEntry g eng p0) s).seq.params._parameters.length ≤ 32 ∧
    (∀ r ∈ (applyCsi (csiEntry g eng p0) s).seq.params._subParameterRanges,
      r.1 ≤ r.2 ∧ r.2 - r.1 ≤ 6 ∧
      r.2 ≤ (applyCsi (csiEntry g eng p0) s).seq.params._subParameters.length ∧ r.2 < 256) ∧
    (applyCsi (csiEntry g eng p0) s).seq.params._subParameters.length ≤ 192 ∧
    ((applyCsi (csiEntry g eng p0) s).seq.params._subParameterCounter = 6 →
      ∀ t : List Nat, (∀ c ∈ t, IsDigit c ∨ c = 0x3A) →
        (applyCsi (csiEntry g eng p0) (s ++ 0x3A :: t)).seq.params._subParameters
          = (applyCsi (csiEntry g eng p0) s).seq.params._subParameters ∧
        (applyCsi (csiEntry g eng p0) (s ++ 0x3A :: t)).seq.params._subParameterRanges
          = (applyCsi (csiEntry g eng p0) s).seq.params._subParameterRanges) := by
  have _ := hs
  have hA : ∀ s, (applyCsi (csiEntry g eng p0) s).seq.params
      = (s.foldl stepFields (ParamState.cleared, false)).1 := by
    intro s
    have := applyCsi_fold (csiEntry g eng p0) s
    rw [csiEntry_fields] at this
    rw [← this]; rfl
  simp only [hA]
  have hinv := paramInv_foldl_stepFields s (ParamState.cleared, false) paramInv_cleared
  have hsub := paramInv_sub_le _ hinv
  obtain ⟨h1, h2, h3, h4, h5, h6, h7⟩ := hinv
  refine ⟨h1, h2, ?_, hsub, ?_⟩
  · intro r hr
    have := h6 r hr
    omega
  · intro hc t ht
    rw [List.foldl_append]
    exact seventh_subfield_dropped _ ⟨h1, h2, h3, h4, h5, h6, h7⟩ hc t ht

theorem subparameter_bounds_witness :
    (applyCsi (csiEntry nullGenerated nullEngine (Parser.init () false))
      [0x31, 0x3A, 0x3A, 0x3A, 0x3A, 0x3A, 0x3A, 0x3A, 0x39]).seq.params._subParameters.length
        ≤ 192 ∧
    (applyCsi (csiEntry nullGenerated nullEngine (Parser.init () false))
      [0x31, 0x3A, 0x3A, 0x3A, 0x3A, 0x3A, 0x3A, 0x3A, 0x39]).seq.params._subParameters
        = [none, none, none, none, none, none] :=
  ⟨(subparameter_bounds nullGenerated nullEngine (Parser.init () false)
    [0x31, 0x3A, 0x3A, 0x3A, 0x3A, 0x3A, 0x3A, 0x3A, 0x39] (by decide)).2.2.2.1, by decide⟩

/-- C7 (what the code does): after the parameter limit has overflowed, SubParam
still acts. From a cleared parser, the Param action on 32 delimiters `;` stores
32 parameters and sets the overflow flag; the characters `:` and `5` that follow
belong to a discarded parameter, yet the SubParam action appends a sub-parameter
with value 5 to the flat array and extends the range of the 32nd stored
parameter from `(0, 0)` to `(0, 1)`, while the Param action on the same state
changes nothing. -/
theorem subparam_after_parameter_overflow :
    (applyParam (_ActionClear nullGenerated nullEngine (Parser.init () false))
      (List.replicate 32 0x3B)).seq.params._parameterLimitOverflowed = true ∧
    (applyParam (_ActionClear nullGenerated nullEngine (Parser.init () false))
      (List.replicate 32 0x3B)).seq.params._parameters.length = 32 ∧
    (applyParam (_ActionClear nullGenerated nullEngine (Parser.init () false))
      (List.replicate 32 0x3B)).seq.params._subParameters = [] ∧
    (applyParam (_ActionClear nullGenerated nullEngine (Parser.init () false))
      (List.replicate 32 0x3B)).seq.params._subParameterRanges.getLast? = some (0, 0) ∧
    (_ActionSubParam (_ActionSubParam
      (applyParam (_ActionClear nullGenerated nullEngine (Parser.init () false))
        (List.replicate 32 0x3B)) 0x3A) 0x35).seq.params._subParameters = [some 5] ∧
    (_ActionSubParam (_ActionSubParam
      (applyParam (_ActionClear nullGenerated nullEngine (Parser.init () false))
        (List.replicate 32 0x3B)) 0x3A) 0x35).seq.params._subParameterRanges.getLast?
        = some (0, 1) ∧
    (_ActionParam
      (applyParam (_ActionClear nullGenerated nullEngine (Parser.init () false))
        (List.replicate 32 0x3B)) 0x35).seq.params
      = (applyParam (_ActionClear nullGenerated nullEngine (Parser.init () false))
        (List.replicate 32 0x3B)).seq.params := by
  decide

/-! ## The scan of `ProcessString`: cursor bookkeeping -/

theorem CurStep.refl (p : Parser E) : CurStep p p :=
  ⟨rfl, rfl, rfl, 0, rfl, rfl, fun h => h⟩

theorem CurStep.of_cur_eq (p q : Parser E) (h : q.cur = p.cur) : CurStep p q := by
  rw [CurStep, h]; exact ⟨rfl, rfl, rfl, 0, rfl, rfl, fun h => h⟩

theorem CurStep.trans {p q r : Parser E} (h1 : CurStep p q) (h2 : CurStep q r) : CurStep p r := by
  obtain ⟨a1, a2, a3, k1, a4, a5, a6⟩ := h1
  obtain ⟨b1, b2, b3, k2, b4, b5, b6⟩ := h2
  refine ⟨b1.trans a1, b2.trans a2, b3.trans a3, k1 + k2, by omega, by omega, ?_⟩
  intro h
  have := a6 h
  rw [a1, a5] at b6
  have := b6 this
  omega

theorem FlushToTerminal_cur (eng : Engine E) (p : Parser E) :
    (FlushToTerminal eng p).1.cur = p.cur := by
  unfold FlushToTerminal
  cases p._cachedSequence with
  | none =>
    dsimp only
    split <;> rfl
  | some cached =>
    dsimp only
    split <;> rfl

theorem callEngine_cur (eng : Engine E) (p : Parser E) (c : EngineCall) :
    (callEngine eng p c).1.cur = p.cur := by
  unfold callEngine
  dsimp only
  split
  · rw [FlushToTerminal_cur]
  · rfl

theorem _ActionParam_curStep (p : Parser E) (c : Nat) : CurStep p (_ActionParam p c) := by
  obtain ⟨k, hk, h2, _, _, _⟩ :=
    paramBody_greedy p.seq.params c (p.cur._currentString.drop (p.cur._curPos + 1))
  refine ⟨rfl, rfl, rfl, k, ?_, ?_, ?_⟩
  · simp [_ActionParam, h2]
  · simp [_ActionParam, h2]
  · intro h
    simp only [List.length_drop] at hk
    omega

theorem _ActionDcsDispatch_cur (g : Generated) (eng : Engine E) (p : Parser E) (c : Nat) :
    (_ActionDcsDispatch g eng p c).cur = p.cur := by
  unfold _ActionDcsDispatch Enter
  dsimp only
  split <;> split <;> simp [callEngine_cur]

theorem HandleVt52Param_cur (g : Generated) (eng : Engine E) (p : Parser E) :
    (HandleVt52Param g eng p).cur = p.cur := by
  unfold HandleVt52Param Enter _ActionVt52EscDispatch
  dsimp only
  split
  · simp [callEngine_cur]
  · rfl

theorem HandleDcsPassThrough_cur (g : Generated) (eng : Engine E) (p : Parser E) :
    (HandleDcsPassThrough g eng p).cur = p.cur := by
  unfold HandleDcsPassThrough Enter
  dsimp only
  split <;> simp [callEngine_cur]

theorem runOp_curStep (g : Generated) (eng : Engine E) (p : Parser E) (op : Op) :
    CurStep p (runOp g eng p op) := by
  cases op with
  | ActionParam => exact _ActionParam_curStep p _
  | ActionDcsDispatch => exact CurStep.of_cur_eq _ _ (_ActionDcsDispatch_cur g eng p _)
  | HandleVt52Param => exact CurStep.of_cur_eq _ _ (HandleVt52Param_cur g eng p)
  | HandleDcsPassThrough => exact CurStep.of_cur_eq _ _ (HandleDcsPassThrough_cur g eng p)
  | _ =>
    apply CurStep.of_cur_eq
    simp [runOp, Enter, _ActionExecute, _ActionPrint, _ActionClear, _ActionVt52EscDispatch,
      _ActionExecuteFromEscape, _ActionEscDispatch, _ActionCollect, _ActionCsiDispatch,
      _ActionSubParam, _ActionOscParam, _ActionOscPut, _ActionOscDispatch, _ActionSs3Dispatch,
      ExitDcsPassThrough, EraseCachedSequence, callEngine_cur]

theorem foldl_runOp_curStep (g : Generated) (eng : Engine E) (ops : List Op) (p : Parser E) :
    CurStep p (ops.foldl (runOp g eng) p) := by
  induction ops generalizing p with
  | nil => exact CurStep.refl p
  | cons op ops ih => exact (runOp_curStep g eng p op).trans (ih _)

theorem Proceed_curStep (g : Generated) (eng : Engine E) (isC1 : Bool) (p : Parser E) (c : Nat) :
    CurStep p (Proceed g eng isC1 p c) := by
  unfold Proceed
  exact (CurStep.of_cur_eq p { p with seq := { p.seq with _wch := c } } rfl).trans
    (foldl_runOp_curStep g eng _ _)

theorem ProcessCharacter_curStep (g : Generated) (eng : Engine E) (p : Parser E) (c : Nat) :
    CurStep p (ProcessCharacter g eng p c) := by
  unfold ProcessCharacter
  split
  · split
    · exact (Proceed_curStep g eng true p _).trans (Proceed_curStep g eng true _ _)
    · exact CurStep.refl p
  · exact Proceed_curStep g eng false p c

theorem doBodyStep_cur (g : Generated) (eng : Engine E) (p : Parser E)
    (h : p.cur._curPos < p.cur._currentString.length) :
    (doBodyStep g eng p).cur._currentString = p.cur._currentString ∧
    (doBodyStep g eng p).cur._runOffset = p.cur._runOffset ∧
    ∃ k, (doBodyStep g eng p).cur._runSize = p.cur._runSize + 1 + k ∧
      (doBodyStep g eng p).cur._curPos = p.cur._curPos + 1 + k ∧
      p.cur._curPos + 1 + k ≤ p.cur._currentString.length := by
  obtain ⟨a1, a2, _, k, a4, a5, a6⟩ := ProcessCharacter_curStep g eng (beforeCharacter p)
    ((beforeCharacter p).cur._currentString.getD (beforeCharacter p).cur._curPos 0)
  have b1 : (beforeCharacter p).cur._currentString = p.cur._currentString := rfl
  have b2 : (beforeCharacter p).cur._runOffset = p.cur._runOffset := rfl
  have b3 : (beforeCharacter p).cur._runSize = p.cur._runSize + 1 := rfl
  have b4 : (beforeCharacter p).cur._curPos = p.cur._curPos := rfl
  rw [b1, b4] at a6
  refine ⟨a1.trans b1, a2.trans b2, k, ?_, ?_, ?_⟩
  · show (ProcessCharacter g eng (beforeCharacter p) _).cur._runSize = _
    rw [a4, b3]
  · show (ProcessCharacter g eng (beforeCharacter p) _).cur._curPos + 1 = _
    rw [a5, b4]; omega
  · have := a6 h; omega

theorem findActionableFromGround_le (data : List Nat) :
    findActionableFromGround data ≤ data.length := by
  rw [findActionableFromGround_eq_findIdx]; exact List.findIdx_le_length _

theorem groundStep_cur (eng : Engine E) (p : Parser E) (i : Nat)
    (hi : i ≤ p.cur._currentString.length) :
    (groundStep eng p i).1.cur._currentString = p.cur._currentString ∧
    (groundStep eng p i).1.cur._runOffset = (groundStep eng p i).2 ∧
    (groundStep eng p i).1.cur._runSize = 0 ∧
    (groundStep eng p i).2 = i + findActionableFromGround (p.cur._currentString.drop i) ∧
    (groundStep eng p i).2 ≤ p.cur._currentString.length := by
  have hle := findActionableFromGround_le (p.cur._currentString.drop i)
  simp only [List.length_drop] at hle
  unfold groundStep
  dsimp only
  split
  · simp only [_ActionPrintString, callEngine_cur]
    refine ⟨trivial, trivial, trivial, trivial, by omega⟩
  · rename_i h
    have h0 : findActionableFromGround (p.cur._currentString.drop i) = 0 := by
      by_contra hne; exact h hne
    refine ⟨rfl, rfl, h0, by omega, by omega⟩

theorem scan_inv (g : Generated) (eng : Engine E) (fuel : Nat) : ∀ (loc : Loc) (i : Nat)
    (p : Parser E), need loc p.cur._currentString.length (posAt loc i p) ≤ fuel →
    ScanInv loc i p →
    (scan g eng fuel loc i p).cur._currentString = p.cur._currentString ∧
    ((scan g eng fuel loc i p).seq._state ≠ VTStates.Ground →
      (scan g eng fuel loc i p).cur._runOffset + (scan g eng fuel loc i p).cur._runSize
        = p.cur._currentString.length) := by
  induction fuel with
  | zero =>
    intro loc i p hn hinv
    cases loc with
    | whileHead => simp [need] at hn
    | vtStart => simp [need] at hn
    | doBody =>
      simp only [need, posAt] at hn
      simp only [ScanInv] at hinv
      omega
  | succ fuel ih =>
    intro loc i p hn hinv
    cases loc with
    | whileHead =>
      simp only [need, posAt] at hn
      simp only [ScanInv] at hinv
      rw [scan]
      split
      · rename_i hlt
        obtain ⟨c1, c2, c3, c4, c5⟩ := groundStep_cur eng p i hinv.1
        have := ih Loc.vtStart (groundStep eng p i).2 (groundStep eng p i).1
          (by simp only [need, posAt, c1]; omega)
          (by simp only [ScanInv, c1]; exact ⟨c5, c2, c3⟩)
        rw [c1] at this
        exact this
      · rename_i hge
        refine ⟨rfl, fun hs => (hinv.2 hs).2⟩
    | vtStart =>
      simp only [need, posAt] at hn
      simp only [ScanInv] at hinv
      rw [scan]
      split
      · rename_i hge
        refine ⟨rfl, fun _ => ?_⟩
        rw [hinv.2.1, hinv.2.2]; omega
      · rename_i hlt
        have := ih Loc.doBody i { p with cur := { p.cur with _curPos := i } }
          (by simp only [need, posAt]; omega)
          (by simp only [ScanInv]; refine ⟨by omega, ?_⟩; rw [hinv.2.1, hinv.2.2]; rfl)
        exact this
    | doBody =>
      simp only [need, posAt] at hn
      simp only [ScanInv] at hinv
      obtain ⟨d1, d2, k, d3, d4, d5⟩ := doBodyStep_cur g eng p hinv.1
      rw [scan]
      split
      · rename_i hc
        have := ih Loc.doBody i (doBodyStep g eng p)
          (by simp only [need, posAt, d1, d4]; omega)
          (by simp only [ScanInv]; refine ⟨hc.1, ?_⟩; rw [d2, d3, d4]; omega)
        rw [d1] at this
        exact this
      · rename_i hc
        have := ih Loc.whileHead (doBodyStep g eng p).cur._curPos (doBodyStep g eng p)
          (by simp only [need, posAt, d1, d4]; omega)
          (by
            simp only [ScanInv]
            refine ⟨by rw [d1, d4]; exact d5, fun hs => ?_⟩
            have hge : ¬ ((doBodyStep g eng p).cur._curPos
                < (doBodyStep g eng p).cur._currentString.length) := fun h => hc ⟨h, hs⟩
            rw [d1, d4] at hge ⊢
            rw [d2, d3]
            omega)
        rw [d1] at this
        exact this

theorem scanString_inv (g : Generated) (eng : Engine E) (p : Parser E) (string : List Nat) :
    (scanString g eng p string).cur._currentString = string ∧
    ((scanString g eng p string).seq._state ≠ VTStates.Ground →
      (scanString g eng p string).cur._runOffset + (scanString g eng p string).cur._runSize
        = string.length) := by
  unfold scanString
  dsimp only
  split
  · exact scan_inv g eng _ Loc.vtStart 0 (startString p string)
      (by simp [need, posAt, startString]) (by simp [ScanInv, startString])
  · rename_i hs
    have hg : (startString p string).seq._state = VTStates.Ground := by
      by_contra h; exact hs h
    exact scan_inv g eng _ Loc.whileHead 0 (startString p string)
      (by simp [need, posAt, startString])
      (by simp only [ScanInv]; exact ⟨Nat.zero_le _, fun h => absurd hg h⟩)

theorem currentRun_scanString (g : Generated) (eng : Engine E) (p : Parser E) (string : List Nat)
    (hs : (scanString g eng p string).seq._state ≠ VTStates.Ground) :
    _CurrentRun (scanString g eng p string)
      = string.drop (scanString g eng p string).cur._runOffset := by
  obtain ⟨h1, h2⟩ := scanString_inv g eng p string
  have := h2 hs
  unfold _CurrentRun
  rw [h1]
  apply List.take_of_length_le
  simp only [List.length_drop]
  omega

theorem FlushToTerminal_mode (eng : Engine E) (p : Parser E) :
    modeOf (FlushToTerminal eng p).1 = modeOf p := by
  unfold FlushToTerminal
  cases p._cachedSequence with
  | none =>
    dsimp only
    split <;> rfl
  | some cached =>
    dsimp only
    split <;> rfl

theorem callEngine_mode (eng : Engine E) (p : Parser E) (c : EngineCall) :
    modeOf (callEngine eng p c).1 = modeOf p := by
  unfold callEngine
  dsimp only
  split
  · rw [FlushToTerminal_mode]; rfl
  · rfl

theorem Enter_mode (g : Generated) (p : Parser E) (st : VTStates) :
    modeOf (Enter g p st) = modeOf p := rfl

theorem runOp_mode (g : Generated) (eng : Engine E) (p : Parser E) (op : Op) :
    modeOf (runOp g eng p op) = modeOf p := by
  cases op with
  | ActionDcsDispatch =>
    simp only [runOp, _ActionDcsDispatch]
    split <;> split <;> (rw [Enter_mode]; exact callEngine_mode eng p _)
  | HandleVt52Param =>
    simp only [runOp, HandleVt52Param]
    split
    · simp only [Enter_mode, _ActionVt52EscDispatch, callEngine_mode]; rfl
    · rfl
  | HandleDcsPassThrough =>
    simp only [runOp, HandleDcsPassThrough]
    split
    · simp only [Enter_mode, callEngine_mode]
    · simp only [callEngine_mode]
  | ActionClear => simp only [runOp, _ActionClear, callEngine_mode]; rfl
  | ExitDcsPassThrough =>
    simp only [runOp, ExitDcsPassThrough]
    exact callEngine_mode eng p _
  | _ =>
    first
      | rfl
      | simp only [runOp, _ActionExecute, _ActionPrint, _ActionVt52EscDispatch,
          _ActionExecuteFromEscape, _ActionEscDispatch, _ActionCsiDispatch, _ActionOscDispatch,
          _ActionSs3Dispatch, callEngine_mode]

theorem foldl_runOp_mode (g : Generated) (eng : Engine E) (ops : List Op) (p : Parser E) :
    modeOf (ops.foldl (runOp g eng) p) = modeOf p := by
  induction ops generalizing p with
  | nil => rfl
  | cons op ops ih => rw [List.foldl_cons, ih, runOp_mode]

theorem Proceed_mode (g : Generated) (eng : Engine E) (isC1 : Bool) (p : Parser E) (c : Nat) :
    modeOf (Proceed g eng isC1 p c) = modeOf p := by
  unfold Proceed
  dsimp only
  rw [foldl_runOp_mode]; rfl

theorem ProcessCharacter_mode (g : Generated) (eng : Engine E) (p : Parser E) (c : Nat) :
    modeOf (ProcessCharacter g eng p c) = modeOf p := by
  unfold ProcessCharacter
  split
  · split
    · dsimp only; rw [Proceed_mode, Proceed_mode]
    · rfl
  · exact Proceed_mode g eng false p c

theorem doBodyStep_mode (g : Generated) (eng : Engine E) (p : Parser E) :
    modeOf (doBodyStep g eng p) = modeOf p := by
  show modeOf (ProcessCharacter g eng (beforeCharacter p) _) = _
  rw [ProcessCharacter_mode]; rfl

theorem groundStep_mode (eng : Engine E) (p : Parser E) (i : Nat) :
    modeOf (groundStep eng p i).1 = modeOf p := by
  unfold groundStep
  dsimp only
  split
  · show modeOf (_ActionPrintString eng _ _) = _
    unfold _ActionPrintString
    rw [callEngine_mode]; rfl
  · rfl

theorem scan_mode (g : Generated) (eng : Engine E) (fuel : Nat) : ∀ (loc : Loc) (i : Nat)
    (p : Parser E), modeOf (scan g eng fuel loc i p) = modeOf p := by
  induction fuel with
  | zero => intro loc i p; rfl
  | succ fuel ih =>
    intro loc i p
    cases loc with
    | whileHead =>
      rw [scan]; split
      · rw [ih, groundStep_mode]
      · rfl
    | vtStart =>
      rw [scan]; split
      · rfl
      · rw [ih]; rfl
    | doBody =>
      rw [scan]; split
      · rw [ih, doBodyStep_mode]
      · rw [ih, doBodyStep_mode]

theorem scanString_mode (g : Generated) (eng : Engine E) (p : Parser E) (string : List Nat) :
    modeOf (scanString g eng p string) = modeOf p := by
  unfold scanString
  dsimp only
  split <;> (rw [scan_mode]; rfl)

theorem endOfString_output (g : Generated) (eng : Engine E) (q : Parser E)
    (hmode : q._isEngineForInput = false) :
    (endOfString g eng q).seq._state = q.seq._state ∧
    (cacheable q.seq._state = true →
      (endOfString g eng q)._cachedSequence = some (q._cachedSequence.getD [] ++ _CurrentRun q)) ∧
    (cacheable q.seq._state = false → (endOfString g eng q)._cachedSequence = q._cachedSequence) := by
  unfold endOfString
  by_cases hg : q.seq._state = VTStates.Ground
  · simp [hg, cacheable]
  · by_cases hc : q.seq._state ≠ VTStates.SosPmApcString ∧ q.seq._state ≠ VTStates.DcsPassThrough
        ∧ q.seq._state ≠ VTStates.DcsIgnore
    · have hcache : cacheable q.seq._state = true := by
        simp [cacheable, hg, hc.1, hc.2.1, hc.2.2]
      rw [if_pos hg]
      simp only [hmode, Bool.false_eq_true, if_false]
      rw [if_pos hc]
      exact ⟨rfl, fun _ => rfl, fun h => by rw [hcache] at h; cases h⟩
    · have hcache : cacheable q.seq._state = false := by
        simp only [cacheable, ne_eq, Bool.and_eq_false_imp, Bool.and_eq_true, decide_eq_true_eq,
          decide_eq_false_iff_not, not_not]
        intro h
        by_contra h3
        exact hc ⟨h.1.2, h.2, h3⟩
      rw [if_pos hg]
      simp only [hmode, Bool.false_eq_true, if_false]
      rw [if_neg hc]
      refine ⟨rfl, fun h => ?_, fun _ => rfl⟩
      rw [hcache] at h; cases h


theorem scanString_output (g : Generated) (eng : Engine E) (p : Parser E) (string : List Nat)
    (hout : p._isEngineForInput = false) :
    (scanString g eng p string)._isEngineForInput = false := by
  have := congrArg Prod.fst (scanString_mode g eng p string)
  simpa [modeOf, hout] using this

/-! ## The cached sequence and the current run -/

theorem inRun_cur (g : Generated) (eng : Engine E) (p : Parser E) (s : List Nat) (hne : s ≠ [])
    (r : Parser E) (hr : InRun g eng (enterSequence p s) r) :
    r.cur._currentString = s ∧ r.cur._runOffset = 0 ∧ r.cur._runSize = r.cur._curPos ∧
    r.cur._curPos < s.length := by
  induction hr with
  | first =>
    refine ⟨rfl, rfl, rfl, ?_⟩
    show 0 < s.length
    exact List.length_pos.mpr hne
  | next r _ hlt _ ih =>
    obtain ⟨h1, h2, h3, h4⟩ := ih
    obtain ⟨d1, d2, k, d3, d4, _⟩ := doBodyStep_cur g eng r (by rw [h1]; exact h4)
    refine ⟨d1.trans h1, d2.trans h2, by rw [d3, d4, h3], ?_⟩
    rw [d1, h1] at hlt
    exact hlt

theorem scanString_enters (g : Generated) (eng : Engine E) (p : Parser E) (s : List Nat)
    (hne : s ≠ []) (hst : p.seq._state ≠ VTStates.Ground) :
    scanString g eng p s = scan g eng (3 * s.length + 2) Loc.doBody 0 (enterSequence p s) := by
  have hlen : 0 < s.length := List.length_pos.mpr hne
  unfold scanString
  dsimp only
  rw [if_pos (show (startString p s).seq._state ≠ VTStates.Ground from hst)]
  rw [scan]
  rw [if_neg (by show ¬ (0 ≥ s.length); omega)]
  rfl

theorem shownLog_append (a b : List TermCall) : shownLog (a ++ b) = shownLog a ++ shownLog b := by
  simp [shownLog]

theorem Sim.same (p : Parser E) : Sim p p := ⟨rfl, rfl, rfl⟩

theorem Sim.flip {p q : Parser E} (h : Sim p q) : Sim q p := ⟨h.1.symm, h.2.1.symm, h.2.2.symm⟩

theorem Sim.andThen {p q r : Parser E} (h1 : Sim p q) (h2 : Sim q r) : Sim p r :=
  ⟨h1.1.trans h2.1, h1.2.1.trans h2.2.1, h1.2.2.trans h2.2.2⟩

theorem Sim.state {p q : Parser E} (h : Sim p q) : p.seq._state = q.seq._state :=
  congrArg (fun s => s._state) h.2.1

theorem Sim.engine {p q : Parser E} (h : Sim p q) : p.seq._engine = q.seq._engine :=
  congrArg (fun s => s._engine) h.2.1

theorem Rel.sim {p q : Parser E} (h : Rel p q) : Sim p q := ⟨h.1, by rw [h.2.1], h.2.2⟩

theorem Sim.rel {p q : Parser E} (h : Sim p q) (w : Nat) :
    Rel { p with seq := { p.seq with _wch := w } } { q with seq := { q.seq with _wch := w } } :=
  ⟨h.1, congrArg (fun s => { s with _wch := w }) h.2.1, h.2.2⟩

/-- C8 (as stated, refuted): in output mode the characters `A`, `B` fed to
`ProcessString` as two pieces reach the dispatch target as two `PrintString`
calls, while the same characters fed as one string reach it as a single
`PrintString` call with both characters. -/
theorem chunked_print_calls_differ :
    (ProcessString nullGenerated printEngine
        (ProcessString nullGenerated printEngine (Parser.init 0 false) [0x41]) [0x42]).dispatchLog
      = [TermCall.PrintString [0x41], TermCall.PrintString [0x42]] ∧
    (ProcessString nullGenerated printEngine (Parser.init 0 false) [0x41, 0x42]).dispatchLog
      = [TermCall.PrintString [0x41, 0x42]] ∧
    (ProcessString nullGenerated printEngine
        (ProcessString nullGenerated printEngine (Parser.init 0 false) [0x41]) [0x42]).dispatchLog
      ≠ (ProcessString nullGenerated printEngine (Parser.init 0 false) [0x41, 0x42]).dispatchLog := by
  decide
theorem FlushToTerminal_dispatchLog (eng : Engine E) (p : Parser E) :
    (FlushToTerminal eng p).1.dispatchLog = p.dispatchLog := by
  unfold FlushToTerminal
  cases p._cachedSequence with
  | none =>
    dsimp only
    split <;> rfl
  | some cached =>
    dsimp only
    split <;> rfl

theorem callEngine_dispatchLog (eng : Engine E) (p : Parser E) (c : EngineCall) :
    (callEngine eng p c).1.dispatchLog = p.dispatchLog ++ (eng.react p.seq._engine c).calls := by
  unfold callEngine
  dsimp only
  split
  · rw [FlushToTerminal_dispatchLog]
  · rfl

theorem callEngine_snd (eng : Engine E) (p : Parser E) (c : EngineCall) :
    (callEngine eng p c).2
      = (!(eng.react p.seq._engine c).fault && (eng.react p.seq._engine c).result) := rfl

theorem runOp_cur (g : Generated) (eng : Engine E) (p : Parser E) (op : Op)
    (hop : op ≠ Op.ActionParam) : (runOp g eng p op).cur = p.cur := by
  cases op with
  | ActionParam => exact absurd rfl hop
  | ActionDcsDispatch => exact _ActionDcsDispatch_cur g eng p _
  | HandleVt52Param => exact HandleVt52Param_cur g eng p
  | HandleDcsPassThrough => exact HandleDcsPassThrough_cur g eng p
  | _ =>
    simp [runOp, Enter, _ActionExecute, _ActionPrint, _ActionClear, _ActionVt52EscDispatch,
      _ActionExecuteFromEscape, _ActionEscDispatch, _ActionCollect, _ActionCsiDispatch,
      _ActionSubParam, _ActionOscParam, _ActionOscPut, _ActionOscDispatch, _ActionSs3Dispatch,
      ExitDcsPassThrough, EraseCachedSequence, callEngine_cur]

theorem runOp_wch (g : Generated) (eng : Engine E) (p : Parser E) (op : Op) :
    (runOp g eng p op).seq._wch = p.seq._wch := by
  cases op with
  | ActionDcsDispatch =>
    simp only [runOp, _ActionDcsDispatch, Enter]
    split <;> split <;> simp [callEngine_seq]
  | HandleVt52Param =>
    simp only [runOp, HandleVt52Param, Enter, _ActionVt52EscDispatch]
    split <;> simp [callEngine_seq]
  | HandleDcsPassThrough =>
    simp only [runOp, HandleDcsPassThrough, Enter]
    split <;> simp [callEngine_seq]
  | _ =>
    simp [runOp, Enter, _ActionExecute, _ActionPrint, _ActionClear, _ActionVt52EscDispatch,
      _ActionExecuteFromEscape, _ActionEscDispatch, _ActionCollect, _ActionCsiDispatch,
      _ActionSubParam, _ActionOscParam, _ActionOscPut, _ActionOscDispatch, _ActionSs3Dispatch,
      ExitDcsPassThrough, EraseCachedSequence, _ActionParam, callEngine_seq]

theorem runOp_dep (g : Generated) (eng : Engine E) (p q : Parser E) (op : Op)
    (hop : op ≠ Op.ActionParam) (h : q.seq = p.seq) :
    (runOp g eng q op).seq = (runOp g eng p op).seq ∧
    ∃ x, (runOp g eng p op).dispatchLog = p.dispatchLog ++ x ∧
      (runOp g eng q op).dispatchLog = q.dispatchLog ++ x := by
  cases op with
  | ActionParam => exact absurd rfl hop
  | ActionDcsDispatch =>
    simp only [runOp, _ActionDcsDispatch, Enter, callEngine_snd, h]
    split <;> split <;>
      simp only [callEngine_seq, callEngine_dispatchLog, h] <;> exact ⟨trivial, _, rfl, rfl⟩
  | HandleVt52Param =>
    simp only [runOp, HandleVt52Param, Enter, _ActionVt52EscDispatch, h]
    split
    · simp only [callEngine_seq, callEngine_dispatchLog, h]; exact ⟨trivial, _, rfl, rfl⟩
    · exact ⟨rfl, [], by simp, by simp⟩
  | HandleDcsPassThrough =>
    simp only [runOp, HandleDcsPassThrough, Enter, h]
    split <;>
      simp only [callEngine_seq, callEngine_dispatchLog, h] <;> exact ⟨trivial, _, rfl, rfl⟩
  | _ =>
    simp only [runOp, Enter, _ActionExecute, _ActionPrint, _ActionClear, _ActionVt52EscDispatch,
      _ActionExecuteFromEscape, _ActionEscDispatch, _ActionCollect, _ActionCsiDispatch,
      _ActionSubParam, _ActionOscParam, _ActionOscPut, _ActionOscDispatch, _ActionSs3Dispatch,
      ExitDcsPassThrough, EraseCachedSequence, callEngine_seq, callEngine_dispatchLog, h]
    first
      | exact ⟨trivial, _, rfl, rfl⟩
      | exact ⟨trivial, [], by simp, by simp⟩

theorem paramBody_noAdv (ps : ParamState) (c : Nat) (rest : List Nat)
    (h : rest = [] ∨ c = 0x3B) : paramBody ps c rest = ((paramBody ps c []).1, 0) := by
  rcases h with h | h
  · subst h
    obtain ⟨k, hk, h2, _, _, _⟩ := paramBody_greedy ps c []
    have : (paramBody ps c []).2 = 0 := by simp at hk; omega
    rw [← this]
  · exact paramBody_nolook ps c rest (Or.inr h)

theorem _ActionParam_noAdv (p : Parser E) (w : Nat) (h : look p = [] ∨ w = 0x3B) :
    _ActionParam p w = { p with seq := { p.seq with params := (paramBody p.seq.params w []).1 } } := by
  unfold _ActionParam
  dsimp only
  rw [show p.cur._currentString.drop (p.cur._curPos + 1) = look p from rfl,
    paramBody_noAdv _ _ _ h]
  simp

theorem runOp_rel0 (g : Generated) (eng : Engine E) (p q : Parser E) (op : Op) (h : Rel p q)
    (hp : op = Op.ActionParam → look p = [] ∨ p.seq._wch = 0x3B)
    (hq : op = Op.ActionParam → look q = [] ∨ q.seq._wch = 0x3B) :
    Rel (runOp g eng p op) (runOp g eng q op) ∧
    (runOp g eng p op).cur = p.cur ∧ (runOp g eng q op).cur = q.cur := by
  by_cases hop : op = Op.ActionParam
  · subst hop
    simp only [runOp]
    rw [_ActionParam_noAdv p _ (hp rfl), _ActionParam_noAdv q _ (hq rfl)]
    exact ⟨⟨h.1, by rw [h.2.1], h.2.2⟩, rfl, rfl⟩
  · obtain ⟨h1, x, h2, h3⟩ := runOp_dep g eng p q op hop h.2.1.symm
    refine ⟨⟨?_, h1.symm, ?_⟩, runOp_cur g eng p op hop, runOp_cur g eng q op hop⟩
    · rw [runOp_mode, runOp_mode]; exact h.1
    · rw [h2, h3, shownLog_append, shownLog_append, h.2.2]

theorem foldl_rel0 (g : Generated) (eng : Engine E) (ops : List Op) : ∀ (p q : Parser E),
    Rel p q →
    (Op.ActionParam ∈ ops → look p = [] ∨ p.seq._wch = 0x3B) →
    (Op.ActionParam ∈ ops → look q = [] ∨ q.seq._wch = 0x3B) →
    Rel (ops.foldl (runOp g eng) p) (ops.foldl (runOp g eng) q) ∧
    (ops.foldl (runOp g eng) p).cur = p.cur ∧ (ops.foldl (runOp g eng) q).cur = q.cur := by
  induction ops with
  | nil => intro p q h _ _; exact ⟨h, rfl, rfl⟩
  | cons op ops ih =>
    intro p q h hp hq
    obtain ⟨r1, r2, r3⟩ := runOp_rel0 g eng p q op h
      (fun e => hp (e ▸ List.mem_cons_self _ _)) (fun e => hq (e ▸ List.mem_cons_self _ _))
    obtain ⟨s1, s2, s3⟩ := ih (runOp g eng p op) (runOp g eng q op) r1
      (fun e => by
        have := hp (List.mem_cons_of_mem _ e)
        rw [runOp_wch]; unfold look at this ⊢; rw [r2]; exact this)
      (fun e => by
        have := hq (List.mem_cons_of_mem _ e)
        rw [runOp_wch]; unfold look at this ⊢; rw [r3]; exact this)
    exact ⟨s1, s2.trans r2, s3.trans r3⟩

theorem Sim.isInput {p q : Parser E} (h : Sim p q) : p._isEngineForInput = q._isEngineForInput :=
  congrArg (fun m => m.1) h.1

theorem Sim.ansi {p q : Parser E} (h : Sim p q) : p.ansi = q.ansi :=
  congrArg (fun m => m.2.2.2) h.1

theorem Sim.accept {p q : Parser E} (h : Sim p q) :
    (p.acceptC1 || p.alwaysAcceptC1) = (q.acceptC1 || q.alwaysAcceptC1) := by
  have h1 : p.acceptC1 = q.acceptC1 := congrArg (fun m => m.2.1) h.1
  have h2 : p.alwaysAcceptC1 = q.alwaysAcceptC1 := congrArg (fun m => m.2.2.1) h.1
  rw [h1, h2]

theorem Proceed_eq (g : Generated) (eng : Engine E) (isC1 : Bool) (p : Parser E) (c : Nat) :
    Proceed g eng isC1 p c
      = (g.Proceed isC1 p.seq._state p._isEngineForInput p.ansi c).foldl (runOp g eng)
          { p with seq := { p.seq with _wch := c } } := rfl

theorem Proceed_sim0 (g : Generated) (eng : Engine E) (isC1 : Bool) (p q : Parser E) (c : Nat)
    (h : Sim p q)
    (hp : Op.ActionParam ∈ g.Proceed isC1 p.seq._state p._isEngineForInput p.ansi c →
      look p = [] ∨ c = 0x3B)
    (hq : Op.ActionParam ∈ g.Proceed isC1 p.seq._state p._isEngineForInput p.ansi c →
      look q = [] ∨ c = 0x3B) :
    Sim (Proceed g eng isC1 p c) (Proceed g eng isC1 q c) ∧
    (Proceed g eng isC1 p c).cur = p.cur ∧ (Proceed g eng isC1 q c).cur = q.cur := by
  have e : g.Proceed isC1 q.seq._state q._isEngineForInput q.ansi c
      = g.Proceed isC1 p.seq._state p._isEngineForInput p.ansi c := by
    rw [h.state, h.isInput, h.ansi]
  rw [Proceed_eq, Proceed_eq, e]
  obtain ⟨r1, r2, r3⟩ := foldl_rel0 g eng (g.Proceed isC1 p.seq._state p._isEngineForInput p.ansi c)
    _ _ (h.rel c) hp hq
  exact ⟨r1.sim, r2, r3⟩

theorem ProcessCharacter_sim0 (g : Generated) (eng : Engine E) (hg : ParamRows g) (p q : Parser E)
    (c : Nat) (h : Sim p q)
    (hp : Op.ActionParam ∈ g.Proceed false p.seq._state p._isEngineForInput p.ansi c →
      look p = [] ∨ c = 0x3B)
    (hq : Op.ActionParam ∈ g.Proceed false p.seq._state p._isEngineForInput p.ansi c →
      look q = [] ∨ c = 0x3B) :
    Sim (ProcessCharacter g eng p c) (ProcessCharacter g eng q c) ∧
    (ProcessCharacter g eng p c).cur = p.cur ∧ (ProcessCharacter g eng q c).cur = q.cur := by
  unfold ProcessCharacter
  rw [← h.accept]
  split
  · rename_i hc
    split
    · have n1 : ∀ (r : Parser E), Op.ActionParam ∈ g.Proceed true p.seq._state p._isEngineForInput
          p.ansi 0x1B → look r = [] ∨ 0x1B = 0x3B := by
        intro r hm
        rcases hg _ _ _ _ _ hm with e | ⟨e, _⟩
        · exact Or.inr e
        · unfold IsDigit at e; omega
      obtain ⟨r1, r2, r3⟩ := Proceed_sim0 g eng true p q 0x1B h (n1 p) (n1 q)
      have n2 : ∀ (r : Parser E), Op.ActionParam ∈ g.Proceed true
          (Proceed g eng true p 0x1B).seq._state (Proceed g eng true p 0x1B)._isEngineForInput
          (Proceed g eng true p 0x1B).ansi (c - 0x40) → look r = [] ∨ c - 0x40 = 0x3B := by
        intro r hm
        rcases hg _ _ _ _ _ hm with e | ⟨e, _⟩
        · exact Or.inr e
        · unfold IsDigit at e; omega
      obtain ⟨s1, s2, s3⟩ := Proceed_sim0 g eng true _ _ (c - 0x40) r1 (n2 _) (n2 _)
      exact ⟨s1, s2.trans r2, s3.trans r3⟩
    · exact ⟨h, rfl, rfl⟩
  · exact Proceed_sim0 g eng false p q c h hp hq

theorem callEngine_sim (eng : Engine E) (p q : Parser E) (c : EngineCall) (h : Sim p q) :
    Sim (callEngine eng p c).1 (callEngine eng q c).1 := by
  refine ⟨?_, ?_, ?_⟩
  · rw [callEngine_mode, callEngine_mode]; exact h.1
  · rw [callEngine_seq, callEngine_seq, h.engine]
    exact congrArg (fun s => { s with _engine := (eng.react q.seq._engine c).engine }) h.2.1
  · rw [callEngine_dispatchLog, callEngine_dispatchLog, shownLog_append, shownLog_append,
      h.2.2, h.engine]

theorem Sim.of_cur (p : Parser E) (c : Cursor) : Sim { p with cur := c } p := ⟨rfl, rfl, rfl⟩

theorem charStep_sim (g : Generated) (eng : Engine E) (hg : ParamRows g) (p q : Parser E)
    (c : Nat) (h : Sim p q) : Sim (charStep g eng p c) (charStep g eng q c) := by
  unfold charStep
  rw [← h.state]
  split
  · exact callEngine_sim eng p q _ h
  · exact (ProcessCharacter_sim0 g eng hg
      { p with cur := { p.cur with _currentString := [c], _curPos := 0 } }
      { q with cur := { q.cur with _currentString := [c], _curPos := 0 } } c
      (((Sim.of_cur p _).andThen h).andThen (Sim.of_cur q _).flip)
      (fun _ => Or.inl rfl) (fun _ => Or.inl rfl)).1

theorem foldl_charStep_sim (g : Generated) (eng : Engine E) (hg : ParamRows g) (s : List Nat) :
    ∀ (p q : Parser E), Sim p q → Sim (s.foldl (charStep g eng) p) (s.foldl (charStep g eng) q) := by
  induction s with
  | nil => intro p q h; exact h
  | cons c s ih => intro p q h; exact ih _ _ (charStep_sim g eng hg p q c h)

theorem print_append (eng : Engine E) (he : PrintSplits eng) (p : Parser E) (a b : List Nat)
    (ha : a ≠ []) (hb : b ≠ []) (hab : ∀ c ∈ a ++ b, isActionableFromGround c = false) :
    Sim (_ActionPrintString eng p (a ++ b))
      (_ActionPrintString eng (_ActionPrintString eng p a) b) := by
  obtain ⟨e1, e2⟩ := he p.seq._engine a b ha hb hab
  unfold _ActionPrintString
  refine ⟨?_, ?_, ?_⟩
  · rw [callEngine_mode, callEngine_mode, callEngine_mode]
  · rw [callEngine_seq, callEngine_seq, callEngine_seq]
    dsimp only
    rw [e1]
  · rw [callEngine_dispatchLog, callEngine_dispatchLog, callEngine_dispatchLog, callEngine_seq]
    dsimp only
    rw [List.append_assoc, shownLog_append, shownLog_append, e2]

theorem take_findIdx_false {α : Type} (P : α → Bool) (l : List α) :
    ∀ c ∈ l.take (l.findIdx P), P c = false := by
  induction l with
  | nil => simp
  | cons a t ih =>
    intro c hc
    rw [List.findIdx_cons] at hc
    cases ha : P a
    · rw [ha] at hc
      simp only [cond_false, List.take_succ_cons, List.mem_cons] at hc
      rcases hc with rfl | hc
      · exact ha
      · exact ih c hc
    · rw [ha] at hc
      simp at hc

theorem getD_findIdx_true {α : Type} (P : α → Bool) (d : α) (l : List α)
    (h : l.findIdx P < l.length) : P (l.getD (l.findIdx P) d) = true := by
  induction l with
  | nil => simp at h
  | cons a t ih =>
    rw [List.findIdx_cons] at h ⊢
    cases ha : P a
    · rw [ha] at h
      simp only [cond_false, List.length_cons] at h
      simp only [cond_false, List.getD_cons_succ]
      exact ih (by omega)
    · simpa using ha

theorem _ActionPrintString_state (eng : Engine E) (p : Parser E) (s : List Nat) :
    (_ActionPrintString eng p s).seq._state = p.seq._state := by
  unfold _ActionPrintString
  rw [callEngine_seq]

theorem ground_run (g : Generated) (eng : Engine E) (he : PrintSplits eng) (run : List Nat) :
    ∀ (p : Parser E), p.seq._state = VTStates.Ground → run ≠ [] →
      (∀ c ∈ run, isActionableFromGround c = false) →
      Sim (_ActionPrintString eng p run) (run.foldl (charStep g eng) p) := by
  induction run with
  | nil => intro p _ h; exact absurd rfl h
  | cons c r ih =>
    intro p hst _ hall
    have hc : isActionableFromGround c = false := hall c (List.mem_cons_self _ _)
    have h1 : charStep g eng p c = _ActionPrintString eng p [c] := by
      unfold charStep; rw [if_pos ⟨hst, hc⟩]
    rw [List.foldl_cons, h1]
    cases r with
    | nil => exact Sim.same _
    | cons d r =>
      have := ih (_ActionPrintString eng p [c])
        ((_ActionPrintString_state eng p [c]).trans hst) (by simp)
        (fun x hx => hall x (List.mem_cons_of_mem _ hx))
      exact (print_append eng he p [c] (d :: r) (by simp) (by simp) (by simpa using hall)).andThen this

theorem groundStep_fold (g : Generated) (eng : Engine E) (he : PrintSplits eng) (p : Parser E)
    (i : Nat) (hst : p.seq._state = VTStates.Ground) :
    Sim (groundStep eng p i).1
      (((p.cur._currentString.drop i).take
        (findActionableFromGround (p.cur._currentString.drop i))).foldl (charStep g eng) p) := by
  unfold groundStep
  dsimp only
  split
  · rename_i hne
    refine (Sim.of_cur _ _).andThen ?_
    unfold _CurrentRun
    dsimp only
    refine (callEngine_sim eng _ p _ (Sim.of_cur p _)).andThen ?_
    refine ground_run g eng he _ p hst ?_ ?_
    · intro h0
      apply hne
      have := congrArg List.length h0
      simp only [List.length_take, List.length_nil] at this
      have hle := findActionableFromGround_le (p.cur._currentString.drop i)
      omega
    · rw [findActionableFromGround_eq_findIdx]
      exact take_findIdx_false _ _
  · rename_i hne
    have h0 : findActionableFromGround (p.cur._currentString.drop i) = 0 := by
      by_contra hh; exact hne hh
    rw [h0]
    exact Sim.of_cur p _

theorem ProcessCharacter_plain (g : Generated) (eng : Engine E) (p : Parser E) (c : Nat)
    (h : ¬ (0x80 ≤ c ∧ c ≤ 0x9F)) : ProcessCharacter g eng p c = Proceed g eng false p c := by
  unfold ProcessCharacter; rw [if_neg h]

theorem Proceed_paramRow (g : Generated) (eng : Engine E) (p : Parser E) (c : Nat)
    (st' : VTStates)
    (hrow : g.Proceed false p.seq._state p._isEngineForInput p.ansi c
        = [Op.ActionParam, Op.Enter st'] ∨
      (g.Proceed false p.seq._state p._isEngineForInput p.ansi c = [Op.ActionParam] ∧
        st' = p.seq._state)) :
    Sim (Proceed g eng false p c)
      { p with seq := { p.seq with _state := st',
                                   params := (paramBody p.seq.params c (look p)).1 } } ∧
    (Proceed g eng false p c).cur._curPos
      = p.cur._curPos + (paramBody p.seq.params c (look p)).2 ∧
    (Proceed g eng false p c).cur._currentString = p.cur._currentString := by
  rw [Proceed_eq]
  rcases hrow with h | ⟨h, rfl⟩
  · rw [h]
    exact ⟨⟨rfl, rfl, rfl⟩, rfl, rfl⟩
  · rw [h]
    exact ⟨⟨rfl, rfl, rfl⟩, rfl, rfl⟩

theorem charStep_paramRow (g : Generated) (eng : Engine E) (p : Parser E) (c : Nat)
    (st' : VTStates) (hc : IsDigit c) (hst : p.seq._state ≠ VTStates.Ground)
    (hrow : g.Proceed false p.seq._state p._isEngineForInput p.ansi c
        = [Op.ActionParam, Op.Enter st'] ∨
      (g.Proceed false p.seq._state p._isEngineForInput p.ansi c = [Op.ActionParam] ∧
        st' = p.seq._state)) :
    Sim (charStep g eng p c)
      { p with seq := { p.seq with _state := st', params := (paramBody p.seq.params c []).1 } } := by
  unfold charStep
  rw [if_neg (fun h => hst h.1), ProcessCharacter_plain _ _ _ _ (by unfold IsDigit at hc; omega)]
  exact (Proceed_paramRow g eng
    { p with cur := { p.cur with _currentString := [c], _curPos := 0 } } c st' hrow).1.andThen
    ⟨rfl, rfl, rfl⟩

theorem digits_fold (g : Generated) (eng : Engine E) (hg : ParamRows g) (ds : List Nat) :
    ∀ (X : Parser E), X.seq._state ≠ VTStates.Ground → (∀ d ∈ ds, IsDigit d) →
      (∀ d, IsDigit d →
        g.Proceed false X.seq._state X._isEngineForInput X.ansi d = [Op.ActionParam]) →
      Sim (ds.foldl (charStep g eng) X)
        { X with seq := { X.seq with
            params := ds.foldl (fun qs d => (paramBody qs d []).1) X.seq.params } } := by
  induction ds with
  | nil => intro X _ _ _; exact ⟨rfl, rfl, rfl⟩
  | cons d ds ih =>
    intro X hst hd hrows
    have hdd : IsDigit d := hd d (List.mem_cons_self _ _)
    have h1 := charStep_paramRow g eng X d X.seq._state hdd hst (Or.inr ⟨hrows d hdd, rfl⟩)
    rw [List.foldl_cons]
    refine (foldl_charStep_sim g eng hg ds _ _ h1).andThen ?_
    exact ih _ hst (fun x hx => hd x (List.mem_cons_of_mem _ hx)) hrows

theorem drop_curPos (p : Parser E) (h : p.cur._curPos < p.cur._currentString.length) :
    p.cur._currentString.drop p.cur._curPos
      = p.cur._currentString.getD p.cur._curPos 0 :: look p := by
  unfold look
  rw [List.drop_eq_getElem_cons h]
  simp [List.getD_eq_getElem?_getD, List.getElem?_eq_getElem h]

theorem doBody_fold (g : Generated) (eng : Engine E) (hg : ParamRows g) (p : Parser E)
    (hlt : p.cur._curPos < p.cur._currentString.length)
    (hv : p.seq._state = VTStates.Ground →
      isActionableFromGround (p.cur._currentString.getD p.cur._curPos 0) = true) :
    ∃ k, (doBodyStep g eng p).cur._curPos = p.cur._curPos + 1 + k ∧
      (doBodyStep g eng p).cur._currentString = p.cur._currentString ∧
      Sim (doBodyStep g eng p)
        (((p.cur._currentString.drop p.cur._curPos).take (k + 1)).foldl (charStep g eng) p) := by
  rw [drop_curPos p hlt]
  have hY : doBodyStep g eng p
      = { ProcessCharacter g eng (beforeCharacter p) (p.cur._currentString.getD p.cur._curPos 0)
          with cur := { (ProcessCharacter g eng (beforeCharacter p)
              (p.cur._currentString.getD p.cur._curPos 0)).cur with
            _curPos := (ProcessCharacter g eng (beforeCharacter p)
              (p.cur._currentString.getD p.cur._curPos 0)).cur._curPos + 1 } } := rfl
  generalize p.cur._currentString.getD p.cur._curPos 0 = c at hv hY ⊢
  by_cases hP : Op.ActionParam ∈ g.Proceed false p.seq._state p._isEngineForInput p.ansi c
      ∧ c ≠ 0x3B
  · rcases hg _ _ _ _ _ hP.1 with e | ⟨hc, st', hst', hrow, hrows⟩
    · exact absurd e hP.2
    · have hna : isActionableFromGround c = false := by
        unfold IsDigit at hc; unfold isActionableFromGround; simp; omega
      have hst : p.seq._state ≠ VTStates.Ground := by
        intro h; rw [hv h] at hna; cases hna
      obtain ⟨k, _, h2, h3, h4, _⟩ := paramBody_greedy p.seq.params c (look p)
      obtain ⟨a1, a2, a3⟩ := Proceed_paramRow g eng (beforeCharacter p) c st' hrow
      have h3' : (paramBody (beforeCharacter p).seq.params c (look (beforeCharacter p))).1
          = ((look p).take k).foldl (fun qs d => (paramBody qs d []).1)
              (paramBody p.seq.params c []).1 := h3
      rw [h3'] at a1
      rw [ProcessCharacter_plain _ _ _ _ (by unfold IsDigit at hc; omega)] at hY
      refine ⟨k, ?_, ?_, ?_⟩
      · rw [hY]
        show (Proceed g eng false (beforeCharacter p) c).cur._curPos + 1 = _
        rw [a2]
        show p.cur._curPos + (paramBody p.seq.params c (look p)).2 + 1 = _
        rw [h2]; omega
      · rw [hY]; exact a3
      · rw [hY]
        refine (Sim.of_cur _ _).andThen (a1.andThen ?_)
        rw [List.take_succ_cons, List.foldl_cons]
        refine Sim.flip ?_
        refine (foldl_charStep_sim g eng hg _ _ _
          (charStep_paramRow g eng p c st' hc hst hrow)).andThen ?_
        exact (digits_fold g eng hg _ _ hst' h4 hrows).andThen ⟨rfl, rfl, rfl⟩
  · have hP' : Op.ActionParam ∈ g.Proceed false p.seq._state p._isEngineForInput p.ansi c →
        c = 0x3B := by
      intro hm; by_contra hne; exact hP ⟨hm, hne⟩
    obtain ⟨r1, r2, _⟩ := ProcessCharacter_sim0 g eng hg (beforeCharacter p)
      { p with cur := { p.cur with _currentString := [c], _curPos := 0 } } c
      ⟨rfl, rfl, rfl⟩ (fun hm => Or.inr (hP' hm)) (fun _ => Or.inl rfl)
    refine ⟨0, ?_, ?_, ?_⟩
    · rw [hY]
      show (ProcessCharacter g eng (beforeCharacter p) c).cur._curPos + 1 = _
      rw [r2]; rfl
    · rw [hY]
      show (ProcessCharacter g eng (beforeCharacter p) c).cur._currentString = _
      rw [r2]; rfl
    · rw [hY]
      refine (Sim.of_cur _ _).andThen (r1.andThen ?_)
      rw [List.take_succ_cons, List.take_zero, List.foldl_cons, List.foldl_nil]
      unfold charStep
      rw [if_neg]
      · exact Sim.same _
      · intro h
        rw [hv h.1] at h
        exact absurd h.2 (by simp)

theorem foldl_take_drop {α β : Type} (f : α → β → α) (l : List β) (n : Nat) (a : α) :
    l.foldl f a = (l.drop n).foldl f ((l.take n).foldl f a) := by
  rw [← List.foldl_append, List.take_append_drop]

theorem scan_fold (g : Generated) (eng : Engine E) (hg : ParamRows g) (he : PrintSplits eng)
    (fuel : Nat) : ∀ (loc : Loc) (i : Nat) (p : Parser E),
    need loc p.cur._currentString.length (posAt loc i p) ≤ fuel → FoldInv loc i p →
    Sim (scan g eng fuel loc i p)
      ((p.cur._currentString.drop (posAt loc i p)).foldl (charStep g eng) p) := by
  induction fuel with
  | zero =>
    intro loc i p hn hinv
    cases loc with
    | whileHead => simp [need] at hn
    | vtStart => simp [need] at hn
    | doBody =>
      simp only [need, posAt] at hn
      simp only [FoldInv] at hinv
      omega
  | succ fuel ih =>
    intro loc i p hn hinv
    cases loc with
    | whileHead =>
      simp only [need, posAt] at hn ⊢
      simp only [FoldInv] at hinv
      rw [scan]
      split
      · rename_i hlt
        have hst : p.seq._state = VTStates.Ground := by
          by_contra h; have := hinv h; omega
        obtain ⟨c1, _, _, c4, _⟩ := groundStep_cur eng p i (Nat.le_of_lt hlt)
        have hle := findActionableFromGround_le (p.cur._currentString.drop i)
        simp only [List.length_drop] at hle
        have h1 := ih Loc.vtStart (groundStep eng p i).2 (groundStep eng p i).1
          (by simp only [need, posAt, c1, c4]; omega)
          (by
            simp only [FoldInv, c1, c4]
            intro hlt2 _
            have hd : p.cur._currentString.getD
                (i + findActionableFromGround (p.cur._currentString.drop i)) 0
                = (p.cur._currentString.drop i).getD
                  (findActionableFromGround (p.cur._currentString.drop i)) 0 := by
              simp [List.getD_eq_getElem?_getD, List.getElem?_drop]
            rw [hd, findActionableFromGround_eq_findIdx]
            apply getD_findIdx_true
            rw [← findActionableFromGround_eq_findIdx, List.length_drop]
            omega)
        simp only [posAt, c1, c4] at h1
        rw [foldl_take_drop (charStep g eng) (p.cur._currentString.drop i)
          (findActionableFromGround (p.cur._currentString.drop i)) p]
        have hd2 : (p.cur._currentString.drop i).drop
            (findActionableFromGround (p.cur._currentString.drop i))
            = p.cur._currentString.drop
              (i + findActionableFromGround (p.cur._currentString.drop i)) := by
          rw [List.drop_drop]
        rw [hd2, c4]
        exact h1.andThen (foldl_charStep_sim g eng hg _ _ _ (groundStep_fold g eng he p i hst))
      · rename_i hge
        rw [List.drop_eq_nil_of_le (by omega)]
        exact Sim.same p
    | vtStart =>
      simp only [need, posAt] at hn ⊢
      simp only [FoldInv] at hinv
      rw [scan]
      split
      · rename_i hge
        rw [List.drop_eq_nil_of_le (by omega)]
        exact Sim.same p
      · rename_i hlt
        have h1 := ih Loc.doBody i { p with cur := { p.cur with _curPos := i } }
          (by simp only [need, posAt]; omega)
          (by simp only [FoldInv]; exact ⟨by omega, hinv (by omega)⟩)
        exact h1.andThen (foldl_charStep_sim g eng hg _ _ _ (Sim.of_cur p _))
    | doBody =>
      simp only [need, posAt] at hn ⊢
      simp only [FoldInv] at hinv
      obtain ⟨k, d4, d1, hs⟩ := doBody_fold g eng hg p hinv.1 hinv.2
      have hd2 : (p.cur._currentString.drop p.cur._curPos).drop (k + 1)
          = p.cur._currentString.drop (p.cur._curPos + 1 + k) := by
        rw [List.drop_drop]; congr 1; omega
      rw [foldl_take_drop (charStep g eng) (p.cur._currentString.drop p.cur._curPos) (k + 1) p,
        hd2]
      rw [scan]
      split
      · rename_i hc
        have h1 := ih Loc.doBody i (doBodyStep g eng p)
          (by simp only [need, posAt, d1, d4]; omega)
          (by simp only [FoldInv]; exact ⟨hc.1, fun h => absurd h hc.2⟩)
        simp only [posAt, d1, d4] at h1
        exact h1.andThen (foldl_charStep_sim g eng hg _ _ _ hs)
      · rename_i hc
        have h1 := ih Loc.whileHead (doBodyStep g eng p).cur._curPos (doBodyStep g eng p)
          (by simp only [need, posAt, d1, d4]; omega)
          (by
            simp only [FoldInv]
            intro hs2
            by_contra hlt2
            exact hc ⟨by omega, hs2⟩)
        simp only [posAt, d1, d4] at h1
        rw [d4]
        exact h1.andThen (foldl_charStep_sim g eng hg _ _ _ hs)

theorem endOfString_sim (g : Generated) (eng : Engine E) (x : Parser E)
    (hm : x._isEngineForInput = false) : Sim (endOfString g eng x) x := by
  unfold endOfString
  split
  · split
    · rename_i h
      rw [hm] at h
      cases h
    · split
      · exact ⟨rfl, rfl, rfl⟩
      · exact Sim.same x
  · exact Sim.same x

theorem scanString_fold (g : Generated) (eng : Engine E) (hg : ParamRows g)
    (he : PrintSplits eng) (p : Parser E) (s : List Nat) :
    Sim (scanString g eng p s) (s.foldl (charStep g eng) p) := by
  unfold scanString
  dsimp only
  split
  · rename_i hs
    have h1 := scan_fold g eng hg he (3 * s.length + 3) Loc.vtStart 0 (startString p s)
      (by simp [need, posAt, startString])
      (by simp only [FoldInv]; intro _ h; exact absurd h hs)
    exact h1.andThen (foldl_charStep_sim g eng hg _ _ _ (Sim.of_cur p _))
  · rename_i hs
    have h1 := scan_fold g eng hg he (3 * s.length + 3) Loc.whileHead 0 (startString p s)
      (by simp [need, posAt, startString])
      (by simp only [FoldInv]; intro h; exact absurd h hs)
    exact h1.andThen (foldl_charStep_sim g eng hg _ _ _ (Sim.of_cur p _))

theorem ProcessString_fold (g : Generated) (eng : Engine E) (hg : ParamRows g)
    (he : PrintSplits eng) (p : Parser E) (hm : p._isEngineForInput = false) (s : List Nat) :
    Sim (ProcessString g eng p s) (s.foldl (charStep g eng) p) :=
  (endOfString_sim g eng _ (scanString_output g eng p s hm)).andThen (scanString_fold g eng hg he p s)

theorem ProcessString_output (g : Generated) (eng : Engine E) (p : Parser E)
    (hm : p._isEngineForInput = false) (s : List Nat) :
    (ProcessString g eng p s)._isEngineForInput = false :=
  (endOfString_sim g eng _ (scanString_output g eng p s hm)).isInput.trans
    (scanString_output g eng p s hm)

theorem pieces_fold (g : Generated) (eng : Engine E) (hg : ParamRows g) (he : PrintSplits eng)
    (pieces : List (List Nat)) : ∀ (p : Parser E), p._isEngineForInput = false →
    Sim (pieces.foldl (ProcessString g eng) p) (pieces.flatten.foldl (charStep g eng) p) := by
  induction pieces with
  | nil => intro p _; exact Sim.same p
  | cons a rest ih =>
    intro p hm
    rw [List.foldl_cons, List.flatten_cons, List.foldl_append]
    exact (ih _ (ProcessString_output g eng p hm a)).andThen
      (foldl_charStep_sim g eng hg _ _ _ (ProcessString_fold g eng hg he p hm a))

theorem paramRows_csiTable : ParamRows csiTable := by
  intro isC1 st isInput ansi wch h
  by_cases h3 : wch = 0x3B
  · exact Or.inl h3
  · right
    by_cases hd : 0x30 ≤ wch ∧ wch ≤ 0x39
    · have rows : ∀ d, IsDigit d →
          csiTable.Proceed false VTStates.CsiParam isInput ansi d = [Op.ActionParam] := by
        intro d hdd
        unfold IsDigit at hdd
        simp [csiTable, hdd]
      cases st with
      | CsiEntry =>
        exact ⟨hd, VTStates.CsiParam, by decide, Or.inl (by simp [csiTable, hd]), rows⟩
      | CsiParam =>
        exact ⟨hd, VTStates.CsiParam, by decide, Or.inr ⟨by simp [csiTable, hd], rfl⟩, rows⟩
      | CsiSubParam => exfalso; simp [csiTable, hd, h3] at h
      | Ground => exfalso; simp only [csiTable] at h; split at h <;> simp at h
      | Escape => exfalso; simp only [csiTable] at h; split at h <;> simp at h
      | _ => exfalso; simp [csiTable] at h
    · exfalso
      cases st with
      | CsiEntry => simp [csiTable, hd, h3] at h; split at h <;> simp at h
      | CsiParam => simp [csiTable, hd, h3] at h; split at h <;> simp at h
      | CsiSubParam => simp [csiTable, hd, h3] at h; split at h <;> simp at h
      | Ground => simp only [csiTable] at h; split at h <;> simp at h
      | Escape => simp only [csiTable] at h; split at h <;> simp at h
      | _ => simp [csiTable] at h

theorem printSplits_printEngine : PrintSplits printEngine := by
  intro e a b ha hb hab
  obtain ⟨b', x, rfl⟩ := (List.eq_nil_or_concat b).resolve_left hb
  have hx : isActionableFromGround x = false := hab x (by simp)
  have hx20 : 0x20 ≤ x := by
    unfold isActionableFromGround at hx
    simp at hx
    omega
  cases a with
  | nil => exact absurd rfl ha
  | cons a0 a' =>
    simp [printEngine, shownLog, shown, hx20, ← List.append_assoc]
    rw [show a0 :: (a' ++ b' ++ [x]) = (a0 :: (a' ++ b')) ++ [x] by simp, List.getLast?_concat]
    simp [hx20]

/-- C8 (amended): in output mode, for a transition table whose Param rows are
regular (`ParamRows`) and an engine for which printing a run in two calls is the
same as printing it in one (`PrintSplits`), feeding the pieces of an input to
`ProcessString` in order makes the same dispatch-target calls, with the same
arguments, as a single call on the concatenated input, once every `PrintString`
call is replaced by the characters it prints. -/
theorem chunked_input_shows_same (g : Generated) (eng : Engine E) (hg : ParamRows g)
    (he : PrintSplits eng) (p : Parser E) (hm : p._isEngineForInput = false)
    (pieces : List (List Nat)) :
    shownLog (pieces.foldl (ProcessString g eng) p).dispatchLog
      = shownLog (ProcessString g eng p pieces.flatten).dispatchLog :=
  ((pieces_fold g eng hg he pieces p hm).andThen
    (ProcessString_fold g eng hg he p hm pieces.flatten).flip).2.2

theorem chunked_input_shows_same_witness :
    ParamRows csiTable ∧ PrintSplits printEngine ∧
    (Parser.init 0 false : Parser Nat)._isEngineForInput = false ∧
    shownLog ([[0x41, 0x1B, 0x5B, 0x31], [0x32, 0x6D, 0x42], [0x43]].foldl
        (ProcessString csiTable printEngine) (Parser.init 0 false)).dispatchLog
      = shownLog (ProcessString csiTable printEngine (Parser.init 0 false)
          [[0x41, 0x1B, 0x5B, 0x31], [0x32, 0x6D, 0x42], [0x43]].flatten).dispatchLog :=
  ⟨paramRows_csiTable, printSplits_printEngine, rfl,
    chunked_input_shows_same csiTable printEngine paramRows_csiTable printSplits_printEngine
      (Parser.init 0 false) rfl [[0x41, 0x1B, 0x5B, 0x31], [0x32, 0x6D, 0x42], [0x43]]⟩
/-! ## Flushing, C1 controls and the scalar scanner -/

/-- C11 (as stated, refuted): with a cached sequence whose pass-through fails,
`FlushToTerminal` emits the cached sequence only; the current run, here the
character `[`, is not emitted. -/
theorem flushToTerminal_skips_run_after_failure :
    (FlushToTerminal failingSink
      { (Parser.init () false : Parser Unit) with
        _cachedSequence := some [0x1B],
        cur := { _currentString := [0x5B], _runOffset := 0, _runSize := 1, _curPos := 0,
                 _processingLastCharacter := true } }).1.passThroughLog = [[0x1B]] ∧
    _CurrentRun
      { (Parser.init () false : Parser Unit) with
        _cachedSequence := some [0x1B],
        cur := { _currentString := [0x5B], _runOffset := 0, _runSize := 1, _curPos := 0,
                 _processingLastCharacter := true } } = [0x5B] := by
  decide

/-- C11 (amended): `FlushToTerminal` leaves the cached sequence absent; it emits
the cached sequence when there is one and then, unless that emission failed, the
current run, in this order; and it returns true exactly when the emission of the
cached sequence (if any) and that of the current run both succeeded. -/
theorem flushToTerminal_emissions (eng : Engine E) (p : Parser E) :
    (FlushToTerminal eng p).1._cachedSequence = none ∧
    (FlushToTerminal eng p).1.passThroughLog
      = p.passThroughLog ++
        (match p._cachedSequence with
         | none => [_CurrentRun p]
         | some cached =>
           if eng.passThrough p.seq._engine cached then [cached, _CurrentRun p] else [cached]) ∧
    ((FlushToTerminal eng p).2 = true ↔
      (∀ cached, p._cachedSequence = some cached →
        eng.passThrough p.seq._engine cached = true) ∧
      eng.passThrough p.seq._engine (_CurrentRun p) = true) := by
  unfold FlushToTerminal
  cases hc : p._cachedSequence with
  | none =>
    dsimp only
    simp only [if_true]
    refine ⟨hc, ?_, ?_⟩ <;> simp
  | some cached =>
    dsimp only
    cases hok : eng.passThrough p.seq._engine cached
    · simp [hok]
    · simp [hok, _CurrentRun]

/-- C14: a character in `0x80..0x9F` is processed as the two transitions on
`0x1B` and on the character minus `0x40` when `AcceptC1` or `AlwaysAcceptC1` is
set, and otherwise leaves the parser as it is; any other character is processed
as one transition on itself. -/
theorem processCharacter_c1 (g : Generated) (eng : Engine E) (p : Parser E) (wch : Nat) :
    (0x80 ≤ wch ∧ wch ≤ 0x9F → p.acceptC1 = true ∨ p.alwaysAcceptC1 = true →
      ProcessCharacter g eng p wch
        = Proceed g eng true (Proceed g eng true p 0x1B) (wch - 0x40)) ∧
    (0x80 ≤ wch ∧ wch ≤ 0x9F → p.acceptC1 = false → p.alwaysAcceptC1 = false →
      ProcessCharacter g eng p wch = p) ∧
    (¬ (0x80 ≤ wch ∧ wch ≤ 0x9F) → ProcessCharacter g eng p wch = Proceed g eng false p wch) := by
  refine ⟨fun h ha => ?_, fun h h1 h2 => ?_, fun h => ?_⟩
  · unfold ProcessCharacter
    rw [if_pos h]
    rcases ha with ha | ha <;> simp [ha]
  · unfold ProcessCharacter
    rw [if_pos h, h1, h2]
    rfl
  · unfold ProcessCharacter
    rw [if_neg h]

theorem processCharacter_c1_witness :
    ((0x80 ≤ 0x9B ∧ 0x9B ≤ 0x9F) ∧
      ({ (Parser.init () false : Parser Unit) with acceptC1 := true }.acceptC1 = true ∨
        { (Parser.init () false : Parser Unit) with acceptC1 := true }.alwaysAcceptC1 = true) ∧
      ProcessCharacter csiTable nullEngine
          { (Parser.init () false : Parser Unit) with acceptC1 := true } 0x9B
        = Proceed csiTable nullEngine true
            (Proceed csiTable nullEngine true
              { (Parser.init () false : Parser Unit) with acceptC1 := true } 0x1B)
            (0x9B - 0x40)) ∧
    ((Parser.init () false : Parser Unit).acceptC1 = false ∧
      (Parser.init () false : Parser Unit).alwaysAcceptC1 = false ∧
      ProcessCharacter csiTable nullEngine (Parser.init () false) 0x9B = Parser.init () false) ∧
    (¬ (0x80 ≤ 0x41 ∧ 0x41 ≤ 0x9F) ∧
      ProcessCharacter csiTable nullEngine (Parser.init () false) 0x41
        = Proceed csiTable nullEngine false (Parser.init () false) 0x41) :=
  ⟨⟨by decide, Or.inl rfl,
      (processCharacter_c1 csiTable nullEngine _ 0x9B).1 (by decide) (Or.inl rfl)⟩,
    ⟨rfl, rfl, (processCharacter_c1 csiTable nullEngine _ 0x9B).2.1 (by decide) rfl rfl⟩,
    ⟨by decide, (processCharacter_c1 csiTable nullEngine _ 0x41).2.2 (by decide)⟩⟩

/-- C18: on every slice the vectorised `findActionableFromGround` returns the
index that the scalar `findActionableFromGroundPlain` returns when run from
offset 0. -/
theorem findActionableFromGround_eq_plain (data : List Nat) :
    findActionableFromGround data = findActionableFromGroundPlain data 0 := by
  rw [findActionableFromGround_eq_findIdx]
  unfold findActionableFromGroundPlain
  rw [List.drop_zero, plainLoop_eq, Nat.zero_add]

/-! ## Input adapter -/

theorem trim_partial_utf8_eq (input : List Nat) :
    trim_partial_utf8 input
      = (if input.length ≥ 1 ∧ input.getD (input.length - 1) 0 ≥ 0xC0 then input.length - 1
         else if input.length ≥ 2 ∧ input.getD (input.length - 2) 0 ≥ 0xE0 then
           input.length - 2
         else if input.length ≥ 3 ∧ input.getD (input.length - 3) 0 ≥ 0xF0 then
           input.length - 3
         else input.length) := by
  unfold trim_partial_utf8 trimTail
  dsimp only
  by_cases h3 : input.length < 3
  · rw [if_pos h3]
    by_cases h2 : input.length = 2
    · simp [h2]
    · by_cases h1 : input.length = 1
      · simp [h1]
      · have h0 : input.length = 0 := by omega
        simp [h0]
  · rw [if_neg h3]
    have e1 : input.length ≥ 1 := by omega
    have e2 : input.length ≥ 2 := by omega
    have e3 : input.length ≥ 3 := by omega
    simp only [e1, e2, e3, true_and]

/-- C15: `trim_partial_utf8` on a buffer of length `n` returns `n - 1` if
`n ≥ 1` and the last byte is at least `0xC0`; otherwise `n - 2` if `n ≥ 2` and
the byte before it is at least `0xE0`; otherwise `n - 3` if `n ≥ 3` and the
third byte from the end is at least `0xF0`; otherwise `n`. The result is at most
`n` and removes at most 3 bytes. -/
theorem trim_partial_utf8_cases (input : List Nat) :
    trim_partial_utf8 input
      = (if input.length ≥ 1 ∧ input.getD (input.length - 1) 0 ≥ 0xC0 then input.length - 1
         else if input.length ≥ 2 ∧ input.getD (input.length - 2) 0 ≥ 0xE0 then
           input.length - 2
         else if input.length ≥ 3 ∧ input.getD (input.length - 3) 0 ≥ 0xF0 then
           input.length - 3
         else input.length) ∧
    trim_partial_utf8 input ≤ input.length ∧
    input.length - trim_partial_utf8 input ≤ 3 := by
  refine ⟨trim_partial_utf8_eq input, ?_, ?_⟩
  · rw [trim_partial_utf8_eq]; split_ifs <;> omega
  · rw [trim_partial_utf8_eq]; split_ifs <;> omega

/-- C17 (refuted): a stream that consists of the first two bytes of a three-byte
code point, `0xE2 0x82`, is read without any window being handed to the
decoder: the first `ReadFrom` returns 0 and both bytes are dropped. With the
byte `0xE2` saved by an earlier call and `0x82` as the rest of the stream, the
final window is `0xE2` alone and the stream is at its end. A stream that ends in
the same two bytes after a complete character does get them in a final window. -/
theorem readFrom_drops_partial_stream :
    allWindows [0xE2, 0x82] = [] ∧
    (allWindows [0xE2, 0x82]).flatten ≠ [0xE2, 0x82] ∧
    ReadFrom { _u8partial := [0xE2] } { _target := [0x82], pos := 0 }
      = (some [0xE2], { _u8partial := [] }, { _target := [0x82], pos := 1 }) ∧
    allWindows [0x41, 0xE2, 0x82] = [[0x41], [0xE2, 0x82]] := by
  decide

/-! ## Output engine -/

/-- C19: `ActionExecute(wch)` of the output engine returns true; it makes the
dispatch-target call `WarningBell` for BEL (and invokes the flush callback when
one is attached), `CursorBackward(1)` for BS, `ForwardTab(1)` for TAB,
`CarriageReturn` for CR, `LineFeed(DependsOnMode)` for LF, FF and VT,
`LockingShift(0)` for SI, `LockingShift(1)` for SO, `Print(U+2426)` for SUB and
`Print(0x7F)` for DEL; for ENQ and every other character it makes no call; the
flush callback is invoked for no character but BEL. -/
theorem actionExecute_calls (e : OutputEngine) (wch : Nat) :
    (e.ActionExecute wch).result = true ∧
    (wch = AsciiChars.BEL →
      (e.ActionExecute wch).calls = [dispatchCall Action.WarningBell []] ∧
      (e.ActionExecute wch).flush = e._pfnFlushToTerminal) ∧
    (wch = AsciiChars.BS →
      (e.ActionExecute wch).calls = [dispatchCall Action.CursorBackward [1]]) ∧
    (wch = AsciiChars.TAB → (e.ActionExecute wch).calls = [dispatchCall Action.ForwardTab [1]]) ∧
    (wch = AsciiChars.CR → (e.ActionExecute wch).calls = [dispatchCall Action.CarriageReturn []]) ∧
    (wch = AsciiChars.LF ∨ wch = AsciiChars.FF ∨ wch = AsciiChars.VT →
      (e.ActionExecute wch).calls
        = [dispatchCall Action.LineFeed [LineFeedType.DependsOnMode]]) ∧
    (wch = AsciiChars.SI → (e.ActionExecute wch).calls = [dispatchCall Action.LockingShift [0]]) ∧
    (wch = AsciiChars.SO → (e.ActionExecute wch).calls = [dispatchCall Action.LockingShift [1]]) ∧
    (wch = AsciiChars.SUB → (e.ActionExecute wch).calls = [TermCall.Print 0x2426]) ∧
    (wch = AsciiChars.DEL → (e.ActionExecute wch).calls = [TermCall.Print 0x7F]) ∧
    (wch ∉ [AsciiChars.BEL, AsciiChars.BS, AsciiChars.TAB, AsciiChars.CR, AsciiChars.LF,
        AsciiChars.FF, AsciiChars.VT, AsciiChars.SI, AsciiChars.SO, AsciiChars.SUB,
        AsciiChars.DEL] → (e.ActionExecute wch).calls = []) ∧
    (wch ≠ AsciiChars.BEL → (e.ActionExecute wch).flush = false) := by
  refine ⟨rfl, ?_, ?_, ?_, ?_, ?_, ?_, ?_, ?_, ?_, ?_, ?_⟩
  · rintro rfl; exact ⟨rfl, rfl⟩
  · rintro rfl; rfl
  · rintro rfl; rfl
  · rintro rfl; rfl
  · rintro (rfl | rfl | rfl) <;> rfl
  · rintro rfl; rfl
  · rintro rfl; rfl
  · rintro rfl; rfl
  · rintro rfl; rfl
  · intro h
    simp only [List.mem_cons, List.mem_singleton, not_or, List.not_mem_nil, or_false] at h
    obtain ⟨h1, h2, h3, h4, h5, h6, h7, h8, h9, h10, h11⟩ := h
    have h567 : ¬ (wch = AsciiChars.LF ∨ wch = AsciiChars.FF ∨ wch = AsciiChars.VT) := by
      rintro (h | h | h) <;> contradiction
    show (executeSwitch e wch).1 = []
    unfold executeSwitch
    rw [if_neg h1, if_neg h2, if_neg h3, if_neg h4, if_neg h567, if_neg h8, if_neg h9,
      if_neg h10, if_neg h11]
    simp only [apply_ite Prod.fst, ite_self]
  · intro h
    show (executeSwitch e wch).2 = false
    unfold executeSwitch
    simp only [apply_ite Prod.snd, if_neg h, ite_self]

theorem actionExecute_calls_witness :
    (AsciiChars.BEL = AsciiChars.BEL ∧
      (({ _lastPrintedChar := 0x41, _pfnFlushToTerminal := true } : OutputEngine).ActionExecute
          AsciiChars.BEL).calls = [dispatchCall Action.WarningBell []] ∧
      (({ _lastPrintedChar := 0x41, _pfnFlushToTerminal := true } : OutputEngine).ActionExecute
          AsciiChars.BEL).flush
        = ({ _lastPrintedChar := 0x41, _pfnFlushToTerminal := true } : OutputEngine)._pfnFlushToTerminal) ∧
    (0x41 ∉ [AsciiChars.BEL, AsciiChars.BS, AsciiChars.TAB, AsciiChars.CR, AsciiChars.LF,
        AsciiChars.FF, AsciiChars.VT, AsciiChars.SI, AsciiChars.SO, AsciiChars.SUB,
        AsciiChars.DEL] ∧
      (({ _lastPrintedChar := 0x41, _pfnFlushToTerminal := true } : OutputEngine).ActionExecute
        0x41).calls = []) :=
  ⟨⟨rfl, (actionExecute_calls { _lastPrintedChar := 0x41, _pfnFlushToTerminal := true }
      AsciiChars.BEL).2.1 rfl⟩,
    ⟨by decide,
      (actionExecute_calls { _lastPrintedChar := 0x41, _pfnFlushToTerminal := true }
        0x41).2.2.2.2.2.2.2.2.2.2.1 (by decide)⟩⟩

/-- C20 (as stated, refuted): after a `Print` of `A`, a `CsiDispatch` of `CUU`
whose parameter carries a sub-parameter returns false at once and leaves
`LastChar` at `A`, not at NUL. -/
theorem csiDispatch_keeps_lastChar :
    (OutputEngine.react nullTarget { _lastPrintedChar := 0x41, _pfnFlushToTerminal := false }
      (EngineCall.ActionCsiDispatch CsiActionCodes.CUU_CursorUp [some 1] [some 2]
        [(0, 1)])).engine._lastPrintedChar = 0x41 ∧
    (OutputEngine.react nullTarget { _lastPrintedChar := 0, _pfnFlushToTerminal := false }
      (EngineCall.ActionPrint 0x41)).engine._lastPrintedChar = 0x41 ∧
    (0x41 : Nat) ≠ AsciiChars.NUL := by
  decide

/-- C20 (amended): after `Execute`, `ExecuteFromEscape`, `EscDispatch`,
`Vt52EscDispatch`, `OscDispatch`, `DcsDispatch` and `Ss3Dispatch`, for every
input and whatever the result, `LastChar` is NUL; after `CsiDispatch` it is NUL
unless the parameters carry sub-parameters that the sequence does not accept, in
which case the action returns false at once and `LastChar` is unchanged. -/
theorem lastChar_after_action (t : Target) (e : OutputEngine) :
    (∀ wch, (OutputEngine.react t e (EngineCall.ActionExecute wch)).engine._lastPrintedChar
      = AsciiChars.NUL) ∧
    (∀ wch, (OutputEngine.react t e
      (EngineCall.ActionExecuteFromEscape wch)).engine._lastPrintedChar = AsciiChars.NUL) ∧
    (∀ id, (OutputEngine.react t e (EngineCall.ActionEscDispatch id)).engine._lastPrintedChar
      = AsciiChars.NUL) ∧
    (∀ id ps, (OutputEngine.react t e
      (EngineCall.ActionVt52EscDispatch id ps)).engine._lastPrintedChar = AsciiChars.NUL) ∧
    (∀ n s, (OutputEngine.react t e (EngineCall.ActionOscDispatch n s)).engine._lastPrintedChar
      = AsciiChars.NUL) ∧
    (∀ id ps, (OutputEngine.react t e
      (EngineCall.ActionDcsDispatch id ps)).engine._lastPrintedChar = AsciiChars.NUL) ∧
    (∀ wch ps, (OutputEngine.react t e
      (EngineCall.ActionSs3Dispatch wch ps)).engine._lastPrintedChar = AsciiChars.NUL) ∧
    (∀ id ps sub ranges,
      (OutputEngine.react t e
        (EngineCall.ActionCsiDispatch id ps sub ranges)).engine._lastPrintedChar
        = if (VTParameters.mk ps sub ranges).hasSubParams
            && !_CanSeqAcceptSubParam id (VTParameters.mk ps sub ranges)
          then e._lastPrintedChar else AsciiChars.NUL) := by
  refine ⟨fun _ => rfl, fun _ => rfl, fun _ => rfl, fun _ _ => rfl, fun _ _ => rfl,
    fun _ _ => rfl, fun _ _ => rfl, fun id ps sub ranges => ?_⟩
  simp only [OutputEngine.react, OutputEngine.ActionCsiDispatch]
  split <;> rfl

/-! ## End of `ProcessString` in input mode -/

theorem scanString_input (g : Generated) (eng : Engine E) (p : Parser E) (s : List Nat) :
    (scanString g eng p s)._isEngineForInput = p._isEngineForInput :=
  congrArg Prod.fst (scanString_mode g eng p s)

theorem endOfString_input (g : Generated) (eng : Engine E) (q : Parser E)
    (hin : q._isEngineForInput = true) (hs : q.seq._state ≠ VTStates.Ground) :
    endOfString g eng q
      = Enter g (forceDispatch g eng (reprocess g eng q (_CurrentRun q))
          (lastOfRun (reprocess g eng q (_CurrentRun q)) (_CurrentRun q))) VTStates.Ground := by
  unfold endOfString
  rw [if_pos hs]
  dsimp only
  rw [if_pos hin]
  rfl

theorem endOfString_ground (g : Generated) (eng : Engine E) (q : Parser E)
    (hs : q.seq._state = VTStates.Ground) : endOfString g eng q = q := by
  unfold endOfString
  rw [if_neg (fun h => h hs)]

theorem processString_input_ground (g : Generated) (eng : Engine E) (p : Parser E)
    (s : List Nat) (hin : p._isEngineForInput = true) :
    (ProcessString g eng p s).seq._state = VTStates.Ground := by
  unfold ProcessString
  by_cases hs : (scanString g eng p s).seq._state = VTStates.Ground
  · rw [endOfString_ground g eng _ hs]; exact hs
  · rw [endOfString_input g eng _ ((scanString_input g eng p s).trans hin) hs]
    rfl

/-- C12: in input mode every `ProcessString` call returns in `Ground`; when the
scan ends outside `Ground`, the parser is reset, all but the last character of
the run not yet dispatched (the tail of the string from the run offset) are
processed again, and the last character is dispatched by the state then
reached: `Execute` in `Ground`, `EscDispatch` in `Escape` and
`EscapeIntermediate`, `CsiDispatch` in the five CSI states, `OscDispatch` in the
three OSC states, `Ss3Dispatch` in the two SS3 states, nothing in any other
state; then `Ground` is entered. -/
theorem input_mode_forces_dispatch (g : Generated) (eng : Engine E) (p : Parser E)
    (s : List Nat) (hin : p._isEngineForInput = true) :
    (ProcessString g eng p s).seq._state = VTStates.Ground ∧
    ((scanString g eng p s).seq._state ≠ VTStates.Ground →
      ∀ (r : Parser E) (last : Nat),
        r = reprocess g eng (scanString g eng p s)
          (s.drop (scanString g eng p s).cur._runOffset) →
        last = lastOfRun r (s.drop (scanString g eng p s).cur._runOffset) →
        (r.seq._state = VTStates.Ground →
          ProcessString g eng p s = Enter g (_ActionExecute eng r last) VTStates.Ground) ∧
        (r.seq._state = VTStates.Escape ∨ r.seq._state = VTStates.EscapeIntermediate →
          ProcessString g eng p s = Enter g (_ActionEscDispatch g eng r last) VTStates.Ground) ∧
        (r.seq._state = VTStates.CsiEntry ∨ r.seq._state = VTStates.CsiIntermediate ∨
            r.seq._state = VTStates.CsiIgnore ∨ r.seq._state = VTStates.CsiParam ∨
            r.seq._state = VTStates.CsiSubParam →
          ProcessString g eng p s = Enter g (_ActionCsiDispatch g eng r last) VTStates.Ground) ∧
        (r.seq._state = VTStates.OscParam ∨ r.seq._state = VTStates.OscString ∨
            r.seq._state = VTStates.OscTermination →
          ProcessString g eng p s = Enter g (_ActionOscDispatch eng r last) VTStates.Ground) ∧
        (r.seq._state = VTStates.Ss3Entry ∨ r.seq._state = VTStates.Ss3Param →
          ProcessString g eng p s = Enter g (_ActionSs3Dispatch eng r last) VTStates.Ground) ∧
        (r.seq._state = VTStates.Vt52Param ∨ r.seq._state = VTStates.DcsEntry ∨
            r.seq._state = VTStates.DcsIntermediate ∨ r.seq._state = VTStates.DcsIgnore ∨
            r.seq._state = VTStates.DcsParam ∨ r.seq._state = VTStates.DcsPassThrough ∨
            r.seq._state = VTStates.SosPmApcString →
          ProcessString g eng p s = Enter g r VTStates.Ground)) := by
  refine ⟨processString_input_ground g eng p s hin, ?_⟩
  intro hs r last hr hl
  have e := endOfString_input g eng _ ((scanString_input g eng p s).trans hin) hs
  rw [currentRun_scanString g eng p s hs, ← hr, ← hl] at e
  have e' : ProcessString g eng p s
      = Enter g (forceDispatch g eng r last) VTStates.Ground := e
  rw [e']
  unfold forceDispatch
  refine ⟨?_, ?_, ?_, ?_, ?_, ?_⟩
  · intro h; rw [h]
  · rintro (h | h) <;> rw [h]
  · rintro (h | h | h | h | h) <;> rw [h]
  · rintro (h | h | h) <;> rw [h]
  · rintro (h | h) <;> rw [h]
  · rintro (h | h | h | h | h | h | h) <;> rw [h]

theorem input_mode_forces_dispatch_witness :
    (Parser.init [] true : Parser (List EngineCall))._isEngineForInput = true ∧
    (ProcessString csiTable recordEngine (Parser.init [] true) [0x1B, 0x5B]).seq._state
      = VTStates.Ground ∧
    (scanString csiTable recordEngine (Parser.init [] true) [0x1B, 0x5B]).seq._state
      ≠ VTStates.Ground ∧
    (reprocess csiTable recordEngine
        (scanString csiTable recordEngine (Parser.init [] true) [0x1B, 0x5B])
        [0x1B, 0x5B]).seq._state = VTStates.Escape ∧
    (ProcessString csiTable recordEngine (Parser.init [] true) [0x1B, 0x5B]).seq._engine
      = [EngineCall.ActionClear, EngineCall.ActionClear, EngineCall.ActionClear,
         EngineCall.ActionEscDispatch 0x5B] :=
  ⟨rfl, (input_mode_forces_dispatch csiTable recordEngine (Parser.init [] true)
      [0x1B, 0x5B] rfl).1, by decide, by decide, by
    rw [(((input_mode_forces_dispatch csiTable recordEngine (Parser.init [] true)
      [0x1B, 0x5B] rfl).2 (by decide) _ _ rfl rfl).2.1 (Or.inl (by decide)))]
    decide⟩

/-! ## A sequence split over two calls in input mode -/

theorem scan_ground_all (g : Generated) (eng : Engine E) (fuel : Nat) (p : Parser E)
    (hlen : 0 < p.cur._currentString.length)
    (hf : findActionableFromGround p.cur._currentString = p.cur._currentString.length) :
    scan g eng (fuel + 2) Loc.whileHead 0 p = (groundStep eng p 0).1 := by
  obtain ⟨c1, _, _, c4, _⟩ := groundStep_cur eng p 0 (Nat.zero_le _)
  rw [List.drop_zero, hf] at c4
  rw [scan, if_pos hlen, scan, if_pos (by rw [c1, c4]; omega)]

theorem processString_prints (g : Generated) (eng : Engine E) (q : Parser E) (s : List Nat)
    (hq : q.seq._state = VTStates.Ground) (hs : s ≠ [])
    (hall : ∀ c ∈ s, isActionableFromGround c = false) :
    (ProcessString g eng q s).seq
      = { q.seq with
          _engine := (eng.react q.seq._engine (EngineCall.ActionPrintString s)).engine } ∧
    (ProcessString g eng q s).dispatchLog
      = q.dispatchLog ++ (eng.react q.seq._engine (EngineCall.ActionPrintString s)).calls := by
  have hf : findActionableFromGround s = s.length := by
    rw [findActionableFromGround_eq_findIdx]; exact List.findIdx_eq_length.mpr hall
  have hlen : 0 < s.length := List.length_pos.mpr hs
  have hscan : scanString g eng q s = (groundStep eng (startString q s) 0).1 := by
    unfold scanString
    dsimp only
    rw [if_neg (fun h => h hq)]
    exact scan_ground_all g eng (3 * s.length + 1) (startString q s) hlen hf
  have hgs : (groundStep eng (startString q s) 0).1.seq
        = { q.seq with
            _engine := (eng.react q.seq._engine (EngineCall.ActionPrintString s)).engine } ∧
      (groundStep eng (startString q s) 0).1.dispatchLog
        = q.dispatchLog ++ (eng.react q.seq._engine (EngineCall.ActionPrintString s)).calls := by
    unfold groundStep
    dsimp only
    rw [if_pos (by show findActionableFromGround (List.drop 0 s) ≠ 0; rw [List.drop_zero, hf]; omega)]
    show (callEngine eng _ _).1.seq = _ ∧ (callEngine eng _ _).1.dispatchLog = _
    rw [callEngine_seq, callEngine_dispatchLog]
    simp only [_CurrentRun, startString, List.drop_zero, hf, List.take_length]
    exact ⟨trivial, trivial⟩
  unfold ProcessString
  rw [hscan, endOfString_ground g eng _ (by rw [hgs.1]; exact hq)]
  exact hgs

/-- C13 (as stated, refuted): in input mode, with the transitions of section 4.3
for `ESC` and `[`, feeding `ESC` in one call and `[` in the next makes the engine
calls `Clear`, `Execute(ESC)`, `PrintString("[")` and no `EscDispatch`; fed in a
single call the two characters do end in `EscDispatch` with final character `[`. -/
theorem split_escape_makes_no_escDispatch :
    (ProcessString csiTable recordEngine
        (ProcessString csiTable recordEngine (Parser.init [] true) [0x1B]) [0x5B]).seq._engine
      = [EngineCall.ActionClear, EngineCall.ActionExecute 0x1B,
         EngineCall.ActionPrintString [0x5B]] ∧
    (ProcessString csiTable recordEngine (Parser.init [] true) [0x1B, 0x5B]).seq._engine
      = [EngineCall.ActionClear, EngineCall.ActionClear, EngineCall.ActionClear,
         EngineCall.ActionEscDispatch 0x5B] := by
  decide

/-- C13 (amended): in input mode, whatever the transition table and the engine,
the call with `ESC` returns in `Ground`, and the next call, with `[`, makes one
engine call, `PrintString("[")`, and no other change to the sequence members: no
`EscDispatch` is forced at the end of the second call. -/
theorem input_mode_split_escape (g : Generated) (eng : Engine E) (p : Parser E)
    (hin : p._isEngineForInput = true) :
    (ProcessString g eng p [0x1B]).seq._state = VTStates.Ground ∧
    (ProcessString g eng (ProcessString g eng p [0x1B]) [0x5B]).seq
      = { (ProcessString g eng p [0x1B]).seq with
          _engine := (eng.react (ProcessString g eng p [0x1B]).seq._engine
            (EngineCall.ActionPrintString [0x5B])).engine } ∧
    (ProcessString g eng (ProcessString g eng p [0x1B]) [0x5B]).dispatchLog
      = (ProcessString g eng p [0x1B]).dispatchLog
        ++ (eng.react (ProcessString g eng p [0x1B]).seq._engine
            (EngineCall.ActionPrintString [0x5B])).calls := by
  have h1 := processString_input_ground g eng p [0x1B] hin
  have h2 := processString_prints g eng (ProcessString g eng p [0x1B]) [0x5B] h1 (by simp)
    (by intro c hc; rw [List.mem_singleton] at hc; subst hc; decide)
  exact ⟨h1, h2.1, h2.2⟩

theorem input_mode_split_escape_witness :
    (Parser.init [] true : Parser (List EngineCall))._isEngineForInput = true ∧
    (ProcessString csiTable recordEngine (Parser.init [] true) [0x1B]).seq._state
      = VTStates.Ground ∧
    (ProcessString csiTable recordEngine
        (ProcessString csiTable recordEngine (Parser.init [] true) [0x1B]) [0x5B]).seq
      = { (ProcessString csiTable recordEngine (Parser.init [] true) [0x1B]).seq with
          _engine := (recordEngine.react
            (ProcessString csiTable recordEngine (Parser.init [] true) [0x1B]).seq._engine
            (EngineCall.ActionPrintString [0x5B])).engine } ∧
    (ProcessString csiTable recordEngine
        (ProcessString csiTable recordEngine (Parser.init [] true) [0x1B]) [0x5B]).dispatchLog
      = (ProcessString csiTable recordEngine (Parser.init [] true) [0x1B]).dispatchLog
        ++ (recordEngine.react
            (ProcessString csiTable recordEngine (Parser.init [] true) [0x1B]).seq._engine
            (EngineCall.ActionPrintString [0x5B])).calls :=
  ⟨rfl, input_mode_split_escape csiTable recordEngine (Parser.init [] true) rfl⟩

/-! ## Trimming a prefix of well-formed UTF-8 -/

theorem tail_byte (l : List Nat) (k X : Nat) (hX : 0 < X) (hk : 1 ≤ k) :
    (l.length ≥ k ∧ l.getD (l.length - k) 0 ≥ X) ↔ l.reverse.getD (k - 1) 0 ≥ X := by
  by_cases h : l.length ≥ k
  · have e : l.reverse.getD (k - 1) 0 = l.getD (l.length - k) 0 := by
      rw [List.getD_eq_getElem?_getD, List.getD_eq_getElem?_getD,
        List.getElem?_reverse (by omega)]
      congr 2
      omega
    rw [e]
    exact ⟨fun a => a.2, fun a => ⟨h, a⟩⟩
  · have e : l.reverse.getD (k - 1) 0 = 0 := by
      rw [List.getD_eq_getElem?_getD, List.getElem?_eq_none (by simp; omega)]
      rfl
    rw [e]
    constructor
    · intro a; exact absurd a.1 h
    · intro a; omega

theorem trim_partial_utf8_rev (input : List Nat) :
    trim_partial_utf8 input
      = (if input.reverse.getD 0 0 ≥ 0xC0 then input.length - 1
         else if input.reverse.getD 1 0 ≥ 0xE0 then input.length - 2
         else if input.reverse.getD 2 0 ≥ 0xF0 then input.length - 3
         else input.length) := by
  rw [trim_partial_utf8_eq]
  have a1 := tail_byte input 1 0xC0 (by decide) (by decide)
  have a2 := tail_byte input 2 0xE0 (by decide) (by decide)
  have a3 := tail_byte input 3 0xF0 (by decide) (by decide)
  simp only [Nat.sub_self, Nat.reduceSub] at a1 a2 a3
  simp only [a1, a2, a3]

theorem isCodePoint_cases (c : List Nat) (hc : isCodePoint c = true) :
    (∃ b, c = [b] ∧ b < 0x80) ∨
    (∃ l c1, c = [l, c1] ∧ 0xC2 ≤ l ∧ l ≤ 0xDF ∧ c1 ≤ 0xBF) ∨
    (∃ l c1 c2, c = [l, c1, c2] ∧ 0xE0 ≤ l ∧ l ≤ 0xEF ∧ c1 ≤ 0xBF ∧ c2 ≤ 0xBF) ∨
    (∃ l c1 c2 c3, c = [l, c1, c2, c3] ∧ 0xF0 ≤ l ∧ c1 ≤ 0xBF ∧ c2 ≤ 0xBF ∧ c3 ≤ 0xBF) := by
  rcases c with _ | ⟨b, _ | ⟨c1, _ | ⟨c2, _ | ⟨c3, _ | ⟨c4, rest⟩⟩⟩⟩⟩
  · simp [isCodePoint] at hc
  · left
    simp only [isCodePoint, decide_eq_true_eq] at hc
    exact ⟨b, rfl, hc⟩
  · right; left
    simp only [isCodePoint, isCont, Bool.and_eq_true, decide_eq_true_eq] at hc
    exact ⟨b, c1, rfl, by omega, by omega, by omega⟩
  · right; right; left
    simp only [isCodePoint, isCont, Bool.and_eq_true, decide_eq_true_eq] at hc
    exact ⟨b, c1, c2, rfl, by omega, by omega, by omega, by omega⟩
  · right; right; right
    simp only [isCodePoint, isCont, Bool.and_eq_true, decide_eq_true_eq] at hc
    exact ⟨b, c1, c2, c3, rfl, by omega, by omega, by omega, by omega⟩
  · simp [isCodePoint] at hc

/-- The last three bytes of a sequence of whole code points do not begin a code
point that is cut short. -/
theorem wellFormed_tail (cs : List (List Nat)) (hcs : ∀ c ∈ cs, isCodePoint c = true) :
    cs.flatten.reverse.getD 0 0 < 0xC0 ∧ cs.flatten.reverse.getD 1 0 < 0xE0 ∧
    cs.flatten.reverse.getD 2 0 < 0xF0 := by
  induction cs using List.reverseRecOn with
  | nil => simp
  | append_singleton cs c ih =>
    obtain ⟨i1, i2, i3⟩ := ih (fun x hx => hcs x (List.mem_append_left _ hx))
    have hc := isCodePoint_cases c (hcs c (by simp))
    rw [List.flatten_append, List.reverse_append]
    simp only [List.flatten_cons, List.flatten_nil, List.append_nil]
    rcases hc with ⟨b, rfl, h⟩ | ⟨l, c1, rfl, h1, h2, h3⟩ | ⟨l, c1, c2, rfl, h1, h2, h3, h4⟩ |
      ⟨l, c1, c2, c3, rfl, h1, h2, h3, h4⟩
    · simp only [List.reverse_cons, List.reverse_nil, List.nil_append, List.cons_append,
        List.getD_cons_zero, List.getD_cons_succ]
      exact ⟨by omega, by omega, by omega⟩
    · simp only [List.reverse_cons, List.reverse_nil, List.nil_append, List.cons_append,
        List.getD_cons_zero, List.getD_cons_succ]
      exact ⟨by omega, by omega, by omega⟩
    · simp only [List.reverse_cons, List.reverse_nil, List.nil_append, List.cons_append,
        List.getD_cons_zero, List.getD_cons_succ]
      exact ⟨by omega, by omega, by omega⟩
    · simp only [List.reverse_cons, List.reverse_nil, List.nil_append, List.cons_append,
        List.getD_cons_zero, List.getD_cons_succ]
      exact ⟨by omega, by omega, by omega⟩

theorem properPrefix_cases (c r : List Nat) (hc : isCodePoint c = true) (hr : r <+: c)
    (hne : r ≠ c) :
    r = [] ∨ (∃ l, r = [l] ∧ 0xC0 ≤ l) ∨
    (∃ l c1, r = [l, c1] ∧ 0xE0 ≤ l ∧ c1 < 0xC0) ∨
    (∃ l c1 c2, r = [l, c1, c2] ∧ 0xF0 ≤ l ∧ c1 < 0xC0 ∧ c2 < 0xC0) := by
  have hlen : r.length < c.length := by
    have h1 := hr.length_le
    have h2 : r.length ≠ c.length := fun h => hne (hr.eq_of_length h)
    omega
  have htake : r = c.take r.length := List.prefix_iff_eq_take.mp hr
  rcases isCodePoint_cases c hc with ⟨b, rfl, h⟩ | ⟨l, c1, rfl, h1, h2, h3⟩ |
    ⟨l, c1, c2, rfl, h1, h2, h3, h4⟩ | ⟨l, c1, c2, c3, rfl, h1, h2, h3, h4⟩
  · simp only [List.length_cons, List.length_nil] at hlen
    left
    exact List.length_eq_zero.mp (by omega)
  · simp only [List.length_cons, List.length_nil] at hlen
    rcases Nat.lt_or_ge r.length 1 with h | h
    · left; exact List.length_eq_zero.mp (by omega)
    · have e : r.length = 1 := by omega
      rw [e] at htake
      right; left
      exact ⟨l, htake, by omega⟩
  · simp only [List.length_cons, List.length_nil] at hlen
    rcases Nat.lt_or_ge r.length 1 with h | h
    · left; exact List.length_eq_zero.mp (by omega)
    · rcases Nat.lt_or_ge r.length 2 with h' | h'
      · have e : r.length = 1 := by omega
        rw [e] at htake
        right; left
        exact ⟨l, htake, by omega⟩
      · have e : r.length = 2 := by omega
        rw [e] at htake
        right; right; left
        exact ⟨l, c1, htake, by omega, by omega⟩
  · simp only [List.length_cons, List.length_nil] at hlen
    rcases Nat.lt_or_ge r.length 1 with h | h
    · left; exact List.length_eq_zero.mp (by omega)
    · rcases Nat.lt_or_ge r.length 2 with h' | h'
      · have e : r.length = 1 := by omega
        rw [e] at htake
        right; left
        exact ⟨l, htake, by omega⟩
      · rcases Nat.lt_or_ge r.length 3 with h'' | h''
        · have e : r.length = 2 := by omega
          rw [e] at htake
          right; right; left
          exact ⟨l, c1, htake, by omega, by omega⟩
        · have e : r.length = 3 := by omega
          rw [e] at htake
          right; right; right
          exact ⟨l, c1, c2, htake, by omega, by omega, by omega⟩

/-- Whole code points followed by the proper beginning of one more: the
beginning is what `trim_partial_utf8` removes. -/
theorem trim_whole_plus_partial (cs : List (List Nat)) (hcs : ∀ c ∈ cs, isCodePoint c = true)
    (c r : List Nat) (hc : isCodePoint c = true) (hr : r <+: c) (hne : r ≠ c) :
    trim_partial_utf8 (cs.flatten ++ r) = cs.flatten.length ∧ r.length ≤ 3 := by
  obtain ⟨i1, i2, i3⟩ := wellFormed_tail cs hcs
  rw [trim_partial_utf8_rev, List.reverse_append, List.length_append]
  rcases properPrefix_cases c r hc hr hne with rfl | ⟨l, rfl, h⟩ | ⟨l, c1, rfl, h1, h2⟩ |
    ⟨l, c1, c2, rfl, h1, h2, h3⟩
  · simp only [List.reverse_nil, List.nil_append, List.length_nil, Nat.add_zero]
    rw [if_neg (by omega), if_neg (by omega), if_neg (by omega)]
    exact ⟨rfl, Nat.zero_le _⟩
  · simp only [List.reverse_cons, List.reverse_nil, List.nil_append, List.cons_append,
      List.getD_cons_zero, List.length_cons, List.length_nil]
    rw [if_pos (by omega)]
    exact ⟨by omega, by omega⟩
  · simp only [List.reverse_cons, List.reverse_nil, List.nil_append, List.cons_append,
      List.getD_cons_zero, List.getD_cons_succ, List.length_cons, List.length_nil]
    rw [if_neg (by omega), if_pos (by omega)]
    exact ⟨by omega, by omega⟩
  · simp only [List.reverse_cons, List.reverse_nil, List.nil_append, List.cons_append,
      List.getD_cons_zero, List.getD_cons_succ, List.length_cons, List.length_nil]
    rw [if_neg (by omega), if_neg (by omega), if_pos (by omega)]
    exact ⟨by omega, by omega⟩

/-- A prefix of a sequence of code points is some of them, whole, followed by
nothing or by the proper beginning of the next. -/
theorem prefix_decomposition (cs : List (List Nat)) : ∀ (p : List Nat), p <+: cs.flatten →
    ∃ k r, p = (cs.take k).flatten ++ r ∧
      (r = [] ∨ ∃ c, cs.get? k = some c ∧ r <+: c ∧ r ≠ c) := by
  induction cs with
  | nil =>
    intro p hp
    simp only [List.flatten_nil, List.prefix_nil] at hp
    exact ⟨0, [], by simp [hp], Or.inl rfl⟩
  | cons c cs ih =>
    intro p hp
    rw [List.flatten_cons] at hp
    by_cases hcp : c <+: p
    · obtain ⟨p', rfl⟩ := hcp
      obtain ⟨k, r, h1, h2⟩ := ih p' ((List.prefix_append_right_inj c).mp hp)
      refine ⟨k + 1, r, ?_, ?_⟩
      · rw [List.take_succ_cons, List.flatten_cons, List.append_assoc, ← h1]
      · simpa using h2
    · have hpc : p <+: c := by
        rcases List.prefix_or_prefix_of_prefix hp (List.prefix_append c cs.flatten) with h | h
        · exact h
        · exact absurd h hcp
      refine ⟨0, p, by simp, Or.inr ⟨c, by simp, hpc, ?_⟩⟩
      intro h
      exact hcp (h ▸ List.prefix_refl c)

theorem flatten_take_length_mono (cs : List (List Nat)) (j k : Nat) (h : j ≤ k) :
    (cs.take j).flatten.length ≤ (cs.take k).flatten.length := by
  obtain ⟨d, rfl⟩ := Nat.exists_eq_add_of_le h
  rw [List.take_add, List.flatten_append, List.length_append]
  omega

/-- C16: for a sequence of whole UTF-8 code points and a prefix `p` of its
bytes, `trim_partial_utf8 p` is the length of the code points that lie wholly in
`p`: the bytes kept are a whole number of code points, the bytes removed are at
most 3 and are the proper beginning of the next code point, and no longer prefix
of `p` ends on a code-point boundary. -/
theorem trim_keeps_whole_code_points (cs : List (List Nat))
    (hcs : ∀ c ∈ cs, isCodePoint c = true) (p : List Nat) (hp : p <+: cs.flatten) :
    ∃ k r, p = (cs.take k).flatten ++ r ∧
      trim_partial_utf8 p = (cs.take k).flatten.length ∧
      r.length ≤ 3 ∧
      (r = [] ∨ ∃ c, cs.get? k = some c ∧ r <+: c ∧ r ≠ c) ∧
      ∀ j, (cs.take j).flatten <+: p → (cs.take j).flatten.length ≤ trim_partial_utf8 p := by
  obtain ⟨k, r, h1, h2⟩ := prefix_decomposition cs p hp
  have hk : ∀ c ∈ cs.take k, isCodePoint c = true := fun c hc => hcs c (List.mem_of_mem_take hc)
  have ht : trim_partial_utf8 p = (cs.take k).flatten.length ∧ r.length ≤ 3 := by
    rcases h2 with rfl | ⟨c, hc, hr, hne⟩
    · rw [h1]
      exact trim_whole_plus_partial (cs.take k) hk [0] [] (by decide) (List.nil_prefix) (by simp)
    · rw [h1]
      exact trim_whole_plus_partial (cs.take k) hk c r (hcs c (List.get?_mem hc)) hr hne
  refine ⟨k, r, h1, ht.1, ht.2, h2, ?_⟩
  intro j hj
  rw [ht.1]
  rcases Nat.lt_or_ge k j with hjk | hjk
  swap
  · exact flatten_take_length_mono cs j k hjk
  · rcases h2 with rfl | ⟨c, hc, hr, hne⟩
    · have := hj.length_le
      rw [h1, List.append_nil] at this
      exact this
    · exfalso
      have hlen : r.length < c.length := by
        have a1 := hr.length_le
        have a2 : r.length ≠ c.length := fun h => hne (hr.eq_of_length h)
        omega
      have hm := flatten_take_length_mono cs (k + 1) j hjk
      have hs : (cs.take (k + 1)).flatten.length = (cs.take k).flatten.length + c.length := by
        rw [List.take_succ, List.flatten_append, List.length_append]
        rw [List.get?_eq_getElem?] at hc
        simp [hc]
      have := hj.length_le
      rw [h1, List.length_append] at this
      omega

theorem trim_keeps_whole_code_points_witness :
    (∀ c ∈ [[0x41], [0xE2, 0x82, 0xAC]], isCodePoint c = true) ∧
    [0x41, 0xE2, 0x82] <+: [[0x41], [0xE2, 0x82, 0xAC]].flatten ∧
    ∃ k r, [0x41, 0xE2, 0x82] = ([[0x41], [0xE2, 0x82, 0xAC]].take k).flatten ++ r ∧
      trim_partial_utf8 [0x41, 0xE2, 0x82] = ([[0x41], [0xE2, 0x82, 0xAC]].take k).flatten.length ∧
      r.length ≤ 3 ∧
      (r = [] ∨ ∃ c, [[0x41], [0xE2, 0x82, 0xAC]].get? k = some c ∧ r <+: c ∧ r ≠ c) ∧
      ∀ j, ([[0x41], [0xE2, 0x82, 0xAC]].take j).flatten <+: [0x41, 0xE2, 0x82] →
        ([[0x41], [0xE2, 0x82, 0xAC]].take j).flatten.length
          ≤ trim_partial_utf8 [0x41, 0xE2, 0x82] :=
  ⟨by decide, by decide,
    trim_keeps_whole_code_points [[0x41], [0xE2, 0x82, 0xAC]] (by decide) [0x41, 0xE2, 0x82]
      (by decide)⟩

/-! ## Dispatch of control sequences by the output engine -/

theorem finish_calls (t : Target) (e : OutputEngine) (r : List TermCall × Bool) :
    (e.finish t r).calls = r.1 := rfl

theorem finish_engine (t : Target) (e : OutputEngine) (r : List TermCall × Bool) :
    (e.finish t r).engine = e._ClearLastChar := rfl

theorem finish_success (t : Target) (e : OutputEngine) (calls : List TermCall) :
    (e.finish t (calls, true)).result = true ∧ (e.finish t (calls, true)).flush = false := by
  simp [OutputEngine.finish]

/-- C21: for `CSI b` (REP) without sub-parameters, `n` being the value of the
first parameter: with `LastChar` NUL the dispatch target is not called, with
`LastChar` a character `c` it is called once, `PrintString` of `c` repeated `n`
times; in both cases the dispatch reports success without flushing and leaves
`LastChar` NUL, so that a REP that follows at once makes no call, whatever its
parameters. -/
theorem rep_repeats_last_char (u : Utils) (d : Dispatch) (t : Target) (e : OutputEngine)
    (parameters : VTParameters) (h : parameters.hasSubParams = false) :
    (e._lastPrintedChar = AsciiChars.NUL →
      (e.ActionCsiDispatch (t.over u d) CsiActionCodes.REP_RepeatCharacter parameters).calls
        = []) ∧
    (e._lastPrintedChar ≠ AsciiChars.NUL →
      (e.ActionCsiDispatch (t.over u d) CsiActionCodes.REP_RepeatCharacter parameters).calls
        = [TermCall.PrintString
            (List.replicate (u.firstParameter parameters) e._lastPrintedChar)]) ∧
    (e.ActionCsiDispatch (t.over u d) CsiActionCodes.REP_RepeatCharacter parameters).result
      = true ∧
    (e.ActionCsiDispatch (t.over u d) CsiActionCodes.REP_RepeatCharacter parameters).flush
      = false ∧
    (e.ActionCsiDispatch (t.over u d) CsiActionCodes.REP_RepeatCharacter
      parameters).engine._lastPrintedChar = AsciiChars.NUL ∧
    ∀ again : VTParameters,
      ((e.ActionCsiDispatch (t.over u d) CsiActionCodes.REP_RepeatCharacter
          parameters).engine.ActionCsiDispatch (t.over u d)
        CsiActionCodes.REP_RepeatCharacter again).calls = [] := by
  have hs : (t.over u d).csiSwitch CsiActionCodes.REP_RepeatCharacter
      = Csi_REP_RepeatCharacter u := by
    funext ps last
    simp [Target.over]
  have he : e.ActionCsiDispatch (t.over u d) CsiActionCodes.REP_RepeatCharacter parameters
      = e.finish (t.over u d) (Csi_REP_RepeatCharacter u parameters e._lastPrintedChar) := by
    simp [OutputEngine.ActionCsiDispatch, h, hs]
  rw [he]
  refine ⟨?_, ?_, ?_, ?_, rfl, ?_⟩
  · intro h0
    simp [finish_calls, Csi_REP_RepeatCharacter, h0]
  · intro h0
    simp [finish_calls, Csi_REP_RepeatCharacter, h0]
  · unfold Csi_REP_RepeatCharacter
    split <;> exact (finish_success _ _ _).1
  · unfold Csi_REP_RepeatCharacter
    split <;> exact (finish_success _ _ _).2
  · intro again
    rw [finish_engine]
    unfold OutputEngine.ActionCsiDispatch
    split
    · rfl
    · rw [hs]
      simp [finish_calls, Csi_REP_RepeatCharacter, OutputEngine._ClearLastChar]

theorem rep_repeats_last_char_witness :
    (VTParameters.mk [some 3] [] []).hasSubParams = false ∧
    (({ _lastPrintedChar := 0x41, _pfnFlushToTerminal := true } : OutputEngine).ActionCsiDispatch
        (nullTarget.over sampleUtils (fun _ => true)) CsiActionCodes.REP_RepeatCharacter
        (VTParameters.mk [some 3] [] [])).calls
      = [TermCall.PrintString
          (List.replicate (sampleUtils.firstParameter (VTParameters.mk [some 3] [] [])) 0x41)] :=
  ⟨rfl, (rep_repeats_last_char sampleUtils (fun _ => true) nullTarget
    { _lastPrintedChar := 0x41, _pfnFlushToTerminal := true }
    (VTParameters.mk [some 3] [] []) rfl).2.1 (by decide)⟩

/-- C22: `ActionCsiDispatch` on parameters without sub-parameters runs the
switch and its end as usual; on parameters of which one carries sub-parameters
it does the same when the identifier is SGR, or is DECCARA or DECRARA while none
of the parameters at the indices 0 to 3 carries sub-parameters; for every
other identifier, and for DECCARA and DECRARA otherwise, it returns false at
once without calling the dispatch target. -/
theorem csiDispatch_subparameter_gate (t : Target) (e : OutputEngine) (id : Nat)
    (parameters : VTParameters) :
    (parameters.hasSubParams = false →
      e.ActionCsiDispatch t id parameters
        = e.finish t (t.csiSwitch id parameters e._lastPrintedChar)) ∧
    (parameters.hasSubParams = true →
      (id = CsiActionCodes.SGR_SetGraphicsRendition ∨
        ((id = CsiActionCodes.DECCARA_ChangeAttributesRectangularArea
            ∨ id = CsiActionCodes.DECRARA_ReverseAttributesRectangularArea) ∧
          ∀ i, i < 4 → parameters.hasSubParamsFor i = false)) →
      e.ActionCsiDispatch t id parameters
        = e.finish t (t.csiSwitch id parameters e._lastPrintedChar)) ∧
    (parameters.hasSubParams = true →
      ¬ (id = CsiActionCodes.SGR_SetGraphicsRendition ∨
        ((id = CsiActionCodes.DECCARA_ChangeAttributesRectangularArea
            ∨ id = CsiActionCodes.DECRARA_ReverseAttributesRectangularArea) ∧
          ∀ i, i < 4 → parameters.hasSubParamsFor i = false)) →
      e.ActionCsiDispatch t id parameters
        = { engine := e, calls := [], flush := false, fault := false, result := false }) := by
  have hacc : _CanSeqAcceptSubParam id parameters = true ↔
      (id = CsiActionCodes.SGR_SetGraphicsRendition ∨
        ((id = CsiActionCodes.DECCARA_ChangeAttributesRectangularArea
            ∨ id = CsiActionCodes.DECRARA_ReverseAttributesRectangularArea) ∧
          ∀ i, i < 4 → parameters.hasSubParamsFor i = false)) := by
    unfold _CanSeqAcceptSubParam
    by_cases h1 : id = CsiActionCodes.SGR_SetGraphicsRendition
    · simp [h1]
    · rw [if_neg h1]
      by_cases h2 : id = CsiActionCodes.DECCARA_ChangeAttributesRectangularArea
          ∨ id = CsiActionCodes.DECRARA_ReverseAttributesRectangularArea
      · rw [if_pos h2]
        simp only [h1, h2, false_or, true_and, Bool.and_eq_true, Bool.not_eq_true']
        constructor
        · rintro ⟨⟨⟨a0, a1⟩, a2⟩, a3⟩ i hi
          have : i = 0 ∨ i = 1 ∨ i = 2 ∨ i = 3 := by omega
          rcases this with rfl | rfl | rfl | rfl <;> assumption
        · intro h
          exact ⟨⟨⟨h 0 (by omega), h 1 (by omega)⟩, h 2 (by omega)⟩, h 3 (by omega)⟩
      · rw [if_neg h2]
        simp [h1, h2]
  refine ⟨?_, ?_, ?_⟩
  · intro h
    simp [OutputEngine.ActionCsiDispatch, h]
  · intro _ h
    simp [OutputEngine.ActionCsiDispatch, hacc.2 h]
  · intro h hn
    have : _CanSeqAcceptSubParam id parameters = false := by
      cases hc : _CanSeqAcceptSubParam id parameters
      · rfl
      · exact absurd (hacc.1 hc) hn
    simp [OutputEngine.ActionCsiDispatch, h, this]

theorem csiDispatch_subparameter_gate_witness :
    ((VTParameters.mk [some 38] [some 2] [(0, 1)]).hasSubParams = true ∧
      (({ _lastPrintedChar := 0x41, _pfnFlushToTerminal := false } : OutputEngine).ActionCsiDispatch
          nullTarget CsiActionCodes.SGR_SetGraphicsRendition
          (VTParameters.mk [some 38] [some 2] [(0, 1)]))
        = ({ _lastPrintedChar := 0x41, _pfnFlushToTerminal := false } : OutputEngine).finish
            nullTarget (nullTarget.csiSwitch CsiActionCodes.SGR_SetGraphicsRendition
              (VTParameters.mk [some 38] [some 2] [(0, 1)]) 0x41)) ∧
    (({ _lastPrintedChar := 0x41, _pfnFlushToTerminal := false } : OutputEngine).ActionCsiDispatch
        nullTarget CsiActionCodes.CUU_CursorUp (VTParameters.mk [some 1] [some 2] [(0, 1)]))
      = { engine := { _lastPrintedChar := 0x41, _pfnFlushToTerminal := false }, calls := [],
          flush := false, fault := false, result := false } :=
  ⟨⟨rfl, (csiDispatch_subparameter_gate nullTarget
      { _lastPrintedChar := 0x41, _pfnFlushToTerminal := false }
      CsiActionCodes.SGR_SetGraphicsRendition
      (VTParameters.mk [some 38] [some 2] [(0, 1)])).2.1 rfl (Or.inl rfl)⟩,
    (csiDispatch_subparameter_gate nullTarget
      { _lastPrintedChar := 0x41, _pfnFlushToTerminal := false }
      CsiActionCodes.CUU_CursorUp (VTParameters.mk [some 1] [some 2] [(0, 1)])).2.2 rfl
      (by decide)⟩

/-- C23 (as stated, refuted): with a flush callback attached whose result is
true, `Ss3Dispatch`, a failing `Vt52EscDispatch` and a `CsiDispatch` rejected
for its sub-parameters report failure and do not call the callback. -/
theorem failing_dispatch_without_flush :
    (OutputEngine.react { nullTarget with flushToTerminal := true }
        { _lastPrintedChar := 0, _pfnFlushToTerminal := true }
        (EngineCall.ActionSs3Dispatch 0x41 [])).flush = false ∧
    (OutputEngine.react { nullTarget with flushToTerminal := true }
        { _lastPrintedChar := 0, _pfnFlushToTerminal := true }
        (EngineCall.ActionSs3Dispatch 0x41 [])).result = false ∧
    (OutputEngine.react { nullTarget with flushToTerminal := true }
        { _lastPrintedChar := 0, _pfnFlushToTerminal := true }
        (EngineCall.ActionVt52EscDispatch 0x41 [])).flush = false ∧
    (OutputEngine.react { nullTarget with flushToTerminal := true }
        { _lastPrintedChar := 0, _pfnFlushToTerminal := true }
        (EngineCall.ActionVt52EscDispatch 0x41 [])).result = false ∧
    (OutputEngine.react { nullTarget with flushToTerminal := true }
        { _lastPrintedChar := 0, _pfnFlushToTerminal := true }
        (EngineCall.ActionCsiDispatch CsiActionCodes.CUU_CursorUp [some 1] [some 2]
          [(0, 1)])).flush = false ∧
    (OutputEngine.react { nullTarget with flushToTerminal := true }
        { _lastPrintedChar := 0, _pfnFlushToTerminal := true }
        (EngineCall.ActionCsiDispatch CsiActionCodes.CUU_CursorUp [some 1] [some 2]
          [(0, 1)])).result = false := by
  decide

/-- C23 (amended): with a flush callback attached, when the switch of
`EscDispatch`, of `OscDispatch`, or of a `CsiDispatch` that is not rejected for
its sub-parameters, leaves a failure, the engine calls the callback once and
returns its result; a `CsiDispatch` rejected for its sub-parameters,
`Vt52EscDispatch` and `Ss3Dispatch` do not call the callback and return false,
respectively the result of the switch, and false. -/
theorem failing_dispatch_flushes (t : Target) (e : OutputEngine)
    (hf : e._pfnFlushToTerminal = true) :
    (∀ id, (t.escSwitch id).2 = false →
      (e.ActionEscDispatch t id).flush = true ∧
      (e.ActionEscDispatch t id).result = t.flushToTerminal) ∧
    (∀ parameter string, (t.oscSwitch parameter string).2 = false →
      (e.ActionOscDispatch t parameter string).flush = true ∧
      (e.ActionOscDispatch t parameter string).result = t.flushToTerminal) ∧
    (∀ id parameters,
      (parameters.hasSubParams && !_CanSeqAcceptSubParam id parameters) = false →
      (t.csiSwitch id parameters e._lastPrintedChar).2 = false →
      (e.ActionCsiDispatch t id parameters).flush = true ∧
      (e.ActionCsiDispatch t id parameters).result = t.flushToTerminal) ∧
    (∀ id parameters,
      (parameters.hasSubParams && !_CanSeqAcceptSubParam id parameters) = true →
      (e.ActionCsiDispatch t id parameters).flush = false ∧
      (e.ActionCsiDispatch t id parameters).result = false ∧
      (e.ActionCsiDispatch t id parameters).calls = []) ∧
    (∀ id parameters,
      (e.ActionVt52EscDispatch t id parameters).flush = false ∧
      (e.ActionVt52EscDispatch t id parameters).result = (t.vt52Switch id parameters).2) ∧
    (e.ActionSs3Dispatch.flush = false ∧ e.ActionSs3Dispatch.result = false) := by
  refine ⟨?_, ?_, ?_, ?_, fun _ _ => ⟨rfl, rfl⟩, rfl, rfl⟩
  · intro id h
    simp [OutputEngine.ActionEscDispatch, OutputEngine.finish, hf, h]
  · intro parameter string h
    simp [OutputEngine.ActionOscDispatch, OutputEngine.finish, hf, h]
  · intro id parameters hr h
    unfold OutputEngine.ActionCsiDispatch
    rw [hr]
    simp [OutputEngine.finish, hf, h]
  · intro id parameters hr
    unfold OutputEngine.ActionCsiDispatch
    rw [hr]
    exact ⟨rfl, rfl, rfl⟩

theorem failing_dispatch_flushes_witness :
    ({ _lastPrintedChar := 0x41, _pfnFlushToTerminal := true } : OutputEngine)._pfnFlushToTerminal
      = true ∧
    ({ nullTarget with flushToTerminal := true } : Target).escSwitch 0x41 = ([], false) ∧
    (({ _lastPrintedChar := 0x41, _pfnFlushToTerminal := true } : OutputEngine).ActionEscDispatch
        { nullTarget with flushToTerminal := true } 0x41).flush = true ∧
    (({ _lastPrintedChar := 0x41, _pfnFlushToTerminal := true } : OutputEngine).ActionEscDispatch
        { nullTarget with flushToTerminal := true } 0x41).result
      = ({ nullTarget with flushToTerminal := true } : Target).flushToTerminal :=
  ⟨rfl, rfl, (failing_dispatch_flushes { nullTarget with flushToTerminal := true }
    { _lastPrintedChar := 0x41, _pfnFlushToTerminal := true } rfl).1 0x41 rfl⟩

/-! ## Operating system commands -/

theorem findChar_none (s : List Nat) (c : Nat) (h : c ∉ s) : findChar s c = none := by
  induction s with
  | nil => rfl
  | cons x xs ih =>
    simp only [List.mem_cons, not_or] at h
    simp [findChar, Ne.symm h.1, ih h.2]

theorem findChar_first (pre post : List Nat) (c : Nat) (h : c ∉ pre) :
    findChar (pre ++ c :: post) c = some pre.length := by
  induction pre with
  | nil => simp [findChar]
  | cons x xs ih =>
    simp only [List.mem_cons, not_or] at h
    simp [findChar, Ne.symm h.1, ih h.2]

theorem startsWith_iff (s pat : List Nat) : startsWith s pat = true ↔ ∃ rest, s = pat ++ rest := by
  induction pat generalizing s with
  | nil => simp [startsWith]
  | cons x pat ih =>
    cases s with
    | nil => simp [startsWith]
    | cons c s =>
      simp only [startsWith, Bool.and_eq_true, beq_iff_eq, ih, List.cons_append, List.cons.injEq]
      constructor
      · rintro ⟨rfl, rest, rfl⟩
        exact ⟨rest, rfl, rfl⟩
      · rintro ⟨rest, rfl, rfl⟩
        exact ⟨rfl, rest, rfl⟩

/-- `findString` yields the first position at which the pattern occurs. -/
theorem findString_some (s pat : List Nat) (i : Nat) (h : findString s pat = some i) :
    i ≤ s.length ∧ startsWith (s.drop i) pat = true ∧
      ∀ j, j < i → startsWith (s.drop j) pat = false := by
  induction s generalizing i with
  | nil =>
    simp only [findString] at h
    split at h
    · rename_i hp
      cases h
      have : pat = [] := by simpa using hp
      subst this
      simp [startsWith]
    · cases h
  | cons c s ih =>
    simp only [findString] at h
    split at h
    · rename_i hp
      cases h
      exact ⟨Nat.zero_le _, by simpa using hp, by intro j hj; omega⟩
    · rename_i hp
      cases hf : findString s pat with
      | none => rw [hf] at h; cases h
      | some k =>
        rw [hf] at h
        simp only [Option.map_some', Option.some.injEq] at h
        subst h
        obtain ⟨h1, h2, h3⟩ := ih k hf
        refine ⟨by simp; omega, by simpa using h2, ?_⟩
        intro j hj
        cases j with
        | zero => simpa using hp
        | succ j => simpa using h3 j (by omega)

theorem findString_none (s pat : List Nat) (h : findString s pat = none) :
    ∀ j, j ≤ s.length → startsWith (s.drop j) pat = false := by
  induction s with
  | nil =>
    intro j hj
    simp only [findString] at h
    split at h
    · cases h
    · rename_i hp
      have hj0 : j = 0 := by simpa using hj
      subst hj0
      cases pat with
      | nil => simp at hp
      | cons x pat => rfl
  | cons c s ih =>
    simp only [findString] at h
    split at h
    · cases h
    · rename_i hp
      cases hf : findString s pat with
      | some k => rw [hf] at h; cases h
      | none =>
        intro j hj
        cases j with
        | zero => simpa using hp
        | succ j => simpa using ih hf j (by simpa using hj)

theorem hyperlink_fold (parts : List (List Nat)) :
    parts.foldl (fun params part =>
        match findString part hyperlinkIDParameter with
        | some idPos => part.drop (idPos + hyperlinkIDParameter.length)
        | none => params) []
      = hyperlinkIdOf parts := by
  induction parts using List.reverseRecOn with
  | nil => rfl
  | append_singleton init last ih =>
    rw [List.foldl_append, ih]
    unfold hyperlinkIdOf
    rw [List.filter_append]
    cases hf : findString last hyperlinkIDParameter with
    | none => simp [hf]
    | some k =>
      have hl : hyperlinkIDParameter.length = 3 := rfl
      simp [hf, hl]

theorem oscSwitch_hyperlink (u : Utils) (d : Dispatch) (string : List Nat) :
    oscSwitch u d OscActionCodes.Hyperlink string = oscHyperlink u d string := by
  simp [oscSwitch, OscActionCodes.Hyperlink, OscActionCodes.SetIconAndWindowTitle,
    OscActionCodes.SetWindowIcon, OscActionCodes.SetWindowTitle,
    OscActionCodes.DECSWT_SetWindowTitle, OscActionCodes.SetColor,
    OscActionCodes.SetForegroundColor, OscActionCodes.SetBackgroundColor,
    OscActionCodes.SetCursorColor, OscActionCodes.SetClipboard,
    OscActionCodes.ResetCursorColor]

theorem parseHyperlink_none (u : Utils) (string : List Nat) (h : 0x3B ∉ string) :
    _ParseHyperlink u string = (false, [], []) := by
  have hne : string ≠ [0x3B] := by
    intro he
    rw [he] at h
    simp at h
  simp [_ParseHyperlink, hne, findChar_none string 0x3B h]

theorem parseHyperlink_split (u : Utils) (pre post : List Nat) (h : 0x3B ∉ pre) :
    (_ParseHyperlink u (pre ++ 0x3B :: post)).1 = true ∧
    (_ParseHyperlink u (pre ++ 0x3B :: post)).2.2 = post.take MAX_URL_LENGTH ∧
    (post ≠ [] →
      (_ParseHyperlink u (pre ++ 0x3B :: post)).2.1 = hyperlinkIdOf (u.SplitString pre 0x3A)) := by
  unfold _ParseHyperlink
  split
  · rename_i he
    have hl := congrArg List.length he
    simp only [List.length_append, List.length_cons, List.length_nil] at hl
    have h1 : pre = [] := List.length_eq_zero.mp (by omega)
    have h2 : post = [] := List.length_eq_zero.mp (by omega)
    subst h1 h2
    simp
  · rw [findChar_first pre post 0x3B h]
    simp only [List.drop_left', List.take_left', hyperlink_fold]
    simp

theorem oscDispatch_calls (u : Utils) (d : Dispatch) (t : Target) (e : OutputEngine)
    (parameter : Nat) (string : List Nat) :
    (e.ActionOscDispatch (t.over u d) parameter string).calls
      = (oscSwitch u d parameter string).1 := rfl

/-- C24: for `OSC 8` with the payload `p` (`MAX_URL_LENGTH` is 2,097,152): when
`p` contains no `;` the parse fails and the dispatch target is not called;
otherwise, `pre` being the text before the first `;` and `post` the text after
it, the parse succeeds, the uri is `post` cut to `MAX_URL_LENGTH` characters,
and the engine makes one call: `EndHyperlink` when the uri is empty, else
`AddHyperlink` with the uri and the identifier, which is the text after `id=`
in the last of the parts of `pre` between `:` that contain `id=`, empty when
none does. -/
theorem osc_hyperlink (u : Utils) (d : Dispatch) (t : Target) (e : OutputEngine)
    (string : List Nat) :
    MAX_URL_LENGTH = 2097152 ∧
    (0x3B ∉ string →
      (_ParseHyperlink u string).1 = false ∧
      (e.ActionOscDispatch (t.over u d) OscActionCodes.Hyperlink string).calls = []) ∧
    (∀ pre post, string = pre ++ 0x3B :: post → 0x3B ∉ pre →
      (_ParseHyperlink u string).1 = true ∧
      (_ParseHyperlink u string).2.2 = post.take MAX_URL_LENGTH ∧
      (post = [] →
        (e.ActionOscDispatch (t.over u d) OscActionCodes.Hyperlink string).calls
          = [dispatchCall Action.EndHyperlink []]) ∧
      (post ≠ [] →
        (e.ActionOscDispatch (t.over u d) OscActionCodes.Hyperlink string).calls
          = [dispatchText Action.AddHyperlink
              [post.take MAX_URL_LENGTH, hyperlinkIdOf (u.SplitString pre 0x3A)]])) := by
  refine ⟨rfl, ?_, ?_⟩
  · intro h
    rw [oscDispatch_calls, oscSwitch_hyperlink]
    simp [oscHyperlink, parseHyperlink_none u string h, andCall]
  · intro pre post hs hpre
    subst hs
    obtain ⟨h1, h2, h3⟩ := parseHyperlink_split u pre post hpre
    refine ⟨h1, h2, ?_, ?_⟩
    · intro hp
      subst hp
      rw [oscDispatch_calls, oscSwitch_hyperlink]
      unfold oscHyperlink
      simp only [h1, h2, List.take_nil, List.isEmpty_nil, if_true, andCall, List.nil_append]
    · intro hp
      have hne : (post.take MAX_URL_LENGTH).isEmpty = false := by
        cases post with
        | nil => exact absurd rfl hp
        | cons c cs => rfl
      rw [oscDispatch_calls, oscSwitch_hyperlink]
      unfold oscHyperlink
      simp only [h1, h2, h3 hp, hne, andCall, List.nil_append, if_true]
      rfl

theorem osc_hyperlink_witness :
    ([0x69, 0x64, 0x3D, 0x61, 0x3B, 0x75] : List Nat) = [0x69, 0x64, 0x3D, 0x61] ++ 0x3B :: [0x75] ∧
    0x3B ∉ ([0x69, 0x64, 0x3D, 0x61] : List Nat) ∧
    ([0x75] : List Nat) ≠ [] ∧
    hyperlinkIdOf (sampleUtils.SplitString [0x69, 0x64, 0x3D, 0x61] 0x3A) = [0x61] ∧
    (({ _lastPrintedChar := 0, _pfnFlushToTerminal := false } : OutputEngine).ActionOscDispatch
        (nullTarget.over sampleUtils (fun _ => true)) OscActionCodes.Hyperlink
        [0x69, 0x64, 0x3D, 0x61, 0x3B, 0x75]).calls
      = [dispatchText Action.AddHyperlink
          [List.take MAX_URL_LENGTH [0x75],
            hyperlinkIdOf (sampleUtils.SplitString [0x69, 0x64, 0x3D, 0x61] 0x3A)]] :=
  ⟨rfl, by decide, by decide, by decide,
    ((osc_hyperlink sampleUtils (fun _ => true) nullTarget
      { _lastPrintedChar := 0, _pfnFlushToTerminal := false }
      [0x69, 0x64, 0x3D, 0x61, 0x3B, 0x75]).2.2 [0x69, 0x64, 0x3D, 0x61] [0x75] rfl
      (by decide)).2.2.2 (by decide)⟩

theorem untilFailure_all (d : Dispatch) (cs : List TermCall) (h : ∀ c ∈ cs, d c = true) :
    untilFailure d cs = cs := by
  induction cs with
  | nil => rfl
  | cons c cs ih =>
    simp only [untilFailure, h c (List.mem_cons_self _ _), if_true]
    rw [ih (fun x hx => h x (List.mem_cons_of_mem _ hx))]

theorem oscSwitch_colors (u : Utils) (d : Dispatch) (n : Nat) (string : List Nat)
    (hn : n = 10 ∨ n = 11 ∨ n = 12) :
    oscSwitch u d n string = oscSetDefaultColors u d n string := by
  rcases hn with rfl | rfl | rfl <;>
    simp [oscSwitch, OscActionCodes.SetIconAndWindowTitle,
      OscActionCodes.SetWindowIcon, OscActionCodes.SetWindowTitle,
      OscActionCodes.DECSWT_SetWindowTitle, OscActionCodes.SetColor,
      OscActionCodes.SetForegroundColor, OscActionCodes.SetBackgroundColor,
      OscActionCodes.SetCursorColor]

/-- One `if` statement of the colour cases when it applies: the colour at
`colorIndex` belongs to the specification `part`. -/
theorem colorStep_at (u : Utils) (d : Dispatch) (code : Nat) (a : Action) (colors : List Nat)
    (r : List TermCall × Bool) (i : Nat) (part : List Nat)
    (hcol : ∀ s c, u.ColorFromXTermColor s = some c → c ≠ u.INVALID_COLOR)
    (hi : i < colors.length)
    (hc : colors.getD i 0 = match u.ColorFromXTermColor part with
      | some color => color
      | none => u.INVALID_COLOR) :
    colorStep u d code a colors (r, code, i)
      = (match u.ColorFromXTermColor part with
          | some color => andCall d r (dispatchCall a [(color : Int)])
          | none => r, code + 1, i + 1) := by
  unfold colorStep
  simp only [true_and, gt_iff_lt, hi, if_true, hc]
  cases h : u.ColorFromXTermColor part with
  | none => simp
  | some c => simp [hcol part c h]

theorem colorStep_skip (u : Utils) (d : Dispatch) (code : Nat) (a : Action) (colors : List Nat)
    (r : List TermCall × Bool) (k i : Nat) (h : k ≠ code ∨ colors.length ≤ i) :
    colorStep u d code a colors (r, k, i) = (r, k, i) := by
  unfold colorStep
  have : ¬ (k = code ∧ colors.length > i) := by
    rintro ⟨h1, h2⟩
    rcases h with h | h
    · exact h h1
    · omega
  simp only [this, if_false]

theorem oscSetDefaultColors_eq (u : Utils) (d : Dispatch) (n : Nat) (string : List Nat)
    (hn : n = 10 ∨ n = 11 ∨ n = 12)
    (hcol : ∀ s c, u.ColorFromXTermColor s = some c → c ≠ u.INVALID_COLOR) :
    oscSetDefaultColors u d n string
      = (untilFailure d (colorCalls u n (u.SplitString string 0x3B)),
          !(u.SplitString string 0x3B).isEmpty
            && (colorCalls u n (u.SplitString string 0x3B)).all d) := by
  unfold oscSetDefaultColors _GetOscSetColor
  generalize u.SplitString string 0x3B = parts
  cases parts with
  | nil => simp [colorCalls, untilFailure]
  | cons a rest =>
    have hlen : ¬ ((a :: rest).length < 1) := by simp
    simp only [hlen, if_false, List.length_map, List.length_cons, gt_iff_lt,
      Nat.zero_lt_succ, decide_True, if_true, OscActionCodes.SetForegroundColor,
      OscActionCodes.SetBackgroundColor, OscActionCodes.SetCursorColor]
    rcases hn with rfl | rfl | rfl
    · rw [colorStep_at u d 10 _ _ _ 0 a hcol (by simp) (by simp)]
      cases rest with
      | nil =>
        rw [colorStep_skip u d 11 _ _ _ _ _ (Or.inr (by simp)),
          colorStep_skip u d 12 _ _ _ _ _ (Or.inl (by decide))]
        cases h1 : u.ColorFromXTermColor a <;>
          simp [colorCalls, colorTargets, untilFailure, andCall, h1]
      | cons b rest =>
        rw [colorStep_at u d 11 _ _ _ 1 b hcol (by simp) (by simp)]
        cases rest with
        | nil =>
          rw [colorStep_skip u d 12 _ _ _ _ _ (Or.inr (by simp))]
          cases h1 : u.ColorFromXTermColor a <;> cases h2 : u.ColorFromXTermColor b <;>
            simp [colorCalls, colorTargets, untilFailure, andCall, h1, h2]
          all_goals (cases d _ <;> simp)
        | cons c rest =>
          rw [colorStep_at u d 12 _ _ _ 2 c hcol (by simp) (by simp)]
          cases h1 : u.ColorFromXTermColor a <;> cases h2 : u.ColorFromXTermColor b <;>
            cases h3 : u.ColorFromXTermColor c <;>
            simp [colorCalls, colorTargets, untilFailure, andCall, h1, h2, h3]
          all_goals (split <;> simp_all)
          all_goals (split <;> simp_all)
    · rw [colorStep_skip u d 10 _ _ _ _ _ (Or.inl (by decide)),
        colorStep_at u d 11 _ _ _ 0 a hcol (by simp) (by simp)]
      cases rest with
      | nil =>
        rw [colorStep_skip u d 12 _ _ _ _ _ (Or.inr (by simp))]
        cases h1 : u.ColorFromXTermColor a <;>
          simp [colorCalls, colorTargets, untilFailure, andCall, h1]
      | cons b rest =>
        rw [colorStep_at u d 12 _ _ _ 1 b hcol (by simp) (by simp)]
        cases h1 : u.ColorFromXTermColor a <;> cases h2 : u.ColorFromXTermColor b <;>
          simp [colorCalls, colorTargets, untilFailure, andCall, h1, h2]
        all_goals (cases d _ <;> simp)
    · rw [colorStep_skip u d 10 _ _ _ _ _ (Or.inl (by decide)),
        colorStep_skip u d 11 _ _ _ _ _ (Or.inl (by decide)),
        colorStep_at u d 12 _ _ _ 0 a hcol (by simp) (by simp)]
      cases h1 : u.ColorFromXTermColor a <;>
        simp [colorCalls, colorTargets, untilFailure, andCall, h1]

theorem sampleUtils_colors (s : List Nat) (c : Nat)
    (h : sampleUtils.ColorFromXTermColor s = some c) : c ≠ sampleUtils.INVALID_COLOR := by
  have hc : c < 65536 := by
    unfold sampleUtils at h
    dsimp only at h
    split at h
    · split at h
      · cases h; assumption
      · cases h
    · cases h
  show c ≠ 0xFFFFFFFF
  omega

/-- C25 (as stated, refuted): for `OSC 10` with the payload `A;B` on a dispatch
target whose `SetDefaultForeground` reports failure, the second specification
parses and belongs to the command 11, yet `SetDefaultBackground` is not
called: the only call is `SetDefaultForeground`. -/
theorem osc_color_failure_stops_calls :
    sampleUtils.SplitString [0x41, 0x3B, 0x42] 0x3B = [[0x41], [0x42]] ∧
    sampleUtils.ColorFromXTermColor [0x42] = some 0x42 ∧
    (({ _lastPrintedChar := 0, _pfnFlushToTerminal := false } : OutputEngine).ActionOscDispatch
        (nullTarget.over sampleUtils
          (fun c => decide (c ≠ dispatchCall Action.SetDefaultForeground [0x41])))
        10 [0x41, 0x3B, 0x42]).calls
      = [dispatchCall Action.SetDefaultForeground [0x41]] := by
  decide

/-- C25 (amended): for `OSC n` with `n` among 10, 11 and 12, whose payload
`SplitString` cuts at `;` into the specifications `s0, s1, ...`, a parsed colour
never being `INVALID_COLOR`: the specification `s_i` with `n + i` at most 12
goes to the target of the command `n + i`, in increasing order of `i`, a
specification that does not parse making no call while using up its target, and
the specifications beyond the target 12 being left out; of these calls the
engine makes those up to the first that reports failure, hence all of them when
the dispatch target reports success. -/
theorem osc_colors (u : Utils) (d : Dispatch) (t : Target) (e : OutputEngine) (n : Nat)
    (string : List Nat) (hn : n = 10 ∨ n = 11 ∨ n = 12)
    (hcol : ∀ s c, u.ColorFromXTermColor s = some c → c ≠ u.INVALID_COLOR) :
    (e.ActionOscDispatch (t.over u d) n string).calls
      = untilFailure d (colorCalls u n (u.SplitString string 0x3B)) ∧
    ((∀ c ∈ colorCalls u n (u.SplitString string 0x3B), d c = true) →
      (e.ActionOscDispatch (t.over u d) n string).calls
        = colorCalls u n (u.SplitString string 0x3B)) := by
  have h : (e.ActionOscDispatch (t.over u d) n string).calls
      = untilFailure d (colorCalls u n (u.SplitString string 0x3B)) := by
    rw [oscDispatch_calls, oscSwitch_colors u d n string hn,
      oscSetDefaultColors_eq u d n string hn hcol]
  exact ⟨h, fun hd => by rw [h, untilFailure_all d _ hd]⟩

theorem osc_colors_witness :
    ((10 : Nat) = 10 ∨ (10 : Nat) = 11 ∨ (10 : Nat) = 12) ∧
    sampleUtils.SplitString [0x41, 0x3B, 0x7A, 0x7A, 0x3B, 0x43, 0x3B, 0x44] 0x3B
      = [[0x41], [0x7A, 0x7A], [0x43], [0x44]] ∧
    colorCalls sampleUtils 10 [[0x41], [0x7A, 0x7A], [0x43], [0x44]]
      = [dispatchCall Action.SetDefaultForeground [0x41],
          dispatchCall Action.SetCursorColor [0x43]] ∧
    (({ _lastPrintedChar := 0, _pfnFlushToTerminal := false } : OutputEngine).ActionOscDispatch
        (nullTarget.over sampleUtils (fun _ => true)) 10
        [0x41, 0x3B, 0x7A, 0x7A, 0x3B, 0x43, 0x3B, 0x44]).calls
      = colorCalls sampleUtils 10
          (sampleUtils.SplitString [0x41, 0x3B, 0x7A, 0x7A, 0x3B, 0x43, 0x3B, 0x44] 0x3B) :=
  ⟨Or.inl rfl, by decide, by decide,
    (osc_colors sampleUtils (fun _ => true) nullTarget
      { _lastPrintedChar := 0, _pfnFlushToTerminal := false } 10
      [0x41, 0x3B, 0x7A, 0x7A, 0x3B, 0x43, 0x3B, 0x44] (Or.inl rfl) sampleUtils_colors).2
      (fun _ _ => rfl)⟩

theorem finish_noSink (t : Target) (e : OutputEngine) (r : List TermCall × Bool)
    (h : e._pfnFlushToTerminal = false) : (e.finish t r).result = r.2 := by
  simp [OutputEngine.finish, h]

theorem oscDispatch_noSink (u : Utils) (d : Dispatch) (t : Target) (e : OutputEngine)
    (parameter : Nat) (string : List Nat) (h : e._pfnFlushToTerminal = false) :
    (e.ActionOscDispatch (t.over u d) parameter string).result
      = (oscSwitch u d parameter string).2 :=
  finish_noSink _ e _ h

theorem oscSwitch_clipboard (u : Utils) (d : Dispatch) (string : List Nat) :
    oscSwitch u d OscActionCodes.SetClipboard string = oscSetClipboard u d string := by
  simp [oscSwitch, OscActionCodes.SetIconAndWindowTitle,
    OscActionCodes.SetWindowIcon, OscActionCodes.SetWindowTitle,
    OscActionCodes.DECSWT_SetWindowTitle, OscActionCodes.SetColor,
    OscActionCodes.SetForegroundColor, OscActionCodes.SetBackgroundColor,
    OscActionCodes.SetCursorColor, OscActionCodes.SetClipboard]

/-- When no specification parses, the colour cases make no call and succeed
exactly when there is a specification. -/
theorem oscSetDefaultColors_unparsed (u : Utils) (d : Dispatch) (n : Nat) (string : List Nat)
    (hnone : ∀ part ∈ u.SplitString string 0x3B, u.ColorFromXTermColor part = none) :
    oscSetDefaultColors u d n string = ([], !(u.SplitString string 0x3B).isEmpty) := by
  have hc : ∀ colors : List Nat, (∀ c ∈ colors, c = u.INVALID_COLOR) →
      ∀ (code : Nat) (a : Action) (k i : Nat), ∃ k2 i2,
        colorStep u d code a colors (([], true), k, i) = (([], true), k2, i2) := by
    intro colors hall code a k i
    unfold colorStep
    dsimp only
    split
    · rename_i hh
      have hm : colors.getD i 0 = u.INVALID_COLOR := by
        rw [List.getD_eq_getElem _ _ hh.2]
        exact hall _ (List.getElem_mem _)
      exact ⟨k + 1, i + 1, by simp only [hm, ne_eq, not_true_eq_false, if_false]⟩
    · exact ⟨k, i, rfl⟩
  unfold oscSetDefaultColors _GetOscSetColor
  generalize hp : u.SplitString string 0x3B = parts at hnone
  cases parts with
  | nil => simp
  | cons a rest =>
    have hlen : ¬ ((a :: rest).length < 1) := by simp
    have hmap : (a :: rest).map (fun part =>
        match u.ColorFromXTermColor part with
        | some color => color
        | none => u.INVALID_COLOR) = List.replicate (a :: rest).length u.INVALID_COLOR := by
      rw [List.eq_replicate_iff]
      refine ⟨by simp, ?_⟩
      intro b hb
      rw [List.mem_map] at hb
      obtain ⟨part, hpart, rfl⟩ := hb
      rw [hnone part hpart]
    simp only [hlen, if_false, hmap]
    have hall : ∀ c ∈ List.replicate (a :: rest).length u.INVALID_COLOR, c = u.INVALID_COLOR :=
      fun c hc' => (List.mem_replicate.mp hc').2
    simp only [List.length_replicate, List.length_cons, gt_iff_lt, Nat.zero_lt_succ,
      decide_True, if_true, List.isEmpty_cons, Bool.not_false]
    simp only [List.length_cons] at hall
    obtain ⟨k1, i1, e1⟩ := hc _ hall OscActionCodes.SetForegroundColor
      Action.SetDefaultForeground n 0
    rw [e1]
    obtain ⟨k2, i2, e2⟩ := hc _ hall OscActionCodes.SetBackgroundColor
      Action.SetDefaultBackground k1 i1
    rw [e2]
    obtain ⟨k3, i3, e3⟩ := hc _ hall OscActionCodes.SetCursorColor Action.SetCursorColor k2 i2
    rw [e3]

/-- C26 (as stated, refuted): `OSC 10` with the payload `zz`, which is not
empty and whose only specification does not parse, makes no call and reports
success, no sink being attached. -/
theorem osc_unparsed_color_succeeds :
    ([0x7A, 0x7A] : List Nat) ≠ [] ∧
    sampleUtils.SplitString [0x7A, 0x7A] 0x3B = [[0x7A, 0x7A]] ∧
    sampleUtils.ColorFromXTermColor [0x7A, 0x7A] = none ∧
    (({ _lastPrintedChar := 0, _pfnFlushToTerminal := false } : OutputEngine).ActionOscDispatch
        (nullTarget.over sampleUtils (fun _ => true)) 10 [0x7A, 0x7A]).calls = [] ∧
    (({ _lastPrintedChar := 0, _pfnFlushToTerminal := false } : OutputEngine).ActionOscDispatch
        (nullTarget.over sampleUtils (fun _ => true)) 10 [0x7A, 0x7A]).result = true := by
  decide

/-- C26 (amended): with no sink attached, `OSC 8` and `OSC 52` with a payload
that has no `;` make no call and report failure; `OSC 10`, `11` or `12` with a
payload none of whose specifications parses makes no call either, but reports
success as soon as the payload has a specification, and failure only when
`SplitString` yields none. -/
theorem osc_malformed_payload (u : Utils) (d : Dispatch) (t : Target) (e : OutputEngine)
    (string : List Nat) (hsink : e._pfnFlushToTerminal = false) :
    (0x3B ∉ string →
      (e.ActionOscDispatch (t.over u d) OscActionCodes.Hyperlink string).calls = [] ∧
      (e.ActionOscDispatch (t.over u d) OscActionCodes.Hyperlink string).result = false ∧
      (e.ActionOscDispatch (t.over u d) OscActionCodes.SetClipboard string).calls = [] ∧
      (e.ActionOscDispatch (t.over u d) OscActionCodes.SetClipboard string).result = false) ∧
    (∀ n, n = 10 ∨ n = 11 ∨ n = 12 →
      (∀ part ∈ u.SplitString string 0x3B, u.ColorFromXTermColor part = none) →
      (e.ActionOscDispatch (t.over u d) n string).calls = [] ∧
      (e.ActionOscDispatch (t.over u d) n string).result
        = !(u.SplitString string 0x3B).isEmpty) := by
  refine ⟨?_, ?_⟩
  · intro h
    have h8 : oscHyperlink u d string = ([], false) := by
      simp [oscHyperlink, parseHyperlink_none u string h, andCall]
    have h52 : oscSetClipboard u d string = ([], false) := by
      simp [oscSetClipboard, _GetOscSetClipboard, findChar_none string 0x3B h]
    rw [oscDispatch_calls, oscDispatch_noSink u d t e _ _ hsink, oscSwitch_hyperlink, h8,
      oscDispatch_calls, oscDispatch_noSink u d t e _ _ hsink, oscSwitch_clipboard, h52]
    exact ⟨rfl, rfl, rfl, rfl⟩
  · intro n hn hnone
    rw [oscDispatch_calls, oscDispatch_noSink u d t e _ _ hsink, oscSwitch_colors u d n string hn,
      oscSetDefaultColors_unparsed u d n string hnone]
    exact ⟨rfl, rfl⟩

theorem osc_malformed_payload_witness :
    ({ _lastPrintedChar := 0, _pfnFlushToTerminal := false } : OutputEngine)._pfnFlushToTerminal
      = false ∧
    0x3B ∉ ([0x7A, 0x7A] : List Nat) ∧
    (({ _lastPrintedChar := 0, _pfnFlushToTerminal := false } : OutputEngine).ActionOscDispatch
        (nullTarget.over sampleUtils (fun _ => true)) OscActionCodes.Hyperlink
        [0x7A, 0x7A]).result = false ∧
    (({ _lastPrintedChar := 0, _pfnFlushToTerminal := false } : OutputEngine).ActionOscDispatch
        (nullTarget.over sampleUtils (fun _ => true)) OscActionCodes.SetClipboard
        [0x7A, 0x7A]).result = false ∧
    (∀ part ∈ sampleUtils.SplitString [0x7A, 0x7A] 0x3B,
      sampleUtils.ColorFromXTermColor part = none) ∧
    (({ _lastPrintedChar := 0, _pfnFlushToTerminal := false } : OutputEngine).ActionOscDispatch
        (nullTarget.over sampleUtils (fun _ => true)) 10 [0x7A, 0x7A]).result
      = !(sampleUtils.SplitString [0x7A, 0x7A] 0x3B).isEmpty :=
  ⟨rfl, by decide,
    ((osc_malformed_payload sampleUtils (fun _ => true) nullTarget
      { _lastPrintedChar := 0, _pfnFlushToTerminal := false } [0x7A, 0x7A] rfl).1
      (by decide)).2.1,
    ((osc_malformed_payload sampleUtils (fun _ => true) nullTarget
      { _lastPrintedChar := 0, _pfnFlushToTerminal := false } [0x7A, 0x7A] rfl).1
      (by decide)).2.2.2,
    by decide,
    ((osc_malformed_payload sampleUtils (fun _ => true) nullTarget
      { _lastPrintedChar := 0, _pfnFlushToTerminal := false } [0x7A, 0x7A] rfl).2 10
      (Or.inl rfl) (by decide)).2⟩

/-! ## The guard of the engine calls and the CSI callback -/

/-- C27: the guard under which the actions of the parser call the engine turns
every exception of the engine into the result false, `ShutdownException`
included, which therefore does not reach the caller of `ProcessString`, whereas
the guard of `StateMachine`, used for the pass-through calls only, throws a
`ShutdownException` again; the value an action of the parser gets from an
engine call is that of the guard, whatever the exception. -/
theorem safeExecute_swallows_shutdown (eng : Engine E) (p : Parser E) (c : EngineCall) :
    (∀ x : Thrown, _SafeExecute (Except.error x) = Except.ok false) ∧
    (∀ r : Bool, _SafeExecute (Except.ok r) = Except.ok r) ∧
    _SafeExecute (Except.error Thrown.ShutdownException) = Except.ok false ∧
    StateMachine._SafeExecute (Except.error Thrown.ShutdownException)
      = Except.error Thrown.ShutdownException ∧
    StateMachine._SafeExecute (Except.error Thrown.other) = Except.ok false ∧
    (∀ x : Thrown,
      _SafeExecute (if (eng.react p.seq._engine c).fault then Except.error x
        else Except.ok (eng.react p.seq._engine c).result)
      = Except.ok (callEngine eng p c).2) := by
  refine ⟨fun _ => rfl, fun _ => rfl, rfl, rfl, rfl, ?_⟩
  intro x
  unfold callEngine
  dsimp only
  cases (eng.react p.seq._engine c).fault <;> simp [_SafeExecute]

/-- C28: `_ExecuteCsiCompleteCallback` with a callback stored gives back the
current string, the run offset and the run size in force before the callback
ran and leaves the stored callback empty, but the cursor `_curPos` and
`_processingLastCharacter` stay as the callback left them: with the transitions
of section 4.3, a parser at the index 2 of its string, where a control sequence
ends, whose callback feeds the four characters `ESC [ 0 m` to `ProcessString`,
comes back with the cursor at 4. -/
theorem csiCompleteCallback_keeps_inner_cursor (callback : Parser E → Parser E) (p : Parser E) :
    (_ExecuteCsiCompleteCallback (some callback) p).1.cur._currentString
      = p.cur._currentString ∧
    (_ExecuteCsiCompleteCallback (some callback) p).1.cur._runOffset = p.cur._runOffset ∧
    (_ExecuteCsiCompleteCallback (some callback) p).1.cur._runSize = p.cur._runSize ∧
    (_ExecuteCsiCompleteCallback (some callback) p).2.isNone = true ∧
    (_ExecuteCsiCompleteCallback (some callback) p).1.cur._curPos = (callback p).cur._curPos ∧
    (_ExecuteCsiCompleteCallback (some callback) p).1.cur._processingLastCharacter
      = (callback p).cur._processingLastCharacter ∧
    (_ExecuteCsiCompleteCallback
      (some (fun q => ProcessString csiTable nullEngine q [0x1B, 0x5B, 0x30, 0x6D]))
      { Parser.init () false with
        cur := { _currentString := [0x1B, 0x5B, 0x6D, 0x58, 0x59], _runOffset := 0,
                 _runSize := 3, _curPos := 2, _processingLastCharacter := false } }).1.cur
      = { _currentString := [0x1B, 0x5B, 0x6D, 0x58, 0x59], _runOffset := 0,
          _runSize := 3, _curPos := 4, _processingLastCharacter := true } := by
  refine ⟨rfl, rfl, rfl, rfl, rfl, rfl, ?_⟩
  decide

/-! ## The scan of the Param action -/

theorem greedyDigits_takeWhile (look : List Nat) (v : Int) :
    greedyDigits look v
      = ((look.takeWhile (fun c => decide (IsDigit c))).length,
          (look.takeWhile (fun c => decide (IsDigit c))).foldl (fun a c => _AccumulateTo c a) v) := by
  induction look generalizing v with
  | nil => rfl
  | cons c cs ih =>
    by_cases hc : 0x30 ≤ c ∧ c ≤ 0x39
    · have hd : decide (IsDigit c) = true := by simpa [IsDigit] using hc
      simp only [greedyDigits, hc, and_self, if_true, ih, List.takeWhile_cons, hd,
        List.length_cons, List.foldl_cons]
    · have hd : decide (IsDigit c) = false := by simpa [IsDigit] using hc
      simp only [greedyDigits, hc, if_false, List.takeWhile_cons, hd, List.length_nil,
        List.foldl_nil]
      simp

theorem greedyDigits_append (ds rest : List Nat) (v : Int) (hd : ∀ x ∈ ds, IsDigit x) :
    (greedyDigits (ds ++ rest) v).2
      = (greedyDigits rest (ds.foldl (fun a c => _AccumulateTo c a) v)).2 := by
  induction ds generalizing v with
  | nil => rfl
  | cons c cs ih =>
    have hc : 0x30 ≤ c ∧ c ≤ 0x39 := hd c (List.mem_cons_self _ _)
    simp only [List.cons_append, greedyDigits, hc, and_self, if_true, List.foldl_cons]
    exact ih _ (fun x hx => hd x (List.mem_cons_of_mem _ hx))

theorem greedyDigits_all (ds : List Nat) (v : Int) (hd : ∀ x ∈ ds, IsDigit x) :
    (greedyDigits ds v).2 = ds.foldl (fun a c => _AccumulateTo c a) v := by
  have := greedyDigits_append ds [] v hd
  simpa [greedyDigits] using this

theorem digitRun_cons (p : Parser E) (wch : Nat) (hd : IsDigit wch)
    (hw : p.cur._currentString.get? p.cur._curPos = some wch) :
    digitRun p = wch :: (p.cur._currentString.drop (p.cur._curPos + 1)).takeWhile
      (fun c => decide (IsDigit c)) := by
  have hlt : p.cur._curPos < p.cur._currentString.length := by
    rw [List.get?_eq_some] at hw
    exact hw.1
  have hg : p.cur._currentString[p.cur._curPos] = wch := by
    rw [List.get?_eq_getElem?, List.getElem?_eq_getElem hlt] at hw
    exact Option.some.inj hw
  unfold digitRun
  rw [List.drop_eq_getElem_cons hlt, hg, List.takeWhile_cons]
  simp [hd]

theorem paramBody_step (ps : ParamState) (c : Nat) (hc : IsDigit c)
    (ho : ps._parameterLimitOverflowed = false) (v : Int) (P : List VTParameter) (hP : P ≠ [])
    (hq : ps._parameters = setBack P (some v)) (rest : List Nat) :
    (paramBody ps c rest).1
      = { ps with _parameters := setBack P (some (greedyDigits rest (_AccumulateTo c v)).2) } := by
  have hne : c ≠ 0x3B := by unfold IsDigit at hc; omega
  have hnn : ps._parameters ≠ [] := by rw [hq]; exact setBack_ne_nil _ _ hP
  have hcv : currentValue ps = v := by
    simp [currentValue, ensureParam_of_ne_nil ps hnn, hq, getLast?_setBack _ _ hP]
  rw [paramBody_acc ps c rest ho hne, ensureParam_of_ne_nil ps hnn, hcv, hq, setBack_setBack]

theorem takeWhile_next (l : List Nat) (q : Nat → Bool) (c : Nat)
    (h : l[(l.takeWhile q).length]? = some c) : q c = false := by
  induction l with
  | nil => simp at h
  | cons a t ih =>
    cases hq : q a
    · simp [List.takeWhile_cons, hq] at h
      rw [← h]; exact hq
    · simp [List.takeWhile_cons, hq] at h
      exact ih h

theorem paramBody_fold_overflowed (ps : ParamState) (ds : List Nat)
    (h : ps._parameterLimitOverflowed = true) :
    ds.foldl (fun qs d => (paramBody qs d []).1) ps = ps := by
  induction ds with
  | nil => rfl
  | cons d ds ih => rw [List.foldl_cons, paramBody_overflowed ps d [] h]; exact ih

/-- C30: when the Param action runs on a digit at the cursor, `digitRun` being
the maximal run of digits that starts at the cursor: the parameter members are
those that result from feeding the digits of the run one at a time to the action
without lookahead; and a number cut between two strings accumulates as the
uncut number does: the action on the first digit with the digits `ds` up to the
end of the first string, followed by the action on the next digit `d` at the
start of the second string, gives the members that the action gives on the
first digit followed by `ds`, `d` and the rest in one string. Where the scan
runs, that is while the parameter limit is not exceeded, the current parameter
then holds the value accumulated, digit by digit with `_AccumulateTo`, over the
whole run from its former value, and the cursor and the run size have advanced
by the length of the run minus one; past the limit the action changes
nothing. -/
theorem param_greedy_scan (p : Parser E) (wch : Nat) (hd : IsDigit wch)
    (hw : p.cur._currentString.get? p.cur._curPos = some wch) :
    (∀ x ∈ digitRun p, IsDigit x) ∧
    (∀ c, p.cur._currentString.get? (p.cur._curPos + (digitRun p).length) = some c → ¬ IsDigit c) ∧
    (_ActionParam p wch).seq.params
      = (digitRun p).foldl (fun qs d => (paramBody qs d []).1) p.seq.params ∧
    (∀ (ds : List Nat) (d : Nat) (rest : List Nat), (∀ x ∈ ds, IsDigit x) → IsDigit d →
      (paramBody (paramBody p.seq.params wch ds).1 d rest).1
        = (paramBody p.seq.params wch (ds ++ d :: rest)).1) ∧
    (p.seq.params._parameterLimitOverflowed = false →
      (_ActionParam p wch).seq.params._parameters.getLast?
        = some (some ((digitRun p).foldl (fun a c => _AccumulateTo c a)
            (currentValue p.seq.params))) ∧
      (_ActionParam p wch).cur._curPos = p.cur._curPos + ((digitRun p).length - 1) ∧
      (_ActionParam p wch).cur._runSize = p.cur._runSize + ((digitRun p).length - 1)) ∧
    (p.seq.params._parameterLimitOverflowed = true → _ActionParam p wch = p) := by
  have hne : wch ≠ 0x3B := by unfold IsDigit at hd; omega
  have hrun := digitRun_cons p wch hd hw
  have hP := ensureParam_ne_nil p.seq.params
  refine ⟨?_, ?_, ?_, ?_, ?_, _ActionParam_overflowed p wch⟩
  · intro x hx
    have := List.mem_takeWhile_imp hx
    simpa using this
  · intro c hc hdc
    have hc2 : (p.cur._currentString.drop p.cur._curPos)[(digitRun p).length]? = some c := by
      rw [List.getElem?_drop]
      rw [List.get?_eq_getElem?] at hc
      exact hc
    have := takeWhile_next (p.cur._currentString.drop p.cur._curPos)
      (fun c => decide (IsDigit c)) c hc2
    simp only [decide_eq_false_iff_not] at this
    exact this hdc
  · cases ho : p.seq.params._parameterLimitOverflowed
    · have hb := paramBody_acc p.seq.params wch
        (p.cur._currentString.drop (p.cur._curPos + 1)) ho hne
      rw [greedyDigits_takeWhile] at hb
      unfold _ActionParam
      dsimp only
      rw [hb, hrun, List.foldl_cons]
      have h0 : (paramBody p.seq.params wch []).1
          = { ensureParam p.seq.params with
              _parameters := setBack (ensureParam p.seq.params)._parameters
                (some (_AccumulateTo wch (currentValue p.seq.params))) } := by
        rw [paramBody_acc p.seq.params wch [] ho hne]
        rfl
      rw [h0, paramBody_digits _ (fun x hx => by simpa using List.mem_takeWhile_imp hx) _
        (ensureParam p.seq.params)._parameters _ hP
        (by simpa using ensureParam_overflowed p.seq.params ▸ ho) rfl]
    · rw [_ActionParam_overflowed p wch ho, paramBody_fold_overflowed _ _ ho]
  · intro ds d rest hds hdd
    cases ho : p.seq.params._parameterLimitOverflowed
    · have hov : (ensureParam p.seq.params)._parameterLimitOverflowed = false := by
        rw [ensureParam_overflowed]; exact ho
      rw [paramBody_acc p.seq.params wch ds ho hne,
        paramBody_acc p.seq.params wch (ds ++ d :: rest) ho hne,
        greedyDigits_append ds (d :: rest) _ hds, greedyDigits_all ds _ hds]
      have hstep := paramBody_step
        { ensureParam p.seq.params with
          _parameters := setBack (ensureParam p.seq.params)._parameters
            (some (ds.foldl (fun a c => _AccumulateTo c a)
              (_AccumulateTo wch (currentValue p.seq.params)))) }
        d hdd hov _ (ensureParam p.seq.params)._parameters hP rfl rest
      dsimp only at hstep ⊢
      rw [hstep]
      have hdc : 0x30 ≤ d ∧ d ≤ 0x39 := hdd
      simp only [greedyDigits, hdc, and_self, if_true]
    · rw [paramBody_overflowed _ wch ds ho, paramBody_overflowed _ wch _ ho]
      dsimp only
      rw [paramBody_overflowed _ d rest ho]
  · intro ho
    have hb := paramBody_acc p.seq.params wch
      (p.cur._currentString.drop (p.cur._curPos + 1)) ho hne
    rw [greedyDigits_takeWhile] at hb
    refine ⟨?_, ?_, ?_⟩
    · unfold _ActionParam
      dsimp only
      rw [hb, hrun, List.foldl_cons]
      exact getLast?_setBack _ _ hP
    · unfold _ActionParam
      dsimp only
      rw [hb, hrun]
      simp
    · unfold _ActionParam
      dsimp only
      rw [hb, hrun]
      simp

theorem param_greedy_scan_witness :
    ({ Parser.init () false with
        cur := { _currentString := [0x31, 0x32, 0x33, 0x3B], _runOffset := 0, _runSize := 1,
                 _curPos := 0, _processingLastCharacter := false } }
      : Parser Unit).seq.params._parameterLimitOverflowed = false ∧
    IsDigit 0x31 ∧
    ([0x31, 0x32, 0x33, 0x3B] : List Nat).get? 0 = some 0x31 ∧
    digitRun ({ Parser.init () false with
        cur := { _currentString := [0x31, 0x32, 0x33, 0x3B], _runOffset := 0, _runSize := 1,
                 _curPos := 0, _processingLastCharacter := false } } : Parser Unit)
      = [0x31, 0x32, 0x33] ∧
    (_ActionParam ({ Parser.init () false with
        cur := { _currentString := [0x31, 0x32, 0x33, 0x3B], _runOffset := 0, _runSize := 1,
                 _curPos := 0, _processingLastCharacter := false } } : Parser Unit)
      0x31).seq.params._parameters.getLast?
      = some (some ((digitRun ({ Parser.init () false with
          cur := { _currentString := [0x31, 0x32, 0x33, 0x3B], _runOffset := 0, _runSize := 1,
                   _curPos := 0, _processingLastCharacter := false } } : Parser Unit)).foldl
          (fun a c => _AccumulateTo c a)
          (currentValue ({ Parser.init () false with
            cur := { _currentString := [0x31, 0x32, 0x33, 0x3B], _runOffset := 0,
                     _runSize := 1, _curPos := 0,
                     _processingLastCharacter := false } } : Parser Unit).seq.params))) :=
  ⟨rfl, by decide, rfl, by decide,
    ((param_greedy_scan ({ Parser.init () false with
        cur := { _currentString := [0x31, 0x32, 0x33, 0x3B], _runOffset := 0, _runSize := 1,
                 _curPos := 0, _processingLastCharacter := false } } : Parser Unit)
      0x31 (by decide) rfl).2.2.2.2.1 rfl).1⟩

/-! ## Ground test, clearing, parameter ranges, handlers, specialised actions, reads -/

/-! ## The predicate of the ground scanner -/

/-- C31: for every 16-bit character `c`, `isActionableFromGround c` is the
value of `(c <= 0x1F) | (((c - 0x7F) mod 2^16) <= 0x20)`, and it is true exactly
when `c ≤ 0x1F` or `0x7F ≤ c ≤ 0x9F`. -/
theorem isActionableFromGround_exact (c : Nat) (hc : c < 65536) :
    isActionableFromGround c
      = (decide (c ≤ 0x1F) || decide (((c : Int) - 0x7F) % 65536 ≤ 0x20)) ∧
    (isActionableFromGround c = true ↔ c ≤ 0x1F ∨ (0x7F ≤ c ∧ c ≤ 0x9F)) := by
  constructor
  · have h : decide ((c + 65536 - 0x7f) % 65536 ≤ 0x20)
        = decide (((c : Int) - 0x7F) % 65536 ≤ 0x20) := decide_eq_decide.mpr (by omega)
    unfold isActionableFromGround
    rw [h]
  · exact isActionableFromGround_iff c hc

theorem isActionableFromGround_exact_witness :
    (0x9F : Nat) < 65536 ∧
    (isActionableFromGround 0x9F = true ↔ (0x9F : Nat) ≤ 0x1F ∨ (0x7F ≤ 0x9F ∧ (0x9F : Nat) ≤ 0x9F)) ∧
    (isActionableFromGround 0xA0 = true ↔ (0xA0 : Nat) ≤ 0x1F ∨ (0x7F ≤ 0xA0 ∧ (0xA0 : Nat) ≤ 0x9F)) :=
  ⟨by simp, (isActionableFromGround_exact 0x9F (by simp)).2,
    (isActionableFromGround_exact 0xA0 (by simp)).2⟩

/-! ## The Clear action -/

theorem callEngine_cache (eng : Engine E) (p : Parser E) (c : EngineCall)
    (h : (eng.react p.seq._engine c).flush = false) :
    (callEngine eng p c).1._cachedSequence = p._cachedSequence ∧
    (callEngine eng p c).1.passThroughLog = p.passThroughLog := by
  unfold callEngine
  simp [h]

/-- C32: after the Clear action, from any parser state, the identifier is the
cleared one, the parameter, sub-parameter and range vectors are empty, the
sub-parameter counter is 0, both overflow flags are false, the OSC string is
empty, the OSC parameter is 0 and the DCS handler is null, while the parse
state, the parser mode and the cursor members are unchanged; the engine has
reacted to one `ActionClear`, and the cached sequence is unchanged provided
that reaction does not call the flush callback, as is the case of the output
engine. -/
theorem clear_resets_sequence (g : Generated) (eng : Engine E) (p : Parser E) :
    (_ActionClear g eng p).seq._identifier = g.idClear ∧
    (_ActionClear g eng p).seq.params._parameters = [] ∧
    (_ActionClear g eng p).seq.params._subParameters = [] ∧
    (_ActionClear g eng p).seq.params._subParameterRanges = [] ∧
    (_ActionClear g eng p).seq.params._subParameterCounter = 0 ∧
    (_ActionClear g eng p).seq.params._parameterLimitOverflowed = false ∧
    (_ActionClear g eng p).seq.params._subParameterLimitOverflowed = false ∧
    (_ActionClear g eng p).seq._oscString = [] ∧
    (_ActionClear g eng p).seq._oscParameter = 0 ∧
    (_ActionClear g eng p).seq._dcsStringHandler = false ∧
    (_ActionClear g eng p).seq._state = p.seq._state ∧
    modeOf (_ActionClear g eng p) = modeOf p ∧
    (_ActionClear g eng p).cur = p.cur ∧
    (_ActionClear g eng p).seq._engine
      = (eng.react p.seq._engine EngineCall.ActionClear).engine ∧
    (_ActionClear g eng p).dispatchLog
      = p.dispatchLog ++ (eng.react p.seq._engine EngineCall.ActionClear).calls ∧
    ((eng.react p.seq._engine EngineCall.ActionClear).flush = false →
      (_ActionClear g eng p)._cachedSequence = p._cachedSequence ∧
      (_ActionClear g eng p).passThroughLog = p.passThroughLog) ∧
    (∀ (t : Target) (sink : List Nat → Bool) (q : Parser OutputEngine),
      (_ActionClear g (OutputEngine.asEngine t sink) q)._cachedSequence = q._cachedSequence ∧
      (_ActionClear g (OutputEngine.asEngine t sink) q).seq._engine = q.seq._engine) := by
  have hs : ∀ {F : Type} (en : Engine F) (q : Parser F),
      (_ActionClear g en q).seq
        = { q.seq with _engine := (en.react q.seq._engine EngineCall.ActionClear).engine,
                       _identifier := g.idClear, params := ParamState.cleared,
                       _oscString := [], _oscParameter := 0, _dcsStringHandler := false } := by
    intro F en q
    unfold _ActionClear
    rw [callEngine_seq]
  have hm : modeOf (_ActionClear g eng p) = modeOf p := by
    unfold _ActionClear
    dsimp only
    rw [callEngine_mode]
    rfl
  have hc : (_ActionClear g eng p).cur = p.cur := by
    unfold _ActionClear
    dsimp only
    rw [callEngine_cur]
  have hl : (_ActionClear g eng p).dispatchLog
      = p.dispatchLog ++ (eng.react p.seq._engine EngineCall.ActionClear).calls := by
    unfold _ActionClear
    dsimp only
    rw [callEngine_dispatchLog]
  have h := hs eng p
  refine ⟨by rw [h], by rw [h]; rfl, by rw [h]; rfl, by rw [h]; rfl, by rw [h]; rfl,
    by rw [h]; rfl, by rw [h]; rfl, by rw [h], by rw [h], by rw [h], by rw [h], hm, hc,
    by rw [h], hl, ?_, ?_⟩
  · intro hf
    unfold _ActionClear
    exact callEngine_cache eng _ _ hf
  · intro t sink q
    refine ⟨?_, by rw [hs]; rfl⟩
    unfold _ActionClear
    exact (callEngine_cache _ _ _ rfl).1

theorem clear_resets_sequence_witness :
    (nullEngine.react (Parser.init () false).seq._engine EngineCall.ActionClear).flush = false ∧
    (_ActionClear nullGenerated nullEngine (Parser.init () false))._cachedSequence
      = (Parser.init () false)._cachedSequence :=
  ⟨rfl, ((clear_resets_sequence nullGenerated nullEngine
    (Parser.init () false)).2.2.2.2.2.2.2.2.2.2.2.2.2.2.2.1 rfl).1⟩

/-! ## The ranges of the sub-parameters -/

theorem chain_index {α : Type} (R : α → α → Prop) (l : List α) (h : List.Chain' R l) :
    ∀ (i : Nat) (a b : α), l[i]? = some a → l[i + 1]? = some b → R a b := by
  induction l with
  | nil => intro i a b ha; simp at ha
  | cons x xs ih =>
    rw [List.chain'_cons'] at h
    intro i a b ha hb
    cases i with
    | zero =>
      simp only [List.getElem?_cons_zero, Option.some.injEq] at ha
      simp only [List.getElem?_cons_succ] at hb
      subst ha
      apply h.1 b
      rw [List.head?_eq_getElem?]
      exact hb
    | succ i =>
      simp only [List.getElem?_cons_succ] at ha hb
      exact ih h.2 i a b ha hb

theorem rangesChained_nil : RangesChained [] := by
  simp [RangesChained]

theorem rangesChained_concat (R : List (Nat × Nat)) (x : Nat × Nat) (h : RangesChained R)
    (hl : ∀ r, R.getLast? = some r → x.1 = r.2) (h0 : R = [] → x.1 = 0) :
    RangesChained (R ++ [x]) := by
  obtain ⟨hc, hh⟩ := h
  refine ⟨?_, ?_⟩
  · rw [List.chain'_append]
    refine ⟨hc, List.chain'_singleton x, ?_⟩
    intro a ha b hb
    simp only [List.head?_cons, Option.mem_def, Option.some.injEq] at hb
    subst hb
    exact hl a ha
  · intro r hr
    cases R with
    | nil =>
      simp only [List.nil_append, List.head?_cons, Option.some.injEq] at hr
      subst hr
      exact h0 rfl
    | cons y ys =>
      simp only [List.cons_append, List.head?_cons, Option.some.injEq] at hr
      subst hr
      exact hh _ rfl

theorem rangesChained_bump (R : List (Nat × Nat)) (r : Nat × Nat) (e : Nat)
    (h : RangesChained (R ++ [r])) : RangesChained (R ++ [(r.1, e)]) := by
  obtain ⟨hc, hh⟩ := h
  rw [List.chain'_append] at hc
  apply rangesChained_concat R (r.1, e) ⟨hc.1, ?_⟩
  · intro a ha
    exact hc.2.2 a ha r (by simp)
  · intro hR
    subst hR
    exact hh r (by simp)
  · intro a ha
    cases R with
    | nil => simp at ha
    | cons y ys =>
      simp only [List.head?_cons, Option.some.injEq] at ha
      subst ha
      exact hh _ (by simp)

theorem rangesChained_ensure (qs : ParamState) (h : ParamInv qs)
    (hc : RangesChained qs._subParameterRanges) :
    RangesChained (ensureParam qs)._subParameterRanges := by
  by_cases he : qs._parameters = []
  · obtain ⟨h1, _, _, h4, _, _, _⟩ := h
    have hr : qs._subParameterRanges = [] := by
      rw [he] at h1; exact List.length_eq_zero.mp h1
    obtain ⟨hs, _⟩ := h4 he
    simp [RangesChained, ensureParam, he, hr, hs]
  · rw [ensureParam_of_ne_nil qs he]; exact hc

theorem rangesChained_paramBody (qs : ParamState) (c : Nat) (rest : List Nat) (h : ParamInv qs)
    (hc : RangesChained qs._subParameterRanges) :
    RangesChained (paramBody qs c rest).1._subParameterRanges := by
  cases ho : qs._parameterLimitOverflowed
  · have hsub := paramInv_sub_le _ (paramInv_ensure qs h)
    have hne := ensureParam_ne_nil qs
    have hce := rangesChained_ensure qs h hc
    obtain ⟨h1, h2, h3, h4, h5, h6, h7⟩ := paramInv_ensure qs h
    by_cases hd : c = 0x3B
    · subst hd
      rw [paramBody_delim qs rest ho]
      by_cases hfull : (ensureParam qs)._parameters.length ≥ MAX_PARAMETER_COUNT
      · simp only [hfull, if_true]
        exact hce
      · simp only [hfull, if_false]
        have hmod : (ensureParam qs)._subParameters.length % 256
            = (ensureParam qs)._subParameters.length := Nat.mod_eq_of_lt (by omega)
        rw [hmod]
        apply rangesChained_concat _ _ hce
        · intro r hr
          exact (h7 r hr).1.symm
        · intro hR
          rw [hR] at h1
          exact absurd (List.length_eq_zero.mp h1.symm) hne
    · rw [paramBody_acc qs c rest ho hd]
      exact hce
  · rw [paramBody_overflowed qs c rest ho]; exact hc

theorem rangesChained_subParamBody (qs : ParamState) (c : Nat) (h : ParamInv qs)
    (hc : RangesChained qs._subParameterRanges) :
    RangesChained (subParamBody qs c)._subParameterRanges := by
  cases ho : qs._subParameterLimitOverflowed
  · have hne := ensureParam_ne_nil qs
    have hce := rangesChained_ensure qs h hc
    obtain ⟨h1, h2, h3, h4, h5, h6, h7⟩ := paramInv_ensure qs h
    by_cases hd : c = 0x3A
    · subst hd
      rw [subParamBody_delim qs ho]
      by_cases hfull : (ensureParam qs)._subParameterCounter ≥ MAX_SUBPARAMETER_COUNT
      · simp only [hfull, if_true]
        exact hce
      · simp only [hfull, if_false]
        have hrne : (ensureParam qs)._subParameterRanges ≠ [] := by
          intro hh; rw [hh] at h1; simp at h1
          exact hne (List.length_eq_zero.mp h1.symm)
        obtain ⟨R, r, hR⟩ : ∃ R r, (ensureParam qs)._subParameterRanges = R ++ [r] :=
          ⟨_, _, (List.dropLast_append_getLast hrne).symm⟩
        rw [hR] at hce ⊢
        rw [bumpBackEnd_concat]
        exact rangesChained_bump R r _ hce
    · rw [subParamBody_acc qs c ho hd]
      exact hce
  · rw [subParamBody_overflowed qs c ho]; exact hc

theorem paramCalls_inv (calls : List ParamCall) (qs : ParamState) (h : ParamInv qs)
    (hc : RangesChained qs._subParameterRanges) :
    ParamInv (calls.foldl runParamCall qs) ∧
    RangesChained (calls.foldl runParamCall qs)._subParameterRanges := by
  induction calls generalizing qs with
  | nil => exact ⟨h, hc⟩
  | cons c cs ih =>
    rw [List.foldl_cons]
    cases c with
    | Param wch rest =>
      exact ih _ (paramInv_paramBody qs wch rest h) (rangesChained_paramBody qs wch rest h hc)
    | SubParam wch =>
      exact ih _ (paramInv_subParamBody qs wch h) (rangesChained_subParamBody qs wch h hc)

/-- C33: in every state reached from the cleared parameter members by calls of
the Param and the SubParam action, the parameter vector and the range vector
have the same length, every range `[start, end)` has `start ≤ end`, the first
range starts at 0, every later range starts where the one before it ends, and
the last range ends at the size of the flat sub-parameter vector. -/
theorem ranges_are_contiguous (calls : List ParamCall) :
    (calls.foldl runParamCall ParamState.cleared)._subParameterRanges.length
      = (calls.foldl runParamCall ParamState.cleared)._parameters.length ∧
    (∀ r ∈ (calls.foldl runParamCall ParamState.cleared)._subParameterRanges, r.1 ≤ r.2) ∧
    (∀ r, (calls.foldl runParamCall ParamState.cleared)._subParameterRanges[0]? = some r →
      r.1 = 0) ∧
    (∀ i a b, (calls.foldl runParamCall ParamState.cleared)._subParameterRanges[i]? = some a →
      (calls.foldl runParamCall ParamState.cleared)._subParameterRanges[i + 1]? = some b →
      b.1 = a.2) ∧
    (∀ r, (calls.foldl runParamCall ParamState.cleared)._subParameterRanges.getLast? = some r →
      r.2 = (calls.foldl runParamCall ParamState.cleared)._subParameters.length) := by
  obtain ⟨⟨h1, _, _, _, _, h6, h7⟩, hc, hh⟩ :=
    paramCalls_inv calls ParamState.cleared paramInv_cleared
      (by simp [ParamState.cleared, rangesChained_nil])
  refine ⟨h1, fun r hr => (h6 r hr).1, ?_, ?_, fun r hr => (h7 r hr).1⟩
  · intro r hr
    apply hh r
    rw [List.head?_eq_getElem?]
    exact hr
  · intro i a b ha hb
    exact chain_index _ _ hc i a b ha hb

theorem ranges_are_contiguous_witness :
    ([ParamCall.Param 0x33 [0x38], ParamCall.SubParam 0x3A, ParamCall.SubParam 0x32,
        ParamCall.SubParam 0x3A, ParamCall.Param 0x3B [0x35],
        ParamCall.Param 0x35 []].foldl runParamCall ParamState.cleared)._subParameterRanges
      = [(0, 2), (2, 2)] ∧
    (∀ r, ([ParamCall.Param 0x33 [0x38], ParamCall.SubParam 0x3A, ParamCall.SubParam 0x32,
        ParamCall.SubParam 0x3A, ParamCall.Param 0x3B [0x35],
        ParamCall.Param 0x35 []].foldl runParamCall
          ParamState.cleared)._subParameterRanges[0]? = some r → r.1 = 0) :=
  ⟨by decide,
    (ranges_are_contiguous [ParamCall.Param 0x33 [0x38], ParamCall.SubParam 0x3A,
      ParamCall.SubParam 0x32, ParamCall.SubParam 0x3A, ParamCall.Param 0x3B [0x35],
      ParamCall.Param 0x35 []]).2.2.1⟩

/-! ## Device control strings -/

theorem Enter_state (g : Generated) (p : Parser E) (st : VTStates) :
    (Enter g p st).seq._state = st := rfl

theorem Enter_handler (g : Generated) (p : Parser E) (st : VTStates) :
    (Enter g p st).seq._dcsStringHandler = p.seq._dcsStringHandler := rfl

theorem Enter_engine (g : Generated) (p : Parser E) (st : VTStates) :
    (Enter g p st).seq._engine = p.seq._engine := rfl

/-- C39: the DcsDispatch action ends in `DcsPassThrough`, with the handler
kept, exactly when the engine call does not throw and returns a handler that is
not null, and in `DcsIgnore` when the handler is null or the call throws; in
`HandleDcsPassThrough` a character for which the handler returns false moves
the parser to `DcsIgnore`, any other leaves the state; and the interrupt in
`DcsPassThrough` calls the handler once, with `ESC`, and then releases it, while
in any other state it changes nothing. -/
theorem dcs_dispatch_and_handler (g : Generated) (eng : Engine E) (p : Parser E) (wch : Nat) :
    (((eng.react p.seq._engine (EngineCall.ActionDcsDispatch
          (g.idFinalize p.seq._identifier wch) p.seq.params._parameters)).fault = false ∧
      (eng.react p.seq._engine (EngineCall.ActionDcsDispatch
          (g.idFinalize p.seq._identifier wch) p.seq.params._parameters)).result = true) →
      (_ActionDcsDispatch g eng p wch).seq._state = VTStates.DcsPassThrough ∧
      (_ActionDcsDispatch g eng p wch).seq._dcsStringHandler = true) ∧
    (((eng.react p.seq._engine (EngineCall.ActionDcsDispatch
          (g.idFinalize p.seq._identifier wch) p.seq.params._parameters)).fault = true ∨
      (eng.react p.seq._engine (EngineCall.ActionDcsDispatch
          (g.idFinalize p.seq._identifier wch) p.seq.params._parameters)).result = false) →
      (_ActionDcsDispatch g eng p wch).seq._state = VTStates.DcsIgnore) ∧
    ((eng.react p.seq._engine (EngineCall.DcsStringHandler p.seq._wch)).result = false →
      (HandleDcsPassThrough g eng p).seq._state = VTStates.DcsIgnore) ∧
    ((eng.react p.seq._engine (EngineCall.DcsStringHandler p.seq._wch)).result = true →
      (HandleDcsPassThrough g eng p).seq._state = p.seq._state) ∧
    ((HandleDcsPassThrough g eng p).seq._engine
      = (eng.react p.seq._engine (EngineCall.DcsStringHandler p.seq._wch)).engine) ∧
    (p.seq._state = VTStates.DcsPassThrough →
      (_ActionInterrupt eng p).seq._engine
        = (eng.react p.seq._engine (EngineCall.DcsStringHandler 0x1B)).engine ∧
      (_ActionInterrupt eng p).dispatchLog
        = p.dispatchLog ++ (eng.react p.seq._engine (EngineCall.DcsStringHandler 0x1B)).calls ∧
      (_ActionInterrupt eng p).seq._dcsStringHandler = false ∧
      (_ActionInterrupt eng p).seq._state = VTStates.DcsPassThrough) ∧
    (p.seq._state ≠ VTStates.DcsPassThrough → _ActionInterrupt eng p = p) := by
  refine ⟨?_, ?_, ?_, ?_, ?_, ?_, ?_⟩
  · rintro ⟨hf, hr⟩
    unfold _ActionDcsDispatch
    dsimp only
    rw [callEngine_snd]
    simp only [hf, hr, Bool.not_false, Bool.and_self, if_true, Bool.false_eq_true, if_false]
    exact ⟨rfl, rfl⟩
  · intro h
    unfold _ActionDcsDispatch
    dsimp only
    rw [callEngine_snd]
    have : (!(eng.react p.seq._engine (EngineCall.ActionDcsDispatch
          (g.idFinalize p.seq._identifier wch) p.seq.params._parameters)).fault
        && (eng.react p.seq._engine (EngineCall.ActionDcsDispatch
          (g.idFinalize p.seq._identifier wch) p.seq.params._parameters)).result) = false := by
      rcases h with h | h <;> simp [h]
    rw [this]
    rfl
  · intro h
    unfold HandleDcsPassThrough
    simp [h, Enter_state]
  · intro h
    unfold HandleDcsPassThrough
    simp only [h, Bool.not_true, Bool.false_eq_true, if_false]
    rw [callEngine_seq]
  · unfold HandleDcsPassThrough
    dsimp only
    split
    · rw [Enter_engine, callEngine_seq]
    · rw [callEngine_seq]
  · intro h
    unfold _ActionInterrupt
    rw [if_pos h]
    dsimp only
    rw [callEngine_seq, callEngine_dispatchLog]
    exact ⟨rfl, rfl, rfl, h⟩
  · intro h
    unfold _ActionInterrupt
    rw [if_neg h]

theorem dcs_dispatch_and_handler_witness :
    ((recordEngine.react (Parser.init [] false).seq._engine (EngineCall.ActionDcsDispatch
          (nullGenerated.idFinalize (Parser.init ([] : List EngineCall) false).seq._identifier
            0x71)
          (Parser.init ([] : List EngineCall) false).seq.params._parameters)).fault = false ∧
      (recordEngine.react (Parser.init [] false).seq._engine (EngineCall.ActionDcsDispatch
          (nullGenerated.idFinalize (Parser.init ([] : List EngineCall) false).seq._identifier
            0x71)
          (Parser.init ([] : List EngineCall) false).seq.params._parameters)).result = true) ∧
    (_ActionDcsDispatch nullGenerated recordEngine (Parser.init [] false) 0x71).seq._state
      = VTStates.DcsPassThrough ∧
    (Parser.init ([] : List EngineCall) false).seq._state ≠ VTStates.DcsPassThrough ∧
    _ActionInterrupt recordEngine (Parser.init [] false) = Parser.init [] false :=
  ⟨⟨rfl, rfl⟩,
    ((dcs_dispatch_and_handler nullGenerated recordEngine (Parser.init [] false) 0x71).1
      ⟨rfl, rfl⟩).1,
    by decide,
    (dcs_dispatch_and_handler nullGenerated recordEngine (Parser.init [] false)
      0x71).2.2.2.2.2.2 (by decide)⟩

/-! ## The specialised actions of the v2 engine -/

theorem specialisedExecute_eq (e : OutputEngine) (wch : Nat) :
    e.specialisedExecute wch
      = { engine := if wch ∈ [AsciiChars.ENQ, AsciiChars.BEL, AsciiChars.BS, AsciiChars.TAB,
              AsciiChars.CR, AsciiChars.LF, AsciiChars.FF, AsciiChars.VT, AsciiChars.SI,
              AsciiChars.SO, AsciiChars.SUB, AsciiChars.DEL] then e else e._ClearLastChar,
          calls := (executeSwitch e wch).1, flush := (executeSwitch e wch).2, fault := false,
          result := true } := by
  unfold OutputEngine.specialisedExecute executeSwitch
  by_cases h1 : wch = AsciiChars.ENQ
  · subst h1; rfl
  rw [if_neg h1, if_neg h1]
  by_cases h2 : wch = AsciiChars.BEL
  · subst h2; rfl
  rw [if_neg h2, if_neg h2]
  by_cases h3 : wch = AsciiChars.BS
  · subst h3; rfl
  rw [if_neg h3, if_neg h3]
  by_cases h4 : wch = AsciiChars.TAB
  · subst h4; rfl
  rw [if_neg h4, if_neg h4]
  by_cases h5 : wch = AsciiChars.CR
  · subst h5; rfl
  rw [if_neg h5, if_neg h5]
  by_cases h6 : wch = AsciiChars.LF ∨ wch = AsciiChars.FF ∨ wch = AsciiChars.VT
  · rw [if_pos h6, if_pos h6]
    rcases h6 with h | h | h <;> subst h <;> rfl
  rw [if_neg h6, if_neg h6]
  by_cases h7 : wch = AsciiChars.SI
  · subst h7; rfl
  rw [if_neg h7, if_neg h7]
  by_cases h8 : wch = AsciiChars.SO
  · subst h8; rfl
  rw [if_neg h8, if_neg h8]
  by_cases h9 : wch = AsciiChars.SUB
  · subst h9; rfl
  rw [if_neg h9, if_neg h9]
  by_cases h10 : wch = AsciiChars.DEL
  · subst h10; rfl
  rw [if_neg h10, if_neg h10]
  have hn : ¬ wch ∈ [AsciiChars.ENQ, AsciiChars.BEL, AsciiChars.BS, AsciiChars.TAB,
      AsciiChars.CR, AsciiChars.LF, AsciiChars.FF, AsciiChars.VT, AsciiChars.SI,
      AsciiChars.SO, AsciiChars.SUB, AsciiChars.DEL] := by
    simp only [List.mem_cons, List.mem_singleton, List.not_mem_nil, or_false]
    tauto
  rw [if_neg hn]
  rfl

/-- C37: the specialised execute action for a control character is the
generic `ActionExecute` on that character as to the dispatch-target calls, the
call of the flush callback and the value returned, but not as to `LastChar`: the
generic action always leaves it NUL, whereas the methods `ActionExecute_ENQ`,
`_BEL`, `_BS`, `_TAB`, `_CR`, `_LF_FF_VT`, `_SI`, `_SO`, `_SUB` and `_DEL` leave
the engine as it is, only `ActionUnmatchedExecute` clearing it: after `A` was
printed, `ActionExecute_BS` leaves `LastChar` at `A`. -/
theorem specialised_execute_keeps_lastChar (e : OutputEngine) (wch : Nat) :
    e.specialisedExecute wch
      = { e.ActionExecute wch with
          engine := if wch ∈ [AsciiChars.ENQ, AsciiChars.BEL, AsciiChars.BS, AsciiChars.TAB,
              AsciiChars.CR, AsciiChars.LF, AsciiChars.FF, AsciiChars.VT, AsciiChars.SI,
              AsciiChars.SO, AsciiChars.SUB, AsciiChars.DEL] then e
            else (e.ActionExecute wch).engine } ∧
    (e.ActionExecute wch).engine._lastPrintedChar = AsciiChars.NUL ∧
    e.ActionUnmatchedExecute = e.ActionExecute AsciiChars.NUL ∧
    (({ _lastPrintedChar := 0x41, _pfnFlushToTerminal := false } : OutputEngine).ActionExecute_BS
        ).engine._lastPrintedChar = 0x41 ∧
    (({ _lastPrintedChar := 0x41, _pfnFlushToTerminal := false } : OutputEngine).ActionExecute
        AsciiChars.BS).engine._lastPrintedChar = AsciiChars.NUL := by
  rw [specialisedExecute_eq]
  exact ⟨rfl, rfl, rfl, rfl, rfl⟩

theorem postCsiDispatch_eq (t : Target) (e : OutputEngine) (r : List TermCall × Bool) :
    e._PostCsiDispatch t r = e.finish t r := rfl

/-- C38: `ActionUnmatchedCsiDispatch` of the v2 parser leaves the parser and its
engine as they are, whereas the generic `ActionCsiDispatch`, unless it rejects
the sub-parameters, leaves `LastChar` NUL and calls the flush callback when one
is attached and the switch fails: on an engine with `LastChar` at `A` and a
callback attached, an identifier that no case handles gives NUL and one
pass-through of the run by the generic action, and neither by
`ActionUnmatchedCsiDispatch`. A specialised method `Csi_*` followed by
`_PostCsiDispatch` is the generic action on the identifier of the method
whenever that one does not reject the sub-parameters. -/
theorem unmatched_csi_skips_engine (t : Target) (e : OutputEngine) (id : Nat)
    (parameters : VTParameters) (p : Parser E) :
    ActionUnmatchedCsiDispatch p = p ∧
    (e.ActionCsiDispatch t id parameters).engine
      = (if parameters.hasSubParams && !_CanSeqAcceptSubParam id parameters then e
         else e._ClearLastChar) ∧
    (e.ActionCsiDispatch t id parameters).flush
      = (!(parameters.hasSubParams && !_CanSeqAcceptSubParam id parameters)
          && (e._pfnFlushToTerminal && !(t.csiSwitch id parameters e._lastPrintedChar).2)) ∧
    e.ActionCsiDispatch t id parameters
      = (if parameters.hasSubParams && !_CanSeqAcceptSubParam id parameters then
          { engine := e, calls := [], flush := false, fault := false, result := false }
         else e._PostCsiDispatch t (e.Csi t id parameters)) ∧
    (_ActionCsiDispatch csiTable (OutputEngine.asEngine nullTarget (fun _ => true))
        { Parser.init { _lastPrintedChar := 0x41, _pfnFlushToTerminal := true } false with
          cur := { _currentString := [0x41, 0x1B, 0x5B, 0x79], _runOffset := 1, _runSize := 3,
                   _curPos := 3, _processingLastCharacter := true } }
        0x79).seq._engine._lastPrintedChar = AsciiChars.NUL ∧
    (_ActionCsiDispatch csiTable (OutputEngine.asEngine nullTarget (fun _ => true))
        { Parser.init { _lastPrintedChar := 0x41, _pfnFlushToTerminal := true } false with
          cur := { _currentString := [0x41, 0x1B, 0x5B, 0x79], _runOffset := 1, _runSize := 3,
                   _curPos := 3, _processingLastCharacter := true } }
        0x79).passThroughLog = [[0x1B, 0x5B, 0x79]] ∧
    (ActionUnmatchedCsiDispatch
        ({ Parser.init { _lastPrintedChar := 0x41, _pfnFlushToTerminal := true } false with
          cur := { _currentString := [0x41, 0x1B, 0x5B, 0x79], _runOffset := 1, _runSize := 3,
                   _curPos := 3, _processingLastCharacter := true } }
          : Parser OutputEngine)).seq._engine._lastPrintedChar = 0x41 ∧
    (ActionUnmatchedCsiDispatch
        ({ Parser.init { _lastPrintedChar := 0x41, _pfnFlushToTerminal := true } false with
          cur := { _currentString := [0x41, 0x1B, 0x5B, 0x79], _runOffset := 1, _runSize := 3,
                   _curPos := 3, _processingLastCharacter := true } }
          : Parser OutputEngine)).passThroughLog = [] := by
  refine ⟨rfl, ?_, ?_, ?_, by decide, by decide, rfl, rfl⟩
  · unfold OutputEngine.ActionCsiDispatch
    split <;> rfl
  · unfold OutputEngine.ActionCsiDispatch
    split
    · rename_i h; rw [h]; rfl
    · rename_i h
      have h2 : (parameters.hasSubParams && !_CanSeqAcceptSubParam id parameters) = false := by
        simpa using h
      rw [h2]
      rfl
  · unfold OutputEngine.ActionCsiDispatch
    split <;> rfl

/-! ## The strings handed to `PrintString` -/

theorem logged_refl (P : List Nat → Prop) (p : Parser (E × List EngineCall)) : Logged P p p :=
  ⟨[], by simp, by simp⟩

theorem logged_trans {P : List Nat → Prop} {p q r : Parser (E × List EngineCall)}
    (h1 : Logged P p q) (h2 : Logged P q r) : Logged P p r := by
  obtain ⟨c1, e1, a1⟩ := h1
  obtain ⟨c2, e2, a2⟩ := h2
  refine ⟨c1 ++ c2, by rw [e2, e1, List.append_assoc], ?_⟩
  intro str hs
  rcases List.mem_append.mp hs with h | h
  · exact a1 str h
  · exact a2 str h

theorem logged_of_engine (P : List Nat → Prop) (p q : Parser (E × List EngineCall))
    (h : q.seq._engine = p.seq._engine) : Logged P p q :=
  ⟨[], by simp [h], by simp⟩

theorem logged_mono {P Q : List Nat → Prop} {p q : Parser (E × List EngineCall)}
    (h : Logged P p q) (hPQ : ∀ str, P str → Q str) : Logged Q p q := by
  obtain ⟨c, e, a⟩ := h
  exact ⟨c, e, fun str hs => hPQ str (a str hs)⟩

theorem logged_call (P : List Nat → Prop) (eng : Engine E) (p : Parser (E × List EngineCall))
    (c : EngineCall) (hc : ∀ str, c = EngineCall.ActionPrintString str → P str) :
    Logged P p (callEngine (recording eng) p c).1 := by
  refine ⟨[c], by rw [callEngine_seq]; rfl, ?_⟩
  intro str hs
  exact hc str (List.mem_singleton.mp hs).symm

theorem logged_Enter (P : List Nat → Prop) (g : Generated) (p : Parser (E × List EngineCall))
    (st : VTStates) : Logged P p (Enter g p st) :=
  logged_of_engine P _ _ rfl

theorem logged_runOp (g : Generated) (eng : Engine E) (p : Parser (E × List EngineCall))
    (op : Op) : Logged (fun _ => False) p (runOp g (recording eng) p op) := by
  have call : ∀ (q : Parser (E × List EngineCall)) (c : EngineCall),
      (∀ str, c ≠ EngineCall.ActionPrintString str) →
      Logged (fun _ => False) q (callEngine (recording eng) q c).1 :=
    fun q c hc => logged_call _ eng q c (fun str h => hc str h)
  cases op with
  | Enter st => exact logged_Enter _ g p st
  | ActionExecute => exact call p _ (fun _ h => by cases h)
  | ActionPrint => exact call p _ (fun _ h => by cases h)
  | ActionClear =>
    unfold runOp _ActionClear
    exact logged_trans (logged_of_engine _ p _ rfl) (call _ _ (fun _ h => by cases h))
  | ActionVt52EscDispatch => exact call p _ (fun _ h => by cases h)
  | ActionExecuteFromEscape => exact call p _ (fun _ h => by cases h)
  | ActionEscDispatch => exact call p _ (fun _ h => by cases h)
  | ActionIgnore => exact logged_refl _ p
  | ActionCollect => exact logged_of_engine _ _ _ rfl
  | ActionParam => exact logged_of_engine _ _ _ rfl
  | ActionCsiDispatch => exact call p _ (fun _ h => by cases h)
  | ActionSubParam => exact logged_of_engine _ _ _ rfl
  | ActionOscParam => exact logged_of_engine _ _ _ rfl
  | ActionOscPut => exact logged_of_engine _ _ _ rfl
  | ActionOscDispatch => exact call p _ (fun _ h => by cases h)
  | ActionSs3Dispatch => exact call p _ (fun _ h => by cases h)
  | ActionDcsDispatch =>
    unfold runOp _ActionDcsDispatch
    dsimp only
    have h1 := call p (EngineCall.ActionDcsDispatch (g.idFinalize p.seq._identifier p.seq._wch)
      p.seq.params._parameters) (fun _ h => by cases h)
    split <;> split <;>
      exact logged_trans h1 (logged_of_engine _ _ _ rfl)
  | ExecuteCsiCompleteCallback => exact logged_refl _ p
  | HandleVt52Param =>
    unfold runOp HandleVt52Param
    dsimp only
    have hv : ∀ (q : Parser (E × List EngineCall)) (w : Nat),
        Logged (fun _ => False) q (_ActionVt52EscDispatch g (recording eng) q w) :=
      fun q w => call q _ (fun _ h => by cases h)
    split
    · refine logged_trans ?_ (logged_trans (hv _ _) (logged_Enter _ g _ _))
      exact logged_of_engine _ _ _ rfl
    · exact logged_of_engine _ _ _ rfl
  | ExitDcsPassThrough =>
    unfold runOp ExitDcsPassThrough
    exact logged_trans (call p _ (fun _ h => by cases h)) (logged_of_engine _ _ _ rfl)
  | HandleDcsPassThrough =>
    unfold runOp HandleDcsPassThrough
    dsimp only
    split
    · exact logged_trans (call p _ (fun _ h => by cases h)) (logged_of_engine _ _ _ rfl)
    · exact call p _ (fun _ h => by cases h)
  | EraseCachedSequence => exact logged_of_engine _ _ _ rfl

theorem logged_foldl_runOp (g : Generated) (eng : Engine E) (ops : List Op)
    (p : Parser (E × List EngineCall)) :
    Logged (fun _ => False) p (ops.foldl (runOp g (recording eng)) p) := by
  induction ops generalizing p with
  | nil => exact logged_refl _ p
  | cons op ops ih => exact logged_trans (logged_runOp g eng p op) (ih _)

theorem logged_Proceed (g : Generated) (eng : Engine E) (isC1 : Bool)
    (p : Parser (E × List EngineCall)) (c : Nat) :
    Logged (fun _ => False) p (Proceed g (recording eng) isC1 p c) := by
  unfold Proceed
  exact logged_trans (logged_of_engine _ p { p with seq := { p.seq with _wch := c } } rfl)
    (logged_foldl_runOp g eng _ _)

theorem logged_ProcessCharacter (g : Generated) (eng : Engine E)
    (p : Parser (E × List EngineCall)) (c : Nat) :
    Logged (fun _ => False) p (ProcessCharacter g (recording eng) p c) := by
  unfold ProcessCharacter
  split
  · split
    · exact logged_trans (logged_Proceed g eng true p _) (logged_Proceed g eng true _ _)
    · exact logged_refl _ p
  · exact logged_Proceed g eng false p c

theorem logged_foldl_ProcessCharacter (g : Generated) (eng : Engine E) (s : List Nat)
    (p : Parser (E × List EngineCall)) :
    Logged (fun _ => False) p (s.foldl (ProcessCharacter g (recording eng)) p) := by
  induction s generalizing p with
  | nil => exact logged_refl _ p
  | cons c cs ih => exact logged_trans (logged_ProcessCharacter g eng p c) (ih _)

theorem logged_doBodyStep (g : Generated) (eng : Engine E) (p : Parser (E × List EngineCall)) :
    Logged (fun _ => False) p (doBodyStep g (recording eng) p) := by
  unfold doBodyStep
  refine logged_trans ?_ (logged_trans (logged_ProcessCharacter g eng (beforeCharacter p) _)
    (logged_of_engine _ _ _ rfl))
  exact logged_of_engine _ _ _ rfl

theorem logged_groundStep (eng : Engine E) (p : Parser (E × List EngineCall)) (i : Nat) :
    Logged PrintableRun p (groundStep (recording eng) p i).1 := by
  unfold groundStep
  dsimp only
  split
  · rename_i h
    refine logged_trans ?_ (logged_trans (logged_call PrintableRun eng _ _ ?_)
      (logged_of_engine _ _ _ rfl))
    · exact logged_of_engine _ _ _ rfl
    · intro str hstr
      cases hstr
      simp only [_CurrentRun, List.drop_drop] at h ⊢
      rw [findActionableFromGround_eq_findIdx] at h ⊢
      refine ⟨?_, take_findIdx_false _ _⟩
      intro he
      have hl := congrArg List.length he
      simp only [List.length_take, List.length_nil] at hl
      have : List.findIdx isActionableFromGround (List.drop i p.cur._currentString)
          ≤ (List.drop i p.cur._currentString).length := List.findIdx_le_length _
      omega
  · exact logged_of_engine _ _ _ rfl

theorem logged_scan (g : Generated) (eng : Engine E) (fuel : Nat) :
    ∀ (loc : Loc) (i : Nat) (p : Parser (E × List EngineCall)),
      Logged PrintableRun p (scan g (recording eng) fuel loc i p) := by
  induction fuel with
  | zero => intro loc i p; exact logged_refl _ p
  | succ fuel ih =>
    intro loc i p
    cases loc with
    | whileHead =>
      rw [scan]
      split
      · exact logged_trans (logged_groundStep eng p i) (ih _ _ _)
      · exact logged_refl _ p
    | vtStart =>
      rw [scan]
      split
      · exact logged_refl _ p
      · exact logged_trans (logged_of_engine _ p _ rfl) (ih _ _ _)
    | doBody =>
      rw [scan]
      have hd : Logged PrintableRun p (doBodyStep g (recording eng) p) :=
        logged_mono (logged_doBodyStep g eng p) (fun _ h => False.elim h)
      split
      · exact logged_trans hd (ih _ _ _)
      · exact logged_trans hd (ih _ _ _)

theorem logged_forceDispatch (g : Generated) (eng : Engine E)
    (p : Parser (E × List EngineCall)) (wch : Nat) :
    Logged (fun _ => False) p (forceDispatch g (recording eng) p wch) := by
  have call : ∀ (c : EngineCall), (∀ str, c ≠ EngineCall.ActionPrintString str) →
      Logged (fun _ => False) p (callEngine (recording eng) p c).1 :=
    fun c hc => logged_call _ eng p c (fun str h => hc str h)
  unfold forceDispatch
  split
  all_goals first
    | exact logged_refl _ p
    | exact call (EngineCall.ActionExecute wch) (fun _ h => EngineCall.noConfusion h)
    | exact call (EngineCall.ActionEscDispatch _) (fun _ h => EngineCall.noConfusion h)
    | exact call (EngineCall.ActionCsiDispatch _ _ _ _) (fun _ h => EngineCall.noConfusion h)
    | exact call (EngineCall.ActionOscDispatch _ _) (fun _ h => EngineCall.noConfusion h)
    | exact call (EngineCall.ActionSs3Dispatch _ _) (fun _ h => EngineCall.noConfusion h)

theorem logged_endOfString (g : Generated) (eng : Engine E)
    (p : Parser (E × List EngineCall)) :
    Logged (fun _ => False) p (endOfString g (recording eng) p) := by
  unfold endOfString
  split
  · dsimp only
    split
    · refine logged_trans ?_ (logged_trans (logged_forceDispatch g eng _ _)
        (logged_Enter _ g _ _))
      refine logged_trans ?_ (logged_of_engine _ _ _ rfl)
      refine logged_trans ?_ (logged_foldl_ProcessCharacter g eng _ _)
      exact logged_of_engine _ _ _ rfl
    · split
      · exact logged_of_engine _ _ _ rfl
      · exact logged_refl _ p
  · exact logged_refl _ p

theorem logged_ProcessString (g : Generated) (eng : Engine E)
    (p : Parser (E × List EngineCall)) (s : List Nat) :
    Logged PrintableRun p (ProcessString g (recording eng) p s) := by
  unfold ProcessString
  refine logged_trans ?_
    (logged_mono (logged_endOfString g eng _) (fun _ h => False.elim h) :
      Logged PrintableRun _ _)
  unfold scanString
  dsimp only
  split
  · exact logged_trans (logged_of_engine _ p _ rfl) (logged_scan g eng _ _ _ _)
  · exact logged_trans (logged_of_engine _ p _ rfl) (logged_scan g eng _ _ _ _)

theorem processString_empty (g : Generated) (eng : Engine E) (p : Parser E)
    (hq : p.seq._state = VTStates.Ground) : (ProcessString g eng p []).seq = p.seq := by
  simp [ProcessString, scanString, scan, endOfString, startString, hq]

/-- C36: every string that `ProcessString` hands to `PrintString` of the engine
is non-empty and holds no character `≤ 0x1F` or in `0x7F..0x9F`; and for a
string of 16-bit characters none of which is such a character, fed while the
parser is in `Ground`, `ProcessString` makes exactly one engine call,
`PrintString` with the whole string, or none when the string is empty, and
stays in `Ground`. The calls are those recorded by the engine. -/
theorem printString_gets_printable_runs (g : Generated) (eng : Engine E)
    (p : Parser (E × List EngineCall)) (s : List Nat) :
    (∃ calls, (ProcessString g (recording eng) p s).seq._engine.2 = p.seq._engine.2 ++ calls ∧
      ∀ str, EngineCall.ActionPrintString str ∈ calls →
        str ≠ [] ∧ ∀ c ∈ str, ¬ (c ≤ 0x1F ∨ (0x7F ≤ c ∧ c ≤ 0x9F))) ∧
    (p.seq._state = VTStates.Ground → (∀ c ∈ s, c < 65536) →
      (∀ c ∈ s, ¬ (c ≤ 0x1F ∨ (0x7F ≤ c ∧ c ≤ 0x9F))) →
      (ProcessString g (recording eng) p s).seq._engine.2
        = p.seq._engine.2 ++ (if s = [] then [] else [EngineCall.ActionPrintString s]) ∧
      (ProcessString g (recording eng) p s).seq._state = VTStates.Ground) := by
  refine ⟨?_, ?_⟩
  · obtain ⟨calls, he, ha⟩ := logged_ProcessString g eng p s
    refine ⟨calls, he, ?_⟩
    intro str hs
    obtain ⟨h1, h2⟩ := ha str hs
    refine ⟨h1, ?_⟩
    intro c hc hsp
    have := h2 c hc
    unfold isActionableFromGround at this
    simp only [Bool.or_eq_false_iff, decide_eq_false_iff_not] at this
    omega
  · intro hq hw hall
    by_cases hs : s = []
    · subst hs
      rw [processString_empty g _ p hq]
      simp [hq]
    · have hact : ∀ c ∈ s, isActionableFromGround c = false := by
        intro c hc
        cases h : isActionableFromGround c
        · rfl
        · exact absurd ((isActionableFromGround_iff c (hw c hc)).mp h) (hall c hc)
      obtain ⟨h1, _⟩ := processString_prints g (recording eng) p s hq hs hact
      rw [h1, if_neg hs]
      exact ⟨rfl, hq⟩

theorem printString_gets_printable_runs_witness :
    (Parser.init ((), ([] : List EngineCall)) false).seq._state = VTStates.Ground ∧
    (∀ c ∈ ([0x41, 0x42] : List Nat), c < 65536) ∧
    (∀ c ∈ ([0x41, 0x42] : List Nat), ¬ (c ≤ 0x1F ∨ (0x7F ≤ c ∧ c ≤ 0x9F))) ∧
    (ProcessString nullGenerated (recording nullEngine)
        (Parser.init ((), ([] : List EngineCall)) false) [0x41, 0x42]).seq._engine.2
      = (Parser.init ((), ([] : List EngineCall)) false).seq._engine.2
        ++ (if ([0x41, 0x42] : List Nat) = [] then []
            else [EngineCall.ActionPrintString [0x41, 0x42]]) :=
  ⟨rfl, by simp, by simp,
    ((printString_gets_printable_runs nullGenerated nullEngine
      (Parser.init ((), ([] : List EngineCall)) false) [0x41, 0x42]).2 rfl (by simp)
      (by simp)).1⟩

/-! ## Bounds of `ReadFrom` -/

theorem trim_zero_length (buf : List Nat) (h : trim_partial_utf8 buf = 0) : buf.length ≤ 3 := by
  rw [trim_partial_utf8_eq] at h
  split_ifs at h <;> omega

theorem trim_tail_length (buf : List Nat) :
    trim_partial_utf8 buf ≤ buf.length ∧ buf.length - trim_partial_utf8 buf ≤ 3 := by
  rw [trim_partial_utf8_eq]
  split_ifs <;> omega

theorem stringStream_read_le (s : StringStream) (capacity : Nat) :
    (s.Read capacity).1.length ≤ capacity := by
  unfold StringStream.Read
  split
  · simp
  · simp only [List.length_take]
    omega

/-- The properties of one call of `ReadFrom` that keep it inside its buffers. -/
theorem readLoopOn_bounds {S : Type} (Read : S → Nat → List Nat × S)
    (hread : ∀ s capacity, (Read s capacity).1.length ≤ capacity) :
    ∀ (fuel : Nat) (ds : DataSource) (stream : S) (buf : List Nat) (reads : List (Nat × Nat)),
      ds._u8partial.length ≤ buf.length → buf.length ≤ 3 → 4 ≤ buf.length + fuel →
      (∀ x ∈ reads, x.1 ≤ 3 ∧ x.1 + kReadSize ≤ kBufSize ∧ x.1 + x.2 ≤ kBufSize) →
      ∃ r, readLoopOn Read fuel ds stream buf reads = some r ∧
        r.ds._u8partial.length ≤ 3 ∧ r.window ≠ some [] ∧ r.reads ≠ [] ∧
        (∀ w, r.window = some w → w.length ≤ kBufSize) ∧
        ∀ x ∈ r.reads, x.1 ≤ 3 ∧ x.1 + kReadSize ≤ kBufSize ∧ x.1 + x.2 ≤ kBufSize := by
  intro fuel
  induction fuel with
  | zero => intro ds stream buf reads _ h1 h2; omega
  | succ fuel ih =>
    intro ds stream buf reads hds hbuf hfuel hreads
    have hk : (Read stream kReadSize).1.length ≤ kReadSize := hread stream kReadSize
    have hr : kReadSize = 4096 := rfl
    have hb : kBufSize = 4128 := rfl
    have hreads2 : ∀ x ∈ reads ++ [(buf.length, (Read stream kReadSize).1.length)],
        x.1 ≤ 3 ∧ x.1 + kReadSize ≤ kBufSize ∧ x.1 + x.2 ≤ kBufSize := by
      intro x hx
      rcases List.mem_append.mp hx with hx | hx
      · exact hreads x hx
      · rw [List.mem_singleton] at hx
        subst hx
        dsimp only
        omega
    unfold readLoopOn
    dsimp only
    by_cases h0 : (Read stream kReadSize).1.length = 0
    · rw [if_pos h0]
      by_cases hp : ds._u8partial.length ≠ 0
      · rw [if_pos hp]
        refine ⟨_, rfl, by simp, ?_, by simp, ?_, hreads2⟩
        · simp only [ne_eq, Option.some.injEq, List.take_eq_nil_iff, not_or]
          refine ⟨hp, ?_⟩
          intro hnil
          have hl : buf.length = 0 := by rw [hnil]; rfl
          omega
        · intro w hw
          simp only [Option.some.injEq] at hw
          subst hw
          simp only [List.length_take]
          omega
      · rw [if_neg hp]
        exact ⟨_, rfl, le_trans hds hbuf, by simp, by simp, by simp, hreads2⟩
    · rw [if_neg h0]
      have ht := trim_tail_length (buf ++ (Read stream kReadSize).1)
      have hlen : (buf ++ (Read stream kReadSize).1).length
          = buf.length + (Read stream kReadSize).1.length := List.length_append _ _
      by_cases hu : trim_partial_utf8 (buf ++ (Read stream kReadSize).1) ≠ 0
      · rw [if_pos hu]
        have hw : ∀ w, some (List.take (trim_partial_utf8 (buf ++ (Read stream kReadSize).1))
            (buf ++ (Read stream kReadSize).1)) = some w → w.length ≤ kBufSize := by
          intro w hw
          simp only [Option.some.injEq] at hw
          subst hw
          simp only [List.length_take]
          omega
        have hne : some (List.take (trim_partial_utf8 (buf ++ (Read stream kReadSize).1))
            (buf ++ (Read stream kReadSize).1)) ≠ some [] := by
          simp only [ne_eq, Option.some.injEq, List.take_eq_nil_iff, not_or]
          refine ⟨hu, ?_⟩
          intro hnil
          rw [hnil] at hlen
          simp at hlen
          omega
        split
        · exact ⟨_, rfl, by simp, hne, by simp, hw, hreads2⟩
        · refine ⟨_, rfl, ?_, hne, by simp, hw, hreads2⟩
          simp only [List.length_drop]
          omega
      · rw [if_neg hu]
        have hz := trim_zero_length _ (not_not.mp hu)
        exact ih ds _ _ _ (by omega) hz (by omega) hreads2

/-- Over a `StringStream` the loop with the calls recorded is the loop
`readLoop`. -/
theorem readLoopOn_stringStream :
    ∀ (fuel : Nat) (ds : DataSource) (stream : StringStream) (buf : List Nat)
      (reads : List (Nat × Nat)) (r : ReadOutcome StringStream),
      readLoopOn StringStream.Read fuel ds stream buf reads = some r →
      readLoop fuel ds stream buf = (r.window, r.ds, r.stream) := by
  intro fuel
  induction fuel with
  | zero => intro ds stream buf reads r h; simp [readLoopOn] at h
  | succ fuel ih =>
    intro ds stream buf reads r h
    unfold readLoopOn at h
    unfold readLoop
    dsimp only at h ⊢
    split_ifs at h ⊢
    all_goals first
      | exact ih _ _ _ _ _ h
      | (simp only [Option.some.injEq] at h; subst h; rfl)

theorem readFromSeq_bounds {S : Type} (Read : S → Nat → List Nat × S)
    (hread : ∀ s capacity, (Read s capacity).1.length ≤ capacity) :
    ∀ (n : Nat) (ds : DataSource) (stream : S), ds._u8partial.length ≤ 3 →
      (readFromSeq Read n ds stream).length = n ∧
      ∀ r ∈ readFromSeq Read n ds stream,
        r.ds._u8partial.length ≤ 3 ∧ r.window ≠ some [] ∧ r.reads ≠ [] ∧
        (∀ w, r.window = some w → w.length ≤ kBufSize) ∧
        ∀ x ∈ r.reads, x.1 ≤ 3 ∧ x.1 + kReadSize ≤ kBufSize ∧ x.1 + x.2 ≤ kBufSize := by
  intro n
  induction n with
  | zero => intro ds stream _; simp [readFromSeq]
  | succ n ih =>
    intro ds stream hds
    obtain ⟨r, hr, h1, h2⟩ := readLoopOn_bounds Read hread 4 ds stream ds._u8partial []
      (le_refl _) hds (by omega) (by simp)
    have hr2 : ReadFromOn Read ds stream = some r := hr
    unfold readFromSeq
    rw [hr2]
    dsimp only
    obtain ⟨hl, hall⟩ := ih r.ds r.stream h1
    refine ⟨by rw [List.length_cons, hl], ?_⟩
    intro q hq
    rcases List.mem_cons.mp hq with hq | hq
    · subst hq
      exact ⟨h1, h2⟩
    · exact hall q hq

/-- C35: across any number of successive `ReadFrom` calls on a fresh
`DataSource` and a stream whose `Read` returns at most the requested capacity,
every call returns (four iterations of its loop suffice), the saved tail
`_u8partial` holds at most 3 bytes after each call, every offset `bufPos` handed
to `stream.Read` is at most 3, so that with `kReadSize = 4096` the write of up
to `kReadSize` bytes at that offset stays within the `kBufSize = 4128` bytes of
`_u8buf`, and the window handed to `MultiByteToWideChar` is never empty. -/
theorem readFrom_stays_in_buffer {S : Type} (Read : S → Nat → List Nat × S)
    (hread : ∀ s capacity, (Read s capacity).1.length ≤ capacity) (n : Nat) (stream : S) :
    kReadSize = 4096 ∧ kBufSize = 4128 ∧
    (readFromSeq Read n { _u8partial := [] } stream).length = n ∧
    ∀ r ∈ readFromSeq Read n { _u8partial := [] } stream,
      r.ds._u8partial.length ≤ 3 ∧ r.window ≠ some [] ∧ r.reads ≠ [] ∧
      (∀ w, r.window = some w → w.length ≤ kBufSize) ∧
      ∀ x ∈ r.reads, x.1 ≤ 3 ∧ x.1 + kReadSize ≤ kBufSize ∧ x.1 + x.2 ≤ kBufSize :=
  ⟨rfl, rfl, readFromSeq_bounds Read hread n { _u8partial := [] } stream (by simp)⟩

theorem readFrom_stays_in_buffer_witness :
    (∀ (s : StringStream) (capacity : Nat), (s.Read capacity).1.length ≤ capacity) ∧
    (readFromSeq StringStream.Read 3 { _u8partial := [] }
      { _target := [0x41, 0xE2, 0x82], pos := 0 }).length = 3 :=
  ⟨stringStream_read_le,
    (readFrom_stays_in_buffer StringStream.Read stringStream_read_le 3
      { _target := [0x41, 0xE2, 0x82], pos := 0 }).2.2.1⟩

/-! ## The reads of the scan of `_ActionParam` -/

theorem scanReads_range (memory : Nat → Nat) (stop : Nat) :
    ∀ (fuel p : Nat), p ≤ stop → ∀ i ∈ scanReads memory fuel p stop, p ≤ i ∧ i < stop := by
  intro fuel
  induction fuel with
  | zero => intro p _ i hi; simp [scanReads] at hi
  | succ fuel ih =>
    intro p hp i hi
    unfold scanReads at hi
    split at hi
    · rename_i hne
      split at hi
      · rcases List.mem_cons.mp hi with h | h
        · subst h; omega
        · have := ih (p + 1) (by omega) i h
          omega
      · rw [List.mem_singleton] at hi
        subst hi; omega
    · simp at hi

theorem scanReads_beyond (memory : Nat → Nat) (stop : Nat) :
    ∀ (fuel p : Nat), stop < p → ∀ i ∈ scanReads memory fuel p stop, stop < i := by
  intro fuel
  induction fuel with
  | zero => intro p _ i hi; simp [scanReads] at hi
  | succ fuel ih =>
    intro p hp i hi
    unfold scanReads at hi
    split at hi
    · split at hi
      · rcases List.mem_cons.mp hi with h | h
        · subst h; exact hp
        · exact ih (p + 1) (by omega) i h
      · rw [List.mem_singleton] at hi
        subst hi; exact hp
    · simp at hi

theorem scanReads_first (memory : Nat → Nat) (fuel p stop : Nat) (h : stop < p) :
    (scanReads memory (fuel + 1) p stop).head? = some p := by
  unfold scanReads
  rw [if_pos (by omega)]
  split <;> rfl

theorem paramReads_inside (memory : Nat → Nat) (fuel : Nat) (p : Parser E) (wch : Nat)
    (h : p.cur._curPos < p.cur._currentString.length) :
    ∀ i ∈ paramReads memory fuel p wch, i < p.cur._currentString.length := by
  intro i hi
  unfold paramReads at hi
  split at hi
  · split at hi
    · simp at hi
    · exact (scanReads_range memory _ fuel _ (by omega) i hi).2
  · simp at hi

theorem paramReads_outside (memory : Nat → Nat) (fuel : Nat) (p : Parser E) (wch : Nat)
    (h : p.cur._currentString.length ≤ p.cur._curPos) :
    ∀ i ∈ paramReads memory fuel p wch, p.cur._currentString.length < i := by
  intro i hi
  unfold paramReads at hi
  split at hi
  · split at hi
    · simp at hi
    · exact scanReads_beyond memory _ fuel _ (by omega) i hi
  · simp at hi

theorem opsReads_inside (g : Generated) (eng : Engine E) (memory : Nat → Nat) (fuel : Nat) :
    ∀ (ops : List Op) (p : Parser E), p.cur._curPos < p.cur._currentString.length →
      ∀ i ∈ opsReads g eng memory fuel ops p, i < p.cur._currentString.length := by
  intro ops
  induction ops with
  | nil => intro p _ i hi; simp [opsReads] at hi
  | cons op ops ih =>
    intro p hp i hi
    unfold opsReads at hi
    rcases List.mem_append.mp hi with h | h
    · split at h
      · exact paramReads_inside memory fuel p _ hp i h
      · simp at h
    · obtain ⟨c1, _, _, k, _, c5, c6⟩ := runOp_curStep g eng p op
      have := ih (runOp g eng p op) (by rw [c1, c5]; exact c6 hp) i h
      rw [c1] at this
      exact this

theorem opsReads_outside (g : Generated) (eng : Engine E) (memory : Nat → Nat) (fuel : Nat) :
    ∀ (ops : List Op) (p : Parser E), p.cur._currentString.length ≤ p.cur._curPos →
      ∀ i ∈ opsReads g eng memory fuel ops p, p.cur._currentString.length < i := by
  intro ops
  induction ops with
  | nil => intro p _ i hi; simp [opsReads] at hi
  | cons op ops ih =>
    intro p hp i hi
    unfold opsReads at hi
    rcases List.mem_append.mp hi with h | h
    · split at h
      · exact paramReads_outside memory fuel p _ hp i h
      · simp at h
    · obtain ⟨c1, _, _, k, _, c5, _⟩ := runOp_curStep g eng p op
      have := ih (runOp g eng p op) (by rw [c1, c5]; omega) i h
      rw [c1] at this
      exact this

theorem proceedReads_inside (g : Generated) (eng : Engine E) (memory : Nat → Nat) (fuel : Nat)
    (isC1 : Bool) (p : Parser E) (wch : Nat)
    (hp : p.cur._curPos < p.cur._currentString.length) :
    ∀ i ∈ proceedReads g eng memory fuel isC1 p wch, i < p.cur._currentString.length :=
  opsReads_inside g eng memory fuel _ { p with seq := { p.seq with _wch := wch } } hp

theorem proceedReads_outside (g : Generated) (eng : Engine E) (memory : Nat → Nat) (fuel : Nat)
    (isC1 : Bool) (p : Parser E) (wch : Nat)
    (hp : p.cur._currentString.length ≤ p.cur._curPos) :
    ∀ i ∈ proceedReads g eng memory fuel isC1 p wch, p.cur._currentString.length < i :=
  opsReads_outside g eng memory fuel _ { p with seq := { p.seq with _wch := wch } } hp

theorem characterReads_inside (g : Generated) (eng : Engine E) (memory : Nat → Nat) (fuel : Nat)
    (p : Parser E) (wch : Nat) (hp : p.cur._curPos < p.cur._currentString.length) :
    ∀ i ∈ characterReads g eng memory fuel p wch, i < p.cur._currentString.length := by
  intro i hi
  unfold characterReads at hi
  split at hi
  · split at hi
    · rcases List.mem_append.mp hi with h | h
      · exact proceedReads_inside g eng memory fuel _ _ _ hp i h
      · obtain ⟨c1, _, _, k, _, c5, c6⟩ := Proceed_curStep g eng true p 0x1B
        have := proceedReads_inside g eng memory fuel true (Proceed g eng true p 0x1B) _
          (by rw [c1, c5]; exact c6 hp) i h
        rw [← c1]
        exact this
    · simp at hi
  · exact proceedReads_inside g eng memory fuel _ _ _ hp i hi

theorem characterReads_outside (g : Generated) (eng : Engine E) (memory : Nat → Nat) (fuel : Nat)
    (p : Parser E) (wch : Nat) (hp : p.cur._currentString.length ≤ p.cur._curPos) :
    ∀ i ∈ characterReads g eng memory fuel p wch, p.cur._currentString.length < i := by
  intro i hi
  unfold characterReads at hi
  split at hi
  · split at hi
    · rcases List.mem_append.mp hi with h | h
      · exact proceedReads_outside g eng memory fuel _ _ _ hp i h
      · obtain ⟨c1, _, _, k, _, c5, _⟩ := Proceed_curStep g eng true p 0x1B
        have := proceedReads_outside g eng memory fuel true (Proceed g eng true p 0x1B) _
          (by rw [c1, c5]; omega) i h
        rw [← c1]
        exact this
    · simp at hi
  · exact proceedReads_outside g eng memory fuel _ _ _ hp i hi

theorem groundStep_state (eng : Engine E) (p : Parser E) (i : Nat) :
    (groundStep eng p i).1.seq._state = p.seq._state := by
  unfold groundStep
  dsimp only
  split
  · simp only [_ActionPrintString, callEngine_seq]
  · rfl

/-- Where the scan of `ProcessString` leaves the cursor when it ends outside
`Ground` on a string that is not empty: at the end of the string. -/
theorem scan_curPos (g : Generated) (eng : Engine E) (fuel : Nat) : ∀ (loc : Loc) (i : Nat)
    (p : Parser E), need loc p.cur._currentString.length (posAt loc i p) ≤ fuel →
    ScanInv loc i p →
    (loc = Loc.whileHead → p.seq._state ≠ VTStates.Ground → p.cur._curPos = i) →
    (loc = Loc.vtStart → p.cur._currentString.length ≤ i → p.seq._state ≠ VTStates.Ground →
      p.cur._currentString.length = 0) →
    (scan g eng fuel loc i p).seq._state ≠ VTStates.Ground →
    p.cur._currentString.length ≠ 0 →
    (scan g eng fuel loc i p).cur._curPos = p.cur._currentString.length := by
  induction fuel with
  | zero =>
    intro loc i p hn hinv _ _
    cases loc with
    | whileHead => simp [need] at hn
    | vtStart => simp [need] at hn
    | doBody =>
      simp only [need, posAt] at hn
      simp only [ScanInv] at hinv
      omega
  | succ fuel ih =>
    intro loc i p hn hinv hw hv
    cases loc with
    | whileHead =>
      simp only [need, posAt] at hn
      simp only [ScanInv] at hinv
      rw [scan]
      split
      · rename_i hlt
        obtain ⟨c1, c2, c3, c4, c5⟩ := groundStep_cur eng p i hinv.1
        have hst := groundStep_state eng p i
        have hg : p.seq._state = VTStates.Ground := by
          by_contra h
          have := (hinv.2 h).1
          omega
        have := ih Loc.vtStart (groundStep eng p i).2 (groundStep eng p i).1
          (by simp only [need, posAt, c1]; omega)
          (by simp only [ScanInv, c1]; exact ⟨c5, c2, c3⟩)
          (fun h => Loc.noConfusion h)
          (fun _ _ h => absurd (hst.trans hg) h)
        rw [c1] at this
        exact this
      · rename_i hge
        intro hs _
        rw [hw rfl hs]
        exact (hinv.2 hs).1
    | vtStart =>
      simp only [need, posAt] at hn
      simp only [ScanInv] at hinv
      rw [scan]
      split
      · rename_i hge
        intro hs hne
        exact absurd (hv rfl hge hs) hne
      · rename_i hlt
        exact ih Loc.doBody i { p with cur := { p.cur with _curPos := i } }
          (by simp only [need, posAt]; omega)
          (by simp only [ScanInv]; refine ⟨by omega, ?_⟩; rw [hinv.2.1, hinv.2.2]; rfl)
          (fun h => Loc.noConfusion h) (fun h => Loc.noConfusion h)
    | doBody =>
      simp only [need, posAt] at hn
      simp only [ScanInv] at hinv
      obtain ⟨d1, d2, k, d3, d4, d5⟩ := doBodyStep_cur g eng p hinv.1
      rw [scan]
      split
      · rename_i hc
        have := ih Loc.doBody i (doBodyStep g eng p)
          (by simp only [need, posAt, d1, d4]; omega)
          (by simp only [ScanInv]; refine ⟨hc.1, ?_⟩; rw [d2, d3, d4]; omega)
          (fun h => Loc.noConfusion h) (fun h => Loc.noConfusion h)
        rw [d1] at this
        exact this
      · rename_i hc
        have := ih Loc.whileHead (doBodyStep g eng p).cur._curPos (doBodyStep g eng p)
          (by simp only [need, posAt, d1, d4]; omega)
          (by
            simp only [ScanInv]
            refine ⟨by rw [d1, d4]; exact d5, fun hs => ?_⟩
            have hge : ¬ ((doBodyStep g eng p).cur._curPos
                < (doBodyStep g eng p).cur._currentString.length) := fun h => hc ⟨h, hs⟩
            rw [d1, d4] at hge ⊢
            rw [d2, d3]
            omega)
          (fun _ _ => rfl) (fun h => Loc.noConfusion h)
        rw [d1] at this
        exact this

theorem scanString_curPos (g : Generated) (eng : Engine E) (p : Parser E) (string : List Nat)
    (hne : string ≠ [])
    (hs : (scanString g eng p string).seq._state ≠ VTStates.Ground) :
    (scanString g eng p string).cur._curPos = string.length := by
  have hl : string.length ≠ 0 := fun h => hne (List.length_eq_zero.mp h)
  unfold scanString at hs ⊢
  dsimp only at hs ⊢
  split at hs
  · rename_i h
    rw [if_pos h]
    exact scan_curPos g eng _ Loc.vtStart 0 (startString p string)
      (by simp [need, posAt, startString]) (by simp [ScanInv, startString])
      (fun h => Loc.noConfusion h)
      (fun _ hle _ => by simpa [startString] using hle) hs
      (by simpa [startString] using hl)
  · rename_i h
    rw [if_neg h]
    have hg : (startString p string).seq._state = VTStates.Ground := by
      by_contra h2; exact h h2
    exact scan_curPos g eng _ Loc.whileHead 0 (startString p string)
      (by simp [need, posAt, startString])
      (by simp only [ScanInv]; exact ⟨Nat.zero_le _, fun h => absurd hg h⟩)
      (fun _ h2 => absurd hg h2) (fun h => Loc.noConfusion h) hs
      (by simpa [startString] using hl)

theorem foldl_ProcessCharacter_curStep (g : Generated) (eng : Engine E) (cs : List Nat)
    (p : Parser E) : CurStep p (cs.foldl (ProcessCharacter g eng) p) := by
  induction cs generalizing p with
  | nil => exact CurStep.refl p
  | cons c cs ih => exact (ProcessCharacter_curStep g eng p c).trans (ih _)

theorem reprocessAt_cur (g : Generated) (eng : Engine E) (p : Parser E) (k : Nat) :
    (reprocessAt g eng p k).cur._currentString = p.cur._currentString ∧
    p.cur._curPos ≤ (reprocessAt g eng p k).cur._curPos := by
  obtain ⟨c1, _, _, n, _, c5, _⟩ := foldl_ProcessCharacter_curStep g eng
    ((_CurrentRun p).dropLast.take k)
    { ResetState g p with
      cur := { (ResetState g p).cur with _processingLastCharacter := false } }
  unfold reprocessAt
  dsimp only at c1 c5 ⊢
  rw [c1, c5]
  exact ⟨rfl, Nat.le_add_right _ _⟩

theorem reprocess_eq_reprocessAt (g : Generated) (eng : Engine E) (p : Parser E) :
    reprocess g eng p (_CurrentRun p)
      = { reprocessAt g eng p (_CurrentRun p).dropLast.length with
          cur := { (reprocessAt g eng p (_CurrentRun p).dropLast.length).cur with
                   _processingLastCharacter := true } } := by
  unfold reprocess reprocessAt
  simp only [List.take_length]

/-- C34 (refuted for the re-processing in input mode): the scan of
`_ActionParam` reads inside the current string whenever the cursor `_curPos` is
inside it, which is so at every call of `ProcessCharacter` in the
`do ... while` of `ProcessString`, in either mode. The re-processing loop at the
end of `ProcessString` in input mode does not set `_curPos`: when the scan of a
non-empty string has ended outside `Ground`, the cursor stands at the end of the
string, it is still there or further when the loop calls `ProcessCharacter` for
the character of index `k` of the run, and every index read by a Param action
of that call is greater than the length of the string. For the input-mode
string `ESC [ 1 2` and a table that makes a digit after `ESC [` a Param action,
the re-processing of `1` starts the scan at index 5 of a string of length 4 and
reads there. -/
theorem param_scan_reads_past_end (g : Generated) (eng : Engine E) (p : Parser E)
    (string : List Nat) (memory : Nat → Nat) (fuel k wch : Nat) :
    (∀ q : Parser E, q.cur._curPos < q.cur._currentString.length →
      ∀ i ∈ characterReads g eng memory fuel (beforeCharacter q) wch,
        i < q.cur._currentString.length) ∧
    (string ≠ [] → (scanString g eng p string).seq._state ≠ VTStates.Ground →
      (scanString g eng p string).cur._curPos = string.length ∧
      (reprocessAt g eng (scanString g eng p string) k).cur._currentString = string ∧
      string.length ≤ (reprocessAt g eng (scanString g eng p string) k).cur._curPos ∧
      ∀ i ∈ characterReads g eng memory fuel
          (reprocessAt g eng (scanString g eng p string) k) wch, string.length < i) ∧
    reprocess g eng p (_CurrentRun p)
      = { reprocessAt g eng p (_CurrentRun p).dropLast.length with
          cur := { (reprocessAt g eng p (_CurrentRun p).dropLast.length).cur with
                   _processingLastCharacter := true } } ∧
    (scanString csiTable nullEngine (Parser.init () true) [0x1B, 0x5B, 0x31, 0x32]).seq._state
      = VTStates.CsiParam ∧
    _CurrentRun (scanString csiTable nullEngine (Parser.init () true) [0x1B, 0x5B, 0x31, 0x32])
      = [0x1B, 0x5B, 0x31, 0x32] ∧
    (reprocessAt csiTable nullEngine
      (scanString csiTable nullEngine (Parser.init () true) [0x1B, 0x5B, 0x31, 0x32]) 2).cur._curPos
      = 4 ∧
    (characterReads csiTable nullEngine memory (fuel + 1)
      (reprocessAt csiTable nullEngine
        (scanString csiTable nullEngine (Parser.init () true) [0x1B, 0x5B, 0x31, 0x32]) 2)
      0x31).head? = some 5 := by
  refine ⟨?_, ?_, reprocess_eq_reprocessAt g eng p, rfl, rfl, rfl, ?_⟩
  · intro q hq
    exact characterReads_inside g eng memory fuel (beforeCharacter q) wch hq
  · intro hne hs
    have h1 := scanString_curPos g eng p string hne hs
    have h2 := (scanString_inv g eng p string).1
    obtain ⟨h3, h4⟩ := reprocessAt_cur g eng (scanString g eng p string) k
    rw [h2] at h3
    rw [h1] at h4
    refine ⟨h1, h3, h4, ?_⟩
    have := characterReads_outside g eng memory fuel
      (reprocessAt g eng (scanString g eng p string) k) wch (by rw [h3]; exact h4)
    rw [h3] at this
    exact this
  · have h : characterReads csiTable nullEngine memory (fuel + 1)
        (reprocessAt csiTable nullEngine
          (scanString csiTable nullEngine (Parser.init () true) [0x1B, 0x5B, 0x31, 0x32]) 2)
        0x31 = scanReads memory (fuel + 1) 5 4 ++ [] := rfl
    rw [h, List.append_nil]
    exact scanReads_first memory fuel 5 4 (by omega)

theorem param_scan_reads_past_end_witness :
    ([0x1B, 0x5B, 0x31, 0x32] : List Nat) ≠ [] ∧
    (scanString csiTable nullEngine (Parser.init () true) [0x1B, 0x5B, 0x31, 0x32]).seq._state
      ≠ VTStates.Ground ∧
    (scanString csiTable nullEngine (Parser.init () true) [0x1B, 0x5B, 0x31, 0x32]).cur._curPos
      = ([0x1B, 0x5B, 0x31, 0x32] : List Nat).length :=
  ⟨by simp, by decide,
    ((param_scan_reads_past_end csiTable nullEngine (Parser.init () true)
      [0x1B, 0x5B, 0x31, 0x32] (fun _ => 0) 1 2 0x31).2.1 (by simp) (by decide)).1⟩

/-! ## The cached sequence across a call of `ProcessString` -/

theorem cacheStep_refl (p : Parser E) : CacheStep p p := Or.inl rfl

theorem cacheStep_trans {p q r : Parser E} (h1 : CacheStep p q) (h2 : CacheStep q r) :
    CacheStep p r := by
  rcases h2 with h2 | h2
  · rcases h1 with h1 | h1
    · exact Or.inl (h2.trans h1)
    · exact Or.inr (h2.trans h1)
  · exact Or.inr h2

theorem cacheStep_of_eq (p q : Parser E) (h : q._cachedSequence = p._cachedSequence) :
    CacheStep p q := Or.inl h

theorem cacheStep_FlushToTerminal (eng : Engine E) (p : Parser E) :
    CacheStep p (FlushToTerminal eng p).1 := by
  unfold FlushToTerminal
  cases hc : p._cachedSequence with
  | none =>
    dsimp only
    refine Or.inl ?_
    split <;> rfl
  | some cached =>
    dsimp only
    refine Or.inr ?_
    split <;> rfl

theorem cacheStep_callEngine (eng : Engine E) (p : Parser E) (c : EngineCall) :
    CacheStep p (callEngine eng p c).1 := by
  unfold callEngine
  dsimp only
  split
  · exact cacheStep_trans (cacheStep_of_eq p _ rfl) (cacheStep_FlushToTerminal eng _)
  · exact cacheStep_of_eq p _ rfl

theorem cacheStep_Enter (g : Generated) (p : Parser E) (st : VTStates) :
    CacheStep p (Enter g p st) := by
  unfold Enter CacheStep
  dsimp only
  split
  · exact Or.inr rfl
  · exact Or.inl rfl

theorem cacheStep_runOp (g : Generated) (eng : Engine E) (p : Parser E) (op : Op) :
    CacheStep p (runOp g eng p op) := by
  cases op with
  | Enter st => exact cacheStep_Enter g p st
  | ActionExecute => exact cacheStep_callEngine eng p _
  | ActionPrint => exact cacheStep_callEngine eng p _
  | ActionClear =>
    unfold runOp _ActionClear
    exact cacheStep_trans (cacheStep_of_eq p _ rfl) (cacheStep_callEngine eng _ _)
  | ActionVt52EscDispatch => exact cacheStep_callEngine eng p _
  | ActionExecuteFromEscape => exact cacheStep_callEngine eng p _
  | ActionEscDispatch => exact cacheStep_callEngine eng p _
  | ActionIgnore => exact cacheStep_refl p
  | ActionCollect => exact cacheStep_of_eq _ _ rfl
  | ActionParam => exact cacheStep_of_eq _ _ rfl
  | ActionCsiDispatch => exact cacheStep_callEngine eng p _
  | ActionSubParam => exact cacheStep_of_eq _ _ rfl
  | ActionOscParam => exact cacheStep_of_eq _ _ rfl
  | ActionOscPut => exact cacheStep_of_eq _ _ rfl
  | ActionOscDispatch => exact cacheStep_callEngine eng p _
  | ActionSs3Dispatch => exact cacheStep_callEngine eng p _
  | ActionDcsDispatch =>
    unfold runOp _ActionDcsDispatch
    dsimp only
    have h1 := cacheStep_callEngine eng p
      (EngineCall.ActionDcsDispatch (g.idFinalize p.seq._identifier p.seq._wch)
        p.seq.params._parameters)
    split <;> split <;>
      exact cacheStep_trans h1 (cacheStep_trans (cacheStep_of_eq _ _ rfl) (cacheStep_Enter g _ _))
  | ExecuteCsiCompleteCallback => exact cacheStep_refl p
  | HandleVt52Param =>
    unfold runOp HandleVt52Param
    dsimp only
    split
    · refine cacheStep_trans ?_ (cacheStep_trans (cacheStep_callEngine eng _ _)
        (cacheStep_Enter g _ _))
      exact cacheStep_of_eq _ _ rfl
    · exact cacheStep_of_eq _ _ rfl
  | ExitDcsPassThrough =>
    unfold runOp ExitDcsPassThrough
    exact cacheStep_trans (cacheStep_callEngine eng p _) (cacheStep_of_eq _ _ rfl)
  | HandleDcsPassThrough =>
    unfold runOp HandleDcsPassThrough
    dsimp only
    split
    · exact cacheStep_trans (cacheStep_callEngine eng p _) (cacheStep_Enter g _ _)
    · exact cacheStep_callEngine eng p _
  | EraseCachedSequence => exact Or.inr rfl

theorem cacheStep_foldl_runOp (g : Generated) (eng : Engine E) (ops : List Op) (p : Parser E) :
    CacheStep p (ops.foldl (runOp g eng) p) := by
  induction ops generalizing p with
  | nil => exact cacheStep_refl p
  | cons op ops ih => exact cacheStep_trans (cacheStep_runOp g eng p op) (ih _)

theorem cacheStep_Proceed (g : Generated) (eng : Engine E) (isC1 : Bool) (p : Parser E)
    (c : Nat) : CacheStep p (Proceed g eng isC1 p c) := by
  unfold Proceed
  exact cacheStep_trans (cacheStep_of_eq p { p with seq := { p.seq with _wch := c } } rfl)
    (cacheStep_foldl_runOp g eng _ _)

theorem cacheStep_ProcessCharacter (g : Generated) (eng : Engine E) (p : Parser E) (c : Nat) :
    CacheStep p (ProcessCharacter g eng p c) := by
  unfold ProcessCharacter
  split
  · split
    · exact cacheStep_trans (cacheStep_Proceed g eng true p _) (cacheStep_Proceed g eng true _ _)
    · exact cacheStep_refl p
  · exact cacheStep_Proceed g eng false p c

theorem cacheStep_doBodyStep (g : Generated) (eng : Engine E) (p : Parser E) :
    CacheStep p (doBodyStep g eng p) := by
  unfold doBodyStep
  refine cacheStep_trans ?_ (cacheStep_trans (cacheStep_ProcessCharacter g eng (beforeCharacter p) _)
    (cacheStep_of_eq _ _ rfl))
  exact cacheStep_of_eq _ _ rfl

theorem cacheStep_groundStep (eng : Engine E) (p : Parser E) (i : Nat) :
    CacheStep p (groundStep eng p i).1 := by
  unfold groundStep
  dsimp only
  split
  · refine cacheStep_trans ?_ (cacheStep_trans (cacheStep_callEngine eng _ _)
      (cacheStep_of_eq _ _ rfl))
    exact cacheStep_of_eq _ _ rfl
  · exact cacheStep_of_eq _ _ rfl

theorem cacheStep_scan (g : Generated) (eng : Engine E) (fuel : Nat) :
    ∀ (loc : Loc) (i : Nat) (p : Parser E), CacheStep p (scan g eng fuel loc i p) := by
  induction fuel with
  | zero => intro loc i p; exact cacheStep_refl p
  | succ fuel ih =>
    intro loc i p
    cases loc with
    | whileHead =>
      rw [scan]
      split
      · exact cacheStep_trans (cacheStep_groundStep eng p i) (ih _ _ _)
      · exact cacheStep_refl p
    | vtStart =>
      rw [scan]
      split
      · exact cacheStep_refl p
      · exact cacheStep_trans (cacheStep_of_eq p _ rfl) (ih _ _ _)
    | doBody =>
      rw [scan]
      split
      · exact cacheStep_trans (cacheStep_doBodyStep g eng p) (ih _ _ _)
      · exact cacheStep_trans (cacheStep_doBodyStep g eng p) (ih _ _ _)

theorem cacheStep_scanString (g : Generated) (eng : Engine E) (p : Parser E) (s : List Nat) :
    CacheStep p (scanString g eng p s) := by
  unfold scanString
  dsimp only
  split
  · exact cacheStep_trans (cacheStep_of_eq p _ rfl) (cacheStep_scan g eng _ _ _ _)
  · exact cacheStep_trans (cacheStep_of_eq p _ rfl) (cacheStep_scan g eng _ _ _ _)

theorem inRun_cache (g : Generated) (eng : Engine E) (start : Parser E)
    (hkeep : ∀ r, InRun g eng start r → (doBodyStep g eng r)._cachedSequence = r._cachedSequence)
    (r : Parser E) (hr : InRun g eng start r) : r._cachedSequence = start._cachedSequence := by
  induction hr with
  | first => rfl
  | next r hr' _ _ ih => exact (hkeep r hr').trans ih

/-- A call that starts outside `Ground`, none of whose passes through the
`do ... while` touches the cache or returns to `Ground` before the end of the
string, ends its scan with the cache as it was and the run offset 0. -/
theorem scan_keeps_cache (g : Generated) (eng : Engine E) (p : Parser E) (s : List Nat)
    (hne : s ≠ [])
    (hkeep : ∀ r, InRun g eng (enterSequence p s) r →
      (doBodyStep g eng r)._cachedSequence = r._cachedSequence)
    (hng : ∀ r, InRun g eng (enterSequence p s) r →
      (doBodyStep g eng r).cur._curPos < s.length →
      (doBodyStep g eng r).seq._state ≠ VTStates.Ground) :
    ∀ (fuel : Nat) (r : Parser E), InRun g eng (enterSequence p s) r →
      need Loc.doBody s.length r.cur._curPos ≤ fuel →
      (scan g eng fuel Loc.doBody 0 r)._cachedSequence = p._cachedSequence ∧
      (scan g eng fuel Loc.doBody 0 r).cur._runOffset = 0 := by
  intro fuel
  induction fuel with
  | zero =>
    intro r hr hn
    obtain ⟨_, _, _, h4⟩ := inRun_cur g eng p s hne r hr
    simp only [need] at hn
    omega
  | succ fuel ih =>
    intro r hr hn
    obtain ⟨h1, h2, _, h4⟩ := inRun_cur g eng p s hne r hr
    obtain ⟨d1, d2, k, _, d4, d5⟩ := doBodyStep_cur g eng r (by rw [h1]; exact h4)
    simp only [need] at hn
    rw [scan]
    split
    · rename_i hc
      exact ih (doBodyStep g eng r) (InRun.next r hr hc.1 hc.2)
        (by simp only [need]; rw [d4]; omega)
    · rename_i hc
      have hge : ¬ ((doBodyStep g eng r).cur._curPos < s.length) := by
        intro hlt
        exact hc ⟨by rw [d1, h1]; exact hlt, hng r hr hlt⟩
      cases fuel with
      | zero => omega
      | succ f =>
        rw [scan, if_neg (by rw [d1, h1]; exact hge)]
        refine ⟨?_, d2.trans h2⟩
        rw [hkeep r hr, inRun_cache g eng _ hkeep r hr]
        rfl

/-- C9 (amended): in output mode, when the scan of a `ProcessString` call ends
in a state other than `Ground`, `SosPmApcString`, `DcsPassThrough` and
`DcsIgnore`, the cached sequence after the call is the content the cache has
when the scan ends (empty when absent) followed by the un-dispatched run, which
is the tail of the string from the run offset. The content at the end of the
scan is the content before the call or, the cache having been reset during the
call, absent: so the cached sequence after the call is the previous content
followed by the run, or the run alone. It is the previous content followed by
the whole string when the call starts outside `Ground` on a string that is not
empty and no pass through the `do ... while` touches the cache or returns to
`Ground` before the end of the string. When the scan ends in `SosPmApcString`,
`DcsPassThrough` or `DcsIgnore` the end of the call leaves the cached sequence
alone: it is as before the call, or absent. In all cases the call returns in the
state in which the scan ended. -/
theorem processString_caches_trailing_run (g : Generated) (eng : Engine E) (p : Parser E)
    (string : List Nat) (hout : p._isEngineForInput = false) :
    (ProcessString g eng p string).seq._state = (scanString g eng p string).seq._state ∧
    ((scanString g eng p string)._cachedSequence = p._cachedSequence ∨
      (scanString g eng p string)._cachedSequence = none) ∧
    (cacheable (scanString g eng p string).seq._state = true →
      (ProcessString g eng p string)._cachedSequence
        = some ((scanString g eng p string)._cachedSequence.getD []
            ++ _CurrentRun (scanString g eng p string)) ∧
      _CurrentRun (scanString g eng p string)
        = string.drop (scanString g eng p string).cur._runOffset ∧
      ((ProcessString g eng p string)._cachedSequence
          = some (p._cachedSequence.getD [] ++ _CurrentRun (scanString g eng p string)) ∨
        (ProcessString g eng p string)._cachedSequence
          = some (_CurrentRun (scanString g eng p string)))) ∧
    ((scanString g eng p string).seq._state = VTStates.SosPmApcString ∨
      (scanString g eng p string).seq._state = VTStates.DcsPassThrough ∨
      (scanString g eng p string).seq._state = VTStates.DcsIgnore →
      (ProcessString g eng p string)._cachedSequence
        = (scanString g eng p string)._cachedSequence ∧
      ((ProcessString g eng p string)._cachedSequence = p._cachedSequence ∨
        (ProcessString g eng p string)._cachedSequence = none)) ∧
    (p.seq._state ≠ VTStates.Ground → string ≠ [] →
      (∀ r, InRun g eng (enterSequence p string) r →
        (doBodyStep g eng r)._cachedSequence = r._cachedSequence) →
      (∀ r, InRun g eng (enterSequence p string) r →
        (doBodyStep g eng r).cur._curPos < string.length →
        (doBodyStep g eng r).seq._state ≠ VTStates.Ground) →
      cacheable (scanString g eng p string).seq._state = true →
      (ProcessString g eng p string)._cachedSequence
        = some (p._cachedSequence.getD [] ++ string)) := by
  have hmode := scanString_output g eng p string hout
  obtain ⟨h1, h2, h3⟩ := endOfString_output g eng (scanString g eng p string) hmode
  have hstep : CacheStep p (scanString g eng p string) := cacheStep_scanString g eng p string
  have hrun : cacheable (scanString g eng p string).seq._state = true →
      _CurrentRun (scanString g eng p string)
        = string.drop (scanString g eng p string).cur._runOffset := by
    intro hc
    apply currentRun_scanString
    intro hg
    rw [hg] at hc
    simp [cacheable] at hc
  have hpc : (ProcessString g eng p string)._cachedSequence
      = (endOfString g eng (scanString g eng p string))._cachedSequence := rfl
  refine ⟨h1, hstep, fun hc => ⟨h2 hc, hrun hc, ?_⟩, fun hs => ?_, ?_⟩
  · rw [hpc, h2 hc]
    rcases hstep with h | h
    · exact Or.inl (by rw [h])
    · exact Or.inr (by rw [h]; rfl)
  · have hn : cacheable (scanString g eng p string).seq._state = false := by
      rcases hs with hs | hs | hs <;> simp [cacheable, hs]
    refine ⟨h3 hn, ?_⟩
    rw [hpc, h3 hn]
    exact hstep
  · intro hst hne hkeep hng hc
    have he := scanString_enters g eng p string hne hst
    obtain ⟨k1, k2⟩ := scan_keeps_cache g eng p string hne hkeep hng (3 * string.length + 2)
      (enterSequence p string) InRun.first (by simp [need, enterSequence])
    rw [← he] at k1 k2
    rw [hpc, h2 hc, hrun hc, k1, k2, List.drop_zero]

theorem inRun_last (g : Generated) (eng : Engine E) (start : Parser E)
    (h : ¬ ((doBodyStep g eng start).cur._curPos
      < (doBodyStep g eng start).cur._currentString.length)) :
    ∀ r, InRun g eng start r → r = start := by
  intro r hr
  induction hr with
  | first => rfl
  | next r _ hlt _ ih =>
    subst ih
    exact absurd hlt h

theorem processString_caches_trailing_run_witness :
    (ProcessString csiTable nullEngine (Parser.init () false) [0x1B, 0x5B]).seq._state
      ≠ VTStates.Ground ∧
    (ProcessString csiTable nullEngine (Parser.init () false) [0x1B, 0x5B])._cachedSequence
      = some [0x1B, 0x5B] ∧
    (ProcessString csiTable nullEngine
        (ProcessString csiTable nullEngine (Parser.init () false) [0x1B, 0x5B])
        [0x32])._cachedSequence
      = some ((ProcessString csiTable nullEngine (Parser.init () false)
          [0x1B, 0x5B])._cachedSequence.getD [] ++ [0x32]) :=
  ⟨by decide, rfl,
    (processString_caches_trailing_run csiTable nullEngine
      (ProcessString csiTable nullEngine (Parser.init () false) [0x1B, 0x5B]) [0x32]
      rfl).2.2.2.2 (by decide) (by simp)
      (fun r hr => by rw [inRun_last csiTable nullEngine _ (by decide) r hr]; rfl)
      (fun r hr hlt => by
        rw [inRun_last csiTable nullEngine _ (by decide) r hr] at hlt
        exact absurd hlt (by decide))
      (by decide)⟩

/-- C9 (as stated, refuted): a call can reset the cache before its end. With
`ESC [` cached by a first call, the call `m ESC [` dispatches the cached
sequence, the return to `Ground` erases the cache, and the call ends in
`CsiEntry` with the cache `ESC [`, the run alone, not the previous content
followed by the run. With a flush callback attached, `ESC [` cached and the
call `BEL`, the execution of `BEL` flushes the cache to the terminal, and the
call ends in `CsiEntry` with only `BEL` cached. And the call `m ESC P q` after
`ESC [` ends in `DcsIgnore` with the cache absent, not as it was. -/
theorem processString_cache_reset_during_call :
    (ProcessString csiTable nullEngine (Parser.init () false) [0x1B, 0x5B])._isEngineForInput
      = false ∧
    (ProcessString csiTable nullEngine (Parser.init () false) [0x1B, 0x5B])._cachedSequence
      = some [0x1B, 0x5B] ∧
    (ProcessString csiTable nullEngine
      (ProcessString csiTable nullEngine (Parser.init () false) [0x1B, 0x5B])
      [0x6D, 0x1B, 0x5B]).seq._state = VTStates.CsiEntry ∧
    _CurrentRun (scanString csiTable nullEngine
      (ProcessString csiTable nullEngine (Parser.init () false) [0x1B, 0x5B])
      [0x6D, 0x1B, 0x5B]) = [0x1B, 0x5B] ∧
    (ProcessString csiTable nullEngine
      (ProcessString csiTable nullEngine (Parser.init () false) [0x1B, 0x5B])
      [0x6D, 0x1B, 0x5B])._cachedSequence = some [0x1B, 0x5B] ∧
    (ProcessString csiTable nullEngine
      (ProcessString csiTable nullEngine (Parser.init () false) [0x1B, 0x5B])
      [0x6D, 0x1B, 0x5B])._cachedSequence ≠ some ([0x1B, 0x5B] ++ [0x1B, 0x5B]) ∧
    (ProcessString dcsTable (OutputEngine.asEngine nullTarget (fun _ => true))
      (Parser.init { _lastPrintedChar := 0, _pfnFlushToTerminal := true } false)
      [0x1B, 0x5B])._cachedSequence = some [0x1B, 0x5B] ∧
    (ProcessString dcsTable (OutputEngine.asEngine nullTarget (fun _ => true))
      (ProcessString dcsTable (OutputEngine.asEngine nullTarget (fun _ => true))
        (Parser.init { _lastPrintedChar := 0, _pfnFlushToTerminal := true } false)
        [0x1B, 0x5B])
      [0x07]).seq._state = VTStates.CsiEntry ∧
    (ProcessString dcsTable (OutputEngine.asEngine nullTarget (fun _ => true))
      (ProcessString dcsTable (OutputEngine.asEngine nullTarget (fun _ => true))
        (Parser.init { _lastPrintedChar := 0, _pfnFlushToTerminal := true } false)
        [0x1B, 0x5B])
      [0x07])._cachedSequence = some [0x07] ∧
    (ProcessString dcsTable (OutputEngine.asEngine nullTarget (fun _ => true))
      (ProcessString dcsTable (OutputEngine.asEngine nullTarget (fun _ => true))
        (Parser.init { _lastPrintedChar := 0, _pfnFlushToTerminal := true } false)
        [0x1B, 0x5B])
      [0x07]).passThroughLog = [[0x1B, 0x5B], [0x07]] ∧
    (ProcessString dcsTable nullEngine (Parser.init () false) [0x1B, 0x5B])._cachedSequence
      = some [0x1B, 0x5B] ∧
    (ProcessString dcsTable nullEngine
      (ProcessString dcsTable nullEngine (Parser.init () false) [0x1B, 0x5B])
      [0x6D, 0x1B, 0x50, 0x71]).seq._state = VTStates.DcsIgnore ∧
    (ProcessString dcsTable nullEngine
      (ProcessString dcsTable nullEngine (Parser.init () false) [0x1B, 0x5B])
      [0x6D, 0x1B, 0x50, 0x71])._cachedSequence = none := by
  refine ⟨rfl, rfl, rfl, rfl, rfl, by decide, rfl, rfl, rfl, rfl, rfl, rfl, rfl⟩

end VtParser
